import Mathlib

/-!
LuaWrapper: a verification development.

A shallow embedding of `src/LuaWrapper.h` (the binding layer between a host
program and the Lua 5.1 runtime).  Every `luaW_*` function of the header is
transcribed statement by statement into a state transformer over a small model
of the Lua C API: a value stack, a heap of tables, full userdata blocks, the
registry and the per-type statics of `LuaWrapper<T>`.

Conventions of the model

* A pointer is its raw address (`Ptr = Nat`); address `0` is `NULL`.
* The `int` reference count is an unbounded integer: it is bounded by the
  number of live userdata blocks, no wrap-around is modelled.
* The body of a function invoked through `lua_call` (a host function or a
  script closure, such as a `__dtor` hook) lies outside the binding layer: the
  call is recorded in the event log and is taken to leave the Lua state as it
  is and to return no value.
* `delete obj` and calls of a stored deallocator are recorded in the event log.
-/

namespace LuaWrapper

set_option linter.unusedVariables false

/-! ## Values, tables and the Lua state -/

/-- Raw address of a host object; `0` is the null pointer. -/
abbrev Ptr := Nat

/-- The null pointer. -/
def NULL : Ptr := 0

/-- Identity of a C++ type used as the template argument `T`. -/
abbrev TypeId := Nat

/-- Identity of a Lua table.  The tables the binding layer keeps under fixed
names are told apart by their role; `anon n` is the n-th table made by
`lua_newtable`. -/
inductive TableId where
  | wrapper
  | counts
  | holds
  | storage
  | mt (name : String)
  | static (name : String)
  | anon (n : Nat)
  deriving DecidableEq, Repr

/-- Function values: the five C functions the header instantiates per type
and functions supplied from outside the header (host functions, closures). -/
inductive CFun where
  | new (T : TypeId)
  | build (T : TypeId)
  | index (T : TypeId)
  | newindex (T : TypeId)
  | gc (T : TypeId)
  | host (name : String)
  deriving DecidableEq, Repr

/-- Lua values. -/
inductive Value where
  | nil
  | bool (b : Bool)
  | int (n : Int)
  | str (s : String)
  | lightud (p : Ptr)
  | func (f : CFun)
  | table (t : TableId)
  | userdata (u : Nat)
  deriving DecidableEq, Repr

/-- A Lua table as an association list; an absent key reads as `nil`.  The
list order is the order in which `lua_next` visits the entries. -/
abbrev Table := List (Value × Value)

/-- Raw read of a table. -/
def Table.get : Table → Value → Value
  | [], _ => Value.nil
  | (k', v) :: t, k => if k' = k then v else Table.get t k

/-- Removal of a key. -/
def Table.erase : Table → Value → Table
  | [], _ => []
  | (k', v) :: t, k => if k' = k then Table.erase t k else (k', v) :: Table.erase t k

/-- Raw write of a table; writing `nil` removes the key. -/
def Table.set (t : Table) (k v : Value) : Table :=
  if v = Value.nil then Table.erase t k else (k, v) :: Table.erase t k

/-- A full userdata block made by `luaW_push`: the stored `T*` and the
metatable of the block (`nil` when it has none). -/
structure Userdata where
  ptr : Ptr
  mt : Value

/-- A deallocator function pointer. -/
inductive Deallocator where
  | default
  | custom (name : String)
  deriving DecidableEq, Repr

/-- An allocator function pointer. -/
inductive Allocator where
  | default
  | custom (name : String)
  deriving DecidableEq, Repr

/-- Observable events. -/
inductive Event where
  | call (f : Value) (args : List Value)
  | delete (p : Ptr)
  | deallocate (d : Deallocator) (p : Ptr)
  | allocate (a : Allocator) (p : Ptr)
  | print (msg : String)
  deriving DecidableEq, Repr

/-- The Lua state together with the statics of `LuaWrapper<T>`. -/
structure LuaState where
  stack : List Value
  heap : TableId → Table
  tmeta : TableId → Value
  udata : Nat → Userdata
  nextUd : Nat
  nextTable : Nat
  registry : Table
  classname : TypeId → Option String
  allocator : TypeId → Allocator
  deallocator : TypeId → Deallocator
  log : List Event

/-- Errors: Lua errors raised through `lua_error` and uses of the C API
outside its contract. -/
inductive LuaError where
  | typeMismatch (narg : Int) (tname : Option String)
  | indexError (v : Value)
  | callError (v : Value)
  | apiMisuse (what : String)
  | unmodelled (what : String)
  deriving DecidableEq, Repr

/-- Result of running a piece of C code on a Lua state. -/
inductive Outcome (α : Type) where
  | ok (a : α) (s : LuaState)
  | raise (e : LuaError) (s : LuaState)

/-- State of an outcome. -/
def Outcome.state {α : Type} : Outcome α → LuaState
  | Outcome.ok _ s => s
  | Outcome.raise _ s => s

/-- Value of an outcome, if it returned. -/
def Outcome.value? {α : Type} : Outcome α → Option α
  | Outcome.ok a _ => some a
  | Outcome.raise _ _ => none

/-- Error of an outcome, if it raised. -/
def Outcome.error? {α : Type} : Outcome α → Option LuaError
  | Outcome.ok _ _ => none
  | Outcome.raise e _ => some e

/-- Computations over the Lua state that may raise. -/
def LuaM (α : Type) : Type := LuaState → Outcome α

/-- Sequencing. -/
def LuaM.bind {α β : Type} (m : LuaM α) (f : α → LuaM β) : LuaM β :=
  fun s => match m s with
    | Outcome.ok a s' => f a s'
    | Outcome.raise e s' => Outcome.raise e s'

instance : Monad LuaM where
  pure a := fun s => Outcome.ok a s
  bind := LuaM.bind

/-- Raise an error. -/
def raise {α : Type} (e : LuaError) : LuaM α := fun s => Outcome.raise e s

/-- Read the state. -/
def getState : LuaM LuaState := fun s => Outcome.ok s s

/-- Replace the state. -/
def setState (s : LuaState) : LuaM Unit := fun _ => Outcome.ok () s

/-- Append an event to the log. -/
def emit (e : Event) : LuaM Unit :=
  fun s => Outcome.ok () { s with log := s.log ++ [e] }

/-! ## The Lua C API -/

/-- Value at an acceptable stack index: negative indices count from the top,
positive ones from the bottom of the frame; an invalid index reads as `nil`. -/
def stackAt (stk : List Value) : Int → Value
  | Int.negSucc k => stk.getD k Value.nil
  | Int.ofNat 0 => Value.nil
  | Int.ofNat (i + 1) => if i < stk.length then stk.getD (stk.length - 1 - i) Value.nil else Value.nil

/-- Removal of the top `n` values. -/
def popN : Nat → List Value → Option (List Value)
  | 0, stk => some stk
  | n + 1, _ :: stk => popN n stk
  | _ + 1, [] => none

/-- Push a value. -/
def push (v : Value) : LuaM Unit :=
  fun s => Outcome.ok () { s with stack := v :: s.stack }

/-- Model of `lua_pop`. -/
def lua_pop (n : Nat) : LuaM Unit := fun s =>
  match popN n s.stack with
  | some stk => Outcome.ok () { s with stack := stk }
  | none => Outcome.raise (LuaError.apiMisuse "lua_pop") s

/-- Pop one value and return it. -/
def popValue : LuaM Value := fun s =>
  match s.stack with
  | v :: stk => Outcome.ok v { s with stack := stk }
  | [] => Outcome.raise (LuaError.apiMisuse "pop") s

/-- Value at an index. -/
def valueAt (idx : Int) : LuaM Value := fun s => Outcome.ok (stackAt s.stack idx) s

/-- Model of `lua_gettop`. -/
def lua_gettop : LuaM Nat := fun s => Outcome.ok s.stack.length s

/-- Model of `lua_pushnil`. -/
def lua_pushnil : LuaM Unit := push Value.nil

/-- Model of `lua_pushboolean`. -/
def lua_pushboolean (b : Bool) : LuaM Unit := push (Value.bool b)

/-- Model of `lua_pushinteger`. -/
def lua_pushinteger (n : Int) : LuaM Unit := push (Value.int n)

/-- Model of `lua_pushlightuserdata`. -/
def lua_pushlightuserdata (p : Ptr) : LuaM Unit := push (Value.lightud p)

/-- Model of `lua_pushvalue`. -/
def lua_pushvalue (idx : Int) : LuaM Unit := fun s => push (stackAt s.stack idx) s

/-- Conversion behind `lua_tointeger`. -/
def Value.toInteger : Value → Int
  | Value.int n => n
  | Value.str t => t.toInt?.getD 0
  | _ => 0

/-- Conversion behind `lua_toboolean`. -/
def Value.toBoolean : Value → Bool
  | Value.nil => false
  | Value.bool b => b
  | _ => true

/-- Model of `lua_tointeger`. -/
def lua_tointeger (idx : Int) : LuaM Int := fun s => Outcome.ok (stackAt s.stack idx).toInteger s

/-- Model of `lua_toboolean`. -/
def lua_toboolean (idx : Int) : LuaM Bool := fun s => Outcome.ok (stackAt s.stack idx).toBoolean s

/-- Model of `lua_isnoneornil`. -/
def lua_isnoneornil (idx : Int) : LuaM Bool := fun s => Outcome.ok (decide (stackAt s.stack idx = Value.nil)) s

/-- Model of `lua_isnil`. -/
def lua_isnil (idx : Int) : LuaM Bool := lua_isnoneornil idx

/-- Test `lua_type(L, idx) == LUA_TFUNCTION`. -/
def lua_isfunction (idx : Int) : LuaM Bool := fun s =>
  Outcome.ok (match stackAt s.stack idx with | Value.func _ => true | _ => false) s

/-- Test `lua_type(L, idx) == LUA_TTABLE`. -/
def lua_istable (idx : Int) : LuaM Bool := fun s =>
  Outcome.ok (match stackAt s.stack idx with | Value.table _ => true | _ => false) s

/-- Model of `lua_rawequal`. -/
def lua_rawequal (i j : Int) : LuaM Bool := fun s =>
  Outcome.ok (decide (stackAt s.stack i = stackAt s.stack j)) s

/-- Model of `lua_newtable`: a fresh empty table is pushed. -/
def lua_newtable : LuaM Unit := fun s =>
  Outcome.ok () { s with
    stack := Value.table (TableId.anon s.nextTable) :: s.stack,
    heap := Function.update s.heap (TableId.anon s.nextTable) [],
    tmeta := Function.update s.tmeta (TableId.anon s.nextTable) Value.nil,
    nextTable := s.nextTable + 1 }

/-- Model of `T** ud = (T**)lua_newuserdata(L, sizeof(T*)); *ud = obj;`. -/
def lua_newuserdata (obj : Ptr) : LuaM Unit := fun s =>
  Outcome.ok () { s with
    stack := Value.userdata s.nextUd :: s.stack,
    udata := Function.update s.udata s.nextUd { ptr := obj, mt := Value.nil },
    nextUd := s.nextUd + 1 }

/-- What `lua_touserdata` returns: the block of a full userdata, the pointer
of a light userdata, `NULL` otherwise. -/
inductive Block where
  | null
  | full (u : Nat)
  | light (p : Ptr)
  deriving DecidableEq, Repr

/-- Test of a `void*` for being non-null. -/
def Block.nonNull : Block → Bool
  | Block.null => false
  | Block.full _ => true
  | Block.light p => decide (p ≠ NULL)

/-- Model of `lua_touserdata`. -/
def lua_touserdata (idx : Int) : LuaM Block := fun s =>
  Outcome.ok (match stackAt s.stack idx with
    | Value.userdata u => Block.full u
    | Value.lightud p => Block.light p
    | _ => Block.null) s

/-- Model of `*(T**)block`: the pointer stored in a full userdata block. -/
def derefBlock : Block → LuaM Ptr
  | Block.full u => fun s => Outcome.ok (s.udata u).ptr s
  | _ => raise (LuaError.apiMisuse "dereference")

/-- Metatable of a value (`nil` when it has none). -/
def metatableOf (s : LuaState) : Value → Value
  | Value.userdata u => (s.udata u).mt
  | Value.table t => s.tmeta t
  | _ => Value.nil

/-- Model of `lua_getmetatable`: pushes the metatable and returns true, or
pushes nothing and returns false when the value has none. -/
def lua_getmetatable (idx : Int) : LuaM Bool := fun s =>
  match metatableOf s (stackAt s.stack idx) with
  | Value.nil => Outcome.ok false s
  | m => Outcome.ok true { s with stack := m :: s.stack }

/-- Model of `lua_setmetatable`: pops a table or nil and makes it the
metatable of the value at the index. -/
def lua_setmetatable (idx : Int) : LuaM Unit := fun s =>
  match s.stack with
  | [] => Outcome.raise (LuaError.apiMisuse "lua_setmetatable") s
  | m :: stk =>
    match stackAt s.stack idx with
    | Value.userdata u =>
      Outcome.ok () { s with stack := stk, udata := Function.update s.udata u { s.udata u with mt := m } }
    | Value.table t =>
      Outcome.ok () { s with stack := stk, tmeta := Function.update s.tmeta t m }
    | _ => Outcome.raise (LuaError.unmodelled "lua_setmetatable") s

/-- Model of the macro `luaW_getregistry`. -/
def luaW_getregistry (key : String) : LuaM Unit := fun s =>
  push (s.registry.get (Value.str key)) s

/-- Model of the macro `luaW_setregistry`. -/
def luaW_setregistry (key : String) : LuaM Unit := do
  let v ← popValue
  fun s => Outcome.ok () { s with registry := s.registry.set (Value.str key) v }

/-- Model of `luaL_getmetatable`; the name is a C string and may be `NULL`. -/
def luaL_getmetatable (name : Option String) : LuaM Unit :=
  match name with
  | some n => luaW_getregistry n
  | none => raise (LuaError.apiMisuse "null string")

/-- Model of `lua_rawget`: the key on top is replaced by the raw entry. -/
def lua_rawget (idx : Int) : LuaM Unit := fun s =>
  match stackAt s.stack idx, s.stack with
  | Value.table t, k :: stk => Outcome.ok () { s with stack := (s.heap t).get k :: stk }
  | _, _ => Outcome.raise (LuaError.apiMisuse "lua_rawget") s

/-- Model of `lua_rawset`: the key and value on top are popped and stored.
Lua raises the error `table index is nil` for the key nil; the model stores
the pair, so a run that writes under the key nil is outside the model. -/
def lua_rawset (idx : Int) : LuaM Unit := fun s =>
  match stackAt s.stack idx, s.stack with
  | Value.table t, v :: k :: stk =>
    Outcome.ok () { s with stack := stk, heap := Function.update s.heap t ((s.heap t).set k v) }
  | _, _ => Outcome.raise (LuaError.apiMisuse "lua_rawset") s

/-- Indexing of a value when no metamethod runs: a raw read of a table.  A
table whose entry is absent and whose metatable has an `__index` entry, and
any value that is not a table, are left to `indexValue`. -/
def indexPlain (t k : Value) : LuaM Value := fun s =>
  match t with
  | Value.table id =>
    match (s.heap id).get k with
    | Value.nil =>
      match s.tmeta id with
      | Value.table m =>
        match (s.heap m).get (Value.str "__index") with
        | Value.nil => Outcome.ok Value.nil s
        | _ => Outcome.raise (LuaError.unmodelled "__index of a table") s
      | _ => Outcome.ok Value.nil s
    | v => Outcome.ok v s
  | Value.userdata _ => Outcome.raise (LuaError.unmodelled "__index of a userdata") s
  | v => Outcome.raise (LuaError.indexError v) s

/-- Model of `lua_getfield` for the calls of `luaW_is`, `luaW__index` and
`luaW__newindex`, which index the LuaWrapper table and a metatable. -/
def lua_getfield0 (idx : Int) (key : String) : LuaM Unit := do
  let t ← valueAt idx
  let v ← indexPlain t (Value.str key)
  push v

/-- Model of the loop `for (lua_pushnil(L); lua_next(L, idx); lua_pop(L, 1))`
over the entries of a table, the previous key being on top of the stack.  The
body receives the loop-carried variable and returns it with a flag telling
whether it left the loop by `break`. -/
def forPairsLoop {σ : Type} (body : σ → LuaM (σ × Bool)) : List (Value × Value) → σ → LuaM σ
  | [], acc => do
    lua_pop 1
    pure acc
  | (k, v) :: es, acc => do
    lua_pop 1
    push k
    push v
    let r ← body acc
    if r.2 then
      pure r.1
    else do
      lua_pop 1
      forPairsLoop body es r.1

/-- Model of a `lua_next` loop over the table at `idx` (the index as written in
the call of `lua_next`, the key being on top).  The entries are those the
table has when the loop starts. -/
def forPairs {σ : Type} (idx : Int) (init : σ) (body : σ → LuaM (σ × Bool)) : LuaM σ := do
  lua_pushnil
  let t ← valueAt idx
  match t with
  | Value.table id => do
    let s ← getState
    forPairsLoop body (s.heap id) init
  | _ => raise (LuaError.apiMisuse "lua_next")

/-- Run a C function in a frame of its own holding the arguments, and return
its results to the caller, whose stack is kept. -/
def callFrame (body : LuaM Nat) (args : List Value) : LuaM (List Value) := fun s =>
  match body { s with stack := args.reverse } with
  | Outcome.ok n s' => Outcome.ok (s'.stack.take n).reverse { s' with stack := s.stack }
  | Outcome.raise e s' => Outcome.raise e { s' with stack := s.stack }

/-! ## The header -/

/-- Value of the define LUAW_CTOR_KEY. -/
def LUAW_CTOR_KEY : String := "__ctor"
/-- Value of the define LUAW_DTOR_KEY. -/
def LUAW_DTOR_KEY : String := "__dtor"
/-- Value of the define LUAW_EXTENDS_KEY. -/
def LUAW_EXTENDS_KEY : String := "__extends"
/-- Value of the define LUAW_STORAGE_KEY. -/
def LUAW_STORAGE_KEY : String := "__storage"
/-- Value of the define LUAW_COUNT_KEY. -/
def LUAW_COUNT_KEY : String := "__counts"
/-- Value of the define LUAW_HOLDS_KEY. -/
def LUAW_HOLDS_KEY : String := "__holds"
/-- Value of the define LUAW_WRAPPER_KEY. -/
def LUAW_WRAPPER_KEY : String := "LuaWrapper"

/-- Read of the static `LuaWrapper<T>::classname`. -/
def classnameOf (T : TypeId) : LuaM (Option String) := fun s => Outcome.ok (s.classname T) s

/-- Body of the loop of `luaW_is` (lines 166-175): compare the value of the
entry with the metatable of `T`, four slots below, and leave the loop on a match. -/
def luaW_is_body (_ : Bool) : LuaM (Bool × Bool) := do
  let equal ← lua_rawequal (-1) (-4)
  if equal then
    lua_pop 2
    pure (equal, true)
  else
    pure (equal, false)

/-- Transcription of `luaW_is<T>` (lines 153-181). -/
def luaW_is (T : TypeId) (index : Int) (strict : Bool) : LuaM Bool := do
  let ud ← lua_touserdata index
  if ud.nonNull then
    if (← lua_getmetatable index) then
      luaL_getmetatable (← classnameOf T)
      let equal ← lua_rawequal (-1) (-2)
      if !equal && !strict then
        lua_getfield0 (-2) LUAW_EXTENDS_KEY
        let equal ← forPairs (-2) equal luaW_is_body
        lua_pop 1
        lua_pop 2
        pure equal
      else
        lua_pop 2
        pure equal
    else
      pure false
  else
    pure false

/-- Transcription of `luaW_to<T>` (lines 189-199). -/
def luaW_to (T : TypeId) (index : Int) : LuaM Ptr := do
  if (← luaW_is T index false) then
    derefBlock (← lua_touserdata index)
  else
    pure NULL

/-- Model of `luaL_typerror`. -/
def luaL_typerror {α : Type} (narg : Int) (tname : Option String) : LuaM α :=
  raise (LuaError.typeMismatch narg tname)

/-- Transcription of `luaW_check<T>` (lines 206-220). -/
def luaW_check (T : TypeId) (index : Int) : LuaM Ptr := do
  if (← luaW_is T index false) then
    derefBlock (← lua_touserdata index)
  else
    luaL_typerror index (← classnameOf T)

/-- Transcription of `luaW__index<T>` (lines 450-480). -/
def luaW__index (T : TypeId) : LuaM Nat := do
  let obj ← luaW_to T 1
  luaW_getregistry LUAW_WRAPPER_KEY
  lua_getfield0 (-1) LUAW_STORAGE_KEY
  lua_pushlightuserdata obj
  lua_rawget (-2)
  if !(← lua_isnoneornil (-1)) then
    lua_pushvalue (-4)
    lua_rawget (-2)
    if (← lua_isnoneornil (-1)) then
      lua_pop 4
      let _ ← lua_getmetatable (-2)
      lua_pushvalue (-2)
      lua_rawget (-2)
    pure 1
  else
    lua_pop 3
    let _ ← lua_getmetatable (-2)
    lua_pushvalue (-2)
    lua_rawget (-2)
    pure 1

/-- Transcription of `luaW__newindex<T>` (lines 489-506). -/
def luaW__newindex (T : TypeId) : LuaM Nat := do
  let obj ← luaW_to T 1
  luaW_getregistry LUAW_WRAPPER_KEY
  lua_getfield0 (-1) LUAW_STORAGE_KEY
  lua_pushlightuserdata obj
  lua_rawget (-2)
  if !(← lua_isnoneornil (-1)) then
    lua_pushvalue (-5)
    lua_pushvalue (-5)
    lua_rawset (-3)
  pure 0

/-! ## Indexing with metamethods, calls -/

/-- Call of a function value with the given arguments, its results dropped.
A host function is recorded, `luaW__index` and `luaW__newindex` are run in a
frame of their own.  The functions `luaW_new`, `luaW_build` and `luaW__gc` are
not run when they are called as values: such a call ends the run with the
outcome `unmodelled`, which stands for no behaviour of the code. -/
def callValue (f : Value) (args : List Value) : LuaM Unit :=
  match f with
  | Value.func (CFun.host n) => emit (Event.call f args)
  | Value.func (CFun.index T) => do
    let _ ← callFrame (luaW__index T) args
    pure ()
  | Value.func (CFun.newindex T) => do
    let _ ← callFrame (luaW__newindex T) args
    pure ()
  | Value.func _ => raise (LuaError.unmodelled "call of luaW_new, luaW_build or luaW__gc")
  | v => raise (LuaError.callError v)

/-- The `__index` event: run the handler found in a metatable. -/
def indexHandler (h t k : Value) : LuaM Value :=
  match h with
  | Value.func (CFun.index T) => do
    let r ← callFrame (luaW__index T) [t, k]
    pure (r.headD Value.nil)
  | Value.func (CFun.host n) => do
    emit (Event.call h [t, k])
    pure Value.nil
  | _ => raise (LuaError.unmodelled "__index handler")

/-- Semantics of `t[k]` with metamethods. -/
def indexValue (t k : Value) : LuaM Value := fun s =>
  match t with
  | Value.table id =>
    match (s.heap id).get k with
    | Value.nil =>
      match s.tmeta id with
      | Value.table m =>
        match (s.heap m).get (Value.str "__index") with
        | Value.nil => Outcome.ok Value.nil s
        | h => indexHandler h t k s
      | _ => Outcome.ok Value.nil s
    | v => Outcome.ok v s
  | Value.userdata u =>
    match (s.udata u).mt with
    | Value.table m =>
      match (s.heap m).get (Value.str "__index") with
      | Value.nil => Outcome.raise (LuaError.indexError t) s
      | h => indexHandler h t k s
    | _ => Outcome.raise (LuaError.indexError t) s
  | Value.str _ => Outcome.raise (LuaError.unmodelled "index of a string") s
  | v => Outcome.raise (LuaError.indexError v) s

/-- The `__newindex` event: run the handler found in a metatable. -/
def newindexHandler (h t k v : Value) : LuaM Unit :=
  match h with
  | Value.func (CFun.newindex T) => do
    let _ ← callFrame (luaW__newindex T) [t, k, v]
    pure ()
  | Value.func (CFun.host n) => emit (Event.call h [t, k, v])
  | _ => raise (LuaError.unmodelled "__newindex handler")

/-- Raw store into a table of the heap. -/
def rawStore (id : TableId) (k v : Value) : LuaM Unit := fun s =>
  Outcome.ok () { s with heap := Function.update s.heap id ((s.heap id).set k v) }

/-- Semantics of `t[k] = v` with metamethods. -/
def assignValue (t k v : Value) : LuaM Unit := fun s =>
  match t with
  | Value.table id =>
    match (s.heap id).get k with
    | Value.nil =>
      match s.tmeta id with
      | Value.table m =>
        match (s.heap m).get (Value.str "__newindex") with
        | Value.nil => rawStore id k v s
        | h => newindexHandler h t k v s
      | _ => rawStore id k v s
    | _ => rawStore id k v s
  | Value.userdata u =>
    match (s.udata u).mt with
    | Value.table m =>
      match (s.heap m).get (Value.str "__newindex") with
      | Value.nil => Outcome.raise (LuaError.indexError t) s
      | h => newindexHandler h t k v s
    | _ => Outcome.raise (LuaError.indexError t) s
  | v' => Outcome.raise (LuaError.indexError v') s

/-- Model of `lua_getfield`. -/
def lua_getfield (idx : Int) (key : String) : LuaM Unit := do
  let t ← valueAt idx
  let v ← indexValue t (Value.str key)
  push v

/-- Model of `lua_setfield`: the value on top is popped and stored. -/
def lua_setfield (idx : Int) (key : String) : LuaM Unit := do
  let t ← valueAt idx
  let v ← popValue
  assignValue t (Value.str key) v

/-- Model of `lua_gettable`: the key on top is replaced by `t[k]`. -/
def lua_gettable (idx : Int) : LuaM Unit := do
  let t ← valueAt idx
  let k ← popValue
  let v ← indexValue t k
  push v

/-- Model of `lua_settable`: the key and value on top are popped and stored. -/
def lua_settable (idx : Int) : LuaM Unit := do
  let t ← valueAt idx
  let v ← popValue
  let k ← popValue
  assignValue t k v

/-- Removal of the top `n` values, returned bottom first. -/
def popArgs : Nat → LuaM (List Value)
  | 0 => pure []
  | n + 1 => do
    let v ← popValue
    let vs ← popArgs n
    pure (vs ++ [v])

/-- Model of `lua_call(L, nargs, 0)`. -/
def lua_call (nargs : Nat) : LuaM Unit := do
  let args ← popArgs nargs
  let f ← popValue
  callValue f args

/-- Transcription of `luaW_push<T>` (lines 229-246).  The variable `int count`
of line 241 is an integer here, so that the sum `count+1` is exact;
`luaW_push_int` below keeps it in the 32 bits of a C `int`, and the two agree
while the count is in the range of `int` and below its largest value. -/
def luaW_push (T : TypeId) (obj : Ptr) : LuaM Unit := do
  lua_newuserdata obj
  luaL_getmetatable (← classnameOf T)
  lua_setmetatable (-2)
  luaW_getregistry LUAW_WRAPPER_KEY
  lua_getfield (-1) LUAW_COUNT_KEY
  lua_pushlightuserdata obj
  lua_gettable (-2)
  let count ← lua_tointeger (-1)
  lua_pushlightuserdata obj
  lua_pushinteger (count + 1)
  lua_settable (-4)
  lua_pop 3

/-- The value a C `int` of 32 bits (two's complement) holds for the integer
`n`: what a conversion to `int` yields, and what an `int` sum that leaves the
range yields with the compilers the examples are built with. -/
def toCInt (n : Int) : Int := (n + 2147483648) % 4294967296 - 2147483648

/-- Transcription of `luaW_push<T>` (lines 229-246) with the variable
`int count` of line 241 kept in the 32 bits of a C `int`: the value
`lua_tointeger` returns is converted to `int`, and so is the sum `count+1`.
`luaW_push` computes the same sum in the integers; the two agree while the
count is in the range of `int` and below its largest value. -/
def luaW_push_int (T : TypeId) (obj : Ptr) : LuaM Unit := do
  lua_newuserdata obj
  luaL_getmetatable (← classnameOf T)
  lua_setmetatable (-2)
  luaW_getregistry LUAW_WRAPPER_KEY
  lua_getfield (-1) LUAW_COUNT_KEY
  lua_pushlightuserdata obj
  lua_gettable (-2)
  let count := toCInt (← lua_tointeger (-1))
  lua_pushlightuserdata obj
  lua_pushinteger (toCInt (count + 1))
  lua_settable (-4)
  lua_pop 3

/-- Transcription of `luaW_hold<T>` (lines 254-298). -/
def luaW_hold (T : TypeId) (obj : Ptr) : LuaM Bool := do
  luaW_getregistry LUAW_WRAPPER_KEY
  lua_getfield (-1) LUAW_HOLDS_KEY
  lua_pushlightuserdata obj
  lua_rawget (-2)
  let held ← lua_toboolean (-1)
  if !held then
    lua_pop 1
    lua_pushlightuserdata obj
    lua_pushboolean true
    lua_rawset (-3)
    lua_pop 1
    lua_getfield (-1) LUAW_COUNT_KEY
    lua_pushlightuserdata obj
    lua_rawget (-2)
    if (← lua_tointeger (-1)) > 0 then
      lua_pop 2
      lua_getfield (-1) LUAW_STORAGE_KEY
      lua_pushlightuserdata obj
      lua_rawget (-2)
      if (← lua_isnoneornil (-1)) then
        lua_pop 1
        lua_pushlightuserdata obj
        lua_newtable
        lua_rawset (-3)
        lua_pop 2
    pure true
  else
    lua_pop 3
    pure false

/-- Transcription of `luaW_release<T>` (lines 303-313). -/
def luaW_release (T : TypeId) (obj : Ptr) : LuaM Unit := do
  luaW_getregistry LUAW_WRAPPER_KEY
  lua_getfield (-1) LUAW_HOLDS_KEY
  lua_pushlightuserdata obj
  lua_pushnil
  lua_settable (-3)
  lua_pop 1

/-- Transcription of `luaW_clean<T>` (lines 317-326). -/
def luaW_clean (T : TypeId) (obj : Ptr) : LuaM Unit := do
  lua_getfield (-1) LUAW_STORAGE_KEY
  lua_pushlightuserdata obj
  lua_pushnil
  lua_settable (-3)
  lua_pop 2

/-- Transcription of `luaW_destructor<T>` (lines 354-370). -/
def luaW_destructor (T : TypeId) (obj : Ptr) : LuaM Unit := do
  luaW_push T obj
  lua_getfield (-1) LUAW_DTOR_KEY
  if (← lua_isfunction (-1)) then
    lua_pushvalue (-2)
    lua_call 1
    lua_pop 1
  else
    lua_pop 2

/-- Transcription of `luaW__gc<T>` (lines 514-538).  The variable `int count`
of line 524 is an integer here, so that the difference `count-1` is exact (in
the range of a C `int` and above its smallest value it is what the code
computes). -/
def luaW__gc (T : TypeId) : LuaM Nat := do
  let obj ← luaW_to T 1
  luaW_getregistry LUAW_WRAPPER_KEY
  lua_getfield (-1) LUAW_COUNT_KEY
  lua_pushlightuserdata obj
  lua_gettable (-2)
  let count ← lua_tointeger (-1)
  lua_pushlightuserdata obj
  lua_pushinteger (count - 1)
  lua_settable (-4)
  lua_pop 3
  if obj ≠ NULL && 1 == count then
    luaW_destructor T obj
    luaW_release T obj
    luaW_clean T obj
    emit (Event.delete obj)
  pure 0

/-- The collector finalizing a userdata block: the `__gc` entry of its
metatable is called with the block as sole argument; a block whose metatable
has no such entry is freed silently. -/
def finalize (u : Nat) : LuaM Unit := fun s =>
  match (s.udata u).mt with
  | Value.table m =>
    match (s.heap m).get (Value.str "__gc") with
    | Value.func (CFun.gc T) =>
      match callFrame (luaW__gc T) [Value.userdata u] s with
      | Outcome.ok _ s' => Outcome.ok () s'
      | Outcome.raise e s' => Outcome.raise e s'
    | Value.func (CFun.host n) => emit (Event.call (Value.func (CFun.host n)) [Value.userdata u]) s
    | Value.func _ => Outcome.raise (LuaError.unmodelled "__gc handler") s
    | _ => Outcome.ok () s
  | _ => Outcome.ok () s

/-! ## Registration -/

/-- A fresh table that is known by its role: the tables of the binding layer
and the tables `luaL_newmetatable` and `luaL_register` create under a name. -/
def lua_newtableAs (id : TableId) : LuaM Unit := fun s =>
  Outcome.ok () { s with
    stack := Value.table id :: s.stack,
    heap := Function.update s.heap id [],
    tmeta := Function.update s.tmeta id Value.nil }

/-- Model of `luaL_newmetatable`: the table registered under the name, made
when the name is not in use. -/
def luaL_newmetatable (tname : String) : LuaM Bool := do
  luaW_getregistry tname
  if !(← lua_isnil (-1)) then
    pure false
  else
    lua_pop 1
    lua_newtableAs (TableId.mt tname)
    lua_pushvalue (-1)
    luaW_setregistry tname
    pure true

/-- The loop of `luaL_register` over a `luaL_reg` array: each function is
stored under its name in the table on top of the stack. -/
def registerFuncs : List (String × CFun) → LuaM Unit
  | [] => pure ()
  | (name, f) :: l => do
    push (Value.func f)
    lua_setfield (-2) name
    registerFuncs l

/-- Model of `luaL_register`: with a library name the table of that name is
found or created and pushed; the functions are stored into the table on top. -/
def luaL_register (libname : Option String) (l : List (String × CFun)) : LuaM Unit := do
  match libname with
  | some n => push (Value.table (TableId.static n))
  | none => pure ()
  registerFuncs l

/-- Body of the loop of lines 617-623: copy an entry of the `__extends` table
of the ancestor into the `__extends` table of the type. -/
def copyExtends (_ : Unit) : LuaM (Unit × Bool) := do
  lua_pushvalue (-2)
  lua_pushvalue (-2)
  lua_rawset (-6)
  pure ((), false)

/-- Body of the loop of lines 627-643: copy an entry of the metatable of the
ancestor into the metatable of the type unless the key is taken. -/
def copyMethod (_ : Unit) : LuaM (Unit × Bool) := do
  lua_pushvalue (-2)
  lua_gettable (-5)
  if (← lua_isnoneornil (-1)) then
    lua_pop 1
    lua_pushvalue (-2)
    lua_pushvalue (-2)
    lua_rawset (-6)
  else
    lua_pop 1
  pure ((), false)

/-- Lines 603-645 of `luaW_register`: the loop over the `extends` array. -/
def extendLoop (classname : String) : List String → LuaM Unit
  | [] => pure ()
  | e :: es => do
    luaL_getmetatable (some e)
    if (← lua_isnoneornil (-1)) then
      lua_pop 1
      emit (Event.print ("Error: did not open table " ++ e ++ " before " ++ classname))
      extendLoop classname es
    else
      lua_getfield (-2) LUAW_EXTENDS_KEY
      lua_pushvalue (-2)
      lua_setfield (-2) e
      lua_getfield (-2) LUAW_EXTENDS_KEY
      forPairs (-2) () copyExtends
      lua_pop 2
      forPairs (-2) () copyMethod
      lua_pop 1
      extendLoop classname es

/-- Lines 550-552 of `luaW_register`: the statics of `LuaWrapper<T>`. -/
def setStatics (T : TypeId) (classname : String) (allocator : Allocator)
    (deallocator : Deallocator) : LuaM Unit := fun s =>
  Outcome.ok () { s with
    classname := Function.update s.classname T (some classname),
    allocator := Function.update s.allocator T allocator,
    deallocator := Function.update s.deallocator T deallocator }

/-- Lines 567-582 of `luaW_register`: ensure that the LuaWrapper table is set
up. -/
def ensureWrapper : LuaM Unit := do
  luaW_getregistry LUAW_WRAPPER_KEY
  if (← lua_isnil (-1)) then
    lua_newtableAs TableId.wrapper
    luaW_setregistry LUAW_WRAPPER_KEY
    luaW_getregistry LUAW_WRAPPER_KEY
    lua_newtableAs TableId.counts
    lua_setfield (-2) LUAW_COUNT_KEY
    lua_newtableAs TableId.storage
    lua_setfield (-2) LUAW_STORAGE_KEY
    lua_newtableAs TableId.holds
    lua_setfield (-2) LUAW_HOLDS_KEY
    lua_pop 1
  lua_pop 1

/-- Lines 584-593 of `luaW_register`: open the table of the class. -/
def openTable (T : TypeId) (classname : String) (table : List (String × CFun))
    (disablenew : Bool) : LuaM Unit := do
  let defaulttable := [("new", CFun.new T), ("build", CFun.build T)]
  if !disablenew then
    luaL_register (some classname) defaulttable
    luaL_register none table
  else
    luaL_register (some classname) table

/-- Lines 595-600 of `luaW_register`: open the metatable, set up the extends
table. -/
def openMetatable (T : TypeId) (classname : String) (metatable : List (String × CFun)) :
    LuaM Unit := do
  let defaultmetatable :=
    [("__index", CFun.index T), ("__newindex", CFun.newindex T), ("__gc", CFun.gc T)]
  let _ ← luaL_newmetatable classname
  lua_newtable
  lua_setfield (-2) LUAW_EXTENDS_KEY
  luaL_register none defaultmetatable
  luaL_register none metatable

/-- Transcription of `luaW_register<T>` (lines 546-648), section by section.
A null `table`, `metatable` or `extends` argument is the empty list (`extends`
is a reserved word, the parameter is written `extends_`). -/
def luaW_register (T : TypeId) (classname : String) (table metatable : List (String × CFun))
    (extends_ : List String) (disablenew : Bool) (allocator : Allocator)
    (deallocator : Deallocator) : LuaM Unit := do
  setStatics T classname allocator deallocator
  ensureWrapper
  openTable T classname table disablenew
  openMetatable T classname metatable
  extendLoop classname extends_
  lua_setmetatable (-2)
  lua_pop 1

/-- A freshly opened Lua state, no type registered. -/
def LuaState.init : LuaState where
  stack := []
  heap := fun _ => []
  tmeta := fun _ => Value.nil
  udata := fun _ => { ptr := NULL, mt := Value.nil }
  nextUd := 0
  nextTable := 0
  registry := []
  classname := fun _ => none
  allocator := fun _ => Allocator.default
  deallocator := fun _ => Deallocator.default
  log := []

/-! ## The binding state -/

/-- RefCount[p]: the entry of `LuaWrapper.__counts` for the pointer, an absent
entry counting as zero (as `lua_tointeger` reads it). -/
def RefCount (s : LuaState) (p : Ptr) : Int :=
  ((s.heap TableId.counts).get (Value.lightud p)).toInteger

/-- HoldFlag[p]: the entry of `LuaWrapper.__holds` for the pointer, read as
`lua_toboolean` reads it. -/
def HoldFlag (s : LuaState) (p : Ptr) : Bool :=
  ((s.heap TableId.holds).get (Value.lightud p)).toBoolean

/-- StorageTable[p]: the entry of `LuaWrapper.__storage` for the pointer;
`nil` when the object has no storage table. -/
def StorageTable (s : LuaState) (p : Ptr) : Value :=
  (s.heap TableId.storage).get (Value.lightud p)

/-- The binding state is set up: the registry holds the LuaWrapper table with
its three tables, as the first `luaW_register` leaves them. -/
def Ready (s : LuaState) : Prop :=
  s.registry.get (Value.str LUAW_WRAPPER_KEY) = Value.table TableId.wrapper ∧
  (s.heap TableId.wrapper).get (Value.str LUAW_COUNT_KEY) = Value.table TableId.counts ∧
  (s.heap TableId.wrapper).get (Value.str LUAW_HOLDS_KEY) = Value.table TableId.holds ∧
  (s.heap TableId.wrapper).get (Value.str LUAW_STORAGE_KEY) = Value.table TableId.storage ∧
  s.tmeta TableId.wrapper = Value.nil ∧
  s.tmeta TableId.counts = Value.nil ∧
  s.tmeta TableId.holds = Value.nil ∧
  s.tmeta TableId.storage = Value.nil

instance (s : LuaState) : Decidable (Ready s) := by
  unfold Ready
  infer_instance

/-- The type `T` is registered under the name `cn` with the default indexing
and finalization entries in its metatable. -/
def Registered (s : LuaState) (T : TypeId) (cn : String) : Prop :=
  s.classname T = some cn ∧
  s.registry.get (Value.str cn) = Value.table (TableId.mt cn) ∧
  (s.heap (TableId.mt cn)).get (Value.str "__index") = Value.func (CFun.index T) ∧
  (s.heap (TableId.mt cn)).get (Value.str "__gc") = Value.func (CFun.gc T)

instance (s : LuaState) (T : TypeId) (cn : String) : Decidable (Registered s T cn) := by
  unfold Registered
  infer_instance

/-- A hook value the model can call: anything but one of the header's own C
functions (a value that is no function is not called at all). -/
def Value.isHook : Value → Bool
  | Value.func (CFun.host _) => true
  | Value.func _ => false
  | _ => true

/-- Number of `delete p` events in a log. -/
def deletions (p : Ptr) (log : List Event) : Nat :=
  log.count (Event.delete p)

/-- Run `luaW_push<T>(L, obj)` n times. -/
def pushN (T : TypeId) (obj : Ptr) : Nat → LuaM Unit
  | 0 => pure ()
  | n + 1 => do
    luaW_push T obj
    pushN T obj n

/-- What `luaW__index` yields for the object `p`, a handle whose metatable is
the table `m`, and key `k`: the entry of the storage table of the object when
it is present, else the entry of the metatable. -/
def fieldOf (s : LuaState) (p : Ptr) (m : TableId) (k : Value) : Value :=
  match StorageTable s p with
  | Value.table st =>
    match (s.heap st).get k with
    | Value.nil => (s.heap m).get k
    | v => v
  | _ => (s.heap m).get k


/-- Test for a function value. -/
def Value.isFunction : Value → Bool
  | Value.func _ => true
  | _ => false

/-- The arguments of one call of `luaW_register<T>`. -/
structure ClassDecl where
  T : TypeId
  name : String
  table : List (String × CFun)
  metatable : List (String × CFun)
  extends_ : List String
  disablenew : Bool
  allocator : Allocator
  deallocator : Deallocator

/-- One call of `luaW_register`. -/
def registerClass (d : ClassDecl) : LuaM Unit :=
  luaW_register d.T d.name d.table d.metatable d.extends_ d.disablenew d.allocator d.deallocator

/-- The calls of `luaW_register` of a host program, in order. -/
def registerAll : List ClassDecl → LuaM Unit
  | [] => pure ()
  | d :: ds => do
    registerClass d
    registerAll ds

/-- The class named `a` lists `b` in its `extends` array. -/
def Parent (ds : List ClassDecl) (a b : String) : Prop :=
  ∃ d ∈ ds, d.name = a ∧ b ∈ d.extends_

/-- The class named `a` extends `b` directly or through a chain of `extends`
arrays. -/
def Extends (ds : List ClassDecl) : String → String → Prop :=
  Relation.TransGen (Parent ds)

/-- The declarations `ds` follow the declarations `pre` so that every ancestor
is registered before its descendants: each name of an `extends` array belongs
to an earlier declaration; each class has a name and a type of its own; no
class is named like the registry key of the binding layer and no metatable
entry is named like the `__extends` field. -/
def WellOrdered : List ClassDecl → List ClassDecl → Prop
  | _, [] => True
  | pre, d :: ds =>
    (∀ e ∈ d.extends_, ∃ a ∈ pre, a.name = e) ∧
    (∀ a ∈ pre, a.name ≠ d.name ∧ a.T ≠ d.T) ∧
    d.name ≠ LUAW_WRAPPER_KEY ∧
    (∀ m ∈ d.metatable, m.1 ≠ LUAW_EXTENDS_KEY) ∧
    WellOrdered (pre ++ [d]) ds

/-- Fold of the loop of lines 617-623. -/
def foldSet (t : Table) (es : List (Value × Value)) : Table :=
  es.foldl (fun t e => t.set e.1 e.2) t

/-- Fold of the loop of lines 627-643. -/
def foldFill (t : Table) (es : List (Value × Value)) : Table :=
  es.foldl (fun t e => if t.get e.1 = Value.nil then t.set e.1 e.2 else t) t

/-- An entry of an `__extends` table: a class name with the metatable
registered under it. -/
def Canon (e : Value × Value) : Prop :=
  ∃ a, e.1 = Value.str a ∧ e.2 = Value.table (TableId.mt a)

/-- The table holds the ancestor `a`. -/
def Has (t : Table) (a : String) : Prop :=
  t.get (Value.str a) = Value.table (TableId.mt a)

/-- The table is the `__extends` table of the class named `n` of the
declarations `ds`: its entries are ancestors of `n` and every ancestor of `n`
has its entry. -/
def ExtOK (ds : List ClassDecl) (tbl : Table) (n : String) : Prop :=
  (∀ e ∈ tbl, ∃ a, e.1 = Value.str a ∧ e.2 = Value.table (TableId.mt a) ∧ Extends ds n a) ∧
  (∀ a, Extends ds n a → Has tbl a)

/-- What the registration of the declarations `pre` leaves in the state (the
invariant of `registerAll`): the LuaWrapper tables are set up or still to be
made; the registry holds the metatable of each class of `pre` under its name
and nothing under any other class name; the statics carry the class names;
the metatable of each class has no metatable of its own and an `__extends`
table that lists the ancestors of the class; the tables of the classes still
to be registered have no metatable. -/
def RegInv (all pre : List ClassDecl) (s : LuaState) : Prop :=
  (Ready s ∨ s.registry.get (Value.str LUAW_WRAPPER_KEY) = Value.nil) ∧
  (∀ d ∈ pre, d.name ≠ LUAW_WRAPPER_KEY) ∧
  (∀ d ∈ pre, s.registry.get (Value.str d.name) = Value.table (TableId.mt d.name)) ∧
  (∀ n, n ≠ LUAW_WRAPPER_KEY → (∀ d ∈ pre, d.name ≠ n) →
    s.registry.get (Value.str n) = Value.nil) ∧
  (∀ d ∈ pre, s.classname d.T = some d.name) ∧
  (∀ d ∈ pre, s.tmeta (TableId.mt d.name) = Value.nil ∧
    ∃ k, k < s.nextTable ∧
      (s.heap (TableId.mt d.name)).get (Value.str LUAW_EXTENDS_KEY) =
        Value.table (TableId.anon k) ∧
      ExtOK all (s.heap (TableId.anon k)) d.name) ∧
  (∀ n, (∀ d ∈ pre, d.name ≠ n) → s.tmeta (TableId.static n) = Value.nil)

/-! ## An example state -/

/-- Heap of `demo`. -/
def demoHeap (id : TableId) : Table :=
  if id = TableId.wrapper then
    [(Value.str "__holds", Value.table TableId.holds),
     (Value.str "__storage", Value.table TableId.storage),
     (Value.str "__counts", Value.table TableId.counts)]
  else if id = TableId.static "Widget" then
    [(Value.str "build", Value.func (CFun.build 0)), (Value.str "new", Value.func (CFun.new 0))]
  else if id = TableId.mt "Widget" then
    [(Value.str "__dtor", Value.func (CFun.host "Widget_dtor")),
     (Value.str "SetX", Value.func (CFun.host "Widget_SetX")),
     (Value.str "__gc", Value.func (CFun.gc 0)),
     (Value.str "__newindex", Value.func (CFun.newindex 0)),
     (Value.str "__index", Value.func (CFun.index 0)),
     (Value.str "__extends", Value.table (TableId.anon 0))]
  else []

/-- The state right after the example registration
`luaW_register<Widget>(L, "Widget", NULL, widgetMetatable, NULL, false, allocator, Widget_free)`
on a fresh Lua state, with a `__dtor` hook among the metatable entries. -/
def demo : LuaState where
  stack := []
  heap := demoHeap
  tmeta := fun id => if id = TableId.static "Widget" then Value.table (TableId.mt "Widget") else Value.nil
  udata := fun _ => { ptr := NULL, mt := Value.nil }
  nextUd := 0
  nextTable := 1
  registry :=
    [(Value.str "Widget", Value.table (TableId.mt "Widget")),
     (Value.str "LuaWrapper", Value.table TableId.wrapper)]
  classname := fun T => if T = 0 then some "Widget" else none
  allocator := fun _ => Allocator.default
  deallocator := fun T => if T = 0 then Deallocator.custom "Widget_free" else Deallocator.default
  log := []

/-- A userdata block of another library: a block with a metatable of its own
(a fresh table without an `__extends` entry), left on top of the stack of the
example state. -/
def foreignState : LuaState :=
  ((do lua_newuserdata 7; lua_newtable; lua_setmetatable (-2) : LuaM Unit) demo).state

/-- Position of the class named `n` in a list of declarations. -/
def rankOf : List ClassDecl → String → Nat
  | [], _ => 0
  | d :: ds, n => if d.name = n then 0 else rankOf ds n + 1

/-- A hierarchy after the example sources `LuaWidget.cpp` and `LuaWidget2D.cpp`:
`Widget` is registered first, then `Widget2D` with an `extends` array that
names `Widget`. -/
def demoClasses : List ClassDecl :=
  [ { T := 0, name := "Widget", table := [],
      metatable := [("SetX", CFun.host "WidgetL_SetX"), ("GetX", CFun.host "WidgetL_GetX")],
      extends_ := [], disablenew := false,
      allocator := Allocator.default, deallocator := Deallocator.default },
    { T := 1, name := "Widget2D", table := [],
      metatable := [("SetY", CFun.host "Widget2DL_SetY"), ("GetY", CFun.host "Widget2DL_GetY")],
      extends_ := ["Widget"], disablenew := false,
      allocator := Allocator.default, deallocator := Deallocator.default } ]

/-! ## Contents of the tables a registration builds -/

/-- Fold of the loop of `luaL_register` over a `luaL_reg` array: each function
is stored under its name, a later entry of a name replacing an earlier one. -/
def regFold (l : List (String × CFun)) (t : Table) : Table :=
  l.foldl (fun t m => t.set (Value.str m.1) (Value.func m.2)) t

/-- The function a `luaL_reg` array installs under a name: its last entry of
that name. -/
def regLookup : List (String × CFun) → String → Option CFun
  | [], _ => none
  | m :: l, n =>
    match regLookup l n with
    | some f => some f
    | none => if m.1 = n then some m.2 else none

/-- A table holds no entry whose value is nil (Lua keeps no such entry). -/
def Table.Clean (t : Table) : Prop := ∀ x ∈ t, x.2 ≠ Value.nil

/-- What one pass of the loop of lines 603-645 does to the heap, for the class
`cn` whose `__extends` table is `anon nt`: an ancestor name that is not in the
registry is skipped; for a registered one the `__extends` table receives the
ancestor and the entries of the `__extends` table of the ancestor, and the
metatable of `cn` receives the entries of the metatable of the ancestor under
the keys it has not got. -/
def extendHeap (cn : String) (nt : Nat) (reg : Table) :
    List String → (TableId → Table) → (TableId → Table)
  | [], h => h
  | e :: es, h =>
    match reg.get (Value.str e) with
    | Value.table E =>
      match (h E).get (Value.str LUAW_EXTENDS_KEY) with
      | Value.table EX =>
        extendHeap cn nt reg es
          (Function.update
            (Function.update h (TableId.anon nt)
              (foldSet ((h (TableId.anon nt)).set (Value.str e) (Value.table E)) (h EX)))
            (TableId.mt cn) (foldFill (h (TableId.mt cn)) (h E)))
      | _ => h
    | _ => extendHeap cn nt reg es h

/-- The diagnostics of line 609, one for each ancestor name that is not in
the registry. -/
def extendLog (cn : String) (reg : Table) (es : List String) : List Event :=
  (es.filter (fun e => decide (reg.get (Value.str e) = Value.nil))).map
    (fun e => Event.print ("Error: did not open table " ++ e ++ " before " ++ cn))

/-- The entry for the key `k` of the first ancestor of the list, in list
order, that is registered and whose metatable has an entry for `k`; nil when
there is none. -/
def inherited (h : TableId → Table) (reg : Table) : List String → Value → Value
  | [], _ => Value.nil
  | e :: es, k =>
    if reg.get (Value.str e) = Value.nil then inherited h reg es k
    else if (h (TableId.mt e)).get k = Value.nil then inherited h reg es k
    else (h (TableId.mt e)).get k

/-- The metatable of a class as lines 596-600 build it, before the loop over
the `extends` array: the `__extends` field, the default entries, then the
entries of the `metatable` argument. -/
def ownTable (T : TypeId) (metatable : List (String × CFun)) (nt : Nat) : Table :=
  regFold ([("__index", CFun.index T), ("__newindex", CFun.newindex T), ("__gc", CFun.gc T)] ++
      metatable)
    [(Value.str LUAW_EXTENDS_KEY, Value.table (TableId.anon nt))]

/-- An ancestor name of an `extends` array as the loop of lines 603-645 can
meet it in the state `s`, for a class named `cn` whose `__extends` table will
be `anon nt`: a name other than `cn` and the registry key of the binding
layer, which is either absent from the registry or the name of a class
registered by `luaW_register`. -/
def AncestorOK (s : LuaState) (cn : String) (nt : Nat) (e : String) : Prop :=
  e ≠ cn ∧ e ≠ LUAW_WRAPPER_KEY ∧
  (s.registry.get (Value.str e) = Value.nil ∨
    (s.registry.get (Value.str e) = Value.table (TableId.mt e) ∧
      s.tmeta (TableId.mt e) = Value.nil ∧
      ∃ ke, ke ≠ nt ∧
        (s.heap (TableId.mt e)).get (Value.str LUAW_EXTENDS_KEY) = Value.table (TableId.anon ke)))

/-- The example state after `luaW_push<Widget>(L, p)` and `luaW_hold<Widget>(L, p)`
for the pointer 100: one handle (block 0) on the stack, a reference count of
one, the hold flag set and an empty storage table. -/
def demoHeld : LuaState :=
  { demo with
    stack := [Value.userdata 0],
    udata := Function.update demo.udata 0 { ptr := 100, mt := Value.table (TableId.mt "Widget") },
    nextUd := 1,
    heap := Function.update
      (Function.update
        (Function.update
          (Function.update demo.heap TableId.counts [(Value.lightud 100, Value.int 1)])
          TableId.holds [(Value.lightud 100, Value.bool true)])
        (TableId.anon 1) [])
      TableId.storage [(Value.lightud 100, Value.table (TableId.anon 1))],
    tmeta := Function.update demo.tmeta (TableId.anon 1) Value.nil,
    nextTable := 2 }

/-- The keys every metatable made by `luaW_register` has: the `__extends`
field and the three default entries. -/
def headerKeys : List Value :=
  [Value.str LUAW_EXTENDS_KEY, Value.str "__index", Value.str "__newindex", Value.str "__gc"]

/-- The class `d` of the declarations `ds`, or one of its ancestors, defines
the key `k`: it is a key every metatable has, or the name of an entry of the
`metatable` argument of `d` or of a class that `d` extends directly or through
a chain of `extends` arrays. -/
def Defines (ds : List ClassDecl) (d : ClassDecl) (k : Value) : Prop :=
  k ∈ headerKeys ∨
  ∃ a ∈ ds, (a = d ∨ Extends ds d.name a.name) ∧ ∃ m ∈ a.metatable, k = Value.str m.1

/-- The keys of the metatables of the registered classes are defined by the
class or one of its ancestors (an invariant of `registerAll`). -/
def KeyInv (all pre : List ClassDecl) (s : LuaState) : Prop :=
  ∀ d ∈ pre, ∀ x ∈ s.heap (TableId.mt d.name), Defines all d x.1

/-! ## Construction -/

/-- Model of `lua_insert`: the top value is moved to the given index, the
values above that index shifting up. -/
def lua_insert (idx : Int) : LuaM Unit := fun s =>
  match s.stack with
  | [] => Outcome.raise (LuaError.apiMisuse "lua_insert") s
  | top :: rest =>
    match idx with
    | Int.ofNat 0 => Outcome.raise (LuaError.apiMisuse "lua_insert") s
    | Int.ofNat (i + 1) =>
      if i + 1 ≤ rest.length + 1 then
        Outcome.ok () { s with
          stack := rest.take (rest.length - i) ++ top :: rest.drop (rest.length - i) }
      else Outcome.raise (LuaError.apiMisuse "lua_insert") s
    | Int.negSucc j =>
      if j + 1 ≤ rest.length + 1 then
        Outcome.ok () { s with stack := rest.take j ++ top :: rest.drop j }
      else Outcome.raise (LuaError.apiMisuse "lua_insert") s

/-- Call of the stored allocator, `LuaWrapper<T>::allocator()`.  The allocator
is a function of the host program: the pointer it returns is the parameter
`result`; the call is recorded in the event log. -/
def callAllocator (T : TypeId) (result : Ptr) : LuaM Ptr := fun s =>
  Outcome.ok result { s with log := s.log ++ [Event.allocate (s.allocator T) result] }

/-- Transcription of `luaW_constructor<T>` (lines 334-352). -/
def luaW_constructor (T : TypeId) (numargs : Nat) : LuaM Unit := do
  lua_getfield (-1) LUAW_CTOR_KEY
  if (← lua_isfunction (-1)) then
    lua_pushvalue (-2)
    lua_insert 1
    lua_insert 2
    lua_insert 3
    lua_call (numargs + 1)
  else
    lua_pop 1

/-- Transcription of `luaW_new<T>` (lines 376-386); `result` is the pointer the
allocator returns. -/
def luaW_new (T : TypeId) (result : Ptr) : LuaM Nat := do
  let numargs ← lua_gettop
  let obj ← callAllocator T result
  luaW_push T obj
  let _ ← luaW_hold T obj
  luaW_constructor T numargs
  pure 1

/-- Body of the loop of `luaW_builder` (lines 413-421): call the method found
under the key on the handle, with the handle and the value. -/
def luaW_builder_body (_ : Unit) : LuaM (Unit × Bool) := do
  lua_pushvalue (-2)
  lua_gettable (-4)
  lua_pushvalue (-4)
  lua_pushvalue (-3)
  lua_call 2
  pure ((), false)

/-- Transcription of `luaW_builder<T>` (lines 406-424). -/
def luaW_builder (T : TypeId) : LuaM Unit := do
  if (← lua_istable 1) then
    forPairs 1 () luaW_builder_body

/-- Transcription of `luaW_build<T>` (lines 430-439); `result` is the pointer
the allocator returns. -/
def luaW_build (T : TypeId) (result : Ptr) : LuaM Nat := do
  let obj ← callAllocator T result
  luaW_push T obj
  let _ ← luaW_hold T obj
  luaW_builder T
  pure 1

/-- The example state after a script has made the table `{ SetX = 10 }`
(table `anon 1`). -/
def demoScript : LuaState :=
  { demo with
    heap := Function.update demo.heap (TableId.anon 1) [(Value.str "SetX", Value.int 10)],
    tmeta := Function.update demo.tmeta (TableId.anon 1) Value.nil,
    nextTable := 2 }

/-! ## Runs of the binding operations -/

/-- The operations of the binding layer as a host program and its scripts
issue them: the four calls of the header, the collector finalizing a handle,
the script-side read `h[k]` and write `h[k] = v` through a handle, and the
script-side calls `T.new(args)` and `T.build(table)` (with the pointer the
allocator returns; the table of `build` is `anon n`). -/
inductive Op where
  | push (T : TypeId) (p : Ptr)
  | hold (T : TypeId) (p : Ptr)
  | release (T : TypeId) (p : Ptr)
  | finalize (u : Nat)
  | read (u : Nat) (k : Value)
  | write (u : Nat) (k v : Value)
  | new (T : TypeId) (p : Ptr) (args : List Value)
  | build (T : TypeId) (p : Ptr) (n : Nat)

/-- The code an operation runs. -/
def Op.run : Op → LuaM Unit
  | Op.push T p => luaW_push T p
  | Op.hold T p => do
    let _ ← luaW_hold T p
  | Op.release T p => luaW_release T p
  | Op.finalize u => LuaWrapper.finalize u
  | Op.read u k => do
    let _ ← indexValue (Value.userdata u) k
  | Op.write u k v => assignValue (Value.userdata u) k v
  | Op.new T p args => do
    let _ ← callFrame (luaW_new T p) args
  | Op.build T p n => do
    let _ ← callFrame (luaW_build T p) [Value.table (TableId.anon n)]

/-- The handles finalized so far, after an operation. -/
def Op.finalized (F : List Nat) : Op → List Nat
  | Op.finalize u => u :: F
  | _ => F

/-- The operations of the reference-count protocol proper. -/
def Op.isBasic : Op → Bool
  | Op.push _ _ => true
  | Op.hold _ _ => true
  | Op.release _ _ => true
  | Op.finalize _ => true
  | _ => false

/-- The operations that call `luaW_hold`. -/
def Op.callsHold : Op → Bool
  | Op.hold _ _ => true
  | Op.new _ _ _ => true
  | Op.build _ _ _ => true
  | _ => false

/-- The object has no hold flag and no storage table (as a newly allocated
object). -/
def Unheld (s : LuaState) (p : Ptr) : Prop :=
  HoldFlag s p = false ∧ StorageTable s p = Value.nil

/-- An operation is one the program can issue in the state `s`, the handles of
`F` having been finalized: the type of a `push`, `new` or `build` is
registered; a handle that is finalized, read or written exists and has not
been finalized; a value written is not one of the header's own functions; the
object a `new` or `build` allocates is not held and has no storage table; the
keys of the table of a `build` name host functions of the metatable. -/
def Op.ok (s : LuaState) (F : List Nat) : Op → Prop
  | Op.push T _ => ∃ cn, s.classname T = some cn
  | Op.hold _ _ => True
  | Op.release _ _ => True
  | Op.finalize u => u < s.nextUd ∧ u ∉ F
  | Op.read u _ => u < s.nextUd ∧ u ∉ F
  | Op.write u _ v => u < s.nextUd ∧ u ∉ F ∧ v.isHook = true
  | Op.new T p _ => (∃ cn, s.classname T = some cn) ∧ Unheld s p
  | Op.build T p n =>
    Unheld s p ∧ n < s.nextTable ∧
    ∃ cn, s.classname T = some cn ∧
      ∀ e ∈ s.heap (TableId.anon n),
        ∃ m, (s.heap (TableId.mt cn)).get e.1 = Value.func (CFun.host m)

/-- Run a list of operations in order. -/
def runOps : List Op → LuaM Unit
  | [] => pure ()
  | op :: ops => do
    op.run
    runOps ops

/-- The handles finalized after a list of operations. -/
def finalizedAfter (F : List Nat) : List Op → List Nat
  | [] => F
  | op :: ops => finalizedAfter (op.finalized F) ops

/-- Every operation of the list can be issued in the state the run has reached
when its turn comes. -/
def Admissible : LuaState → List Nat → List Op → Prop
  | _, _, [] => True
  | s, F, op :: ops => op.ok s F ∧ Admissible (op.run s).state (op.finalized F) ops

/-- Some step of the run sets the hold flag of `p` to true. -/
def heldAlong : LuaState → List Op → Ptr → Prop
  | _, [], _ => False
  | s, op :: ops, p =>
    (HoldFlag s p = false ∧ HoldFlag (op.run s).state p = true) ∨
      heldAlong (op.run s).state ops p

/-- Number of the blocks below `n` that have not been finalized and store the
pointer `p`. -/
def liveBelow (s : LuaState) (F : List Nat) (p : Ptr) : Nat → Nat
  | 0 => 0
  | n + 1 => liveBelow s F p n + (if n ∉ F ∧ (s.udata n).ptr = p then 1 else 0)

/-- Number of handles aliasing `p` that have been created and not finalized. -/
def liveCount (s : LuaState) (F : List Nat) (p : Ptr) : Nat :=
  liveBelow s F p s.nextUd

/-- Every registered type has the default entries in its metatable, and its
`__ctor` and `__dtor` entries, if functions, are host functions. -/
def TypesOK (s : LuaState) : Prop :=
  ∀ T cn, s.classname T = some cn →
    Registered s T cn ∧
    (s.heap (TableId.mt cn)).get (Value.str "__newindex") = Value.func (CFun.newindex T) ∧
    ((s.heap (TableId.mt cn)).get (Value.str LUAW_DTOR_KEY)).isHook = true ∧
    ((s.heap (TableId.mt cn)).get (Value.str LUAW_CTOR_KEY)).isHook = true

/-- The empty binding state: the types are registered, no handle has been
made, and the counts, holds and storage tables are empty. -/
def EmptyBinding (s : LuaState) : Prop :=
  Ready s ∧ TypesOK s ∧ s.nextUd = 0 ∧
  s.heap TableId.counts = [] ∧ s.heap TableId.holds = [] ∧ s.heap TableId.storage = []

/-- The invariant of the runs: the binding tables and the types are set up;
every handle that has not been finalized is a handle of a registered type;
every storage entry is a table made by `luaW_hold` whose values are no header
functions; the finalized blocks exist; and the reference count of every
pointer is the number of its live handles. -/
def Inv (s : LuaState) (F : List Nat) : Prop :=
  Ready s ∧ TypesOK s ∧
  (∀ u, u < s.nextUd → u ∉ F → ∃ T cn, s.classname T = some cn ∧
    (s.udata u).mt = Value.table (TableId.mt cn)) ∧
  (∀ p, StorageTable s p = Value.nil ∨
    ∃ n, n < s.nextTable ∧ StorageTable s p = Value.table (TableId.anon n) ∧
      ∀ x ∈ s.heap (TableId.anon n), x.2.isHook = true) ∧
  (∀ u ∈ F, u < s.nextUd) ∧
  (∀ p, RefCount s p = (liveCount s F p : Int))

/-- A hold is issued for an object that is already held or has a handle: the
program pushes an object before it takes hold of it. -/
def Op.counted (s : LuaState) : Op → Prop
  | Op.hold _ p => HoldFlag s p = true ∨ 0 < RefCount s p
  | _ => True

/-- Every hold of the run is issued for an object that is held or has a handle
when its turn comes. -/
def HoldsCounted : LuaState → List Op → Prop
  | _, [] => True
  | s, op :: ops => op.counted s ∧ HoldsCounted (op.run s).state ops

/-- Every held object has a storage table. -/
def HeldStored (s : LuaState) : Prop :=
  ∀ p, HoldFlag s p = true → StorageTable s p ≠ Value.nil

/-- The state right after the registration
`luaW_register<Widget>(L, "Widget", NULL, widgetMetatable, NULL, false, allocator, Widget_free)`
on a fresh Lua state, with a `__dtor` hook and a `__ctor` hook among the
metatable entries. -/
def demoCtor : LuaState :=
  { demo with
    heap := Function.update demo.heap (TableId.mt "Widget")
      ((Value.str "__ctor", Value.func (CFun.host "Widget_ctor")) ::
        demo.heap (TableId.mt "Widget")) }

/-- The example state with a `__ctor` hook among the metatable entries of
`Widget`, after `luaW_push(p)`, `luaW_hold(p)` and `luaW_release(p)` for the
pointer 100, and after a script has made the table `{ SetX = 10 }`: one handle
(block 0), a reference count of one, no hold flag, and the storage table
`anon 1` of the object, which `luaW_release` leaves in place; the table of the
script is `anon 2`. -/
def demoReleased : LuaState :=
  { demo with
    stack := [Value.table TableId.wrapper, Value.userdata 0],
    udata := Function.update demo.udata 0 { ptr := 100, mt := Value.table (TableId.mt "Widget") },
    nextUd := 1,
    heap := Function.update
      (Function.update
        (Function.update
          (Function.update
            (Function.update
              (Function.update demo.heap (TableId.mt "Widget")
                ((Value.str "__ctor", Value.func (CFun.host "Widget_ctor")) ::
                  demo.heap (TableId.mt "Widget")))
              TableId.counts [(Value.lightud 100, Value.int 1)])
            TableId.holds [])
          (TableId.anon 1) [])
        TableId.storage [(Value.lightud 100, Value.table (TableId.anon 1))])
      (TableId.anon 2) [(Value.str "SetX", Value.int 10)],
    tmeta := Function.update (Function.update demo.tmeta (TableId.anon 1) Value.nil)
      (TableId.anon 2) Value.nil,
    nextTable := 3 }

/-- The example state with the reference count of the object 100 at the
largest value of a C `int`. -/
def demoFull : LuaState :=
  { demo with
    heap := Function.update demo.heap TableId.counts
      [(Value.lightud 100, Value.int 2147483647)] }

/-- The declaration of `Widget` whose registration on a fresh state yields the
example state `demo`. -/
def demoDecl : ClassDecl :=
  { T := 0, name := "Widget", table := [],
    metatable := [("SetX", CFun.host "Widget_SetX"), ("__dtor", CFun.host "Widget_dtor")],
    extends_ := [], disablenew := false,
    allocator := Allocator.default, deallocator := Deallocator.custom "Widget_free" }

/-- Heap of `demoTwo`. -/
def demoTwoHeap (id : TableId) : Table :=
  if id = TableId.mt "Base" then
    [(Value.str "Name", Value.func (CFun.host "Base_Name")),
     (Value.str "__gc", Value.func (CFun.gc 3)),
     (Value.str "__newindex", Value.func (CFun.newindex 3)),
     (Value.str "__index", Value.func (CFun.index 3)),
     (Value.str "__extends", Value.table (TableId.anon 1))]
  else if id = TableId.mt "Shape" then
    [(Value.str "Name", Value.func (CFun.host "Base_Name")),
     (Value.str "Draw", Value.func (CFun.host "Shape_Draw")),
     (Value.str "__gc", Value.func (CFun.gc 2)),
     (Value.str "__newindex", Value.func (CFun.newindex 2)),
     (Value.str "__index", Value.func (CFun.index 2)),
     (Value.str "__extends", Value.table (TableId.anon 2))]
  else if id = TableId.anon 2 then
    [(Value.str "Base", Value.table (TableId.mt "Base"))]
  else if id = TableId.static "Base" then
    [(Value.str "build", Value.func (CFun.build 3)), (Value.str "new", Value.func (CFun.new 3))]
  else if id = TableId.static "Shape" then
    [(Value.str "build", Value.func (CFun.build 2)), (Value.str "new", Value.func (CFun.new 2))]
  else demoHeap id

/-- The example state after two more registrations: `Base` with a method
`Name`, then `Shape` with a method `Draw` and the `extends` array naming
`Base`.  Three classes are registered: `Widget`, `Base`, and `Shape`, whose
`__extends` table (`anon 2`) holds `Base` and whose metatable holds the method
`Name` copied from `Base`. -/
def demoTwo : LuaState :=
  { demo with
    heap := demoTwoHeap,
    tmeta := fun id =>
      if id = TableId.static "Widget" then Value.table (TableId.mt "Widget")
      else if id = TableId.static "Base" then Value.table (TableId.mt "Base")
      else if id = TableId.static "Shape" then Value.table (TableId.mt "Shape")
      else Value.nil,
    nextTable := 3,
    registry :=
      [(Value.str "Shape", Value.table (TableId.mt "Shape")),
       (Value.str "Base", Value.table (TableId.mt "Base")),
       (Value.str "Widget", Value.table (TableId.mt "Widget")),
       (Value.str "LuaWrapper", Value.table TableId.wrapper)],
    classname := fun T =>
      if T = 0 then some "Widget" else if T = 3 then some "Base"
      else if T = 2 then some "Shape" else none }

/-- The declaration of `Base`, a class with a method `Name`. -/
def baseDecl : ClassDecl :=
  { T := 3, name := "Base", table := [],
    metatable := [("Name", CFun.host "Base_Name")],
    extends_ := [], disablenew := false,
    allocator := Allocator.default, deallocator := Deallocator.default }

/-- The declaration of `Shape`, a class with a method `Draw` that extends
`Base`. -/
def shapeDecl : ClassDecl :=
  { T := 2, name := "Shape", table := [],
    metatable := [("Draw", CFun.host "Shape_Draw")],
    extends_ := ["Base"], disablenew := false,
    allocator := Allocator.default, deallocator := Deallocator.default }

/-- The state `demoTwo` with one held handle (block 0) of a `Shape`, the
object 100, after a script has assigned `h.Name = 5`: the storage table of the
object (`anon 3`) holds a field named like the method `Name` that `Shape`
inherits from `Base`. -/
def demoTwoShadow : LuaState :=
  { demoTwo with
    stack := [Value.userdata 0],
    udata := Function.update demoTwo.udata 0
      { ptr := 100, mt := Value.table (TableId.mt "Shape") },
    nextUd := 1,
    heap := Function.update
      (Function.update
        (Function.update
          (Function.update demoTwo.heap TableId.counts [(Value.lightud 100, Value.int 1)])
          TableId.holds [(Value.lightud 100, Value.bool true)])
        (TableId.anon 3) [(Value.str "Name", Value.int 5)])
      TableId.storage [(Value.lightud 100, Value.table (TableId.anon 3))],
    tmeta := Function.update demoTwo.tmeta (TableId.anon 3) Value.nil,
    nextTable := 4 }

/-! ## Symbolic execution -/

@[simp] theorem bind_apply {α β : Type} (m : LuaM α) (f : α → LuaM β) (s : LuaState) :
    (m >>= f) s = match m s with
      | Outcome.ok a s' => f a s'
      | Outcome.raise e s' => Outcome.raise e s' := rfl

@[simp] theorem pure_apply {α : Type} (a : α) (s : LuaState) :
    (pure a : LuaM α) s = Outcome.ok a s := rfl

@[simp] theorem stackAt_m1 (a : Value) (stk : List Value) : stackAt (a :: stk) (-1) = a := rfl

@[simp] theorem stackAt_m2 (a b : Value) (stk : List Value) :
    stackAt (a :: b :: stk) (-2) = b := rfl

@[simp] theorem stackAt_m3 (a b c : Value) (stk : List Value) :
    stackAt (a :: b :: c :: stk) (-3) = c := rfl

@[simp] theorem stackAt_m4 (a b c d : Value) (stk : List Value) :
    stackAt (a :: b :: c :: d :: stk) (-4) = d := rfl

@[simp] theorem stackAt_m5 (a b c d e : Value) (stk : List Value) :
    stackAt (a :: b :: c :: d :: e :: stk) (-5) = e := rfl

@[simp] theorem stackAt_m6 (a b c d e f : Value) (stk : List Value) :
    stackAt (a :: b :: c :: d :: e :: f :: stk) (-6) = f := rfl

@[simp] theorem stackAt_one_1 (a : Value) : stackAt [a] 1 = a := rfl

@[simp] theorem stackAt_two_1 (a b : Value) : stackAt [b, a] 1 = a := rfl

@[simp] theorem stackAt_three_1 (a b c : Value) : stackAt [c, b, a] 1 = a := rfl

theorem indexValue_table (s : LuaState) (id : TableId) (k : Value) (h : s.tmeta id = Value.nil) :
    indexValue (Value.table id) k s = Outcome.ok ((s.heap id).get k) s := by
  unfold indexValue
  simp only [h]
  split <;> simp_all

theorem indexPlain_table (s : LuaState) (id : TableId) (k : Value) (h : s.tmeta id = Value.nil) :
    indexPlain (Value.table id) k s = Outcome.ok ((s.heap id).get k) s := by
  unfold indexPlain
  simp only [h]
  split <;> simp_all

theorem assignValue_table (s : LuaState) (id : TableId) (k v : Value) (h : s.tmeta id = Value.nil) :
    assignValue (Value.table id) k v s =
      Outcome.ok () { s with heap := Function.update s.heap id ((s.heap id).set k v) } := by
  unfold assignValue
  simp only [h]
  split <;> simp_all [rawStore]

theorem luaW_release_eq (T : TypeId) (p : Ptr) (s : LuaState) (h : Ready s) :
    luaW_release T p s = Outcome.ok () { s with
      stack := Value.table TableId.wrapper :: s.stack,
      heap := Function.update s.heap TableId.holds
        ((s.heap TableId.holds).set (Value.lightud p) Value.nil) } := by
  obtain ⟨h1, h2, h3, h4, h5, h6, h7, h8⟩ := h
  simp [luaW_release, luaW_getregistry, push, lua_getfield, valueAt, indexValue_table,
    assignValue_table, h1, h3, lua_pushlightuserdata, lua_pushnil, lua_settable, popValue,
    lua_pop, popN, h5, h7]

theorem luaW_push_eq (T : TypeId) (p : Ptr) (s : LuaState) (h : Ready s) (cn : String)
    (hc : s.classname T = some cn) :
    luaW_push T p s = Outcome.ok () { s with
      stack := Value.userdata s.nextUd :: s.stack,
      udata := Function.update s.udata s.nextUd { ptr := p, mt := s.registry.get (Value.str cn) },
      nextUd := s.nextUd + 1,
      heap := Function.update s.heap TableId.counts ((s.heap TableId.counts).set (Value.lightud p)
        (Value.int (RefCount s p + 1))) } := by
  obtain ⟨h1, h2, h3, h4, h5, h6, h7, h8⟩ := h
  simp [luaW_push, lua_newuserdata, luaL_getmetatable, classnameOf, hc, lua_setmetatable,
    lua_gettable, lua_tointeger, lua_pushinteger, luaW_getregistry, push, lua_getfield, valueAt,
    indexValue_table, assignValue_table, h1, h2, lua_pushlightuserdata, lua_settable, popValue,
    lua_pop, popN, h5, h6, RefCount]

theorem luaW_hold_held (T : TypeId) (p : Ptr) (s : LuaState) (h : Ready s)
    (hh : HoldFlag s p = true) : luaW_hold T p s = Outcome.ok false s := by
  obtain ⟨h1, h2, h3, h4, h5, h6, h7, h8⟩ := h
  unfold HoldFlag at hh
  simp [luaW_hold, luaW_getregistry, push, lua_getfield, valueAt, indexValue_table, h1, h3, h5,
    lua_pushlightuserdata, lua_rawget, lua_toboolean, hh, lua_pop, popN]

theorem luaW_hold_nocount (T : TypeId) (p : Ptr) (s : LuaState) (h : Ready s)
    (hh : HoldFlag s p = false) (hc : RefCount s p ≤ 0) :
    luaW_hold T p s = Outcome.ok true { s with
      stack := (s.heap TableId.counts).get (Value.lightud p) :: Value.table TableId.counts ::
        Value.table TableId.wrapper :: s.stack,
      heap := Function.update s.heap TableId.holds
        ((s.heap TableId.holds).set (Value.lightud p) (Value.bool true)) } := by
  obtain ⟨h1, h2, h3, h4, h5, h6, h7, h8⟩ := h
  unfold HoldFlag at hh
  unfold RefCount at hc
  have hc' : ¬ ((s.heap TableId.counts).get (Value.lightud p)).toInteger > 0 := by omega
  simp [luaW_hold, luaW_getregistry, push, lua_getfield, valueAt, indexValue_table, h1, h2, h3, h5,
    lua_pushlightuserdata, lua_rawget, lua_rawset, lua_toboolean, hh, lua_pop, popN,
    lua_pushboolean, lua_tointeger, hc']

theorem luaW_hold_stored (T : TypeId) (p : Ptr) (s : LuaState) (h : Ready s)
    (hh : HoldFlag s p = false) (hc : 0 < RefCount s p) (hs : StorageTable s p ≠ Value.nil) :
    luaW_hold T p s = Outcome.ok true { s with
      stack := StorageTable s p :: Value.table TableId.storage ::
        Value.table TableId.wrapper :: s.stack,
      heap := Function.update s.heap TableId.holds
        ((s.heap TableId.holds).set (Value.lightud p) (Value.bool true)) } := by
  obtain ⟨h1, h2, h3, h4, h5, h6, h7, h8⟩ := h
  unfold HoldFlag at hh
  unfold RefCount at hc
  unfold StorageTable at hs ⊢
  simp [luaW_hold, luaW_getregistry, push, lua_getfield, valueAt, indexValue_table, h1, h2, h3, h4,
    h5, lua_pushlightuserdata, lua_rawget, lua_rawset, lua_toboolean, hh, lua_pop, popN,
    lua_pushboolean, lua_tointeger, hc, lua_isnoneornil, hs]

theorem luaW_hold_fresh (T : TypeId) (p : Ptr) (s : LuaState) (h : Ready s)
    (hh : HoldFlag s p = false) (hc : 0 < RefCount s p) (hs : StorageTable s p = Value.nil) :
    luaW_hold T p s = Outcome.ok true { s with
      heap := Function.update
        (Function.update
          (Function.update s.heap TableId.holds
            ((s.heap TableId.holds).set (Value.lightud p) (Value.bool true)))
          (TableId.anon s.nextTable) [])
        TableId.storage
        ((s.heap TableId.storage).set (Value.lightud p) (Value.table (TableId.anon s.nextTable))),
      tmeta := Function.update s.tmeta (TableId.anon s.nextTable) Value.nil,
      nextTable := s.nextTable + 1 } := by
  obtain ⟨h1, h2, h3, h4, h5, h6, h7, h8⟩ := h
  unfold HoldFlag at hh
  unfold RefCount at hc
  unfold StorageTable at hs
  simp [luaW_hold, luaW_getregistry, push, lua_getfield, valueAt, indexValue_table, h1, h2, h3, h4,
    h5, lua_pushlightuserdata, lua_rawget, lua_rawset, lua_toboolean, hh, lua_pop, popN,
    lua_pushboolean, lua_tointeger, hc, lua_isnoneornil, hs, lua_newtable]

theorem lua_getmetatable_some (idx : Int) (s : LuaState) (m : Value)
    (hm : metatableOf s (stackAt s.stack idx) = m) (hne : m ≠ Value.nil) :
    lua_getmetatable idx s = Outcome.ok true { s with stack := m :: s.stack } := by
  unfold lua_getmetatable
  rw [hm]
  split
  · contradiction
  · rfl

theorem lua_getmetatable_none (idx : Int) (s : LuaState)
    (hm : metatableOf s (stackAt s.stack idx) = Value.nil) :
    lua_getmetatable idx s = Outcome.ok false s := by
  unfold lua_getmetatable
  rw [hm]

theorem luaW_is_self (T : TypeId) (idx : Int) (strict : Bool) (s : LuaState) (u : Nat)
    (cn : String) (hv : stackAt s.stack idx = Value.userdata u) (hc : s.classname T = some cn)
    (hm : (s.udata u).mt = s.registry.get (Value.str cn))
    (hne : s.registry.get (Value.str cn) ≠ Value.nil) :
    luaW_is T idx strict s = Outcome.ok true s := by
  have hg := lua_getmetatable_some idx s (s.registry.get (Value.str cn))
    (by rw [hv]; exact hm) hne
  simp [luaW_is, lua_touserdata, hv, Block.nonNull, hg, luaL_getmetatable, classnameOf, hc,
    luaW_getregistry, push, lua_rawequal, lua_pop, popN]

theorem luaW_to_self (T : TypeId) (idx : Int) (s : LuaState) (u : Nat)
    (cn : String) (hv : stackAt s.stack idx = Value.userdata u) (hc : s.classname T = some cn)
    (hm : (s.udata u).mt = s.registry.get (Value.str cn))
    (hne : s.registry.get (Value.str cn) ≠ Value.nil) :
    luaW_to T idx s = Outcome.ok (s.udata u).ptr s := by
  simp [luaW_to, luaW_is_self T idx false s u cn hv hc hm hne, lua_touserdata, hv, derefBlock]

theorem callFrame_index (T : TypeId) (s : LuaState) (u : Nat) (k : Value) (cn : String)
    (hr : Ready s)
    (hc : s.classname T = some cn)
    (hm : (s.udata u).mt = Value.table (TableId.mt cn))
    (hreg : s.registry.get (Value.str cn) = Value.table (TableId.mt cn))
    (hst : StorageTable s (s.udata u).ptr = Value.nil ∨
      ∃ st, StorageTable s (s.udata u).ptr = Value.table st) :
    callFrame (luaW__index T) [Value.userdata u, k] s =
      Outcome.ok [fieldOf s (s.udata u).ptr (TableId.mt cn) k] s := by
  obtain ⟨h1, h2, h3, h4, h5, h6, h7, h8⟩ := hr
  have hto : luaW_to T 1 { s with stack := [k, Value.userdata u] } =
      Outcome.ok (s.udata u).ptr { s with stack := [k, Value.userdata u] } :=
    luaW_to_self T 1 _ u cn rfl hc (by simp [hm, hreg]) (by simp [hreg])
  have hgm : ∀ (a : Value), lua_getmetatable (-2) { s with stack := [a, Value.userdata u] } =
      Outcome.ok true { s with stack := [Value.table (TableId.mt cn), a, Value.userdata u] } := by
    intro a
    apply lua_getmetatable_some
    · simp [metatableOf, hm]
    · simp
  unfold StorageTable at hst
  rcases hst with hst | ⟨st, hst⟩
  · simp [callFrame, luaW__index, hto, luaW_getregistry, push, h1, lua_getfield0, valueAt, h4, h5,
      indexPlain_table, lua_pushlightuserdata, lua_rawget, hst, lua_isnoneornil, lua_pop, popN,
      hgm, lua_pushvalue, fieldOf, StorageTable, hm]
  · by_cases hk : (s.heap st).get k = Value.nil
    · simp [callFrame, luaW__index, hto, luaW_getregistry, push, h1, lua_getfield0, valueAt, h4, h5,
        indexPlain_table, lua_pushlightuserdata, lua_rawget, hst, lua_isnoneornil, lua_pop, popN,
        hgm, lua_pushvalue, fieldOf, StorageTable, hm, hk]
    · simp [callFrame, luaW__index, hto, luaW_getregistry, push, h1, lua_getfield0, valueAt, h4, h5,
        indexPlain_table, lua_pushlightuserdata, lua_rawget, hst, lua_isnoneornil, lua_pop, popN,
        hgm, lua_pushvalue, fieldOf, StorageTable, hm, hk]

theorem indexValue_handle (T : TypeId) (s : LuaState) (u : Nat) (k : Value) (cn : String)
    (hr : Ready s) (hreg : Registered s T cn)
    (hm : (s.udata u).mt = Value.table (TableId.mt cn))
    (hst : StorageTable s (s.udata u).ptr = Value.nil ∨
      ∃ st, StorageTable s (s.udata u).ptr = Value.table st) :
    indexValue (Value.userdata u) k s =
      Outcome.ok (fieldOf s (s.udata u).ptr (TableId.mt cn) k) s := by
  obtain ⟨hc, hg, hi, hgc⟩ := hreg
  have := callFrame_index T s u k cn hr hc hm hg hst
  simp [indexValue, hm, hi, indexHandler, this]

theorem luaW__gc_keep (T : TypeId) (s : LuaState) (u : Nat) (cn : String)
    (hr : Ready s) (hstk : s.stack = [Value.userdata u])
    (hc : s.classname T = some cn)
    (hm : (s.udata u).mt = s.registry.get (Value.str cn))
    (hne : s.registry.get (Value.str cn) ≠ Value.nil)
    (hk : (s.udata u).ptr = NULL ∨ RefCount s (s.udata u).ptr ≠ 1) :
    luaW__gc T s = Outcome.ok 0 { s with
      heap := Function.update s.heap TableId.counts ((s.heap TableId.counts).set
        (Value.lightud (s.udata u).ptr) (Value.int (RefCount s (s.udata u).ptr - 1))) } := by
  obtain ⟨h1, h2, h3, h4, h5, h6, h7, h8⟩ := hr
  have hto := luaW_to_self T 1 s u cn (by rw [hstk]; rfl) hc hm hne
  have hcond : ((s.udata u).ptr ≠ NULL ∧ 1 = RefCount s (s.udata u).ptr) = False := by
    simp only [eq_iff_iff, iff_false, not_and]
    rcases hk with hk | hk
    · intro h; exact absurd hk h
    · intro _ h; exact hk h.symm
  unfold RefCount at hcond ⊢
  simp [luaW__gc, hto, luaW_getregistry, push, lua_getfield, valueAt, indexValue_table,
    assignValue_table, h1, h2, lua_pushlightuserdata, lua_gettable, lua_settable, popValue,
    lua_pop, popN, h5, h6, lua_tointeger, lua_pushinteger, hstk, hcond]

theorem Ready_congr (s s' : LuaState) (h1 : s'.registry = s.registry)
    (h2 : s'.heap TableId.wrapper = s.heap TableId.wrapper) (h3 : s'.tmeta = s.tmeta)
    (h : Ready s) : Ready s' := by
  unfold Ready at *
  rw [h1, h2, h3]
  exact h

theorem Registered_congr (s s' : LuaState) (T : TypeId) (cn : String)
    (h1 : s'.classname = s.classname) (h2 : s'.registry = s.registry)
    (h3 : s'.heap (TableId.mt cn) = s.heap (TableId.mt cn))
    (h : Registered s T cn) : Registered s' T cn := by
  unfold Registered at *
  rw [h1, h2, h3]
  exact h

theorem fieldOf_congr (s s' : LuaState) (p : Ptr) (cn : String) (k : Value)
    (h1 : s'.heap TableId.storage = s.heap TableId.storage)
    (h2 : ∀ n, s'.heap (TableId.anon n) = s.heap (TableId.anon n))
    (h3 : s'.heap (TableId.mt cn) = s.heap (TableId.mt cn))
    (hst : StorageTable s p = Value.nil ∨ ∃ n, StorageTable s p = Value.table (TableId.anon n)) :
    fieldOf s' p (TableId.mt cn) k = fieldOf s p (TableId.mt cn) k := by
  unfold fieldOf StorageTable at *
  rw [h1, h3]
  rcases hst with hst | ⟨m, hst⟩ <;> simp [hst, h2]

theorem luaW_destructor_eq (T : TypeId) (p : Ptr) (s : LuaState) (cn : String)
    (hr : Ready s) (hreg : Registered s T cn)
    (hst : StorageTable s p = Value.nil ∨ ∃ n, StorageTable s p = Value.table (TableId.anon n))
    (hh : (fieldOf s p (TableId.mt cn) (Value.str LUAW_DTOR_KEY)).isHook = true) :
    luaW_destructor T p s = Outcome.ok () { s with
      udata := Function.update s.udata s.nextUd { ptr := p, mt := Value.table (TableId.mt cn) },
      nextUd := s.nextUd + 1,
      heap := Function.update s.heap TableId.counts ((s.heap TableId.counts).set (Value.lightud p)
        (Value.int (RefCount s p + 1))),
      log := s.log ++
        (if (fieldOf s p (TableId.mt cn) (Value.str LUAW_DTOR_KEY)).isFunction then
          [Event.call (fieldOf s p (TableId.mt cn) (Value.str LUAW_DTOR_KEY))
            [Value.userdata s.nextUd]]
        else []) } := by
  have hpush := luaW_push_eq T p s hr cn hreg.1
  rw [hreg.2.1] at hpush
  obtain ⟨s1, hs1⟩ : ∃ s1 : LuaState, s1 = { s with
      stack := Value.userdata s.nextUd :: s.stack,
      udata := Function.update s.udata s.nextUd { ptr := p, mt := Value.table (TableId.mt cn) },
      nextUd := s.nextUd + 1,
      heap := Function.update s.heap TableId.counts ((s.heap TableId.counts).set (Value.lightud p)
        (Value.int (RefCount s p + 1))) } := ⟨_, rfl⟩
  rw [← hs1] at hpush
  have hr1 : Ready s1 := Ready_congr s s1 (by simp [hs1]) (by simp [hs1]) (by simp [hs1]) hr
  have hreg1 : Registered s1 T cn :=
    Registered_congr s s1 T cn (by simp [hs1]) (by simp [hs1]) (by simp [hs1]) hreg
  have hu1 : s1.udata s.nextUd = { ptr := p, mt := Value.table (TableId.mt cn) } := by
    simp [hs1]
  have hst1 : StorageTable s1 p = StorageTable s p := by simp [hs1, StorageTable]
  have hidx := indexValue_handle T s1 s.nextUd (Value.str LUAW_DTOR_KEY) cn hr1 hreg1
    (by rw [hu1]) (by
      rw [hu1, hst1]
      rcases hst with hst | ⟨n, hst⟩
      · exact Or.inl hst
      · exact Or.inr ⟨_, hst⟩)
  rw [hu1] at hidx
  simp only at hidx
  rw [fieldOf_congr s s1 p cn _ (by simp [hs1]) (by simp [hs1]) (by simp [hs1]) hst] at hidx
  have hstk1 : s1.stack = Value.userdata s.nextUd :: s.stack := by simp [hs1]
  generalize fieldOf s p (TableId.mt cn) (Value.str LUAW_DTOR_KEY) = hk at *
  cases hk with
  | func f =>
    cases f <;> simp [Value.isHook] at hh
    simp [luaW_destructor, hpush, lua_getfield, valueAt, hidx, push, lua_isfunction, lua_pushvalue,
      lua_call, popArgs, popValue, callValue, emit, lua_pop, popN, Value.isFunction, hstk1]
    simp [hs1]
  | _ =>
    simp [luaW_destructor, hpush, lua_getfield, valueAt, hidx, push, lua_isfunction, lua_pushvalue,
      lua_pop, popN, Value.isFunction, hstk1]
    all_goals simp [hs1]

theorem Table.get_erase_self (t : Table) (k : Value) : (Table.erase t k).get k = Value.nil := by
  induction t with
  | nil => rfl
  | cons e t ih =>
    obtain ⟨k', v⟩ := e
    by_cases h : k' = k <;> simp [Table.erase, Table.get, h, ih]

theorem Table.get_erase_ne (t : Table) (k k' : Value) (h : k' ≠ k) :
    (Table.erase t k).get k' = t.get k' := by
  induction t with
  | nil => rfl
  | cons e t ih =>
    obtain ⟨k0, v⟩ := e
    by_cases h0 : k0 = k
    · subst h0
      simp [Table.erase, Table.get, ih, Ne.symm h]
    · by_cases h1 : k0 = k'
      · subst h1
        simp [Table.erase, Table.get, h0]
      · simp [Table.erase, Table.get, h0, h1, ih]

theorem Table.get_set_self (t : Table) (k v : Value) : (Table.set t k v).get k = v := by
  unfold Table.set
  by_cases h : v = Value.nil
  · simp [h, Table.get_erase_self]
  · simp [h, Table.get]

theorem Table.get_set_ne (t : Table) (k k' v : Value) (h : k' ≠ k) :
    (Table.set t k v).get k' = t.get k' := by
  unfold Table.set
  by_cases hv : v = Value.nil
  · simp [hv, Table.get_erase_ne t k k' h]
  · simp [hv, Table.get, Ne.symm h, Table.get_erase_ne t k k' h]

theorem luaW_clean_eq (T : TypeId) (p : Ptr) (s : LuaState) (stk : List Value) (h : Ready s)
    (hstk : s.stack = Value.table TableId.wrapper :: stk) :
    luaW_clean T p s = Outcome.ok () { s with
      stack := stk,
      heap := Function.update s.heap TableId.storage
        ((s.heap TableId.storage).set (Value.lightud p) Value.nil) } := by
  obtain ⟨h1, h2, h3, h4, h5, h6, h7, h8⟩ := h
  simp [luaW_clean, push, lua_getfield, valueAt, indexValue_table, assignValue_table, hstk, h4,
    lua_pushlightuserdata, lua_pushnil, lua_settable, popValue, lua_pop, popN, h5, h8]

theorem luaW__gc_delete (T : TypeId) (s : LuaState) (u : Nat) (cn : String) (p : Ptr)
    (hr : Ready s) (hstk : s.stack = [Value.userdata u]) (hreg : Registered s T cn)
    (hu : s.udata u = { ptr := p, mt := Value.table (TableId.mt cn) })
    (hp : p ≠ NULL) (hcount : RefCount s p = 1)
    (hst : StorageTable s p = Value.nil ∨ ∃ n, StorageTable s p = Value.table (TableId.anon n))
    (hh : (fieldOf s p (TableId.mt cn) (Value.str LUAW_DTOR_KEY)).isHook = true) :
    luaW__gc T s = Outcome.ok 0 { s with
      heap := Function.update (Function.update (Function.update s.heap
          TableId.counts (((s.heap TableId.counts).set (Value.lightud p) (Value.int 0)).set
            (Value.lightud p) (Value.int 1)))
          TableId.holds ((s.heap TableId.holds).set (Value.lightud p) Value.nil))
          TableId.storage ((s.heap TableId.storage).set (Value.lightud p) Value.nil),
      udata := Function.update s.udata s.nextUd { ptr := p, mt := Value.table (TableId.mt cn) },
      nextUd := s.nextUd + 1,
      log := s.log ++
        (if (fieldOf s p (TableId.mt cn) (Value.str LUAW_DTOR_KEY)).isFunction then
          [Event.call (fieldOf s p (TableId.mt cn) (Value.str LUAW_DTOR_KEY))
            [Value.userdata s.nextUd]]
        else []) ++ [Event.delete p] } := by
  have hto := luaW_to_self T 1 s u cn (by rw [hstk]; rfl) hreg.1 (by rw [hu, hreg.2.1])
    (by rw [hreg.2.1]; simp)
  rw [hu] at hto
  obtain ⟨s1, hs1⟩ : ∃ s1 : LuaState, s1 = { s with
      heap := Function.update s.heap TableId.counts
        ((s.heap TableId.counts).set (Value.lightud p) (Value.int 0)) } := ⟨_, rfl⟩
  have hr1 : Ready s1 := Ready_congr s s1 (by simp [hs1]) (by simp [hs1]) (by simp [hs1]) hr
  have hreg1 : Registered s1 T cn :=
    Registered_congr s s1 T cn (by simp [hs1]) (by simp [hs1]) (by simp [hs1]) hreg
  have hst0 : StorageTable s1 p = StorageTable s p := by simp [hs1, StorageTable]
  have hst1 : StorageTable s1 p = Value.nil ∨ ∃ n, StorageTable s1 p = Value.table (TableId.anon n) := by
    rw [hst0]; exact hst
  have hf1 : fieldOf s1 p (TableId.mt cn) (Value.str LUAW_DTOR_KEY) =
      fieldOf s p (TableId.mt cn) (Value.str LUAW_DTOR_KEY) :=
    fieldOf_congr s s1 p cn _ (by simp [hs1]) (by simp [hs1]) (by simp [hs1]) hst
  have hd := luaW_destructor_eq T p s1 cn hr1 hreg1 hst1 (by rw [hf1]; exact hh)
  rw [hf1] at hd
  have hrc1 : RefCount s1 p = 0 := by
    simp [hs1, RefCount, Table.get_set_self, Value.toInteger]
  rw [hrc1] at hd
  obtain ⟨s2, hs2⟩ : ∃ s2 : LuaState, s2 = { s1 with
      udata := Function.update s1.udata s1.nextUd { ptr := p, mt := Value.table (TableId.mt cn) },
      nextUd := s1.nextUd + 1,
      heap := Function.update s1.heap TableId.counts ((s1.heap TableId.counts).set (Value.lightud p)
        (Value.int (0 + 1))),
      log := s1.log ++
        (if (fieldOf s p (TableId.mt cn) (Value.str LUAW_DTOR_KEY)).isFunction then
          [Event.call (fieldOf s p (TableId.mt cn) (Value.str LUAW_DTOR_KEY))
            [Value.userdata s1.nextUd]]
        else []) } := ⟨_, rfl⟩
  rw [← hs2] at hd
  have hr2 : Ready s2 := Ready_congr s1 s2 (by simp [hs2]) (by simp [hs2]) (by simp [hs2]) hr1
  have hrel := luaW_release_eq T p s2 hr2
  obtain ⟨s3, hs3⟩ : ∃ s3 : LuaState, s3 = { s2 with
      stack := Value.table TableId.wrapper :: s2.stack,
      heap := Function.update s2.heap TableId.holds
        ((s2.heap TableId.holds).set (Value.lightud p) Value.nil) } := ⟨_, rfl⟩
  rw [← hs3] at hrel
  have hr3 : Ready s3 := Ready_congr s2 s3 (by simp [hs3]) (by simp [hs3]) (by simp [hs3]) hr2
  have hcl := luaW_clean_eq T p s3 s2.stack hr3 (by simp [hs3])
  obtain ⟨h1, h2, h3, h4, h5, h6, h7, h8⟩ := hr
  have hcond : (p ≠ NULL ∧ 1 = RefCount s p) = True := by
    simp [hp, hcount]
  unfold RefCount at hcond hcount
  have hs1' : { s with
      stack := [Value.userdata u],
      heap := Function.update s.heap TableId.counts
        ((s.heap TableId.counts).set (Value.lightud p) (Value.int 0)) } = s1 := by
    rw [hs1, ← hstk]
  simp [luaW__gc, hto, luaW_getregistry, push, lua_getfield, valueAt, indexValue_table,
    assignValue_table, h1, h2, lua_pushlightuserdata, lua_gettable, lua_settable, popValue,
    lua_pop, popN, h5, h6, lua_tointeger, lua_pushinteger, hstk, hcond, hcount, hs1', hd, hrel, hcl,
    emit, hp]
  simp [hs3, hs2, hs1, hstk]

theorem callFrame_ok (body : LuaM Nat) (args : List Value) (s s' : LuaState) (n : Nat)
    (h : body { s with stack := args.reverse } = Outcome.ok n s') :
    callFrame body args s = Outcome.ok (s'.stack.take n).reverse { s' with stack := s.stack } := by
  unfold callFrame
  rw [h]

theorem finalize_keep (s : LuaState) (T : TypeId) (u : Nat) (cn : String) (p : Ptr)
    (hr : Ready s) (hreg : Registered s T cn)
    (hu : s.udata u = { ptr := p, mt := Value.table (TableId.mt cn) })
    (hk : p = NULL ∨ RefCount s p ≠ 1) :
    finalize u s = Outcome.ok () { s with
      heap := Function.update s.heap TableId.counts ((s.heap TableId.counts).set
        (Value.lightud p) (Value.int (RefCount s p - 1))) } := by
  obtain ⟨s0, hs0⟩ : ∃ s0 : LuaState, s0 = { s with stack := [Value.userdata u] } := ⟨_, rfl⟩
  have hr0 : Ready s0 := Ready_congr s s0 (by simp [hs0]) (by simp [hs0]) (by simp [hs0]) hr
  have hu0 : s0.udata u = { ptr := p, mt := Value.table (TableId.mt cn) } := by simp [hs0, hu]
  have hc0 : RefCount s0 p = RefCount s p := by simp [hs0, RefCount]
  have hgc := luaW__gc_keep T s0 u cn hr0 (by simp [hs0]) (by simp [hs0, hreg.1])
    (by rw [hu0]; simp [hs0, hreg.2.1]) (by simp [hs0, hreg.2.1])
    (by rw [hu0, hc0]; exact hk)
  rw [hu0, hc0] at hgc
  have hcf := callFrame_ok (luaW__gc T) [Value.userdata u] s _ 0 (by rw [hs0] at hgc; exact hgc)
  simp only [finalize, hu, hreg.2.2.2, hcf]

theorem finalize_delete (s : LuaState) (T : TypeId) (u : Nat) (cn : String) (p : Ptr)
    (hr : Ready s) (hreg : Registered s T cn)
    (hu : s.udata u = { ptr := p, mt := Value.table (TableId.mt cn) })
    (hp : p ≠ NULL) (hcount : RefCount s p = 1)
    (hst : StorageTable s p = Value.nil ∨ ∃ n, StorageTable s p = Value.table (TableId.anon n))
    (hh : (fieldOf s p (TableId.mt cn) (Value.str LUAW_DTOR_KEY)).isHook = true) :
    finalize u s = Outcome.ok () { s with
      heap := Function.update (Function.update (Function.update s.heap
          TableId.counts (((s.heap TableId.counts).set (Value.lightud p) (Value.int 0)).set
            (Value.lightud p) (Value.int 1)))
          TableId.holds ((s.heap TableId.holds).set (Value.lightud p) Value.nil))
          TableId.storage ((s.heap TableId.storage).set (Value.lightud p) Value.nil),
      udata := Function.update s.udata s.nextUd { ptr := p, mt := Value.table (TableId.mt cn) },
      nextUd := s.nextUd + 1,
      log := s.log ++
        (if (fieldOf s p (TableId.mt cn) (Value.str LUAW_DTOR_KEY)).isFunction then
          [Event.call (fieldOf s p (TableId.mt cn) (Value.str LUAW_DTOR_KEY))
            [Value.userdata s.nextUd]]
        else []) ++ [Event.delete p] } := by
  obtain ⟨s0, hs0⟩ : ∃ s0 : LuaState, s0 = { s with stack := [Value.userdata u] } := ⟨_, rfl⟩
  have hr0 : Ready s0 := Ready_congr s s0 (by simp [hs0]) (by simp [hs0]) (by simp [hs0]) hr
  have hreg0 : Registered s0 T cn :=
    Registered_congr s s0 T cn (by simp [hs0]) (by simp [hs0]) (by simp [hs0]) hreg
  have hu0 : s0.udata u = { ptr := p, mt := Value.table (TableId.mt cn) } := by simp [hs0, hu]
  have hc0 : RefCount s0 p = 1 := by simp [hs0, RefCount]; exact hcount
  have hst0 : StorageTable s0 p = StorageTable s p := by simp [hs0, StorageTable]
  have hf0 : fieldOf s0 p (TableId.mt cn) (Value.str LUAW_DTOR_KEY) =
      fieldOf s p (TableId.mt cn) (Value.str LUAW_DTOR_KEY) :=
    fieldOf_congr s s0 p cn _ (by simp [hs0]) (by simp [hs0]) (by simp [hs0]) hst
  have hgc := luaW__gc_delete T s0 u cn p hr0 (by simp [hs0]) hreg0 hu0 hp hc0
    (by rw [hst0]; exact hst) (by rw [hf0]; exact hh)
  rw [hf0] at hgc
  have hcf := callFrame_ok (luaW__gc T) [Value.userdata u] s _ 0 (by rw [hs0] at hgc; exact hgc)
  simp only [finalize, hu, hreg.2.2.2, hcf]

set_option maxHeartbeats 1000000 in
theorem register_demo :
    luaW_register 0 "Widget" []
      [("SetX", CFun.host "Widget_SetX"), ("__dtor", CFun.host "Widget_dtor")] [] false
      Allocator.default (Deallocator.custom "Widget_free") LuaState.init = Outcome.ok () demo := by
  simp [luaW_register, setStatics, ensureWrapper, openTable, openMetatable, LuaState.init,
    luaW_getregistry, push, Table.get, lua_isnil, lua_isnoneornil, lua_newtableAs, luaW_setregistry, popValue, Table.set, Table.erase, LUAW_WRAPPER_KEY,
    lua_setfield, valueAt, assignValue, rawStore, lua_pop, popN, luaL_register, registerFuncs,
    luaL_newmetatable, lua_pushvalue, lua_newtable, extendLoop, lua_setmetatable,
    LUAW_COUNT_KEY, LUAW_STORAGE_KEY, LUAW_HOLDS_KEY, LUAW_EXTENDS_KEY, demo]
  refine ⟨?_, ?_, ?_, ?_⟩
  · funext id
    simp only [Function.update, demoHeap]
    split_ifs <;> simp_all
  · funext id
    simp [Function.update]
  · funext T
    simp [Function.update]
  · funext T
    simp [Function.update]

theorem demo_ready : Ready demo := by
  simp [Ready, demo, demoHeap, Table.get, LUAW_WRAPPER_KEY, LUAW_COUNT_KEY, LUAW_HOLDS_KEY,
    LUAW_STORAGE_KEY]

theorem demo_registered : Registered demo 0 "Widget" := by
  simp [Registered, demo, demoHeap, Table.get]

theorem Ready_hold (s : LuaState) (h : TableId → Table) (n : Nat) (stk : List Value)
    (hw : h TableId.wrapper = s.heap TableId.wrapper) (hr : Ready s) :
    Ready { s with stack := stk, heap := h,
                   tmeta := Function.update s.tmeta (TableId.anon n) Value.nil,
                   nextTable := n + 1 } := by
  unfold Ready at *
  simpa [hw] using hr

theorem toCInt_of_range (n : Int) (hlo : -2147483648 ≤ n) (hhi : n < 2147483648) :
    toCInt n = n := by
  unfold toCInt
  omega

theorem luaW_push_int_eq (T : TypeId) (p : Ptr) (s : LuaState) (h : Ready s) (cn : String)
    (hc : s.classname T = some cn) :
    luaW_push_int T p s = Outcome.ok () { s with
      stack := Value.userdata s.nextUd :: s.stack,
      udata := Function.update s.udata s.nextUd { ptr := p, mt := s.registry.get (Value.str cn) },
      nextUd := s.nextUd + 1,
      heap := Function.update s.heap TableId.counts ((s.heap TableId.counts).set (Value.lightud p)
        (Value.int (toCInt (toCInt (RefCount s p) + 1)))) } := by
  obtain ⟨h1, h2, h3, h4, h5, h6, h7, h8⟩ := h
  simp [luaW_push_int, lua_newuserdata, luaL_getmetatable, classnameOf, hc, lua_setmetatable,
    lua_gettable, lua_tointeger, lua_pushinteger, luaW_getregistry, push, lua_getfield, valueAt,
    indexValue_table, assignValue_table, h1, h2, lua_pushlightuserdata, lua_settable, popValue,
    lua_pop, popN, h5, h6, RefCount]

/-- While the count is in the range of `int` and below its largest value,
`luaW_push` with the count in the integers is `luaW_push` with the count in a
C `int`. -/
theorem luaW_push_int_agrees (T : TypeId) (p : Ptr) (s : LuaState) (h : Ready s) (cn : String)
    (hc : s.classname T = some cn)
    (hlo : -2147483648 ≤ RefCount s p) (hhi : RefCount s p < 2147483647) :
    luaW_push_int T p s = luaW_push T p s := by
  rw [luaW_push_int_eq T p s h cn hc, luaW_push_eq T p s h cn hc,
    toCInt_of_range (RefCount s p) hlo (by omega),
    toCInt_of_range (RefCount s p + 1) (by omega) (by omega)]

theorem demoFull_ready : Ready demoFull := by
  simp [Ready, demoFull, demo, demoHeap, Table.get, LUAW_WRAPPER_KEY, LUAW_COUNT_KEY,
    LUAW_HOLDS_KEY, LUAW_STORAGE_KEY, Function.update]

/-- C7, at the end of the range of `int`: in the example state with the
reference count of the object 100 at 2147483647, `luaW_push<Widget>(L, p)`
returns and makes the handle, but the count it stores is -2147483648, not the
old count plus one. -/
theorem C7_count_wraps :
    Ready demoFull ∧ demoFull.classname 0 = some "Widget" ∧
    RefCount demoFull 100 = 2147483647 ∧
    ∃ s', luaW_push_int 0 100 demoFull = Outcome.ok () s' ∧
      s'.udata demoFull.nextUd =
        { ptr := 100, mt := demoFull.registry.get (Value.str "Widget") } ∧
      RefCount s' 100 = -2147483648 ∧ RefCount s' 100 ≠ RefCount demoFull 100 + 1 := by
  have hc : RefCount demoFull 100 = 2147483647 := by
    simp [RefCount, demoFull, Table.get, Value.toInteger]
  have e := luaW_push_int_eq 0 100 demoFull demoFull_ready "Widget" rfl
  rw [hc] at e
  have hw : toCInt (toCInt 2147483647 + 1) = -2147483648 := by decide
  rw [hw] at e
  refine ⟨demoFull_ready, rfl, hc, _, e, ?_, ?_, ?_⟩
  · simp
  · simp [RefCount, Table.get_set_self, Value.toInteger]
  · rw [hc]
    simp [RefCount, Table.get_set_self, Value.toInteger]

/-- C7: for a registered type `T` and a reference count of `p` in the range of
a C `int` and below its largest value, 2147483647, `luaW_push<T>(L, p)`
returns and pushes a new userdata block (the handle) that stores `p` and
carries the metatable registered for `T`; the reference count of `p` is its
old value (an absent entry counting as zero) plus one; every other entry of
the counts table, every table other than the counts table (so every hold flag,
the storage map and the contents of every storage table, none being created)
and every other userdata block are as before. -/
theorem C7_push_frame (T : TypeId) (p : Ptr) (s : LuaState) (cn : String)
    (hr : Ready s) (hc : s.classname T = some cn)
    (hlo : -2147483648 ≤ RefCount s p) (hhi : RefCount s p < 2147483647) :
    ∃ s', luaW_push_int T p s = Outcome.ok () s' ∧
      s'.stack = Value.userdata s.nextUd :: s.stack ∧
      s'.udata s.nextUd = { ptr := p, mt := s.registry.get (Value.str cn) } ∧
      (∀ u, u ≠ s.nextUd → s'.udata u = s.udata u) ∧
      RefCount s' p = RefCount s p + 1 ∧
      (∀ k, k ≠ Value.lightud p →
        (s'.heap TableId.counts).get k = (s.heap TableId.counts).get k) ∧
      (∀ q, q ≠ p → RefCount s' q = RefCount s q) ∧
      (∀ id, id ≠ TableId.counts → s'.heap id = s.heap id) ∧
      (∀ q, HoldFlag s' q = HoldFlag s q) ∧
      (∀ q, StorageTable s' q = StorageTable s q) := by
  rw [luaW_push_int_agrees T p s hr cn hc hlo hhi]
  refine ⟨_, luaW_push_eq T p s hr cn hc, rfl, ?_, ?_, ?_, ?_, ?_, ?_, ?_, ?_⟩
  · simp
  · intro u hu
    simp [Function.update_noteq hu]
  · simp [RefCount, Table.get_set_self, Value.toInteger]
  · intro k hk
    simp [Table.get_set_ne _ _ _ _ hk]
  · intro q hq
    have : Value.lightud q ≠ Value.lightud p := by simpa using hq
    simp [RefCount, Table.get_set_ne _ _ _ _ this]
  · intro id hid
    simp [Function.update_noteq hid]
  · intro q
    simp [HoldFlag]
  · intro q
    simp [StorageTable]

/-- Witness of C7 on the example state, where the object 100 has no handle. -/
theorem C7_push_frame_witness :
    Ready demo ∧ demo.classname 0 = some "Widget" ∧
    -2147483648 ≤ RefCount demo 100 ∧ RefCount demo 100 < 2147483647 ∧
    ∃ s', luaW_push_int 0 100 demo = Outcome.ok () s' ∧
      s'.stack = Value.userdata demo.nextUd :: demo.stack ∧
      s'.udata demo.nextUd = { ptr := 100, mt := demo.registry.get (Value.str "Widget") } ∧
      (∀ u, u ≠ demo.nextUd → s'.udata u = demo.udata u) ∧
      RefCount s' 100 = RefCount demo 100 + 1 ∧
      (∀ k, k ≠ Value.lightud 100 →
        (s'.heap TableId.counts).get k = (demo.heap TableId.counts).get k) ∧
      (∀ q, q ≠ 100 → RefCount s' q = RefCount demo q) ∧
      (∀ id, id ≠ TableId.counts → s'.heap id = demo.heap id) ∧
      (∀ q, HoldFlag s' q = HoldFlag demo q) ∧
      (∀ q, StorageTable s' q = StorageTable demo q) :=
  have h0 : RefCount demo 100 = 0 := by
    simp [RefCount, demo, demoHeap, Table.get, Value.toInteger]
  have hlo : -2147483648 ≤ RefCount demo 100 := by rw [h0]; decide
  have hhi : RefCount demo 100 < 2147483647 := by rw [h0]; decide
  ⟨demo_ready, rfl, hlo, hhi, C7_push_frame 0 100 demo "Widget" demo_ready rfl hlo hhi⟩

/-- C9: on every binding state `luaW_release<T>(L, p)` returns; afterwards the
hold flag of `p` is false, every other entry of the holds table is as before,
and so is every table other than the holds table: the counts table, the storage
map and the contents of every storage table. -/
theorem C9_release_frame (T : TypeId) (p : Ptr) (s : LuaState) (hr : Ready s) :
    ∃ s', luaW_release T p s = Outcome.ok () s' ∧
      HoldFlag s' p = false ∧
      (∀ k, k ≠ Value.lightud p →
        (s'.heap TableId.holds).get k = (s.heap TableId.holds).get k) ∧
      (∀ q, q ≠ p → HoldFlag s' q = HoldFlag s q) ∧
      (∀ id, id ≠ TableId.holds → s'.heap id = s.heap id) ∧
      s'.heap TableId.counts = s.heap TableId.counts ∧
      s'.heap TableId.storage = s.heap TableId.storage ∧
      (∀ q, RefCount s' q = RefCount s q) ∧
      (∀ q, StorageTable s' q = StorageTable s q) ∧
      s'.udata = s.udata ∧ s'.log = s.log := by
  refine ⟨_, luaW_release_eq T p s hr, ?_, ?_, ?_, ?_, ?_, ?_, ?_, ?_, rfl, rfl⟩
  · simp [HoldFlag, Table.get_set_self, Value.toBoolean]
  · intro k hk
    simp [Table.get_set_ne _ _ _ _ hk]
  · intro q hq
    have : Value.lightud q ≠ Value.lightud p := by simpa using hq
    simp [HoldFlag, Table.get_set_ne _ _ _ _ this]
  · intro id hid
    simp [Function.update_noteq hid]
  · simp
  · simp
  · intro q
    simp [RefCount]
  · intro q
    simp [StorageTable]

/-- Witness of C9 on the example state. -/
theorem C9_release_frame_witness :
    Ready demo ∧
    ∃ s', luaW_release 0 100 demo = Outcome.ok () s' ∧
      HoldFlag s' 100 = false ∧
      (∀ k, k ≠ Value.lightud 100 →
        (s'.heap TableId.holds).get k = (demo.heap TableId.holds).get k) ∧
      (∀ q, q ≠ 100 → HoldFlag s' q = HoldFlag demo q) ∧
      (∀ id, id ≠ TableId.holds → s'.heap id = demo.heap id) ∧
      s'.heap TableId.counts = demo.heap TableId.counts ∧
      s'.heap TableId.storage = demo.heap TableId.storage ∧
      (∀ q, RefCount s' q = RefCount demo q) ∧
      (∀ q, StorageTable s' q = StorageTable demo q) ∧
      s'.udata = demo.udata ∧ s'.log = demo.log :=
  ⟨demo_ready, C9_release_frame 0 100 demo demo_ready⟩

/-- C4: for a registered type `T` (its class name is set and the registry
holds a metatable under it) and any pointer `p`, whatever the tables of the
binding state contain, `luaW_push<T>(L, p)` returns and `luaW_to<T>` applied
to the handle it leaves on top of the stack returns exactly `p`. -/
theorem C4_push_to_roundtrip (T : TypeId) (p : Ptr) (s : LuaState) (cn : String)
    (hr : Ready s) (hc : s.classname T = some cn)
    (hm : s.registry.get (Value.str cn) ≠ Value.nil) :
    ∃ s', luaW_push T p s = Outcome.ok () s' ∧ luaW_to T (-1) s' = Outcome.ok p s' := by
  refine ⟨_, luaW_push_eq T p s hr cn hc, ?_⟩
  have h := luaW_to_self T (-1) { s with
      stack := Value.userdata s.nextUd :: s.stack,
      udata := Function.update s.udata s.nextUd { ptr := p, mt := s.registry.get (Value.str cn) },
      nextUd := s.nextUd + 1,
      heap := Function.update s.heap TableId.counts ((s.heap TableId.counts).set (Value.lightud p)
        (Value.int (RefCount s p + 1))) } s.nextUd cn (by simp) hc (by simp) hm
  simpa using h

/-- Witness of C4 on the example state. -/
theorem C4_push_to_roundtrip_witness :
    Ready demo ∧ demo.classname 0 = some "Widget" ∧
    demo.registry.get (Value.str "Widget") ≠ Value.nil ∧
    ∃ s', luaW_push 0 100 demo = Outcome.ok () s' ∧ luaW_to 0 (-1) s' = Outcome.ok 100 s' :=
  ⟨demo_ready, rfl, by simp [demo, Table.get],
    C4_push_to_roundtrip 0 100 demo "Widget" demo_ready rfl (by simp [demo, Table.get])⟩

/-- C8: on every binding state, `luaW_hold<T>(L, p)` returns false and leaves
the whole Lua state as it is when the hold flag of `p` is set; otherwise it
returns true and sets the flag, leaving every other hold flag, the counts
table, the storage entry of every other pointer, the userdata blocks, the
registry and the log as they are; when the reference count of `p` is positive
and `p` has no storage table, a fresh empty table becomes its storage table
and every other table keeps its contents; in every other case no table but
the holds table changes (no storage table is created, an existing one keeps
its contents).  A second `luaW_hold` right after returns false and changes
nothing. -/
theorem C8_hold_idempotent (T : TypeId) (p : Ptr) (s : LuaState) (hr : Ready s) :
    (HoldFlag s p = true → luaW_hold T p s = Outcome.ok false s) ∧
    (HoldFlag s p = false → ∃ s', luaW_hold T p s = Outcome.ok true s' ∧
      HoldFlag s' p = true ∧
      (∀ q, q ≠ p → HoldFlag s' q = HoldFlag s q) ∧
      s'.heap TableId.counts = s.heap TableId.counts ∧
      (∀ q, q ≠ p → StorageTable s' q = StorageTable s q) ∧
      ((0 < RefCount s p ∧ StorageTable s p = Value.nil) →
        StorageTable s' p = Value.table (TableId.anon s.nextTable) ∧
        s'.heap (TableId.anon s.nextTable) = [] ∧
        ∀ id, id ≠ TableId.holds → id ≠ TableId.storage → id ≠ TableId.anon s.nextTable →
          s'.heap id = s.heap id) ∧
      (¬ (0 < RefCount s p ∧ StorageTable s p = Value.nil) →
        ∀ id, id ≠ TableId.holds → s'.heap id = s.heap id) ∧
      s'.udata = s.udata ∧ s'.registry = s.registry ∧ s'.log = s.log ∧
      luaW_hold T p s' = Outcome.ok false s') := by
  constructor
  · exact luaW_hold_held T p s hr
  intro hh
  have hset : ∀ t : Table, ((t.set (Value.lightud p) (Value.bool true)).get
      (Value.lightud p)).toBoolean = true := by
    intro t
    simp [Table.get_set_self, Value.toBoolean]
  have hother : ∀ (t : Table) (q : Ptr), q ≠ p →
      (t.set (Value.lightud p) (Value.bool true)).get (Value.lightud q) =
        t.get (Value.lightud q) := by
    intro t q hq
    exact Table.get_set_ne _ _ _ _ (by simpa using hq)
  by_cases hc : 0 < RefCount s p
  · by_cases hs : StorageTable s p = Value.nil
    · have heq := luaW_hold_fresh T p s hr hh hc hs
      refine ⟨_, heq, ?_, ?_, ?_, ?_, ?_, ?_, rfl, rfl, rfl, ?_⟩
      · simp [HoldFlag, hset]
      · intro q hq
        simp [HoldFlag, hother _ q hq]
      · simp
      · intro q hq
        have : Value.lightud q ≠ Value.lightud p := by simpa using hq
        simp [StorageTable, Table.get_set_ne _ _ _ _ this]
      · intro _
        refine ⟨?_, ?_, ?_⟩
        · simp [StorageTable, Table.get_set_self]
        · simp
        · intro id h1 h2 h3
          simp [Function.update_noteq h1, Function.update_noteq h2, Function.update_noteq h3]
      · intro hn
        exact absurd ⟨hc, hs⟩ hn
      · apply luaW_hold_held
        · have := Ready_hold s
            (Function.update
              (Function.update
                (Function.update s.heap TableId.holds
                  ((s.heap TableId.holds).set (Value.lightud p) (Value.bool true)))
                (TableId.anon s.nextTable) [])
              TableId.storage
              ((s.heap TableId.storage).set (Value.lightud p)
                (Value.table (TableId.anon s.nextTable))))
            s.nextTable s.stack (by simp) hr
          exact this
        · simp [HoldFlag, hset]
    · have heq := luaW_hold_stored T p s hr hh hc hs
      refine ⟨_, heq, ?_, ?_, ?_, ?_, ?_, ?_, rfl, rfl, rfl, ?_⟩
      · simp [HoldFlag, hset]
      · intro q hq
        simp [HoldFlag, hother _ q hq]
      · simp
      · intro q _
        simp [StorageTable]
      · intro h
        exact absurd h.2 hs
      · intro _ id hid
        simp [Function.update_noteq hid]
      · apply luaW_hold_held
        · exact Ready_congr s _ rfl (by simp) rfl hr
        · simp [HoldFlag, hset]
  · have heq := luaW_hold_nocount T p s hr hh (by omega)
    refine ⟨_, heq, ?_, ?_, ?_, ?_, ?_, ?_, rfl, rfl, rfl, ?_⟩
    · simp [HoldFlag, hset]
    · intro q hq
      simp [HoldFlag, hother _ q hq]
    · simp
    · intro q _
      simp [StorageTable]
    · intro h
      exact absurd h.1 hc
    · intro _ id hid
      simp [Function.update_noteq hid]
    · apply luaW_hold_held
      · exact Ready_congr s _ rfl (by simp) rfl hr
      · simp [HoldFlag, hset]

/-- Witness of C8 on the example state. -/
theorem C8_hold_idempotent_witness :
    Ready demo ∧
    (HoldFlag demo 100 = true → luaW_hold 0 100 demo = Outcome.ok false demo) ∧
    (HoldFlag demo 100 = false → ∃ s', luaW_hold 0 100 demo = Outcome.ok true s' ∧
      HoldFlag s' 100 = true ∧
      (∀ q, q ≠ 100 → HoldFlag s' q = HoldFlag demo q) ∧
      s'.heap TableId.counts = demo.heap TableId.counts ∧
      (∀ q, q ≠ 100 → StorageTable s' q = StorageTable demo q) ∧
      ((0 < RefCount demo 100 ∧ StorageTable demo 100 = Value.nil) →
        StorageTable s' 100 = Value.table (TableId.anon demo.nextTable) ∧
        s'.heap (TableId.anon demo.nextTable) = [] ∧
        ∀ id, id ≠ TableId.holds → id ≠ TableId.storage → id ≠ TableId.anon demo.nextTable →
          s'.heap id = demo.heap id) ∧
      (¬ (0 < RefCount demo 100 ∧ StorageTable demo 100 = Value.nil) →
        ∀ id, id ≠ TableId.holds → s'.heap id = demo.heap id) ∧
      s'.udata = demo.udata ∧ s'.registry = demo.registry ∧ s'.log = demo.log ∧
      luaW_hold 0 100 s' = Outcome.ok false s') :=
  ⟨demo_ready, C8_hold_idempotent 0 100 demo demo_ready⟩

theorem luaW_is_loop (es : List (Value × Value)) (s : LuaState) (k0 ext tm um : Value)
    (stk : List Value) (hs : s.stack = k0 :: ext :: tm :: um :: stk) :
    forPairsLoop luaW_is_body es false s =
      Outcome.ok (es.any (fun e => decide (e.2 = tm))) { s with stack := ext :: tm :: um :: stk } := by
  induction es generalizing s k0 with
  | nil =>
    simp [forPairsLoop, lua_pop, hs, popN]
  | cons e es ih =>
    obtain ⟨k, v⟩ := e
    by_cases hv : v = tm
    · simp [forPairsLoop, lua_pop, hs, popN, push, luaW_is_body, lua_rawequal, hv]
    · have := ih { s with stack := k :: ext :: tm :: um :: stk } k rfl
      simp [forPairsLoop, lua_pop, hs, popN, push, luaW_is_body, lua_rawequal, hv, this]

theorem forPairs_is_state (s s1 : LuaState) (ext tm um : Value) (stk : List Value) (b : Bool)
    (hs : s.stack = ext :: tm :: um :: stk)
    (h : forPairs (-2) false luaW_is_body s = Outcome.ok b s1) :
    s1 = { s with stack := ext :: tm :: um :: stk } := by
  cases hext : ext with
  | table id =>
    have := luaW_is_loop (s.heap id) { s with stack := Value.nil :: ext :: tm :: um :: stk }
      Value.nil ext tm um stk rfl
    rw [hext] at this
    simp [forPairs, lua_pushnil, push, valueAt, hs, hext, getState, this] at h
    rw [← h.2]
  | _ =>
    simp [forPairs, lua_pushnil, push, valueAt, hs, hext, raise] at h

theorem indexPlain_state (t k v : Value) (s s1 : LuaState)
    (h : indexPlain t k s = Outcome.ok v s1) : s1 = s := by
  unfold indexPlain at h
  split at h
  · split at h
    · split at h
      · split at h
        · simp at h; exact h.2.symm
        · simp at h
      · simp at h; exact h.2.symm
    · simp at h; exact h.2.symm
  · simp at h
  · simp at h

theorem luaW_is_state (T : TypeId) (idx : Int) (strict : Bool) (s s1 : LuaState) (b : Bool)
    (h : luaW_is T idx strict s = Outcome.ok b s1) : s1 = s := by
  by_cases hnn : (match stackAt s.stack idx with
      | Value.userdata u => Block.full u
      | Value.lightud p => Block.light p
      | _ => Block.null).nonNull = true
  swap
  · simp [luaW_is, lua_touserdata, hnn] at h
    exact h.2.symm
  by_cases hm : metatableOf s (stackAt s.stack idx) = Value.nil
  · simp [luaW_is, lua_touserdata, hnn, lua_getmetatable_none idx s hm] at h
    exact h.2.symm
  have hg := lua_getmetatable_some idx s _ rfl hm
  generalize metatableOf s (stackAt s.stack idx) = m at hg hm
  cases hc : s.classname T with
  | none =>
    simp [luaW_is, lua_touserdata, hnn, hg, classnameOf, hc, luaL_getmetatable, raise] at h
  | some cn =>
    by_cases hcond : ¬ s.registry.get (Value.str cn) = m ∧ strict = false
    swap
    · simp [luaW_is, lua_touserdata, hnn, hg, classnameOf, hc, luaL_getmetatable, luaW_getregistry,
        push, lua_rawequal, hcond, lua_pop, popN] at h
      exact h.2.symm
    · have hb : (!decide (s.registry.get (Value.str cn) = m) && !strict) = true := by
        simp [hcond.1, hcond.2]
      simp only [luaW_is, lua_touserdata, hnn, hg, classnameOf, hc, luaL_getmetatable,
        luaW_getregistry, push, lua_rawequal, bind_apply, pure_apply, if_true, stackAt_m1, stackAt_m2,
        hb, lua_getfield0, valueAt] at h
      cases hi : indexPlain m (Value.str LUAW_EXTENDS_KEY)
          { s with stack := s.registry.get (Value.str cn) :: m :: s.stack } with
      | raise e s' => simp [hi] at h
      | ok ext s2 =>
        have hs2 := indexPlain_state _ _ _ _ _ hi
        subst hs2
        simp only [hi] at h
        have hcond' : decide (s.registry.get (Value.str cn) = m) = false := by
          simp [hcond.1]
        simp only [hcond'] at h
        cases hf : forPairs (-2) false luaW_is_body
            { s with stack := ext :: s.registry.get (Value.str cn) :: m :: s.stack } with
        | raise e s' => simp [hf] at h
        | ok b' s3 =>
          have hs3 := forPairs_is_state _ _ ext _ m s.stack b' rfl hf
          subst hs3
          simp [hf, lua_pop, popN] at h
          exact h.2.symm

theorem foreignState_eq : foreignState = { demo with
    stack := [Value.userdata 0],
    udata := Function.update demo.udata 0 { ptr := 7, mt := Value.table (TableId.anon 1) },
    nextUd := 1,
    heap := Function.update demo.heap (TableId.anon 1) [],
    tmeta := Function.update demo.tmeta (TableId.anon 1) Value.nil,
    nextTable := 2 } := by
  simp [foreignState, lua_newuserdata, lua_newtable, lua_setmetatable, Outcome.state, demo]

/-- What holds of `luaW_to` and `luaW_check` relative to `luaW_is`: when
`luaW_is<T>` returns true the value is a full userdata and both return its
pointer; when it returns false `luaW_to` returns `NULL` and `luaW_check` raises
the type error; the state is not changed. -/
theorem luaW_to_check_of_is (T : TypeId) (idx : Int) (s s1 : LuaState) (b : Bool)
    (h : luaW_is T idx false s = Outcome.ok b s1) :
    s1 = s ∧
    (b = true → ∃ u, stackAt s.stack idx = Value.userdata u ∧
      luaW_to T idx s = Outcome.ok (s.udata u).ptr s ∧
      luaW_check T idx s = Outcome.ok (s.udata u).ptr s) ∧
    (b = false → luaW_to T idx s = Outcome.ok NULL s ∧
      luaW_check T idx s = Outcome.raise (LuaError.typeMismatch idx (s.classname T)) s) := by
  have hs := luaW_is_state T idx false s s1 b h
  subst hs
  refine ⟨rfl, ?_, ?_⟩
  · intro hb
    subst hb
    cases hv : stackAt s1.stack idx with
    | userdata u =>
      exact ⟨u, rfl, by simp [luaW_to, h, lua_touserdata, hv, derefBlock],
        by simp [luaW_check, h, lua_touserdata, hv, derefBlock]⟩
    | lightud p =>
      exfalso
      by_cases hp : p = NULL
      · simp [luaW_is, lua_touserdata, hv, Block.nonNull, hp] at h
      · simp [luaW_is, lua_touserdata, hv, Block.nonNull, hp,
          lua_getmetatable_none idx s1 (by rw [hv]; rfl)] at h
    | _ =>
      exfalso
      simp [luaW_is, lua_touserdata, hv, Block.nonNull] at h
  · intro hb
    subst hb
    exact ⟨by simp [luaW_to, h], by simp [luaW_check, h, luaL_typerror, classnameOf, raise]⟩

/-- C6 (failing input): on a full userdata that carries a metatable of another
library, `luaW_to<T>` and `luaW_check<T>` neither return `NULL` nor raise the
type error: `luaW_is` reads the missing `__extends` field of that metatable and
runs `lua_next` on the resulting nil. -/
theorem C6_foreign_userdata :
    stackAt foreignState.stack (-1) = Value.userdata 0 ∧
    (foreignState.udata 0).mt = Value.table (TableId.anon 1) ∧
    foreignState.heap (TableId.anon 1) = [] ∧
    (luaW_is 0 (-1) false foreignState).error? = some (LuaError.apiMisuse "lua_next") ∧
    (luaW_to 0 (-1) foreignState).error? = some (LuaError.apiMisuse "lua_next") ∧
    (luaW_check 0 (-1) foreignState).error? = some (LuaError.apiMisuse "lua_next") := by
  have his : (luaW_is 0 (-1) false foreignState).error? = some (LuaError.apiMisuse "lua_next") := by
    rw [foreignState_eq]
    simp [luaW_is, lua_touserdata, Block.nonNull, lua_getmetatable, metatableOf, classnameOf,
      luaL_getmetatable, luaW_getregistry, push, lua_rawequal, demo, Table.get, lua_getfield0,
      valueAt, indexPlain, demoHeap, forPairs, lua_pushnil, raise, Outcome.error?,
      LUAW_EXTENDS_KEY]
  refine ⟨?_, ?_, ?_, his, ?_, ?_⟩
  · rw [foreignState_eq]; rfl
  · rw [foreignState_eq]; simp
  · rw [foreignState_eq]; simp
  · cases h : luaW_is 0 (-1) false foreignState with
    | ok b s' => simp [h, Outcome.error?] at his
    | raise e s' =>
      simp [h, Outcome.error?] at his
      simp [luaW_to, h, Outcome.error?, his]
  · cases h : luaW_is 0 (-1) false foreignState with
    | ok b s' => simp [h, Outcome.error?] at his
    | raise e s' =>
      simp [h, Outcome.error?] at his
      simp [luaW_check, h, Outcome.error?, his]

/-- C1 (failing input): on the example state push a handle of `p`, hold `p`
and release it again: the hold flag of `p` is false and its reference count is
one.  Finalizing the handle then calls the `__dtor` hook and deletes `p`. -/
theorem C1_release_then_finalize_deletes :
    HoldFlag ((do luaW_push 0 100; let _ ← luaW_hold 0 100; luaW_release 0 100 : LuaM Unit)
      demo).state 100 = false ∧
    RefCount ((do luaW_push 0 100; let _ ← luaW_hold 0 100; luaW_release 0 100 : LuaM Unit)
      demo).state 100 = 1 ∧
    ((do luaW_push 0 100; let _ ← luaW_hold 0 100; luaW_release 0 100; finalize 0 : LuaM Unit)
      demo).state.log =
      [Event.call (Value.func (CFun.host "Widget_dtor")) [Value.userdata 1], Event.delete 100] := by
  refine ⟨?_, ?_, ?_⟩ <;>
  simp [luaW_push, lua_newuserdata, luaL_getmetatable, classnameOf, lua_setmetatable,
    lua_gettable, lua_tointeger, lua_pushinteger, luaW_getregistry, push, lua_getfield, valueAt,
    indexValue, assignValue, rawStore, lua_pushlightuserdata, lua_settable, popValue,
    lua_pop, popN, demo, demoHeap, Table.get, Table.set, Table.erase, Value.toInteger,
    luaW_hold, lua_rawget, lua_rawset, lua_toboolean, Value.toBoolean, lua_pushboolean,
    lua_isnoneornil, lua_newtable, luaW_release, lua_pushnil, finalize, callFrame, luaW__gc,
    luaW_to, luaW_is, lua_touserdata, Block.nonNull, lua_getmetatable, metatableOf,
    lua_rawequal, derefBlock, luaW_destructor, indexHandler, luaW__index, lua_getfield0,
    indexPlain, lua_pushvalue, lua_isfunction, lua_call, popArgs, callValue, emit, luaW_clean,
    Outcome.state, NULL, LUAW_WRAPPER_KEY, LUAW_COUNT_KEY, LUAW_HOLDS_KEY, LUAW_STORAGE_KEY,
    LUAW_DTOR_KEY, Function.update, HoldFlag, RefCount]

/-- C3 (failing input): on the example state push one handle of `p` and hold
`p`.  Finalizing that handle deletes `p` and leaves the handle the destructor
made (block 1) with a reference count of one; finalizing that handle, with no
hold in between, deletes `p` a second time. -/
theorem C3_double_delete :
    ((do luaW_push 0 100; let _ ← luaW_hold 0 100; finalize 0; finalize 1 : LuaM Unit)
      demo).state.log =
      [Event.call (Value.func (CFun.host "Widget_dtor")) [Value.userdata 1], Event.delete 100,
       Event.call (Value.func (CFun.host "Widget_dtor")) [Value.userdata 2], Event.delete 100] ∧
    deletions 100 ((do luaW_push 0 100; let _ ← luaW_hold 0 100; finalize 0; finalize 1 :
      LuaM Unit) demo).state.log = 2 := by
  have h : ((do luaW_push 0 100; let _ ← luaW_hold 0 100; finalize 0; finalize 1 : LuaM Unit)
      demo).state.log =
      [Event.call (Value.func (CFun.host "Widget_dtor")) [Value.userdata 1], Event.delete 100,
       Event.call (Value.func (CFun.host "Widget_dtor")) [Value.userdata 2], Event.delete 100] := by
    simp [luaW_push, lua_newuserdata, luaL_getmetatable, classnameOf, lua_setmetatable,
      lua_gettable, lua_tointeger, lua_pushinteger, luaW_getregistry, push, lua_getfield, valueAt,
      indexValue, assignValue, rawStore, lua_pushlightuserdata, lua_settable, popValue,
      lua_pop, popN, demo, demoHeap, Table.get, Table.set, Table.erase, Value.toInteger,
      luaW_hold, lua_rawget, lua_rawset, lua_toboolean, Value.toBoolean, lua_pushboolean,
      lua_isnoneornil, lua_newtable, luaW_release, lua_pushnil, finalize, callFrame, luaW__gc,
      luaW_to, luaW_is, lua_touserdata, Block.nonNull, lua_getmetatable, metatableOf,
      lua_rawequal, derefBlock, luaW_destructor, indexHandler, luaW__index, lua_getfield0,
      indexPlain, lua_pushvalue, lua_isfunction, lua_call, popArgs, callValue, emit, luaW_clean,
      Outcome.state, NULL, LUAW_WRAPPER_KEY, LUAW_COUNT_KEY, LUAW_HOLDS_KEY, LUAW_STORAGE_KEY,
      LUAW_DTOR_KEY, Function.update]
  refine ⟨h, ?_⟩
  rw [h]
  decide

/-- C10 (failing input): the example type is registered with the custom
deallocator `Widget_free`.  Finalizing the only handle of a held object
destroys it by `delete`; the stored deallocator is not called. -/
theorem C10_custom_deallocator_unused :
    demo.deallocator 0 = Deallocator.custom "Widget_free" ∧
    ((do luaW_push 0 100; let _ ← luaW_hold 0 100; finalize 0 : LuaM Unit) demo).state.log =
      [Event.call (Value.func (CFun.host "Widget_dtor")) [Value.userdata 1], Event.delete 100] ∧
    Event.deallocate (Deallocator.custom "Widget_free") 100 ∉
      ((do luaW_push 0 100; let _ ← luaW_hold 0 100; finalize 0 : LuaM Unit) demo).state.log := by
  have h : ((do luaW_push 0 100; let _ ← luaW_hold 0 100; finalize 0 : LuaM Unit)
      demo).state.log =
      [Event.call (Value.func (CFun.host "Widget_dtor")) [Value.userdata 1], Event.delete 100] := by
    simp [luaW_push, lua_newuserdata, luaL_getmetatable, classnameOf, lua_setmetatable,
      lua_gettable, lua_tointeger, lua_pushinteger, luaW_getregistry, push, lua_getfield, valueAt,
      indexValue, assignValue, rawStore, lua_pushlightuserdata, lua_settable, popValue,
      lua_pop, popN, demo, demoHeap, Table.get, Table.set, Table.erase, Value.toInteger,
      luaW_hold, lua_rawget, lua_rawset, lua_toboolean, Value.toBoolean, lua_pushboolean,
      lua_isnoneornil, lua_newtable, luaW_release, lua_pushnil, finalize, callFrame, luaW__gc,
      luaW_to, luaW_is, lua_touserdata, Block.nonNull, lua_getmetatable, metatableOf,
      lua_rawequal, derefBlock, luaW_destructor, indexHandler, luaW__index, lua_getfield0,
      indexPlain, lua_pushvalue, lua_isfunction, lua_call, popArgs, callValue, emit, luaW_clean,
      Outcome.state, NULL, LUAW_WRAPPER_KEY, LUAW_COUNT_KEY, LUAW_HOLDS_KEY, LUAW_STORAGE_KEY,
      LUAW_DTOR_KEY, Function.update]
  refine ⟨by simp [demo], h, ?_⟩
  rw [h]
  simp

theorem pushN_eq (T : TypeId) (p : Ptr) (cn : String) (n : Nat) :
    ∀ s : LuaState, Ready s → Registered s T cn →
    ∃ s', pushN T p n s = Outcome.ok () s' ∧ Ready s' ∧ Registered s' T cn ∧
      RefCount s' p = RefCount s p + n ∧
      (∀ id, id ≠ TableId.counts → s'.heap id = s.heap id) ∧
      s'.tmeta = s.tmeta ∧ s'.nextTable = s.nextTable ∧ s'.nextUd = s.nextUd + n ∧
      (∀ u, u < s.nextUd → s'.udata u = s.udata u) ∧
      (∀ i, i < n → s'.udata (s.nextUd + i) = { ptr := p, mt := Value.table (TableId.mt cn) }) ∧
      s'.log = s.log := by
  induction n with
  | zero =>
    intro s hr hreg
    exact ⟨s, rfl, hr, hreg, by simp, fun _ _ => rfl, rfl, rfl, rfl, fun _ _ => rfl,
      fun i hi => absurd hi (Nat.not_lt_zero i), rfl⟩
  | succ n ih =>
    intro s hr hreg
    have hpush := luaW_push_eq T p s hr cn hreg.1
    rw [hreg.2.1] at hpush
    obtain ⟨s1, hs1⟩ : ∃ s1 : LuaState, s1 = { s with
      stack := Value.userdata s.nextUd :: s.stack,
      udata := Function.update s.udata s.nextUd { ptr := p, mt := Value.table (TableId.mt cn) },
      nextUd := s.nextUd + 1,
      heap := Function.update s.heap TableId.counts ((s.heap TableId.counts).set (Value.lightud p)
        (Value.int (RefCount s p + 1))) } := ⟨_, rfl⟩
    rw [← hs1] at hpush
    have hr1 : Ready s1 := Ready_congr s s1 (by simp [hs1]) (by simp [hs1]) (by simp [hs1]) hr
    have hreg1 : Registered s1 T cn :=
      Registered_congr s s1 T cn (by simp [hs1]) (by simp [hs1]) (by simp [hs1]) hreg
    obtain ⟨s', h1, h2, h3, h4, h5, h6, h7, h8, h9, h10, h11⟩ := ih s1 hr1 hreg1
    refine ⟨s', ?_, h2, h3, ?_, ?_, ?_, ?_, ?_, ?_, ?_, ?_⟩
    · simp [pushN, hpush, h1]
    · rw [h4]
      simp [hs1, RefCount, Table.get_set_self, Value.toInteger]
      ring
    · intro id hid
      rw [h5 id hid]
      simp [hs1, Function.update_noteq hid]
    · rw [h6]; simp [hs1]
    · rw [h7]; simp [hs1]
    · rw [h8]; simp [hs1]; ring
    · intro u hu
      rw [h9 u (by simp [hs1]; omega)]
      simp [hs1, Function.update_noteq (Nat.ne_of_lt hu)]
    · intro i hi
      cases i with
      | zero =>
        rw [h9 _ (by simp [hs1])]
        simp [hs1]
      | succ i =>
        have := h10 i (by omega)
        have e : s1.nextUd + i = s.nextUd + (i + 1) := by simp [hs1]; ring
        rw [e] at this
        exact this
    · rw [h11]; simp [hs1]

theorem deletions_append (p : Ptr) (l1 l2 : List Event) :
    deletions p (l1 ++ l2) = deletions p l1 + deletions p l2 := by
  simp [deletions, List.count_append]

theorem deletions_hook (p : Ptr) (hook : Value) (u : Nat) :
    deletions p (if hook.isFunction then [Event.call hook [Value.userdata u]] else []) = 0 := by
  unfold deletions
  split <;> simp

theorem Table.mem_erase (t : Table) (k : Value) (e : Value × Value) (h : e ∈ Table.erase t k) :
    e ∈ t := by
  induction t with
  | nil => simp [Table.erase] at h
  | cons x t ih =>
    obtain ⟨k', v⟩ := x
    by_cases hk : k' = k
    · simp [Table.erase, hk] at h
      exact List.mem_cons_of_mem _ (ih h)
    · simp [Table.erase, hk] at h
      rcases h with h | h
      · simp [h]
      · exact List.mem_cons_of_mem _ (ih h)

theorem Table.mem_set (t : Table) (k v : Value) (e : Value × Value) (h : e ∈ Table.set t k v) :
    e = (k, v) ∨ e ∈ t := by
  unfold Table.set at h
  split at h
  · exact Or.inr (Table.mem_erase t k e h)
  · simp at h
    rcases h with h | h
    · exact Or.inl h
    · exact Or.inr (Table.mem_erase t k e h)

theorem Table.mem_of_get (t : Table) (k v : Value) (h : t.get k = v) (hv : v ≠ Value.nil) :
    (k, v) ∈ t := by
  induction t with
  | nil => simp [Table.get] at h; exact absurd h.symm hv
  | cons x t ih =>
    obtain ⟨k', v'⟩ := x
    by_cases hk : k' = k
    · simp [Table.get, hk] at h
      simp [hk, h]
    · simp [Table.get, hk] at h
      exact List.mem_cons_of_mem _ (ih h)

/-- The table a `luaL_reg` array leaves: each function stored under its name. -/
theorem registerFuncs_plain (id : TableId) (l : List (String × CFun)) :
    ∀ (s : LuaState) (stk : List Value), s.stack = Value.table id :: stk →
      s.tmeta id = Value.nil →
      ∃ tbl, registerFuncs l s = Outcome.ok () { s with heap := Function.update s.heap id tbl } ∧
        ∀ key, (∀ m ∈ l, key ≠ Value.str m.1) → tbl.get key = (s.heap id).get key := by
  induction l with
  | nil =>
    intro s stk _ _
    exact ⟨s.heap id, by simp [registerFuncs], fun _ _ => rfl⟩
  | cons m l ih =>
    intro s stk hstk htm
    obtain ⟨name, f⟩ := m
    obtain ⟨tbl, h1, h2⟩ := ih
      { s with
        heap := Function.update s.heap id ((s.heap id).set (Value.str name) (Value.func f)) }
      stk hstk htm
    refine ⟨tbl, ?_, ?_⟩
    · simp [registerFuncs, push, lua_setfield, valueAt, popValue, hstk, assignValue_table, htm]
      rw [← hstk]
      simpa using h1
    · intro key hkey
      rw [h2 key (fun m hm => hkey m (List.mem_cons_of_mem _ hm))]
      simp only [Function.update_same]
      exact Table.get_set_ne _ _ _ _ (hkey (name, f) (List.mem_cons_self _ _))

theorem copyExtends_loop (X : TableId) (es : List (Value × Value)) :
    ∀ (s : LuaState) (k0 a c d : Value) (stk : List Value),
      s.stack = k0 :: a :: Value.table X :: c :: d :: stk →
      forPairsLoop copyExtends es () s = Outcome.ok () { s with
        stack := a :: Value.table X :: c :: d :: stk,
        heap := Function.update s.heap X (foldSet (s.heap X) es) } := by
  induction es with
  | nil =>
    intro s k0 a c d stk hstk
    simp [forPairsLoop, lua_pop, popN, hstk, foldSet]
  | cons e es ih =>
    intro s k0 a c d stk hstk
    obtain ⟨k, v⟩ := e
    have := ih { s with
      stack := k :: a :: Value.table X :: c :: d :: stk,
      heap := Function.update s.heap X ((s.heap X).set k v) } k a c d stk rfl
    simp [forPairsLoop, lua_pop, popN, hstk, push, copyExtends, lua_pushvalue, lua_rawset, this,
      foldSet]

theorem copyMethod_loop (M : TableId) (es : List (Value × Value)) :
    ∀ (s : LuaState) (k0 a : Value) (stk : List Value),
      s.stack = k0 :: a :: Value.table M :: stk → s.tmeta M = Value.nil →
      forPairsLoop copyMethod es () s = Outcome.ok () { s with
        stack := a :: Value.table M :: stk,
        heap := Function.update s.heap M (foldFill (s.heap M) es) } := by
  induction es with
  | nil =>
    intro s k0 a stk hstk _
    simp [forPairsLoop, lua_pop, popN, hstk, foldFill]
  | cons e es ih =>
    intro s k0 a stk hstk htm
    obtain ⟨k, v⟩ := e
    by_cases hk : (s.heap M).get k = Value.nil
    · have := ih { s with
        stack := k :: a :: Value.table M :: stk,
        heap := Function.update s.heap M ((s.heap M).set k v) } k a stk rfl htm
      simp [forPairsLoop, lua_pop, popN, hstk, push, copyMethod, lua_pushvalue, lua_rawset,
        lua_gettable, valueAt, popValue, indexValue_table, htm, lua_isnoneornil, hk, this,
        foldFill]
    · have := ih { s with stack := k :: a :: Value.table M :: stk } k a stk rfl htm
      simp [forPairsLoop, lua_pop, popN, hstk, push, copyMethod, lua_pushvalue, lua_rawset,
        lua_gettable, valueAt, popValue, indexValue_table, htm, lua_isnoneornil, hk, this,
        foldFill]

theorem foldFill_get (es : List (Value × Value)) (t : Table) (key : Value)
    (h : t.get key ≠ Value.nil) : (foldFill t es).get key = t.get key := by
  induction es generalizing t with
  | nil => rfl
  | cons e es ih =>
    obtain ⟨k, v⟩ := e
    simp only [foldFill, List.foldl_cons]
    by_cases hk : t.get k = Value.nil
    · simp only [hk, if_true]
      have hne : key ≠ k := by
        intro he
        rw [he] at h
        exact h hk
      have e1 : (t.set k v).get key = t.get key := Table.get_set_ne _ _ _ _ hne
      have := ih (t.set k v) (by rw [e1]; exact h)
      simp only [foldFill] at this
      rw [this, e1]
    · simp only [hk, if_false]
      have := ih t h
      simp only [foldFill] at this
      exact this

theorem forPairs_copyExtends (s : LuaState) (E X : TableId) (c d : Value) (stk : List Value)
    (hstk : s.stack = Value.table E :: Value.table X :: c :: d :: stk) :
    forPairs (-2) () copyExtends s = Outcome.ok () { s with
      heap := Function.update s.heap X (foldSet (s.heap X) (s.heap E)) } := by
  have := copyExtends_loop X (s.heap E)
    { s with stack := Value.nil :: Value.table E :: Value.table X :: c :: d :: stk }
    Value.nil (Value.table E) c d stk rfl
  simp [forPairs, lua_pushnil, push, valueAt, hstk, getState, this]

theorem forPairs_copyMethod (s : LuaState) (E M : TableId) (stk : List Value)
    (hstk : s.stack = Value.table E :: Value.table M :: stk) (htm : s.tmeta M = Value.nil) :
    forPairs (-2) () copyMethod s = Outcome.ok () { s with
      heap := Function.update s.heap M (foldFill (s.heap M) (s.heap E)) } := by
  have := copyMethod_loop M (s.heap E)
    { s with stack := Value.nil :: Value.table E :: Value.table M :: stk }
    Value.nil (Value.table E) stk rfl htm
  simp [forPairs, lua_pushnil, push, valueAt, hstk, getState, this]

theorem foldSet_mem (es : List (Value × Value)) (t : Table) (e : Value × Value)
    (h : e ∈ foldSet t es) : e ∈ t ∨ e ∈ es := by
  induction es generalizing t with
  | nil => exact Or.inl h
  | cons x es ih =>
    simp only [foldSet, List.foldl_cons] at h
    rcases ih (t.set x.1 x.2) h with h1 | h1
    · rcases Table.mem_set t x.1 x.2 e h1 with h2 | h2
      · right
        rw [h2]
        exact List.mem_cons_self _ _
      · exact Or.inl h2
    · exact Or.inr (List.mem_cons_of_mem _ h1)

theorem Has_set (t : Table) (x : Value × Value) (a : String) (hx : Canon x) (h : Has t a) :
    Has (t.set x.1 x.2) a := by
  unfold Has at *
  by_cases hk : Value.str a = x.1
  · obtain ⟨b, hb1, hb2⟩ := hx
    rw [hk, Table.get_set_self, hb2]
    rw [hb1] at hk
    injection hk with hk
    rw [hk]
  · rw [Table.get_set_ne _ _ _ _ hk]
    exact h

theorem foldSet_has (es : List (Value × Value)) (t : Table) (a : String)
    (hes : ∀ e ∈ es, Canon e) (h : Has t a) : Has (foldSet t es) a := by
  induction es generalizing t with
  | nil => exact h
  | cons x es ih =>
    simp only [foldSet, List.foldl_cons]
    exact ih (t.set x.1 x.2) (fun e he => hes e (List.mem_cons_of_mem _ he))
      (Has_set t x a (hes x (List.mem_cons_self _ _)) h)

theorem foldSet_has_mem (es : List (Value × Value)) (t : Table) (a : String)
    (hes : ∀ e ∈ es, Canon e) (h : (Value.str a, Value.table (TableId.mt a)) ∈ es) :
    Has (foldSet t es) a := by
  induction es generalizing t with
  | nil => simp at h
  | cons x es ih =>
    simp only [foldSet, List.foldl_cons]
    rcases List.mem_cons.mp h with h1 | h1
    · have hx : Has (t.set x.1 x.2) a := by
        rw [← h1]
        simp [Has, Table.get_set_self]
      exact foldSet_has es _ a (fun e he => hes e (List.mem_cons_of_mem _ he)) hx
    · exact ih (t.set x.1 x.2) (fun e he => hes e (List.mem_cons_of_mem _ he)) h1

theorem extendLoop_eq (all : List ClassDecl) (cn : String) (nt : Nat) (es : List String) :
    ∀ (s : LuaState) (stk : List Value) (A : String → Prop),
      s.stack = Value.table (TableId.mt cn) :: stk →
      s.tmeta (TableId.mt cn) = Value.nil →
      s.tmeta (TableId.anon nt) = Value.nil →
      (s.heap (TableId.mt cn)).get (Value.str LUAW_EXTENDS_KEY) = Value.table (TableId.anon nt) →
      (∀ e ∈ es, e ≠ cn ∧ s.registry.get (Value.str e) = Value.table (TableId.mt e) ∧
        s.tmeta (TableId.mt e) = Value.nil ∧ Extends all cn e ∧
        ∃ ke, ke ≠ nt ∧
          (s.heap (TableId.mt e)).get (Value.str LUAW_EXTENDS_KEY) = Value.table (TableId.anon ke) ∧
          ExtOK all (s.heap (TableId.anon ke)) e) →
      (∀ x ∈ s.heap (TableId.anon nt),
        ∃ a, x.1 = Value.str a ∧ x.2 = Value.table (TableId.mt a) ∧ Extends all cn a) →
      (∀ a, A a → Has (s.heap (TableId.anon nt)) a) →
      ∃ h', extendLoop cn es s = Outcome.ok () { s with heap := h' } ∧
        (∀ id, id ≠ TableId.mt cn → id ≠ TableId.anon nt → h' id = s.heap id) ∧
        (h' (TableId.mt cn)).get (Value.str LUAW_EXTENDS_KEY) = Value.table (TableId.anon nt) ∧
        (∀ x ∈ h' (TableId.anon nt),
          ∃ a, x.1 = Value.str a ∧ x.2 = Value.table (TableId.mt a) ∧ Extends all cn a) ∧
        (∀ a, (A a ∨ ∃ e ∈ es, a = e ∨ Extends all e a) → Has (h' (TableId.anon nt)) a) := by
  induction es with
  | nil =>
    intro s stk A _ _ _ hext _ hsound hA
    refine ⟨s.heap, by simp [extendLoop], fun _ _ _ => rfl, hext, hsound, ?_⟩
    intro a ha
    rcases ha with ha | ⟨e, he, _⟩
    · exact hA a ha
    · simp at he
  | cons e es ih =>
    intro s stk A hstk htM htX hext hes hsound hA
    obtain ⟨hne, hreg, hte, hpar, ke, hke, hee, hok⟩ := hes e (List.mem_cons_self _ _)
    have hMX : TableId.mt cn ≠ TableId.anon nt := by simp
    have hEX : TableId.mt e ≠ TableId.anon nt := by simp
    have hEM : TableId.mt e ≠ TableId.mt cn := by simpa using hne
    have hKX : TableId.anon ke ≠ TableId.anon nt := by simpa using hke
    have hKM : TableId.anon ke ≠ TableId.mt cn := by simp
    -- the state after this element of the array
    obtain ⟨s1, hs1⟩ : ∃ s1 : LuaState, s1 = { s with
      heap := Function.update
        (Function.update s.heap (TableId.anon nt)
          (foldSet ((s.heap (TableId.anon nt)).set (Value.str e) (Value.table (TableId.mt e)))
            (s.heap (TableId.anon ke))))
        (TableId.mt cn) (foldFill (s.heap (TableId.mt cn)) (s.heap (TableId.mt e))) } := ⟨_, rfl⟩
    have hcanon : ∀ x ∈ s.heap (TableId.anon ke), Canon x := by
      intro x hx
      obtain ⟨a, h1, h2, _⟩ := hok.1 x hx
      exact ⟨a, h1, h2⟩
    have hX1 : s1.heap (TableId.anon nt) =
        foldSet ((s.heap (TableId.anon nt)).set (Value.str e) (Value.table (TableId.mt e)))
          (s.heap (TableId.anon ke)) := by
      simp [hs1, Function.update_noteq hMX.symm]
    have hM1 : s1.heap (TableId.mt cn) = foldFill (s.heap (TableId.mt cn)) (s.heap (TableId.mt e)) := by
      simp [hs1]
    have hother1 : ∀ id, id ≠ TableId.mt cn → id ≠ TableId.anon nt → s1.heap id = s.heap id := by
      intro id h1 h2
      simp [hs1, Function.update_noteq h1, Function.update_noteq h2]
    have hhasE : Has (s1.heap (TableId.anon nt)) e := by
      rw [hX1]
      apply foldSet_has _ _ _ hcanon
      simp [Has, Table.get_set_self]
    obtain ⟨h', hrun, hfr, hext', hsound', hcomp'⟩ := ih s1 stk
      (fun a => A a ∨ a = e ∨ Extends all e a)
      (by simp [hs1, hstk]) (by simp [hs1, htM]) (by simp [hs1, htX])
      (by
        rw [hM1, foldFill_get _ _ _ (by rw [hext]; simp), hext])
      (by
        intro e' he'
        obtain ⟨h1, h2, h3, h4, ke', h5, h6, h7⟩ := hes e' (List.mem_cons_of_mem _ he')
        refine ⟨h1, by simpa [hs1] using h2, by simpa [hs1] using h3, h4, ke', h5, ?_, ?_⟩
        · rw [hother1 _ (by simpa using h1) (by simp)]
          exact h6
        · rw [hother1 _ (by simp) (by simpa using h5)]
          exact h7)
      (by
        intro x hx
        rw [hX1] at hx
        rcases foldSet_mem _ _ _ hx with hx | hx
        · rcases Table.mem_set _ _ _ _ hx with hx | hx
          · exact ⟨e, by rw [hx], by rw [hx], hpar⟩
          · exact hsound x hx
        · obtain ⟨a, h1, h2, h3⟩ := hok.1 x hx
          exact ⟨a, h1, h2, Relation.TransGen.trans hpar h3⟩)
      (by
        intro a ha
        rcases ha with ha | ha | ha
        · rw [hX1]
          apply foldSet_has _ _ _ hcanon
          exact Has_set _ (Value.str e, Value.table (TableId.mt e)) a ⟨e, rfl, rfl⟩ (hA a ha)
        · rw [ha]
          exact hhasE
        · rw [hX1]
          apply foldSet_has_mem _ _ _ hcanon
          exact Table.mem_of_get _ _ _ (hok.2 a ha) (by simp))
    refine ⟨h', ?_, ?_, hext', hsound', ?_⟩
    · -- symbolic execution of the loop body
      have hfp1 := forPairs_copyExtends
        { s with
          stack := Value.table (TableId.anon ke) :: Value.table (TableId.anon nt) ::
            Value.table (TableId.mt e) :: Value.table (TableId.mt cn) :: stk,
          heap := Function.update s.heap (TableId.anon nt)
            ((s.heap (TableId.anon nt)).set (Value.str e) (Value.table (TableId.mt e))) }
        (TableId.anon ke) (TableId.anon nt) (Value.table (TableId.mt e))
        (Value.table (TableId.mt cn)) stk rfl
      have hfp2 := forPairs_copyMethod
        { s with
          stack := Value.table (TableId.mt e) :: Value.table (TableId.mt cn) :: stk,
          heap := Function.update s.heap (TableId.anon nt)
            (foldSet ((s.heap (TableId.anon nt)).set (Value.str e) (Value.table (TableId.mt e)))
              (s.heap (TableId.anon ke))) }
        (TableId.mt e) (TableId.mt cn) stk rfl (by simpa using htM)
      simp only [Function.update_same, Function.update_noteq hKX, Function.update_idem,
        Function.update_noteq hMX, Function.update_noteq hEX] at hfp1 hfp2
      have hrun' : extendLoop cn es { s with
          stack := Value.table (TableId.mt cn) :: stk,
          heap := Function.update
            (Function.update s.heap (TableId.anon nt)
              (foldSet ((s.heap (TableId.anon nt)).set (Value.str e) (Value.table (TableId.mt e)))
                (s.heap (TableId.anon ke))))
            (TableId.mt cn) (foldFill (s.heap (TableId.mt cn)) (s.heap (TableId.mt e))) } =
          Outcome.ok () { s with heap := h' } := by
        rw [hs1] at hrun
        rw [← hstk]
        exact hrun
      simp [extendLoop, luaL_getmetatable, luaW_getregistry, push, hreg, lua_isnoneornil, hstk,
        lua_getfield, valueAt, indexValue_table, htM, hext, lua_pushvalue, lua_setfield, popValue,
        assignValue_table, htX, hte, Function.update_noteq hEX, hee, hfp1, lua_pop, popN, hfp2,
        hrun']
    · intro id h1 h2
      rw [hfr id h1 h2, hother1 id h1 h2]
    · intro a ha
      apply hcomp'
      rcases ha with ha | ⟨e', he', ha⟩
      · exact Or.inl (Or.inl ha)
      · rcases List.mem_cons.mp he' with h1 | h1
        · subst h1
          exact Or.inl (Or.inr ha)
        · exact Or.inr ⟨e', h1, ha⟩

theorem ensureWrapper_eq (s : LuaState)
    (h : Ready s ∨ s.registry.get (Value.str LUAW_WRAPPER_KEY) = Value.nil) :
    ∃ h' tm' r', ensureWrapper s = Outcome.ok () { s with heap := h', tmeta := tm', registry := r' } ∧
      Ready { s with heap := h', tmeta := tm', registry := r' } ∧
      (∀ n, n ≠ LUAW_WRAPPER_KEY → r'.get (Value.str n) = s.registry.get (Value.str n)) ∧
      (∀ n, h' (TableId.mt n) = s.heap (TableId.mt n)) ∧
      (∀ n, h' (TableId.static n) = s.heap (TableId.static n)) ∧
      (∀ n, h' (TableId.anon n) = s.heap (TableId.anon n)) ∧
      (∀ n, tm' (TableId.mt n) = s.tmeta (TableId.mt n)) ∧
      (∀ n, tm' (TableId.static n) = s.tmeta (TableId.static n)) ∧
      (∀ n, tm' (TableId.anon n) = s.tmeta (TableId.anon n)) := by
  by_cases hnil : s.registry.get (Value.str LUAW_WRAPPER_KEY) = Value.nil
  · refine ⟨Function.update
        (Function.update
          (Function.update
            (Function.update
              (Function.update
                (Function.update (Function.update s.heap TableId.wrapper []) TableId.counts [])
                TableId.wrapper [(Value.str "__counts", Value.table TableId.counts)])
              TableId.storage [])
            TableId.wrapper
            [(Value.str "__storage", Value.table TableId.storage),
              (Value.str "__counts", Value.table TableId.counts)])
          TableId.holds [])
        TableId.wrapper
        [(Value.str "__holds", Value.table TableId.holds),
          (Value.str "__storage", Value.table TableId.storage),
          (Value.str "__counts", Value.table TableId.counts)],
      Function.update
        (Function.update
          (Function.update (Function.update s.tmeta TableId.wrapper Value.nil)
            TableId.counts Value.nil)
          TableId.storage Value.nil)
        TableId.holds Value.nil,
      s.registry.set (Value.str LUAW_WRAPPER_KEY) (Value.table TableId.wrapper),
      ?_, ?_, ?_, ?_, ?_, ?_, ?_, ?_, ?_⟩
    · simp [ensureWrapper, luaW_getregistry, push, hnil, lua_isnil, lua_isnoneornil,
        lua_newtableAs, luaW_setregistry, popValue, lua_setfield, valueAt, assignValue_table,
        lua_pop, popN, Table.get_set_self, Table.get, Table.set, Table.erase,
        LUAW_COUNT_KEY, LUAW_HOLDS_KEY, LUAW_STORAGE_KEY]
    · simp [Ready, Table.get_set_self, Table.get, LUAW_COUNT_KEY, LUAW_HOLDS_KEY,
        LUAW_STORAGE_KEY]
    · intro n hn
      exact Table.get_set_ne _ _ _ _ (by simpa using hn)
    all_goals intro n; simp
  · have hr : Ready s := by
      rcases h with h | h
      · exact h
      · exact absurd h hnil
    refine ⟨s.heap, s.tmeta, s.registry, ?_, hr, fun _ _ => rfl, fun _ => rfl, fun _ => rfl,
      fun _ => rfl, fun _ => rfl, fun _ => rfl, fun _ => rfl⟩
    simp [ensureWrapper, luaW_getregistry, push, hr.1, lua_isnil, lua_isnoneornil, lua_pop, popN]

theorem openTable_eq (T : TypeId) (cn : String) (table : List (String × CFun)) (dn : Bool)
    (s : LuaState) (htm : s.tmeta (TableId.static cn) = Value.nil) :
    ∃ tbl, openTable T cn table dn s = Outcome.ok () { s with
      stack := Value.table (TableId.static cn) :: s.stack,
      heap := Function.update s.heap (TableId.static cn) tbl } := by
  cases dn with
  | true =>
    obtain ⟨tbl, h1, _⟩ := registerFuncs_plain (TableId.static cn) table
      { s with stack := Value.table (TableId.static cn) :: s.stack } s.stack rfl htm
    exact ⟨tbl, by simpa [openTable, luaL_register, push] using h1⟩
  | false =>
    obtain ⟨tbl1, h1, _⟩ := registerFuncs_plain (TableId.static cn)
      [("new", CFun.new T), ("build", CFun.build T)]
      { s with stack := Value.table (TableId.static cn) :: s.stack } s.stack rfl htm
    obtain ⟨tbl2, h2, _⟩ := registerFuncs_plain (TableId.static cn) table
      { s with
        stack := Value.table (TableId.static cn) :: s.stack,
        heap := Function.update s.heap (TableId.static cn) tbl1 } s.stack rfl htm
    refine ⟨tbl2, ?_⟩
    simp only [Function.update_idem] at h2
    simp only [openTable, luaL_register, push, bind_apply, pure_apply, Bool.not_false, if_true]
    simp only [] at h1
    rw [h1]
    simpa using h2

theorem openMetatable_eq (T : TypeId) (cn : String) (metatable : List (String × CFun))
    (s : LuaState) (hreg : s.registry.get (Value.str cn) = Value.nil)
    (hmt : ∀ m ∈ metatable, m.1 ≠ LUAW_EXTENDS_KEY) :
    ∃ tbl, openMetatable T cn metatable s = Outcome.ok () { s with
        stack := Value.table (TableId.mt cn) :: s.stack,
        heap := Function.update
          (Function.update (Function.update s.heap (TableId.mt cn) []) (TableId.anon s.nextTable) [])
          (TableId.mt cn) tbl,
        tmeta := Function.update (Function.update s.tmeta (TableId.mt cn) Value.nil)
          (TableId.anon s.nextTable) Value.nil,
        registry := s.registry.set (Value.str cn) (Value.table (TableId.mt cn)),
        nextTable := s.nextTable + 1 } ∧
      tbl.get (Value.str LUAW_EXTENDS_KEY) = Value.table (TableId.anon s.nextTable) := by
  have hne : TableId.mt cn ≠ TableId.anon s.nextTable := by simp
  obtain ⟨s1, hs1⟩ : ∃ s1 : LuaState, s1 = { s with
      stack := Value.table (TableId.mt cn) :: s.stack,
      heap := Function.update
        (Function.update (Function.update s.heap (TableId.mt cn) []) (TableId.anon s.nextTable) [])
        (TableId.mt cn)
        [(Value.str LUAW_EXTENDS_KEY, Value.table (TableId.anon s.nextTable))],
      tmeta := Function.update (Function.update s.tmeta (TableId.mt cn) Value.nil)
        (TableId.anon s.nextTable) Value.nil,
      registry := s.registry.set (Value.str cn) (Value.table (TableId.mt cn)),
      nextTable := s.nextTable + 1 } := ⟨_, rfl⟩
  have htm1 : s1.tmeta (TableId.mt cn) = Value.nil := by
    simp [hs1, Function.update_noteq hne]
  obtain ⟨tbl1, h1, h1g⟩ := registerFuncs_plain (TableId.mt cn)
    [("__index", CFun.index T), ("__newindex", CFun.newindex T), ("__gc", CFun.gc T)]
    s1 s.stack (by simp [hs1]) htm1
  obtain ⟨tbl2, h2, h2g⟩ := registerFuncs_plain (TableId.mt cn) metatable
    { s1 with heap := Function.update s1.heap (TableId.mt cn) tbl1 } s.stack (by simp [hs1]) htm1
  refine ⟨tbl2, ?_, ?_⟩
  · have hpre : (do
        let _ ← luaL_newmetatable cn
        lua_newtable
        lua_setfield (-2) LUAW_EXTENDS_KEY : LuaM Unit) s = Outcome.ok () s1 := by
      simp [luaL_newmetatable, luaW_getregistry, push, hreg, lua_isnil, lua_isnoneornil, lua_pop,
        popN, lua_newtableAs, lua_pushvalue, luaW_setregistry, popValue, lua_newtable,
        lua_setfield, valueAt, assignValue_table, Function.update_noteq hne, hs1, Table.set,
        Table.erase]
    simp only [bind_apply] at hpre
    simp only [openMetatable, luaL_register, bind_apply, pure_apply]
    cases hnm : luaL_newmetatable cn s with
    | raise e s' => simp [hnm] at hpre
    | ok b sa =>
      simp only [hnm] at hpre ⊢
      cases hnt : lua_newtable sa with
      | raise e s' => simp [hnt] at hpre
      | ok u sb =>
        simp only [hnt] at hpre ⊢
        rw [hpre]
        simp only [h1, h2]
        simp [hs1]
  · rw [h2g _ (by
      intro m hm
      have := hmt m hm
      simpa using fun h => this h.symm)]
    simp only [Function.update_same]
    rw [h1g _ (by simp [LUAW_EXTENDS_KEY])]
    simp [hs1, Table.get]

theorem Extends_head (all : List ClassDecl) (n a : String) (h : Extends all n a) :
    ∃ e, Parent all n e ∧ (a = e ∨ Extends all e a) := by
  unfold Extends at h
  rw [Relation.TransGen.head'_iff] at h
  obtain ⟨e, he, hr⟩ := h
  refine ⟨e, he, ?_⟩
  rcases Relation.reflTransGen_iff_eq_or_transGen.mp hr with h1 | h1
  · exact Or.inl h1
  · exact Or.inr h1

theorem registerClass_step (all pre : List ClassDecl) (d : ClassDecl) (s : LuaState)
    (hinv : RegInv all pre s) (hd : d ∈ all)
    (hpar : ∀ b, Parent all d.name b → b ∈ d.extends_)
    (hanc : ∀ e ∈ d.extends_, ∃ a ∈ pre, a.name = e)
    (hfresh : ∀ a ∈ pre, a.name ≠ d.name ∧ a.T ≠ d.T)
    (hkey : d.name ≠ LUAW_WRAPPER_KEY)
    (hmt : ∀ m ∈ d.metatable, m.1 ≠ LUAW_EXTENDS_KEY) :
    ∃ s', registerClass d s = Outcome.ok () s' ∧ RegInv all (pre ++ [d]) s' ∧ Ready s' ∧
      s'.stack = s.stack := by
  obtain ⟨i0, i6, i1a, i1b, i3, i4, i5⟩ := hinv
  have hfreshn : ∀ a ∈ pre, a.name ≠ d.name := fun a ha => (hfresh a ha).1
  -- the statics
  obtain ⟨s0, hs0⟩ : ∃ s0 : LuaState, s0 = { s with
      classname := Function.update s.classname d.T (some d.name),
      allocator := Function.update s.allocator d.T d.allocator,
      deallocator := Function.update s.deallocator d.T d.deallocator } := ⟨_, rfl⟩
  have hst : setStatics d.T d.name d.allocator d.deallocator s = Outcome.ok () s0 := by
    rw [hs0]; rfl
  -- the LuaWrapper table
  obtain ⟨h1, tm1, r1, hA, hrA, hr1, hh1m, hh1s, hh1a, ht1m, ht1s, ht1a⟩ :=
    ensureWrapper_eq s0 (by
      rcases i0 with h | h
      · exact Or.inl (Ready_congr s s0 (by simp [hs0]) (by simp [hs0]) (by simp [hs0]) h)
      · exact Or.inr (by simpa [hs0] using h))
  obtain ⟨sA, hsA⟩ : ∃ sA : LuaState,
      sA = { s0 with heap := h1, tmeta := tm1, registry := r1 } := ⟨_, rfl⟩
  rw [← hsA] at hA hrA
  have hs0r : s0.registry = s.registry := by simp [hs0]
  have hs0h : s0.heap = s.heap := by simp [hs0]
  have hs0t : s0.tmeta = s.tmeta := by simp [hs0]
  rw [hs0r] at hr1
  rw [hs0h] at hh1m hh1s hh1a
  rw [hs0t] at ht1m ht1s ht1a
  -- the table of the class
  obtain ⟨tblS, hB⟩ := openTable_eq d.T d.name d.table d.disablenew sA (by
    simp only [hsA]
    rw [ht1s]
    exact i5 d.name hfreshn)
  obtain ⟨sB, hsB⟩ : ∃ sB : LuaState, sB = { sA with
      stack := Value.table (TableId.static d.name) :: sA.stack,
      heap := Function.update sA.heap (TableId.static d.name) tblS } := ⟨_, rfl⟩
  rw [← hsB] at hB
  -- the metatable
  obtain ⟨tblM, hC, hCext⟩ := openMetatable_eq d.T d.name d.metatable sB (by
    simp only [hsB, hsA]
    rw [hr1 d.name hkey]
    exact i1b d.name hkey hfreshn) hmt
  obtain ⟨sC, hsC⟩ : ∃ sC : LuaState, sC = { sB with
      stack := Value.table (TableId.mt d.name) :: sB.stack,
      heap := Function.update
        (Function.update (Function.update sB.heap (TableId.mt d.name) [])
          (TableId.anon sB.nextTable) [])
        (TableId.mt d.name) tblM,
      tmeta := Function.update (Function.update sB.tmeta (TableId.mt d.name) Value.nil)
        (TableId.anon sB.nextTable) Value.nil,
      registry := sB.registry.set (Value.str d.name) (Value.table (TableId.mt d.name)),
      nextTable := sB.nextTable + 1 } := ⟨_, rfl⟩
  rw [← hsC] at hC
  have hnt : sB.nextTable = s.nextTable := by simp [hsB, hsA, hs0]
  rw [hnt] at hCext
  -- facts about the state before the loop over the extends array
  have hCstk : sC.stack =
      Value.table (TableId.mt d.name) :: Value.table (TableId.static d.name) :: s.stack := by
    simp [hsC, hsB, hsA, hs0]
  have hCmt : ∀ n, n ≠ d.name → sC.heap (TableId.mt n) = s.heap (TableId.mt n) := by
    intro n hn
    have : TableId.mt n ≠ TableId.mt d.name := by simpa using hn
    simp [hsC, hsB, hsA, Function.update_noteq this, hh1m]
  have hCan : ∀ k, k ≠ s.nextTable → sC.heap (TableId.anon k) = s.heap (TableId.anon k) := by
    intro k hk
    have : TableId.anon k ≠ TableId.anon s.nextTable := by simpa using hk
    simp [hsC, hsB, hsA, hnt, Function.update_noteq this, hh1a, hs0]
  have hCtm : ∀ n, n ≠ d.name → sC.tmeta (TableId.mt n) = s.tmeta (TableId.mt n) := by
    intro n hn
    have : TableId.mt n ≠ TableId.mt d.name := by simpa using hn
    simp [hsC, hsB, hsA, Function.update_noteq this, ht1m]
  have hCts : ∀ n, sC.tmeta (TableId.static n) = s.tmeta (TableId.static n) := by
    intro n
    simp [hsC, hsB, hsA, ht1s]
  have hCreg : ∀ n, n ≠ d.name → n ≠ LUAW_WRAPPER_KEY →
      sC.registry.get (Value.str n) = s.registry.get (Value.str n) := by
    intro n hn hk
    have : Value.str n ≠ Value.str d.name := by simpa using hn
    simp [hsC, hsB, hsA, Table.get_set_ne _ _ _ _ this, hr1 n hk]
  have hCtmM : sC.tmeta (TableId.mt d.name) = Value.nil := by
    simp [hsC]
  have hCtmX : sC.tmeta (TableId.anon s.nextTable) = Value.nil := by
    simp [hsC, hnt]
  have hCext' : (sC.heap (TableId.mt d.name)).get (Value.str LUAW_EXTENDS_KEY) =
      Value.table (TableId.anon s.nextTable) := by
    simp [hsC, hCext]
  have hCX : sC.heap (TableId.anon s.nextTable) = [] := by
    simp [hsC, hnt]
  -- the loop over the extends array
  obtain ⟨h', hrun, hfr, hext', hsound', hcomp'⟩ := extendLoop_eq all d.name s.nextTable
    d.extends_ sC (Value.table (TableId.static d.name) :: s.stack) (fun _ => False)
    hCstk hCtmM hCtmX hCext'
    (by
      intro e he
      obtain ⟨a, ha, hae⟩ := hanc e he
      subst hae
      have hne := hfreshn a ha
      have hk := i6 a ha
      obtain ⟨h41, ke, h42, h43, h44⟩ := i4 a ha
      refine ⟨hne, ?_, ?_, Relation.TransGen.single ⟨d, hd, rfl, he⟩, ke, Nat.ne_of_lt h42, ?_, ?_⟩
      · rw [hCreg _ hne hk]
        exact i1a a ha
      · rw [hCtm _ hne]
        exact h41
      · rw [hCmt _ hne]
        exact h43
      · rw [hCan _ (Nat.ne_of_lt h42)]
        exact h44)
    (by
      intro x hx
      rw [hCX] at hx
      simp at hx)
    (by
      intro a ha
      exact absurd ha id)
  -- the result
  have hwr : ∀ id, (id = TableId.wrapper ∨ id = TableId.counts ∨ id = TableId.holds ∨
      id = TableId.storage) → h' id = h1 id := by
    intro id hid
    have e1 : id ≠ TableId.mt d.name := by rcases hid with h | h | h | h <;> simp [h]
    have e2 : id ≠ TableId.anon s.nextTable := by rcases hid with h | h | h | h <;> simp [h]
    have e3 : id ≠ TableId.static d.name := by rcases hid with h | h | h | h <;> simp [h]
    rw [hfr id e1 e2]
    simp [hsC, hsB, hsA, hs0, Function.update_noteq e1, Function.update_noteq e2,
      Function.update_noteq e3]
  have htw : ∀ id, (id = TableId.wrapper ∨ id = TableId.counts ∨ id = TableId.holds ∨
      id = TableId.storage) →
      Function.update sC.tmeta (TableId.static d.name) (Value.table (TableId.mt d.name)) id =
        tm1 id := by
    intro id hid
    have e1 : id ≠ TableId.mt d.name := by rcases hid with h | h | h | h <;> simp [h]
    have e2 : id ≠ TableId.anon s.nextTable := by rcases hid with h | h | h | h <;> simp [h]
    have e3 : id ≠ TableId.static d.name := by rcases hid with h | h | h | h <;> simp [h]
    simp [hsC, hsB, hsA, hs0, Function.update_noteq e1, Function.update_noteq e2,
      Function.update_noteq e3]
  have hready : Ready { sC with
      stack := s.stack, heap := h',
      tmeta := Function.update sC.tmeta (TableId.static d.name)
        (Value.table (TableId.mt d.name)) } := by
    have hk : Value.str LUAW_WRAPPER_KEY ≠ Value.str d.name := by
      simpa using fun h => hkey h.symm
    obtain ⟨a1, a2, a3, a4, a5, a6, a7, a8⟩ := hrA
    simp only [hsA] at a1 a2 a3 a4 a5 a6 a7 a8
    refine ⟨?_, ?_, ?_, ?_, ?_, ?_, ?_, ?_⟩
    · simp only [hsC, hsB, hsA]
      rw [Table.get_set_ne _ _ _ _ hk]
      exact a1
    · simp only []
      rw [hwr _ (Or.inl rfl)]
      exact a2
    · simp only []
      rw [hwr _ (Or.inl rfl)]
      exact a3
    · simp only []
      rw [hwr _ (Or.inl rfl)]
      exact a4
    · simp only []
      rw [htw _ (Or.inl rfl)]
      exact a5
    · simp only []
      rw [htw _ (Or.inr (Or.inl rfl))]
      exact a6
    · simp only []
      rw [htw _ (Or.inr (Or.inr (Or.inl rfl)))]
      exact a7
    · simp only []
      rw [htw _ (Or.inr (Or.inr (Or.inr rfl)))]
      exact a8
  have hCnt : sC.nextTable = s.nextTable + 1 := by simp [hsC, hnt]
  have hCcl : sC.classname = Function.update s.classname d.T (some d.name) := by
    simp [hsC, hsB, hsA, hs0]
  have hCregd : sC.registry.get (Value.str d.name) = Value.table (TableId.mt d.name) := by
    simp [hsC, Table.get_set_self]
  refine ⟨{ sC with
      stack := s.stack, heap := h',
      tmeta := Function.update sC.tmeta (TableId.static d.name)
        (Value.table (TableId.mt d.name)) }, ?_, ?_, hready, rfl⟩
  · simp only [registerClass, luaW_register, bind_apply, hst, hA, hB, hC, hrun]
    simp [lua_setmetatable, hCstk, lua_pop, popN]
  · refine ⟨Or.inl hready, ?_, ?_, ?_, ?_, ?_, ?_⟩
    · intro x hx
      rcases List.mem_append.mp hx with hx | hx
      · exact i6 x hx
      · simp at hx; subst hx; exact hkey
    · intro x hx
      rcases List.mem_append.mp hx with hx | hx
      · simp only []
        rw [hCreg _ (hfreshn x hx) (i6 x hx)]
        exact i1a x hx
      · simp at hx; subst hx; exact hCregd
    · intro n hn hall
      have hnd : n ≠ d.name := fun h => hall d (by simp) h.symm
      simp only []
      rw [hCreg n hnd hn]
      exact i1b n hn (fun x hx => hall x (List.mem_append_left _ hx))
    · intro x hx
      simp only [hCcl]
      rcases List.mem_append.mp hx with hx | hx
      · rw [Function.update_noteq (hfresh x hx).2]
        exact i3 x hx
      · simp at hx; subst hx; simp
    · intro x hx
      rcases List.mem_append.mp hx with hx | hx
      · have hne := hfreshn x hx
        obtain ⟨h41, k, h42, h43, h44⟩ := i4 x hx
        have e1 : TableId.mt x.name ≠ TableId.static d.name := by simp
        have e2 : TableId.mt x.name ≠ TableId.mt d.name := by simpa using hne
        have e3 : TableId.anon k ≠ TableId.mt d.name := by simp
        have e4 : TableId.anon k ≠ TableId.anon s.nextTable := by
          simpa using Nat.ne_of_lt h42
        refine ⟨?_, k, ?_, ?_, ?_⟩
        · simp only []
          rw [Function.update_noteq e1, hCtm _ hne]
          exact h41
        · simp only [hCnt]
          omega
        · simp only []
          rw [hfr _ e2 (by simp), hCmt _ hne]
          exact h43
        · simp only []
          rw [hfr _ e3 e4, hCan _ (Nat.ne_of_lt h42)]
          exact h44
      · simp at hx
        subst hx
        have e1 : TableId.mt x.name ≠ TableId.static x.name := by simp
        refine ⟨?_, s.nextTable, ?_, hext', hsound', ?_⟩
        · simp only []
          rw [Function.update_noteq e1]
          exact hCtmM
        · simp only [hCnt]
          omega
        · intro a ha
          obtain ⟨e, he, hea⟩ := Extends_head all x.name a ha
          exact hcomp' a (Or.inr ⟨e, hpar e he, hea⟩)
    · intro n hall
      have hnd : n ≠ d.name := fun h => hall d (by simp) h.symm
      have e1 : TableId.static n ≠ TableId.static d.name := by simpa using hnd
      simp only []
      rw [Function.update_noteq e1, hCts]
      exact i5 n (fun x hx => hall x (List.mem_append_left _ hx))

theorem luaW_is_handle (T : TypeId) (idx : Int) (strict : Bool) (s : LuaState) (u : Nat)
    (cn : String) (m e : TableId)
    (hv : stackAt s.stack idx = Value.userdata u) (hc : s.classname T = some cn)
    (hm : (s.udata u).mt = Value.table m)
    (hext : (s.heap m).get (Value.str LUAW_EXTENDS_KEY) = Value.table e) :
    luaW_is T idx strict s = Outcome.ok
      (decide (s.registry.get (Value.str cn) = Value.table m) ||
        (!strict && (s.heap e).any (fun x => decide (x.2 = s.registry.get (Value.str cn))))) s := by
  have hg := lua_getmetatable_some idx s (Value.table m) (by rw [hv]; exact hm) (by simp)
  by_cases heq : s.registry.get (Value.str cn) = Value.table m
  · simp [luaW_is, lua_touserdata, hv, Block.nonNull, hg, luaL_getmetatable, classnameOf, hc,
      luaW_getregistry, push, lua_rawequal, lua_pop, popN, heq]
  · cases strict with
    | true =>
      simp [luaW_is, lua_touserdata, hv, Block.nonNull, hg, luaL_getmetatable, classnameOf, hc,
        luaW_getregistry, push, lua_rawequal, lua_pop, popN, heq]
    | false =>
      have hip : indexPlain (Value.table m) (Value.str LUAW_EXTENDS_KEY)
          { s with stack := s.registry.get (Value.str cn) :: Value.table m :: s.stack } =
          Outcome.ok (Value.table e)
            { s with stack := s.registry.get (Value.str cn) :: Value.table m :: s.stack } := by
        simp [indexPlain, hext]
      have hloop := luaW_is_loop (s.heap e)
        { s with stack := Value.nil :: Value.table e :: s.registry.get (Value.str cn) ::
            Value.table m :: s.stack }
        Value.nil (Value.table e) (s.registry.get (Value.str cn)) (Value.table m) s.stack rfl
      simp [luaW_is, lua_touserdata, hv, Block.nonNull, hg, luaL_getmetatable, classnameOf, hc,
        luaW_getregistry, push, lua_rawequal, lua_pop, popN, heq, lua_getfield0, valueAt, hip,
        forPairs, lua_pushnil, getState, hloop]

theorem WellOrdered_fresh (ds : List ClassDecl) :
    ∀ pre, WellOrdered pre ds → ∀ d ∈ ds, ∀ a ∈ pre, a.name ≠ d.name := by
  induction ds with
  | nil => intro pre _ d hd; simp at hd
  | cons d0 ds ih =>
    intro pre hwo d hd a ha
    obtain ⟨_, h2, _, _, h5⟩ := hwo
    rcases List.mem_cons.mp hd with h | h
    · subst h
      exact (h2 a ha).1
    · exact ih (pre ++ [d0]) h5 d h a (List.mem_append_left _ ha)

theorem WellOrdered_unique (ds : List ClassDecl) :
    ∀ pre, WellOrdered pre ds → ∀ d ∈ ds, ∀ d' ∈ ds, d.name = d'.name → d = d' := by
  induction ds with
  | nil => intro pre _ d hd; simp at hd
  | cons d0 ds ih =>
    intro pre hwo d hd d' hd' hn
    have h5 := hwo.2.2.2.2
    rcases List.mem_cons.mp hd with h | h
    · rcases List.mem_cons.mp hd' with h' | h'
      · rw [h, h']
      · subst h
        exact absurd hn (WellOrdered_fresh ds (pre ++ [d]) h5 d' h' d (by simp))
    · rcases List.mem_cons.mp hd' with h' | h'
      · subst h'
        exact absurd hn.symm (WellOrdered_fresh ds (pre ++ [d']) h5 d h d' (by simp))
      · exact ih (pre ++ [d0]) h5 d h d' h' hn

theorem registerAll_inv (all : List ClassDecl) (ds : List ClassDecl) :
    ∀ (pre : List ClassDecl) (s : LuaState), RegInv all pre s → WellOrdered pre ds →
      (∀ d ∈ ds, d ∈ all ∧ ∀ b, Parent all d.name b → b ∈ d.extends_) →
      ∃ s', registerAll ds s = Outcome.ok () s' ∧ RegInv all (pre ++ ds) s' ∧
        (ds ≠ [] → Ready s') ∧ s'.stack = s.stack := by
  induction ds with
  | nil =>
    intro pre s hinv _ _
    exact ⟨s, rfl, by simpa using hinv, fun h => absurd rfl h, rfl⟩
  | cons d ds ih =>
    intro pre s hinv hwo hall
    obtain ⟨w1, w2, w3, w4, w5⟩ := hwo
    obtain ⟨hd, hpar⟩ := hall d (List.mem_cons_self _ _)
    obtain ⟨s1, h1, hinv1, hr1, hstk1⟩ :=
      registerClass_step all pre d s hinv hd hpar w1 w2 w3 w4
    obtain ⟨s2, h2, hinv2, _, hstk2⟩ := ih (pre ++ [d]) s1 hinv1 w5
      (fun x hx => hall x (List.mem_cons_of_mem _ hx))
    refine ⟨s2, ?_, ?_, ?_, ?_⟩
    · simp [registerAll, h1, h2]
    · simpa using hinv2
    · intro _
      by_cases hds : ds = []
      · subst hds
        simp [registerAll] at h2
        rw [← h2]
        exact hr1
      · obtain ⟨s2', h2', _, hr2, _⟩ := ih (pre ++ [d]) s1 hinv1 w5
          (fun x hx => hall x (List.mem_cons_of_mem _ hx))
        rw [h2] at h2'
        simp at h2'
        rw [h2']
        exact hr2 hds
    · rw [hstk2, hstk1]

theorem RegInv_init (all : List ClassDecl) : RegInv all [] LuaState.init := by
  refine ⟨Or.inr ?_, ?_, ?_, ?_, ?_, ?_, ?_⟩
  · simp [LuaState.init, Table.get]
  · intro d hd; simp at hd
  · intro d hd; simp at hd
  · intro n _ _; simp [LuaState.init, Table.get]
  · intro d hd; simp at hd
  · intro d hd; simp at hd
  · intro n _; simp [LuaState.init]

theorem WellOrdered_rank (ds : List ClassDecl) :
    ∀ pre, WellOrdered pre ds → ∀ d ∈ ds, ∀ e ∈ d.extends_,
      (∃ a ∈ pre, a.name = e) ∨ rankOf ds e < rankOf ds d.name := by
  induction ds with
  | nil => intro pre _ d hd; simp at hd
  | cons d0 ds ih =>
    intro pre hwo d hd e he
    obtain ⟨w1, w2, w3, w4, w5⟩ := hwo
    rcases List.mem_cons.mp hd with h | h
    · subst h
      exact Or.inl (w1 e he)
    · have hne : d0.name ≠ d.name := WellOrdered_fresh ds (pre ++ [d0]) w5 d h d0 (by simp)
      rcases ih (pre ++ [d0]) w5 d h e he with ⟨a, ha, hae⟩ | hlt
      · rcases List.mem_append.mp ha with ha | ha
        · exact Or.inl ⟨a, ha, hae⟩
        · simp at ha
          subst ha
          right
          have hne' : e ≠ d.name := hae ▸ hne
          simp [rankOf, hae, hne']
      · right
        by_cases h0 : d0.name = e
        · simp [rankOf, h0, hne]
          rw [h0] at hne
          simp [hne]
        · simp [rankOf, h0, hne, hlt]

theorem Extends_rank (all : List ClassDecl) (hwo : WellOrdered [] all) (a b : String)
    (h : Extends all a b) : rankOf all b < rankOf all a := by
  have hstep : ∀ x y, Parent all x y → rankOf all y < rankOf all x := by
    intro x y hp
    obtain ⟨d, hd, hdx, hy⟩ := hp
    subst hdx
    rcases WellOrdered_rank all [] hwo d hd y hy with ⟨a, ha, _⟩ | hlt
    · simp at ha
    · exact hlt
  induction h with
  | single hp => exact hstep _ _ hp
  | tail _ hp ih => exact Nat.lt_trans (hstep _ _ hp) ih

/-- C5: let the classes of a host program be registered on a fresh Lua state,
every class after the classes named in its `extends` array (each class under a
name and a type of its own).  Then the registration returns, and for any two
registered classes `D` and `B` and a handle pushed by `luaW_push<D>`:
`luaW_is<B>` returns and leaves the state as it is; with `strict` it is true
iff `D` is `B`; without `strict` it is true iff `D` is `B` or `D` extends `B`
directly or through a chain of `extends` arrays; it is false when `D` is a
proper ancestor of `B`. -/
theorem C5_is_matches_ancestry (all : List ClassDecl) (hwo : WellOrdered [] all) :
    ∃ s, registerAll all LuaState.init = Outcome.ok () s ∧
      ∀ D ∈ all, ∀ B ∈ all, ∀ (p : Ptr) (strict : Bool), ∃ s' b,
        luaW_push D.T p s = Outcome.ok () s' ∧
        luaW_is B.T (-1) strict s' = Outcome.ok b s' ∧
        (b = true ↔ D = B ∨ (strict = false ∧ Extends all D.name B.name)) ∧
        (Extends all B.name D.name → b = false) := by
  have huniq := WellOrdered_unique all [] hwo
  obtain ⟨s, hrun, hinv, hready, _⟩ := registerAll_inv all all [] LuaState.init
    (RegInv_init all) hwo (by
      intro d hd
      refine ⟨hd, ?_⟩
      intro b hb
      obtain ⟨d', hd', hn, hb'⟩ := hb
      rw [← huniq d' hd' d hd hn]
      exact hb')
  simp only [List.nil_append] at hinv
  refine ⟨s, hrun, ?_⟩
  intro D hD B hB p strict
  have hr : Ready s := hready (by intro h; rw [h] at hD; simp at hD)
  obtain ⟨_, _, i1a, _, i3, i4, _⟩ := hinv
  obtain ⟨_, k, _, hext, hok⟩ := i4 D hD
  have hpush := luaW_push_eq D.T p s hr D.name (i3 D hD)
  rw [i1a D hD] at hpush
  obtain ⟨s', hs'⟩ : ∃ s' : LuaState, s' = { s with
      stack := Value.userdata s.nextUd :: s.stack,
      udata := Function.update s.udata s.nextUd
        { ptr := p, mt := Value.table (TableId.mt D.name) },
      nextUd := s.nextUd + 1,
      heap := Function.update s.heap TableId.counts ((s.heap TableId.counts).set (Value.lightud p)
        (Value.int (RefCount s p + 1))) } := ⟨_, rfl⟩
  rw [← hs'] at hpush
  have his := luaW_is_handle B.T (-1) strict s' s.nextUd B.name (TableId.mt D.name)
    (TableId.anon k) (by simp [hs']) (by simp [hs', i3 B hB]) (by simp [hs'])
    (by simp [hs', hext])
  have hregB : s'.registry.get (Value.str B.name) = Value.table (TableId.mt B.name) := by
    simp [hs', i1a B hB]
  have hheap : s'.heap (TableId.anon k) = s.heap (TableId.anon k) := by simp [hs']
  rw [hregB, hheap] at his
  have hany : ((s.heap (TableId.anon k)).any
      (fun x => decide (x.2 = Value.table (TableId.mt B.name))) = true) ↔
      Extends all D.name B.name := by
    rw [List.any_eq_true]
    constructor
    · rintro ⟨x, hx, hxe⟩
      obtain ⟨a, _, h2, h3⟩ := hok.1 x hx
      simp only [decide_eq_true_eq] at hxe
      rw [h2] at hxe
      injection hxe with hxe
      injection hxe with hxe
      rw [← hxe]
      exact h3
    · intro h
      exact ⟨_, Table.mem_of_get _ _ _ (hok.2 B.name h) (by simp), by simp⟩
  have hname : D = B ↔ D.name = B.name :=
    ⟨fun h => by rw [h], fun h => huniq D hD B hB h⟩
  have hiff : ((decide (Value.table (TableId.mt B.name) = Value.table (TableId.mt D.name)) ||
      (!strict && (s.heap (TableId.anon k)).any
        (fun x => decide (x.2 = Value.table (TableId.mt B.name))))) = true) ↔
      D = B ∨ (strict = false ∧ Extends all D.name B.name) := by
    simp only [Bool.or_eq_true, Bool.and_eq_true, hany, hname, decide_eq_true_eq,
      Value.table.injEq, TableId.mt.injEq, Bool.not_eq_true']
    constructor
    · rintro (h | h)
      · exact Or.inl h.symm
      · exact Or.inr h
    · rintro (h | h)
      · exact Or.inl h.symm
      · exact Or.inr h
  refine ⟨s', _, hpush, his, hiff, ?_⟩
  intro hanc
  have hlt := Extends_rank all hwo _ _ hanc
  rw [← Bool.not_eq_true, hiff]
  rintro (h | ⟨_, h⟩)
  · rw [h] at hlt
    exact Nat.lt_irrefl _ hlt
  · have := Extends_rank all hwo _ _ h
    omega

theorem demoClasses_wellOrdered : WellOrdered [] demoClasses := by
  simp [WellOrdered, demoClasses, LUAW_WRAPPER_KEY, LUAW_EXTENDS_KEY]

/-- Witness of C5 on the example hierarchy `Widget`, `Widget2D`. -/
theorem C5_is_matches_ancestry_witness :
    WellOrdered [] demoClasses ∧
    ∃ s, registerAll demoClasses LuaState.init = Outcome.ok () s ∧
      ∀ D ∈ demoClasses, ∀ B ∈ demoClasses, ∀ (p : Ptr) (strict : Bool), ∃ s' b,
        luaW_push D.T p s = Outcome.ok () s' ∧
        luaW_is B.T (-1) strict s' = Outcome.ok b s' ∧
        (b = true ↔ D = B ∨ (strict = false ∧ Extends demoClasses D.name B.name)) ∧
        (Extends demoClasses B.name D.name → b = false) :=
  ⟨demoClasses_wellOrdered, C5_is_matches_ancestry demoClasses demoClasses_wellOrdered⟩

/-- C11 (what the code does): for a registered type and a non-null pointer
`p` without bookkeeping, push one handle of `p` and hold `p`: the reference
count is one and `p` is held.  Finalizing that handle returns and deletes `p`
once; it clears the hold flag and the storage entry, but it leaves a reference
count of one, not zero, for the deleted object: `luaW_destructor` pushes a
fresh handle after `luaW__gc` has written the decremented count. -/
theorem C11_count_after_delete (T : TypeId) (p : Ptr) (cn : String) (s : LuaState)
    (hp : p ≠ NULL) (hr : Ready s) (hreg : Registered s T cn)
    (hc : (s.heap TableId.counts).get (Value.lightud p) = Value.nil)
    (hh : (s.heap TableId.holds).get (Value.lightud p) = Value.nil)
    (hs : (s.heap TableId.storage).get (Value.lightud p) = Value.nil)
    (hhook : ((s.heap (TableId.mt cn)).get (Value.str LUAW_DTOR_KEY)).isHook = true) :
    ∃ s1 s2, (do luaW_push T p; let _ ← luaW_hold T p : LuaM Unit) s = Outcome.ok () s1 ∧
      RefCount s1 p = 1 ∧ HoldFlag s1 p = true ∧
      s1.udata s.nextUd = { ptr := p, mt := Value.table (TableId.mt cn) } ∧
      finalize s.nextUd s1 = Outcome.ok () s2 ∧
      deletions p s2.log = deletions p s.log + 1 ∧
      RefCount s2 p = 1 ∧ HoldFlag s2 p = false ∧ StorageTable s2 p = Value.nil := by
  obtain ⟨s1, h1, hr1, hreg1, hcnt1, hheap1, htm1, hnt1, hnu1, hold1, hnew1, hlog1⟩ :=
    pushN_eq T p cn 1 s hr hreg
  have h1' : luaW_push T p s = Outcome.ok () s1 := by
    simp only [pushN, bind_apply] at h1
    cases hpush : luaW_push T p s with
    | ok a t => rw [hpush] at h1; simpa using h1
    | raise e t => rw [hpush] at h1; simp at h1
  have hrc0 : RefCount s p = 0 := by simp [RefCount, hc, Value.toInteger]
  have hrc1 : RefCount s1 p = 1 := by rw [hcnt1, hrc0]; simp
  have hh1 : HoldFlag s1 p = false := by
    simp [HoldFlag, hheap1 TableId.holds (by simp), hh, Value.toBoolean]
  have hs1 : StorageTable s1 p = Value.nil := by
    simp [StorageTable, hheap1 TableId.storage (by simp), hs]
  have hhold := luaW_hold_fresh T p s1 hr1 hh1 (by rw [hrc1]; decide) hs1
  obtain ⟨s2, hs2⟩ : ∃ s2 : LuaState, s2 = { s1 with
      heap := Function.update
        (Function.update
          (Function.update s1.heap TableId.holds
            ((s1.heap TableId.holds).set (Value.lightud p) (Value.bool true)))
          (TableId.anon s1.nextTable) [])
        TableId.storage
        ((s1.heap TableId.storage).set (Value.lightud p) (Value.table (TableId.anon s1.nextTable))),
      tmeta := Function.update s1.tmeta (TableId.anon s1.nextTable) Value.nil,
      nextTable := s1.nextTable + 1 } := ⟨_, rfl⟩
  rw [← hs2] at hhold
  have hr2 : Ready s2 := by
    rw [hs2]
    exact Ready_hold s1 _ s1.nextTable s1.stack (by simp) hr1
  have hreg2 : Registered s2 T cn :=
    Registered_congr s1 s2 T cn (by simp [hs2]) (by simp [hs2]) (by simp [hs2]) hreg1
  have hrc2 : RefCount s2 p = 1 := by
    have : RefCount s2 p = RefCount s1 p := by simp [hs2, RefCount]
    rw [this, hrc1]
  have hst2 : StorageTable s2 p = Value.table (TableId.anon s1.nextTable) := by
    simp [hs2, StorageTable, Table.get_set_self]
  have hempty : s2.heap (TableId.anon s1.nextTable) = [] := by simp [hs2]
  have hhf2 : HoldFlag s2 p = true := by
    simp [hs2, HoldFlag, Table.get_set_self, Value.toBoolean]
  have hmt2 : s2.heap (TableId.mt cn) = s.heap (TableId.mt cn) := by
    rw [← hheap1 (TableId.mt cn) (by simp)]
    simp [hs2]
  have hud1 : s1.udata s.nextUd = { ptr := p, mt := Value.table (TableId.mt cn) } := by
    simpa using hnew1 0 (by decide)
  have hud2 : s2.udata s.nextUd = { ptr := p, mt := Value.table (TableId.mt cn) } := by
    rw [← hud1]
    simp [hs2]
  have hf : fieldOf s2 p (TableId.mt cn) (Value.str LUAW_DTOR_KEY) =
      (s.heap (TableId.mt cn)).get (Value.str LUAW_DTOR_KEY) := by
    simp [fieldOf, hst2, hempty, Table.get, hmt2]
  have hfin := finalize_delete s2 T s.nextUd cn p hr2 hreg2 hud2 hp hrc2
    (Or.inr ⟨_, hst2⟩) (by rw [hf]; exact hhook)
  rw [hf] at hfin
  refine ⟨s2, _, ?_, hrc2, hhf2, hud2, hfin, ?_, ?_, ?_, ?_⟩
  · simp only [bind_apply, h1', hhold, pure_apply]
  · have hlog2 : s2.log = s.log := by rw [← hlog1]; simp [hs2]
    simp only [deletions_append, deletions_hook, hlog2]
    simp [deletions]
  · simp [RefCount, Table.get_set_self, Value.toInteger]
  · simp [HoldFlag, Table.get_set_self, Value.toBoolean]
  · simp [StorageTable, Table.get_set_self]

/-- Witness of C11 on the example state with the pointer 100. -/
theorem C11_count_after_delete_witness :
    ((100 : Ptr) ≠ NULL ∧ Ready demo ∧ Registered demo 0 "Widget" ∧
      (demo.heap TableId.counts).get (Value.lightud 100) = Value.nil ∧
      (demo.heap TableId.holds).get (Value.lightud 100) = Value.nil ∧
      (demo.heap TableId.storage).get (Value.lightud 100) = Value.nil ∧
      ((demo.heap (TableId.mt "Widget")).get (Value.str LUAW_DTOR_KEY)).isHook = true) ∧
    ∃ s1 s2, (do luaW_push 0 100; let _ ← luaW_hold 0 100 : LuaM Unit) demo = Outcome.ok () s1 ∧
      RefCount s1 100 = 1 ∧ HoldFlag s1 100 = true ∧
      s1.udata demo.nextUd = { ptr := 100, mt := Value.table (TableId.mt "Widget") } ∧
      finalize demo.nextUd s1 = Outcome.ok () s2 ∧
      deletions 100 s2.log = deletions 100 demo.log + 1 ∧
      RefCount s2 100 = 1 ∧ HoldFlag s2 100 = false ∧ StorageTable s2 100 = Value.nil :=
  have h1 : (100 : Ptr) ≠ NULL := by decide
  have h2 : (demo.heap TableId.counts).get (Value.lightud 100) = Value.nil := by
    simp [demo, demoHeap, Table.get]
  have h3 : (demo.heap TableId.holds).get (Value.lightud 100) = Value.nil := by
    simp [demo, demoHeap, Table.get]
  have h4 : (demo.heap TableId.storage).get (Value.lightud 100) = Value.nil := by
    simp [demo, demoHeap, Table.get]
  have h5 : ((demo.heap (TableId.mt "Widget")).get (Value.str LUAW_DTOR_KEY)).isHook = true := by
    simp [demo, demoHeap, Table.get, LUAW_DTOR_KEY, Value.isHook]
  ⟨⟨h1, demo_ready, demo_registered, h2, h3, h4, h5⟩,
    C11_count_after_delete 0 100 "Widget" demo h1 demo_ready demo_registered h2 h3 h4 h5⟩

theorem callFrame_newindex_none (T : TypeId) (s : LuaState) (u : Nat) (k v : Value) (cn : String)
    (hr : Ready s) (hc : s.classname T = some cn)
    (hm : (s.udata u).mt = Value.table (TableId.mt cn))
    (hreg : s.registry.get (Value.str cn) = Value.table (TableId.mt cn))
    (hst : StorageTable s (s.udata u).ptr = Value.nil) :
    callFrame (luaW__newindex T) [Value.userdata u, k, v] s = Outcome.ok [] s := by
  obtain ⟨h1, h2, h3, h4, h5, h6, h7, h8⟩ := hr
  have hto : luaW_to T 1 { s with stack := [v, k, Value.userdata u] } =
      Outcome.ok (s.udata u).ptr { s with stack := [v, k, Value.userdata u] } :=
    luaW_to_self T 1 _ u cn rfl hc (by simp [hm, hreg]) (by simp [hreg])
  unfold StorageTable at hst
  simp [callFrame, luaW__newindex, hto, luaW_getregistry, push, h1, lua_getfield0, valueAt, h4, h5,
    indexPlain_table, lua_pushlightuserdata, lua_rawget, hst, lua_isnoneornil]

theorem callFrame_newindex_some (T : TypeId) (s : LuaState) (u : Nat) (k v : Value) (cn : String)
    (st : TableId)
    (hr : Ready s) (hc : s.classname T = some cn)
    (hm : (s.udata u).mt = Value.table (TableId.mt cn))
    (hreg : s.registry.get (Value.str cn) = Value.table (TableId.mt cn))
    (hst : StorageTable s (s.udata u).ptr = Value.table st) :
    callFrame (luaW__newindex T) [Value.userdata u, k, v] s = Outcome.ok [] { s with
      heap := Function.update s.heap st ((s.heap st).set k v) } := by
  obtain ⟨h1, h2, h3, h4, h5, h6, h7, h8⟩ := hr
  have hto : luaW_to T 1 { s with stack := [v, k, Value.userdata u] } =
      Outcome.ok (s.udata u).ptr { s with stack := [v, k, Value.userdata u] } :=
    luaW_to_self T 1 _ u cn rfl hc (by simp [hm, hreg]) (by simp [hreg])
  unfold StorageTable at hst
  simp [callFrame, luaW__newindex, hto, luaW_getregistry, push, h1, lua_getfield0, valueAt, h4, h5,
    indexPlain_table, lua_pushlightuserdata, lua_rawget, hst, lua_isnoneornil, lua_pushvalue,
    lua_rawset]


theorem assignValue_handle_none (T : TypeId) (s : LuaState) (u : Nat) (k v : Value) (cn : String)
    (hr : Ready s) (hreg : Registered s T cn)
    (hni : (s.heap (TableId.mt cn)).get (Value.str "__newindex") = Value.func (CFun.newindex T))
    (hm : (s.udata u).mt = Value.table (TableId.mt cn))
    (hst : StorageTable s (s.udata u).ptr = Value.nil) :
    assignValue (Value.userdata u) k v s = Outcome.ok () s := by
  obtain ⟨hc, hg, hi, hgc⟩ := hreg
  have := callFrame_newindex_none T s u k v cn hr hc hm hg hst
  simp [assignValue, hm, hni, newindexHandler, this]

theorem assignValue_handle_some (T : TypeId) (s : LuaState) (u : Nat) (k v : Value) (cn : String)
    (st : TableId)
    (hr : Ready s) (hreg : Registered s T cn)
    (hni : (s.heap (TableId.mt cn)).get (Value.str "__newindex") = Value.func (CFun.newindex T))
    (hm : (s.udata u).mt = Value.table (TableId.mt cn))
    (hst : StorageTable s (s.udata u).ptr = Value.table st) :
    assignValue (Value.userdata u) k v s = Outcome.ok () { s with
      heap := Function.update s.heap st ((s.heap st).set k v) } := by
  obtain ⟨hc, hg, hi, hgc⟩ := hreg
  have := callFrame_newindex_some T s u k v cn st hr hc hm hg hst
  simp [assignValue, hm, hni, newindexHandler, this]

/-- C14: let `h` be a handle (block `u`) of a registered type with the default
`__index` and `__newindex` entries, `k` a key and `v` a value other than nil.
If the object of `h` has a storage table, the assignment `h[k] = v` returns,
changes that table only, and the read `h[k]` after it returns `v`.  If the
object has no storage table, the assignment returns without an error and
leaves the whole state as it is, and the read `h[k]` returns the entry of the
metatable of the type for `k`. -/
theorem C14_storage_gating (T : TypeId) (s : LuaState) (u : Nat) (k v : Value) (cn : String)
    (hr : Ready s) (hreg : Registered s T cn)
    (hni : (s.heap (TableId.mt cn)).get (Value.str "__newindex") = Value.func (CFun.newindex T))
    (hm : (s.udata u).mt = Value.table (TableId.mt cn))
    (hk : k ≠ Value.nil) (hv : v ≠ Value.nil) :
    (∀ n, StorageTable s (s.udata u).ptr = Value.table (TableId.anon n) →
      ∃ s', assignValue (Value.userdata u) k v s = Outcome.ok () s' ∧
        indexValue (Value.userdata u) k s' = Outcome.ok v s' ∧
        (∀ id, id ≠ TableId.anon n → s'.heap id = s.heap id) ∧
        (∀ k', k' ≠ k → (s'.heap (TableId.anon n)).get k' = (s.heap (TableId.anon n)).get k') ∧
        s'.stack = s.stack ∧ s'.udata = s.udata ∧ s'.registry = s.registry ∧ s'.log = s.log ∧
        (∀ q, RefCount s' q = RefCount s q) ∧ (∀ q, HoldFlag s' q = HoldFlag s q) ∧
        (∀ q, StorageTable s' q = StorageTable s q)) ∧
    (StorageTable s (s.udata u).ptr = Value.nil →
      assignValue (Value.userdata u) k v s = Outcome.ok () s ∧
      indexValue (Value.userdata u) k s = Outcome.ok ((s.heap (TableId.mt cn)).get k) s) := by
  constructor
  · intro n hst
    have ha := assignValue_handle_some T s u k v cn (TableId.anon n) hr hreg hni hm hst
    obtain ⟨s', hs'⟩ : ∃ s' : LuaState, s' = { s with
        heap := Function.update s.heap (TableId.anon n) ((s.heap (TableId.anon n)).set k v) } :=
      ⟨_, rfl⟩
    rw [← hs'] at ha
    have hr' : Ready s' := Ready_congr s s' (by simp [hs']) (by simp [hs']) (by simp [hs']) hr
    have hreg' : Registered s' T cn :=
      Registered_congr s s' T cn (by simp [hs']) (by simp [hs']) (by simp [hs']) hreg
    have hst' : StorageTable s' (s'.udata u).ptr = Value.table (TableId.anon n) := by
      simpa [hs', StorageTable] using hst
    have hm' : (s'.udata u).mt = Value.table (TableId.mt cn) := by simpa [hs'] using hm
    have hi := indexValue_handle T s' u k cn hr' hreg' hm' (Or.inr ⟨_, hst'⟩)
    have hf : fieldOf s' (s'.udata u).ptr (TableId.mt cn) k = v := by
      have hget : (s'.heap (TableId.anon n)).get k = v := by
        simp [hs', Table.get_set_self]
      unfold fieldOf
      rw [hst']
      simp only [hget]
    rw [hf] at hi
    refine ⟨s', ha, hi, ?_, ?_, ?_, ?_, ?_, ?_, ?_, ?_, ?_⟩
    · intro id hid
      simp [hs', Function.update_noteq hid]
    · intro k' hk'
      simp [hs', Table.get_set_ne _ _ _ _ hk']
    · simp [hs']
    · simp [hs']
    · simp [hs']
    · simp [hs']
    · intro q; simp [hs', RefCount]
    · intro q; simp [hs', HoldFlag]
    · intro q; simp [hs', StorageTable]
  · intro hst
    refine ⟨assignValue_handle_none T s u k v cn hr hreg hni hm hst, ?_⟩
    have hi := indexValue_handle T s u k cn hr hreg hm (Or.inl hst)
    have hf : fieldOf s (s.udata u).ptr (TableId.mt cn) k = (s.heap (TableId.mt cn)).get k := by
      unfold fieldOf
      rw [hst]
    rw [hf] at hi
    exact hi

theorem registerFuncs_exact (id : TableId) (l : List (String × CFun)) :
    ∀ (s : LuaState) (stk : List Value), s.stack = Value.table id :: stk →
      s.tmeta id = Value.nil →
      registerFuncs l s =
        Outcome.ok () { s with heap := Function.update s.heap id (regFold l (s.heap id)) } := by
  induction l with
  | nil =>
    intro s stk _ _
    simp [registerFuncs, regFold]
  | cons m l ih =>
    intro s stk hstk htm
    obtain ⟨name, f⟩ := m
    have h1 := ih
      { s with
        heap := Function.update s.heap id ((s.heap id).set (Value.str name) (Value.func f)) }
      stk hstk htm
    simp [registerFuncs, push, lua_setfield, valueAt, popValue, hstk, assignValue_table, htm]
    rw [← hstk]
    simpa [regFold] using h1

theorem regFold_append (l1 l2 : List (String × CFun)) (t : Table) :
    regFold (l1 ++ l2) t = regFold l2 (regFold l1 t) := by
  simp [regFold, List.foldl_append]

theorem regFold_get_other (l : List (String × CFun)) :
    ∀ (t : Table) (k : Value), (∀ m ∈ l, k ≠ Value.str m.1) → (regFold l t).get k = t.get k := by
  induction l with
  | nil => intro t k _; rfl
  | cons m l ih =>
    intro t k hk
    have : regFold (m :: l) t = regFold l (t.set (Value.str m.1) (Value.func m.2)) := rfl
    rw [this, ih _ k (fun m' hm' => hk m' (List.mem_cons_of_mem _ hm'))]
    exact Table.get_set_ne _ _ _ _ (hk m (List.mem_cons_self _ _))

theorem regLookup_none (l : List (String × CFun)) (n : String) :
    regLookup l n = none ↔ ∀ m ∈ l, m.1 ≠ n := by
  induction l with
  | nil => simp [regLookup]
  | cons m l ih =>
    simp only [regLookup, List.mem_cons, forall_eq_or_imp]
    cases h : regLookup l n with
    | some f =>
      simp only [false_iff, reduceCtorEq]
      intro hall
      have := ih.mpr hall.2
      rw [h] at this
      cases this
    | none =>
      have := ih.mp h
      by_cases hm : m.1 = n
      · simp [hm]
      · simp only [hm, if_false, true_iff, not_false_eq_true, true_and, ne_eq]
        exact this

theorem regFold_get (l : List (String × CFun)) :
    ∀ (t : Table) (n : String), (regFold l t).get (Value.str n) =
      match regLookup l n with
      | some f => Value.func f
      | none => t.get (Value.str n) := by
  induction l with
  | nil => intro t n; rfl
  | cons m l ih =>
    intro t n
    have : regFold (m :: l) t = regFold l (t.set (Value.str m.1) (Value.func m.2)) := rfl
    rw [this, ih]
    simp only [regLookup]
    cases h : regLookup l n with
    | some f => rfl
    | none =>
      by_cases hm : m.1 = n
      · simp [hm, Table.get_set_self]
      · simp only [hm, if_false]
        exact Table.get_set_ne _ _ _ _ (by simpa using fun h' => hm h'.symm)

theorem Table.clean_erase (t : Table) (k : Value) (h : Table.Clean t) :
    Table.Clean (Table.erase t k) :=
  fun x hx => h x (Table.mem_erase t k x hx)

theorem Table.clean_set (t : Table) (k v : Value) (h : Table.Clean t) :
    Table.Clean (t.set k v) := by
  intro x hx
  unfold Table.set at hx
  by_cases hv : v = Value.nil
  · simp only [hv, if_true] at hx
    exact h x (Table.mem_erase t k x hx)
  · simp only [hv, if_false, List.mem_cons] at hx
    rcases hx with hx | hx
    · rw [hx]; exact hv
    · exact h x (Table.mem_erase t k x hx)

theorem regFold_clean (l : List (String × CFun)) :
    ∀ t : Table, Table.Clean t → Table.Clean (regFold l t) := by
  induction l with
  | nil => intro t h; exact h
  | cons m l ih =>
    intro t h
    exact ih _ (Table.clean_set t _ _ h)

theorem foldFill_clean (es : List (Value × Value)) :
    ∀ t : Table, Table.Clean t → Table.Clean (foldFill t es) := by
  induction es with
  | nil => intro t h; exact h
  | cons e es ih =>
    intro t h
    have : foldFill t (e :: es) =
        foldFill (if t.get e.1 = Value.nil then t.set e.1 e.2 else t) es := rfl
    rw [this]
    apply ih
    split
    · exact Table.clean_set t _ _ h
    · exact h

theorem foldFill_get_nil (es : List (Value × Value)) (hes : Table.Clean es) :
    ∀ (t : Table) (key : Value), t.get key = Value.nil →
      (foldFill t es).get key = Table.get es key := by
  induction es with
  | nil =>
    intro t key h
    simpa [foldFill, Table.get] using h
  | cons e es ih =>
    intro t key h
    obtain ⟨k, v⟩ := e
    have hv : v ≠ Value.nil := hes (k, v) (List.mem_cons_self _ _)
    have hes' : Table.Clean es := fun x hx => hes x (List.mem_cons_of_mem _ hx)
    have hstep : foldFill t ((k, v) :: es) =
        foldFill (if t.get k = Value.nil then t.set k v else t) es := rfl
    rw [hstep]
    by_cases hk : k = key
    · subst hk
      simp only [h, if_true, Table.get]
      rw [foldFill_get es _ k (by rw [Table.get_set_self]; exact hv), Table.get_set_self]
    · simp only [Table.get, hk, if_false]
      apply ih hes'
      split
      · rw [Table.get_set_ne _ _ _ _ (fun h' => hk h'.symm)]
        exact h
      · exact h

theorem openTable_exact (T : TypeId) (cn : String) (table : List (String × CFun)) (dn : Bool)
    (s : LuaState) (htm : s.tmeta (TableId.static cn) = Value.nil) :
    openTable T cn table dn s = Outcome.ok () { s with
      stack := Value.table (TableId.static cn) :: s.stack,
      heap := Function.update s.heap (TableId.static cn)
        (regFold ((if dn then [] else [("new", CFun.new T), ("build", CFun.build T)]) ++ table)
          (s.heap (TableId.static cn))) } := by
  cases dn with
  | true =>
    have h1 := registerFuncs_exact (TableId.static cn) table
      { s with stack := Value.table (TableId.static cn) :: s.stack } s.stack rfl htm
    simpa [openTable, luaL_register, push] using h1
  | false =>
    have h1 := registerFuncs_exact (TableId.static cn)
      [("new", CFun.new T), ("build", CFun.build T)]
      { s with stack := Value.table (TableId.static cn) :: s.stack } s.stack rfl htm
    have h2 := registerFuncs_exact (TableId.static cn) table
      { s with
        stack := Value.table (TableId.static cn) :: s.stack,
        heap := Function.update s.heap (TableId.static cn)
          (regFold [("new", CFun.new T), ("build", CFun.build T)] (s.heap (TableId.static cn))) }
      s.stack rfl htm
    simp only [Function.update_idem, Function.update_same] at h2
    simp only [openTable, luaL_register, push, bind_apply, pure_apply, Bool.not_false, if_true]
    simp only [] at h1
    rw [h1]
    simp only [Bool.false_eq_true, if_false, regFold_append]
    simpa using h2

theorem openMetatable_exact (T : TypeId) (cn : String) (metatable : List (String × CFun))
    (s : LuaState) (hreg : s.registry.get (Value.str cn) = Value.nil) :
    openMetatable T cn metatable s = Outcome.ok () { s with
        stack := Value.table (TableId.mt cn) :: s.stack,
        heap := Function.update
          (Function.update (Function.update s.heap (TableId.mt cn) []) (TableId.anon s.nextTable) [])
          (TableId.mt cn)
          (regFold ([("__index", CFun.index T), ("__newindex", CFun.newindex T),
              ("__gc", CFun.gc T)] ++ metatable)
            [(Value.str LUAW_EXTENDS_KEY, Value.table (TableId.anon s.nextTable))]),
        tmeta := Function.update (Function.update s.tmeta (TableId.mt cn) Value.nil)
          (TableId.anon s.nextTable) Value.nil,
        registry := s.registry.set (Value.str cn) (Value.table (TableId.mt cn)),
        nextTable := s.nextTable + 1 } := by
  have hne : TableId.mt cn ≠ TableId.anon s.nextTable := by simp
  obtain ⟨s1, hs1⟩ : ∃ s1 : LuaState, s1 = { s with
      stack := Value.table (TableId.mt cn) :: s.stack,
      heap := Function.update
        (Function.update (Function.update s.heap (TableId.mt cn) []) (TableId.anon s.nextTable) [])
        (TableId.mt cn)
        [(Value.str LUAW_EXTENDS_KEY, Value.table (TableId.anon s.nextTable))],
      tmeta := Function.update (Function.update s.tmeta (TableId.mt cn) Value.nil)
        (TableId.anon s.nextTable) Value.nil,
      registry := s.registry.set (Value.str cn) (Value.table (TableId.mt cn)),
      nextTable := s.nextTable + 1 } := ⟨_, rfl⟩
  have htm1 : s1.tmeta (TableId.mt cn) = Value.nil := by
    simp [hs1, Function.update_noteq hne]
  have h1 := registerFuncs_exact (TableId.mt cn)
    [("__index", CFun.index T), ("__newindex", CFun.newindex T), ("__gc", CFun.gc T)]
    s1 s.stack (by simp [hs1]) htm1
  have h2 := registerFuncs_exact (TableId.mt cn) metatable
    { s1 with
      heap := Function.update s1.heap (TableId.mt cn)
        (regFold [("__index", CFun.index T), ("__newindex", CFun.newindex T), ("__gc", CFun.gc T)]
          (s1.heap (TableId.mt cn))) }
    s.stack (by simp [hs1]) htm1
  have hpre : (do
      let _ ← luaL_newmetatable cn
      lua_newtable
      lua_setfield (-2) LUAW_EXTENDS_KEY : LuaM Unit) s = Outcome.ok () s1 := by
    simp [luaL_newmetatable, luaW_getregistry, push, hreg, lua_isnil, lua_isnoneornil, lua_pop,
      popN, lua_newtableAs, lua_pushvalue, luaW_setregistry, popValue, lua_newtable,
      lua_setfield, valueAt, assignValue_table, Function.update_noteq hne, hs1, Table.set,
      Table.erase]
  simp only [bind_apply] at hpre
  simp only [openMetatable, luaL_register, bind_apply, pure_apply]
  cases hnm : luaL_newmetatable cn s with
  | raise e s' => simp [hnm] at hpre
  | ok b sa =>
    simp only [hnm] at hpre ⊢
    cases hnt : lua_newtable sa with
    | raise e s' => simp [hnt] at hpre
    | ok u sb =>
      simp only [hnt] at hpre ⊢
      rw [hpre]
      simp only [h1, h2]
      simp only [hs1, Function.update_same, Function.update_idem, regFold_append]

theorem extendLoop_exact (cn : String) (nt : Nat) (es : List String) :
    ∀ (s : LuaState) (stk : List Value),
      s.stack = Value.table (TableId.mt cn) :: stk →
      s.tmeta (TableId.mt cn) = Value.nil →
      s.tmeta (TableId.anon nt) = Value.nil →
      (s.heap (TableId.mt cn)).get (Value.str LUAW_EXTENDS_KEY) = Value.table (TableId.anon nt) →
      (∀ e ∈ es, s.registry.get (Value.str e) = Value.nil ∨
        (e ≠ cn ∧ s.registry.get (Value.str e) = Value.table (TableId.mt e) ∧
          s.tmeta (TableId.mt e) = Value.nil ∧
          ∃ ke, ke ≠ nt ∧
            (s.heap (TableId.mt e)).get (Value.str LUAW_EXTENDS_KEY) =
              Value.table (TableId.anon ke))) →
      extendLoop cn es s = Outcome.ok () { s with
        heap := extendHeap cn nt s.registry es s.heap,
        log := s.log ++ extendLog cn s.registry es } := by
  induction es with
  | nil =>
    intro s stk _ _ _ _ _
    simp [extendLoop, extendHeap, extendLog]
  | cons e es ih =>
    intro s stk hstk htM htX hext hes
    rcases hes e (List.mem_cons_self _ _) with hmiss | ⟨hne, hreg, hte, ke, hke, hee⟩
    · -- the ancestor is not registered
      have hrun := ih { s with
          log := s.log ++ [Event.print ("Error: did not open table " ++ e ++ " before " ++ cn)] }
        stk hstk htM htX hext (fun e' he' => hes e' (List.mem_cons_of_mem _ he'))
      simp only [extendLoop, luaL_getmetatable, luaW_getregistry, push, bind_apply, pure_apply,
        lua_isnoneornil, stackAt_m1, hmiss, decide_True, if_true, lua_pop, popN, emit]
      rw [hrun]
      simp [extendHeap, extendLog, hmiss]
    · have hMX : TableId.mt cn ≠ TableId.anon nt := by simp
      have hEX : TableId.mt e ≠ TableId.anon nt := by simp
      have hEM : TableId.mt e ≠ TableId.mt cn := by simpa using hne
      have hKX : TableId.anon ke ≠ TableId.anon nt := by simpa using hke
      have hKM : TableId.anon ke ≠ TableId.mt cn := by simp
      obtain ⟨s1, hs1⟩ : ∃ s1 : LuaState, s1 = { s with
        heap := Function.update
          (Function.update s.heap (TableId.anon nt)
            (foldSet ((s.heap (TableId.anon nt)).set (Value.str e) (Value.table (TableId.mt e)))
              (s.heap (TableId.anon ke))))
          (TableId.mt cn) (foldFill (s.heap (TableId.mt cn)) (s.heap (TableId.mt e))) } := ⟨_, rfl⟩
      have hM1 : s1.heap (TableId.mt cn) =
          foldFill (s.heap (TableId.mt cn)) (s.heap (TableId.mt e)) := by
        simp [hs1]
      have hother1 : ∀ id, id ≠ TableId.mt cn → id ≠ TableId.anon nt → s1.heap id = s.heap id := by
        intro id h1 h2
        simp [hs1, Function.update_noteq h1, Function.update_noteq h2]
      have hrun := ih s1 stk (by simp [hs1, hstk]) (by simp [hs1, htM]) (by simp [hs1, htX])
        (by rw [hM1, foldFill_get _ _ _ (by rw [hext]; simp), hext])
        (by
          intro e' he'
          rcases hes e' (List.mem_cons_of_mem _ he') with h0 | ⟨h1, h2, h3, ke', h5, h6⟩
          · exact Or.inl (by simpa [hs1] using h0)
          · refine Or.inr ⟨h1, by simpa [hs1] using h2, by simpa [hs1] using h3, ke', h5, ?_⟩
            rw [hother1 _ (by simpa using h1) (by simp)]
            exact h6)
      have hfp1 := forPairs_copyExtends
        { s with
          stack := Value.table (TableId.anon ke) :: Value.table (TableId.anon nt) ::
            Value.table (TableId.mt e) :: Value.table (TableId.mt cn) :: stk,
          heap := Function.update s.heap (TableId.anon nt)
            ((s.heap (TableId.anon nt)).set (Value.str e) (Value.table (TableId.mt e))) }
        (TableId.anon ke) (TableId.anon nt) (Value.table (TableId.mt e))
        (Value.table (TableId.mt cn)) stk rfl
      have hfp2 := forPairs_copyMethod
        { s with
          stack := Value.table (TableId.mt e) :: Value.table (TableId.mt cn) :: stk,
          heap := Function.update s.heap (TableId.anon nt)
            (foldSet ((s.heap (TableId.anon nt)).set (Value.str e) (Value.table (TableId.mt e)))
              (s.heap (TableId.anon ke))) }
        (TableId.mt e) (TableId.mt cn) stk rfl (by simpa using htM)
      simp only [Function.update_same, Function.update_noteq hKX, Function.update_idem,
        Function.update_noteq hMX, Function.update_noteq hEX] at hfp1 hfp2
      have hrun' : extendLoop cn es { s with
          stack := Value.table (TableId.mt cn) :: stk,
          heap := Function.update
            (Function.update s.heap (TableId.anon nt)
              (foldSet ((s.heap (TableId.anon nt)).set (Value.str e) (Value.table (TableId.mt e)))
                (s.heap (TableId.anon ke))))
            (TableId.mt cn) (foldFill (s.heap (TableId.mt cn)) (s.heap (TableId.mt e))) } =
          Outcome.ok () { s with
            heap := extendHeap cn nt s.registry (e :: es) s.heap,
            log := s.log ++ extendLog cn s.registry (e :: es) } := by
        rw [hs1] at hrun
        rw [← hstk]
        rw [hrun]
        simp [extendHeap, extendLog, hreg, hee]
      simp [extendLoop, luaL_getmetatable, luaW_getregistry, push, hreg, lua_isnoneornil, hstk,
        lua_getfield, valueAt, indexValue_table, htM, hext, lua_pushvalue, lua_setfield, popValue,
        assignValue_table, htX, hte, Function.update_noteq hEX, hee, hfp1, lua_pop, popN, hfp2,
        hrun']

theorem luaW_register_exact (T : TypeId) (cn : String) (table metatable : List (String × CFun))
    (dn : Bool) (al : Allocator) (de : Deallocator) (s : LuaState)
    (hw : Ready s ∨ s.registry.get (Value.str LUAW_WRAPPER_KEY) = Value.nil)
    (hcn : cn ≠ LUAW_WRAPPER_KEY)
    (hreg : s.registry.get (Value.str cn) = Value.nil)
    (hts : s.tmeta (TableId.static cn) = Value.nil) :
    ∃ s3 : LuaState,
      Ready s3 ∧
      s3.heap (TableId.mt cn) = ownTable T metatable s.nextTable ∧
      s3.heap (TableId.anon s.nextTable) = [] ∧
      s3.heap (TableId.static cn) =
        regFold ((if dn then [] else [("new", CFun.new T), ("build", CFun.build T)]) ++ table)
          (s.heap (TableId.static cn)) ∧
      (∀ n, n ≠ cn → s3.heap (TableId.mt n) = s.heap (TableId.mt n)) ∧
      (∀ n, n ≠ cn → s3.heap (TableId.static n) = s.heap (TableId.static n)) ∧
      (∀ n, n ≠ s.nextTable → s3.heap (TableId.anon n) = s.heap (TableId.anon n)) ∧
      s3.registry.get (Value.str cn) = Value.table (TableId.mt cn) ∧
      (∀ n, n ≠ cn → n ≠ LUAW_WRAPPER_KEY →
        s3.registry.get (Value.str n) = s.registry.get (Value.str n)) ∧
      s3.tmeta (TableId.mt cn) = Value.nil ∧
      s3.tmeta (TableId.anon s.nextTable) = Value.nil ∧
      (∀ n, n ≠ cn → s3.tmeta (TableId.mt n) = s.tmeta (TableId.mt n)) ∧
      (∀ n, s3.tmeta (TableId.static n) = s.tmeta (TableId.static n)) ∧
      (∀ n, n ≠ s.nextTable → s3.tmeta (TableId.anon n) = s.tmeta (TableId.anon n)) ∧
      s3.classname = Function.update s.classname T (some cn) ∧
      s3.allocator = Function.update s.allocator T al ∧
      s3.deallocator = Function.update s.deallocator T de ∧
      s3.log = s.log ∧ s3.udata = s.udata ∧ s3.nextUd = s.nextUd ∧
      s3.nextTable = s.nextTable + 1 ∧
      ∀ es : List String, (∀ m ∈ metatable, m.1 ≠ LUAW_EXTENDS_KEY) →
        (∀ e ∈ es, AncestorOK s cn s.nextTable e) →
        luaW_register T cn table metatable es dn al de s = Outcome.ok () { s3 with
          stack := s.stack,
          heap := extendHeap cn s.nextTable s3.registry es s3.heap,
          tmeta := Function.update s3.tmeta (TableId.static cn) (Value.table (TableId.mt cn)),
          log := s.log ++ extendLog cn s3.registry es } := by
  -- the statics
  obtain ⟨s0, hs0⟩ : ∃ s0 : LuaState, s0 = { s with
      classname := Function.update s.classname T (some cn),
      allocator := Function.update s.allocator T al,
      deallocator := Function.update s.deallocator T de } := ⟨_, rfl⟩
  have hst : setStatics T cn al de s = Outcome.ok () s0 := by
    rw [hs0]; rfl
  -- the LuaWrapper table
  obtain ⟨h1, tm1, r1, hA, hrA, hr1, hh1m, hh1s, hh1a, ht1m, ht1s, ht1a⟩ :=
    ensureWrapper_eq s0 (by
      rcases hw with h | h
      · exact Or.inl (Ready_congr s s0 (by simp [hs0]) (by simp [hs0]) (by simp [hs0]) h)
      · exact Or.inr (by simpa [hs0] using h))
  obtain ⟨sA, hsA⟩ : ∃ sA : LuaState,
      sA = { s0 with heap := h1, tmeta := tm1, registry := r1 } := ⟨_, rfl⟩
  rw [← hsA] at hA hrA
  have hs0r : s0.registry = s.registry := by simp [hs0]
  have hs0h : s0.heap = s.heap := by simp [hs0]
  have hs0t : s0.tmeta = s.tmeta := by simp [hs0]
  rw [hs0r] at hr1
  rw [hs0h] at hh1m hh1s hh1a
  rw [hs0t] at ht1m ht1s ht1a
  -- the table of the class
  have hB := openTable_exact T cn table dn sA (by
    simp only [hsA]
    rw [ht1s]
    exact hts)
  obtain ⟨sB, hsB⟩ : ∃ sB : LuaState, sB = { sA with
      stack := Value.table (TableId.static cn) :: sA.stack,
      heap := Function.update sA.heap (TableId.static cn)
        (regFold ((if dn then [] else [("new", CFun.new T), ("build", CFun.build T)]) ++ table)
          (sA.heap (TableId.static cn))) } := ⟨_, rfl⟩
  rw [← hsB] at hB
  -- the metatable
  have hC := openMetatable_exact T cn metatable sB (by
    simp only [hsB, hsA]
    rw [hr1 cn hcn]
    exact hreg)
  obtain ⟨sC, hsC⟩ : ∃ sC : LuaState, sC = { sB with
      stack := Value.table (TableId.mt cn) :: sB.stack,
      heap := Function.update
        (Function.update (Function.update sB.heap (TableId.mt cn) [])
          (TableId.anon sB.nextTable) [])
        (TableId.mt cn)
        (regFold ([("__index", CFun.index T), ("__newindex", CFun.newindex T),
            ("__gc", CFun.gc T)] ++ metatable)
          [(Value.str LUAW_EXTENDS_KEY, Value.table (TableId.anon sB.nextTable))]),
      tmeta := Function.update (Function.update sB.tmeta (TableId.mt cn) Value.nil)
        (TableId.anon sB.nextTable) Value.nil,
      registry := sB.registry.set (Value.str cn) (Value.table (TableId.mt cn)),
      nextTable := sB.nextTable + 1 } := ⟨_, rfl⟩
  rw [← hsC] at hC
  have hnt : sB.nextTable = s.nextTable := by simp [hsB, hsA, hs0]
  have hCstk : sC.stack =
      Value.table (TableId.mt cn) :: Value.table (TableId.static cn) :: s.stack := by
    simp [hsC, hsB, hsA, hs0]
  have hCM : sC.heap (TableId.mt cn) = ownTable T metatable s.nextTable := by
    simp [hsC, hnt, ownTable]
  have hCX : sC.heap (TableId.anon s.nextTable) = [] := by
    simp [hsC, hnt]
  have hCS : sC.heap (TableId.static cn) =
      regFold ((if dn then [] else [("new", CFun.new T), ("build", CFun.build T)]) ++ table)
        (s.heap (TableId.static cn)) := by
    simp [hsC, hsB, hsA, hh1s]
  have hCmt : ∀ n, n ≠ cn → sC.heap (TableId.mt n) = s.heap (TableId.mt n) := by
    intro n hn
    have : TableId.mt n ≠ TableId.mt cn := by simpa using hn
    simp [hsC, hsB, hsA, Function.update_noteq this, hh1m]
  have hCst : ∀ n, n ≠ cn → sC.heap (TableId.static n) = s.heap (TableId.static n) := by
    intro n hn
    have : TableId.static n ≠ TableId.static cn := by simpa using hn
    simp [hsC, hsB, hsA, Function.update_noteq this, hh1s]
  have hCan : ∀ k, k ≠ s.nextTable → sC.heap (TableId.anon k) = s.heap (TableId.anon k) := by
    intro k hk
    have : TableId.anon k ≠ TableId.anon s.nextTable := by simpa using hk
    simp [hsC, hsB, hsA, hnt, Function.update_noteq this, hh1a, hs0]
  have hCregcn : sC.registry.get (Value.str cn) = Value.table (TableId.mt cn) := by
    simp [hsC, Table.get_set_self]
  have hCreg : ∀ n, n ≠ cn → n ≠ LUAW_WRAPPER_KEY →
      sC.registry.get (Value.str n) = s.registry.get (Value.str n) := by
    intro n hn hk
    have : Value.str n ≠ Value.str cn := by simpa using hn
    simp [hsC, hsB, hsA, Table.get_set_ne _ _ _ _ this, hr1 n hk]
  have hCtmM : sC.tmeta (TableId.mt cn) = Value.nil := by
    simp [hsC]
  have hCtmX : sC.tmeta (TableId.anon s.nextTable) = Value.nil := by
    simp [hsC, hnt]
  have hCtm : ∀ n, n ≠ cn → sC.tmeta (TableId.mt n) = s.tmeta (TableId.mt n) := by
    intro n hn
    have : TableId.mt n ≠ TableId.mt cn := by simpa using hn
    simp [hsC, hsB, hsA, Function.update_noteq this, ht1m]
  have hCts : ∀ n, sC.tmeta (TableId.static n) = s.tmeta (TableId.static n) := by
    intro n
    simp [hsC, hsB, hsA, ht1s]
  have hCta : ∀ n, n ≠ s.nextTable → sC.tmeta (TableId.anon n) = s.tmeta (TableId.anon n) := by
    intro n hn
    have : TableId.anon n ≠ TableId.anon s.nextTable := by simpa using hn
    simp [hsC, hsB, hsA, hnt, Function.update_noteq this, ht1a, hs0]
  have hCready : Ready sC := by
    obtain ⟨a1, a2, a3, a4, a5, a6, a7, a8⟩ := hrA
    have hk : Value.str LUAW_WRAPPER_KEY ≠ Value.str cn := by
      simpa using fun h => hcn h.symm
    refine ⟨?_, ?_, ?_, ?_, ?_, ?_, ?_, ?_⟩
    · simpa [hsC, hsB, Table.get_set_ne _ _ _ _ hk] using a1
    · simpa [hsC, hsB] using a2
    · simpa [hsC, hsB] using a3
    · simpa [hsC, hsB] using a4
    · simpa [hsC, hsB] using a5
    · simpa [hsC, hsB] using a6
    · simpa [hsC, hsB] using a7
    · simpa [hsC, hsB] using a8
  refine ⟨sC, hCready, hCM, hCX, hCS, hCmt, hCst, hCan, hCregcn, hCreg, hCtmM, hCtmX, hCtm, hCts,
    hCta, by simp [hsC, hsB, hsA, hs0], by simp [hsC, hsB, hsA, hs0],
    by simp [hsC, hsB, hsA, hs0], by simp [hsC, hsB, hsA, hs0], by simp [hsC, hsB, hsA, hs0],
    by simp [hsC, hsB, hsA, hs0], by simp [hsC, hsB, hsA, hs0], ?_⟩
  intro es hmt hes
  have hloop := extendLoop_exact cn s.nextTable es sC
    (Value.table (TableId.static cn) :: s.stack) hCstk hCtmM hCtmX
    (by
      rw [hCM, ownTable, regFold_get_other _ _ _ (by
        intro m hm
        simp only [List.cons_append, List.nil_append, List.mem_cons] at hm
        rcases hm with hm | hm | hm | hm
        · simp [hm, LUAW_EXTENDS_KEY]
        · simp [hm, LUAW_EXTENDS_KEY]
        · simp [hm, LUAW_EXTENDS_KEY]
        · simpa using fun h => hmt m hm h.symm)]
      simp [Table.get])
    (by
      intro e he
      obtain ⟨h1, h2, h3⟩ := hes e he
      rcases h3 with h3 | ⟨h3, h4, ke, h5, h6⟩
      · exact Or.inl (by rw [hCreg e h1 h2]; exact h3)
      · refine Or.inr ⟨h1, by rw [hCreg e h1 h2]; exact h3, by rw [hCtm e h1]; exact h4,
          ke, h5, ?_⟩
        rw [hCmt e h1]
        exact h6)
  have hlog : sC.log = s.log := by simp [hsC, hsB, hsA, hs0]
  rw [hlog] at hloop
  simp only [luaW_register, bind_apply, hst, hA, hB, hC, hloop]
  simp [lua_setmetatable, hCstk, lua_pop, popN]

theorem extendHeap_other (cn : String) (nt : Nat) (reg : Table) (es : List String) :
    ∀ (h : TableId → Table) (id : TableId), id ≠ TableId.mt cn → id ≠ TableId.anon nt →
      extendHeap cn nt reg es h id = h id := by
  induction es with
  | nil => intro h id _ _; rfl
  | cons e es ih =>
    intro h id h1 h2
    cases hr : reg.get (Value.str e) with
    | table E =>
      cases hx : (h E).get (Value.str LUAW_EXTENDS_KEY) with
      | table EX =>
        simp only [extendHeap, hr, hx]
        rw [ih _ id h1 h2, Function.update_noteq h1, Function.update_noteq h2]
      | _ => simp only [extendHeap, hr, hx]
    | _ =>
      simp only [extendHeap, hr]
      exact ih h id h1 h2

theorem inherited_congr (h h' : TableId → Table) (reg : Table) (k : Value) (es : List String)
    (hh : ∀ e ∈ es, h' (TableId.mt e) = h (TableId.mt e)) :
    inherited h' reg es k = inherited h reg es k := by
  induction es with
  | nil => rfl
  | cons e es ih =>
    have ih' := ih (fun e' he' => hh e' (List.mem_cons_of_mem _ he'))
    simp only [inherited, hh e (List.mem_cons_self _ _), ih']

theorem extendHeap_mt_get (cn : String) (nt : Nat) (reg : Table) (k : Value) (es : List String) :
    ∀ h : TableId → Table,
      (∀ e ∈ es, e ≠ cn ∧ (reg.get (Value.str e) = Value.nil ∨
        (reg.get (Value.str e) = Value.table (TableId.mt e) ∧ Table.Clean (h (TableId.mt e)) ∧
          ∃ ke, (h (TableId.mt e)).get (Value.str LUAW_EXTENDS_KEY) =
            Value.table (TableId.anon ke)))) →
      (extendHeap cn nt reg es h (TableId.mt cn)).get k =
        if (h (TableId.mt cn)).get k = Value.nil then inherited h reg es k
        else (h (TableId.mt cn)).get k := by
  induction es with
  | nil =>
    intro h _
    simp only [extendHeap, inherited]
    split
    · assumption
    · rfl
  | cons e es ih =>
    intro h hes
    obtain ⟨hne, hcase⟩ := hes e (List.mem_cons_self _ _)
    rcases hcase with hmiss | ⟨hreg, hclean, ke, hext⟩
    · have := ih h (fun e' he' => hes e' (List.mem_cons_of_mem _ he'))
      simp only [extendHeap, hmiss, inherited, if_true]
      exact this
    · have hMX : TableId.mt cn ≠ TableId.anon nt := by simp
      have hother : ∀ e', e' ≠ cn →
          (Function.update
            (Function.update h (TableId.anon nt)
              (foldSet ((h (TableId.anon nt)).set (Value.str e) (Value.table (TableId.mt e)))
                (h (TableId.anon ke))))
            (TableId.mt cn) (foldFill (h (TableId.mt cn)) (h (TableId.mt e)))) (TableId.mt e') =
          h (TableId.mt e') := by
        intro e' he'
        have h1 : TableId.mt e' ≠ TableId.mt cn := by simpa using he'
        have h2 : TableId.mt e' ≠ TableId.anon nt := by simp
        rw [Function.update_noteq h1, Function.update_noteq h2]
      have := ih
        (Function.update
          (Function.update h (TableId.anon nt)
            (foldSet ((h (TableId.anon nt)).set (Value.str e) (Value.table (TableId.mt e)))
              (h (TableId.anon ke))))
          (TableId.mt cn) (foldFill (h (TableId.mt cn)) (h (TableId.mt e))))
        (by
          intro e' he'
          obtain ⟨h1, h2⟩ := hes e' (List.mem_cons_of_mem _ he')
          refine ⟨h1, ?_⟩
          rcases h2 with h2 | ⟨h2, h3, ke', h4⟩
          · exact Or.inl h2
          · refine Or.inr ⟨h2, ?_, ke', ?_⟩
            · rw [hother e' h1]; exact h3
            · rw [hother e' h1]; exact h4)
      have hinh := inherited_congr h
        (Function.update
          (Function.update h (TableId.anon nt)
            (foldSet ((h (TableId.anon nt)).set (Value.str e) (Value.table (TableId.mt e)))
              (h (TableId.anon ke))))
          (TableId.mt cn) (foldFill (h (TableId.mt cn)) (h (TableId.mt e)))) reg k es
        (fun e' he' => hother e' (hes e' (List.mem_cons_of_mem _ he')).1)
      have hregne : reg.get (Value.str e) ≠ Value.nil := by rw [hreg]; simp
      simp only [extendHeap, hreg, hext]
      rw [this, hinh]
      simp only [Function.update_same, inherited, hregne, if_false]
      by_cases hk : (h (TableId.mt cn)).get k = Value.nil
      · rw [foldFill_get_nil _ hclean _ _ hk]
        simp only [hk, if_true]
      · rw [foldFill_get _ _ _ hk]
        simp only [hk, if_false]

theorem extendHeap_mt_keep (cn : String) (nt : Nat) (reg : Table) (k : Value) (es : List String) :
    ∀ h : TableId → Table, (h (TableId.mt cn)).get k ≠ Value.nil →
      (extendHeap cn nt reg es h (TableId.mt cn)).get k = (h (TableId.mt cn)).get k := by
  induction es with
  | nil => intro h _; rfl
  | cons e es ih =>
    intro h hk
    cases hr : reg.get (Value.str e) with
    | table E =>
      cases hx : (h E).get (Value.str LUAW_EXTENDS_KEY) with
      | table EX =>
        simp only [extendHeap, hr, hx]
        rw [ih _ (by simp only [Function.update_same]; rw [foldFill_get _ _ _ hk]; exact hk)]
        simp only [Function.update_same]
        exact foldFill_get _ _ _ hk
      | _ => simp only [extendHeap, hr, hx]
    | _ =>
      simp only [extendHeap, hr]
      exact ih h hk

theorem inherited_congr_reg (h h' : TableId → Table) (reg reg' : Table) (k : Value)
    (es : List String)
    (hh : ∀ e ∈ es, h' (TableId.mt e) = h (TableId.mt e))
    (hr : ∀ e ∈ es, reg'.get (Value.str e) = reg.get (Value.str e)) :
    inherited h' reg' es k = inherited h reg es k := by
  induction es with
  | nil => rfl
  | cons e es ih =>
    have ih' := ih (fun e' he' => hh e' (List.mem_cons_of_mem _ he'))
      (fun e' he' => hr e' (List.mem_cons_of_mem _ he'))
    simp only [inherited, hh e (List.mem_cons_self _ _), hr e (List.mem_cons_self _ _), ih']

theorem regLookup_append (l1 l2 : List (String × CFun)) (n : String) :
    regLookup (l1 ++ l2) n =
      match regLookup l2 n with
      | some f => some f
      | none => regLookup l1 n := by
  induction l1 with
  | nil =>
    simp only [List.nil_append, regLookup]
    cases regLookup l2 n <;> rfl
  | cons m l1 ih =>
    show regLookup (m :: (l1 ++ l2)) n = _
    simp only [regLookup]
    rw [ih]
    cases regLookup l2 n <;> rfl

/-- C18: register a class under a fresh name `cn` with the `extends` array
`es`, each name of which is either absent from the registry or a class
registered before.  The call returns; the metatables of the ancestors are left
as they are; and for every key the entry of the metatable of the class is its
own entry (the `__extends` field, a default entry or an entry of the
`metatable` argument) when it has one, otherwise the entry of the first
registered ancestor, in the order of the array, whose metatable has an entry
for the key (`inherited`), and nil when there is no such ancestor. -/
theorem C18_first_ancestor_wins (T : TypeId) (cn : String)
    (table metatable : List (String × CFun)) (es : List String)
    (dn : Bool) (al : Allocator) (de : Deallocator) (s : LuaState)
    (hw : Ready s ∨ s.registry.get (Value.str LUAW_WRAPPER_KEY) = Value.nil)
    (hcn : cn ≠ LUAW_WRAPPER_KEY)
    (hreg : s.registry.get (Value.str cn) = Value.nil)
    (hts : s.tmeta (TableId.static cn) = Value.nil)
    (hmt : ∀ m ∈ metatable, m.1 ≠ LUAW_EXTENDS_KEY)
    (hes : ∀ e ∈ es, AncestorOK s cn s.nextTable e)
    (hclean : ∀ e ∈ es, Table.Clean (s.heap (TableId.mt e))) :
    ∃ s', luaW_register T cn table metatable es dn al de s = Outcome.ok () s' ∧
      (∀ e ∈ es, s'.heap (TableId.mt e) = s.heap (TableId.mt e)) ∧
      ∀ k, (s'.heap (TableId.mt cn)).get k =
        if (ownTable T metatable s.nextTable).get k = Value.nil then
          inherited s.heap s.registry es k
        else (ownTable T metatable s.nextTable).get k := by
  obtain ⟨s3, f1, f2, f3, f4, f5, f6, f7, f8, f9, f10, f11, f12, f13, f14, f15, f16, f17, f18,
    f19, f20, f21, hrun⟩ := luaW_register_exact T cn table metatable dn al de s hw hcn hreg hts
  refine ⟨_, hrun es hmt hes, ?_, ?_⟩
  · intro e he
    obtain ⟨h1, h2, _⟩ := hes e he
    show extendHeap cn s.nextTable s3.registry es s3.heap (TableId.mt e) = _
    rw [extendHeap_other _ _ _ _ _ _ (by simpa using h1) (by simp), f5 e h1]
  · intro k
    show (extendHeap cn s.nextTable s3.registry es s3.heap (TableId.mt cn)).get k = _
    rw [extendHeap_mt_get cn s.nextTable s3.registry k es s3.heap (by
      intro e he
      obtain ⟨h1, h2, h3⟩ := hes e he
      refine ⟨h1, ?_⟩
      rcases h3 with h3 | ⟨h3, h4, ke, h5, h6⟩
      · exact Or.inl (by rw [f9 e h1 h2]; exact h3)
      · refine Or.inr ⟨by rw [f9 e h1 h2]; exact h3, ?_, ke, ?_⟩
        · rw [f5 e h1]; exact hclean e he
        · rw [f5 e h1]; exact h6)]
    rw [f2, inherited_congr_reg s.heap s3.heap s.registry s3.registry k es
      (fun e he => f5 e (hes e he).1) (fun e he => f9 e (hes e he).1 (hes e he).2.1)]

/-- C20: register a class under a fresh name `cn` (no registry entry, an empty
static table).  The call returns.  The static table holds, under each name, the
last entry of that name of the `table` argument, else the default `new` or
`build` when `disablenew` is false, and nothing else.  The metatable holds the
last entry of each name of the `metatable` argument, and the default
`__index`, `__newindex` and `__gc` under the names the argument does not
use. -/
theorem C20_default_entries (T : TypeId) (cn : String)
    (table metatable : List (String × CFun)) (es : List String)
    (dn : Bool) (al : Allocator) (de : Deallocator) (s : LuaState)
    (hw : Ready s ∨ s.registry.get (Value.str LUAW_WRAPPER_KEY) = Value.nil)
    (hcn : cn ≠ LUAW_WRAPPER_KEY)
    (hreg : s.registry.get (Value.str cn) = Value.nil)
    (hfresh : s.heap (TableId.static cn) = [])
    (hts : s.tmeta (TableId.static cn) = Value.nil)
    (hmt : ∀ x ∈ metatable, x.1 ≠ LUAW_EXTENDS_KEY)
    (hes : ∀ e ∈ es, AncestorOK s cn s.nextTable e) :
    ∃ s', luaW_register T cn table metatable es dn al de s = Outcome.ok () s' ∧
      (∀ n, (s'.heap (TableId.static cn)).get (Value.str n) =
        match regLookup table n with
        | some f => Value.func f
        | none =>
          if dn then Value.nil
          else if n = "build" then Value.func (CFun.build T)
          else if n = "new" then Value.func (CFun.new T)
          else Value.nil) ∧
      (∀ k, (∀ n, k ≠ Value.str n) → (s'.heap (TableId.static cn)).get k = Value.nil) ∧
      (∀ n f, regLookup metatable n = some f →
        (s'.heap (TableId.mt cn)).get (Value.str n) = Value.func f) ∧
      (regLookup metatable "__index" = none →
        (s'.heap (TableId.mt cn)).get (Value.str "__index") = Value.func (CFun.index T)) ∧
      (regLookup metatable "__newindex" = none →
        (s'.heap (TableId.mt cn)).get (Value.str "__newindex") = Value.func (CFun.newindex T)) ∧
      (regLookup metatable "__gc" = none →
        (s'.heap (TableId.mt cn)).get (Value.str "__gc") = Value.func (CFun.gc T)) := by
  obtain ⟨s3, f1, f2, f3, f4, f5, f6, f7, f8, f9, f10, f11, f12, f13, f14, f15, f16, f17, f18,
    f19, f20, f21, hrun⟩ := luaW_register_exact T cn table metatable dn al de s hw hcn hreg hts
  have hstatic : extendHeap cn s.nextTable s3.registry es s3.heap (TableId.static cn) =
      regFold ((if dn then [] else [("new", CFun.new T), ("build", CFun.build T)]) ++ table) [] := by
    rw [extendHeap_other _ _ _ _ _ _ (by simp) (by simp), f4, hfresh]
  have hown : ∀ n f,
      regLookup ([("__index", CFun.index T), ("__newindex", CFun.newindex T),
        ("__gc", CFun.gc T)] ++ metatable) n = some f →
      (extendHeap cn s.nextTable s3.registry es s3.heap (TableId.mt cn)).get (Value.str n) =
        Value.func f := by
    intro n f hl
    have hget : (s3.heap (TableId.mt cn)).get (Value.str n) = Value.func f := by
      rw [f2, ownTable, regFold_get, hl]
    rw [extendHeap_mt_keep _ _ _ _ _ _ (by rw [hget]; simp), hget]
  refine ⟨_, hrun es hmt hes, ?_, ?_, ?_, ?_, ?_, ?_⟩
  · intro n
    show (extendHeap cn s.nextTable s3.registry es s3.heap (TableId.static cn)).get _ = _
    rw [hstatic, regFold_get, regLookup_append]
    cases regLookup table n with
    | some f => rfl
    | none =>
      cases dn with
      | true => simp [regLookup, Table.get]
      | false =>
        by_cases h1 : n = "build"
        · simp [regLookup, h1]
        · by_cases h2 : n = "new"
          · simp [regLookup, h2]
          · have h1' : ¬ "build" = n := fun h => h1 h.symm
            have h2' : ¬ "new" = n := fun h => h2 h.symm
            simp [regLookup, h1, h2, h1', h2', Table.get]
  · intro k hk
    show (extendHeap cn s.nextTable s3.registry es s3.heap (TableId.static cn)).get _ = _
    rw [hstatic, regFold_get_other _ _ _ (fun m _ => hk m.1)]
    rfl
  · intro n f hl
    show (extendHeap cn s.nextTable s3.registry es s3.heap (TableId.mt cn)).get _ = _
    apply hown
    rw [regLookup_append, hl]
  · intro hl
    show (extendHeap cn s.nextTable s3.registry es s3.heap (TableId.mt cn)).get _ = _
    apply hown
    rw [regLookup_append, hl]
    simp [regLookup]
  · intro hl
    show (extendHeap cn s.nextTable s3.registry es s3.heap (TableId.mt cn)).get _ = _
    apply hown
    rw [regLookup_append, hl]
    simp [regLookup]
  · intro hl
    show (extendHeap cn s.nextTable s3.registry es s3.heap (TableId.mt cn)).get _ = _
    apply hown
    rw [regLookup_append, hl]
    simp [regLookup]

theorem demo_fresh_name :
    (Ready demo ∨ demo.registry.get (Value.str LUAW_WRAPPER_KEY) = Value.nil) ∧
    "Widget2D" ≠ LUAW_WRAPPER_KEY ∧
    demo.registry.get (Value.str "Widget2D") = Value.nil ∧
    demo.heap (TableId.static "Widget2D") = [] ∧
    demo.tmeta (TableId.static "Widget2D") = Value.nil ∧
    (∀ x ∈ [("SetY", CFun.host "Widget2DL_SetY"), ("SetX", CFun.host "Widget2DL_SetX")],
      x.1 ≠ LUAW_EXTENDS_KEY) := by
  refine ⟨Or.inl demo_ready, ?_, ?_, ?_, ?_, ?_⟩
  · simp [LUAW_WRAPPER_KEY]
  · simp [demo, Table.get]
  · simp [demo, demoHeap]
  · simp [demo]
  · simp [LUAW_EXTENDS_KEY]

theorem demo_ancestor_widget : AncestorOK demo "Widget2D" demo.nextTable "Widget" := by
  refine ⟨by simp, by simp [LUAW_WRAPPER_KEY], Or.inr ⟨?_, ?_, 0, ?_, ?_⟩⟩
  · simp [demo, Table.get]
  · simp [demo]
  · simp [demo]
  · simp [demo, demoHeap, Table.get, LUAW_EXTENDS_KEY]

theorem demo_ancestor_gadget : AncestorOK demo "Widget2D" demo.nextTable "Gadget" := by
  refine ⟨by simp, by simp [LUAW_WRAPPER_KEY], Or.inl ?_⟩
  simp [demo, Table.get]

theorem demo_widget_clean : Table.Clean (demo.heap (TableId.mt "Widget")) := by
  simp [Table.Clean, demo, demoHeap]

/-- Witness of C18: `Widget2D`, with entries `SetY` and `SetX` of its own,
registered on the example state with the `extends` array naming `Widget`. -/
theorem C18_first_ancestor_wins_witness :
    ((Ready demo ∨ demo.registry.get (Value.str LUAW_WRAPPER_KEY) = Value.nil) ∧
      "Widget2D" ≠ LUAW_WRAPPER_KEY ∧
      demo.registry.get (Value.str "Widget2D") = Value.nil ∧
      demo.tmeta (TableId.static "Widget2D") = Value.nil ∧
      (∀ x ∈ [("SetY", CFun.host "Widget2DL_SetY"), ("SetX", CFun.host "Widget2DL_SetX")],
        x.1 ≠ LUAW_EXTENDS_KEY) ∧
      (∀ e ∈ ["Widget"], AncestorOK demo "Widget2D" demo.nextTable e) ∧
      (∀ e ∈ ["Widget"], Table.Clean (demo.heap (TableId.mt e)))) ∧
    ∃ s', luaW_register 1 "Widget2D" []
        [("SetY", CFun.host "Widget2DL_SetY"), ("SetX", CFun.host "Widget2DL_SetX")] ["Widget"]
        false Allocator.default Deallocator.default demo = Outcome.ok () s' ∧
      (∀ e ∈ ["Widget"], s'.heap (TableId.mt e) = demo.heap (TableId.mt e)) ∧
      ∀ k, (s'.heap (TableId.mt "Widget2D")).get k =
        if (ownTable 1 [("SetY", CFun.host "Widget2DL_SetY"), ("SetX", CFun.host "Widget2DL_SetX")]
            demo.nextTable).get k = Value.nil then
          inherited demo.heap demo.registry ["Widget"] k
        else (ownTable 1
          [("SetY", CFun.host "Widget2DL_SetY"), ("SetX", CFun.host "Widget2DL_SetX")]
          demo.nextTable).get k :=
  have h1 : ∀ e ∈ ["Widget"], AncestorOK demo "Widget2D" demo.nextTable e := by
    intro e he
    simp only [List.mem_singleton] at he
    rw [he]
    exact demo_ancestor_widget
  have h2 : ∀ e ∈ ["Widget"], Table.Clean (demo.heap (TableId.mt e)) := by
    intro e he
    simp only [List.mem_singleton] at he
    rw [he]
    exact demo_widget_clean
  ⟨⟨demo_fresh_name.1, demo_fresh_name.2.1, demo_fresh_name.2.2.1, demo_fresh_name.2.2.2.2.1,
      demo_fresh_name.2.2.2.2.2, h1, h2⟩,
    C18_first_ancestor_wins 1 "Widget2D" []
      [("SetY", CFun.host "Widget2DL_SetY"), ("SetX", CFun.host "Widget2DL_SetX")] ["Widget"]
      false Allocator.default Deallocator.default demo
      demo_fresh_name.1 demo_fresh_name.2.1 demo_fresh_name.2.2.1 demo_fresh_name.2.2.2.2.1
      demo_fresh_name.2.2.2.2.2 h1 h2⟩

set_option maxHeartbeats 4000000 in
theorem register_demoTwo :
    ∃ s1, luaW_register 3 "Base" [] [("Name", CFun.host "Base_Name")] [] false
      Allocator.default Deallocator.default demo = Outcome.ok () s1 ∧
    luaW_register 2 "Shape" [] [("Draw", CFun.host "Shape_Draw")] ["Base"] false
      Allocator.default Deallocator.default s1 = Outcome.ok () demoTwo := by
  refine ⟨{ demo with
    heap := fun id =>
      if id = TableId.mt "Base" then
        [(Value.str "Name", Value.func (CFun.host "Base_Name")),
         (Value.str "__gc", Value.func (CFun.gc 3)),
         (Value.str "__newindex", Value.func (CFun.newindex 3)),
         (Value.str "__index", Value.func (CFun.index 3)),
         (Value.str "__extends", Value.table (TableId.anon 1))]
      else if id = TableId.static "Base" then
        [(Value.str "build", Value.func (CFun.build 3)),
         (Value.str "new", Value.func (CFun.new 3))]
      else demoHeap id,
    tmeta := fun id =>
      if id = TableId.static "Widget" then Value.table (TableId.mt "Widget")
      else if id = TableId.static "Base" then Value.table (TableId.mt "Base")
      else Value.nil,
    nextTable := 2,
    registry :=
      [(Value.str "Base", Value.table (TableId.mt "Base")),
       (Value.str "Widget", Value.table (TableId.mt "Widget")),
       (Value.str "LuaWrapper", Value.table TableId.wrapper)],
    classname := fun T => if T = 0 then some "Widget" else if T = 3 then some "Base" else none },
    ?_, ?_⟩
  · simp [luaW_register, setStatics, ensureWrapper, openTable, openMetatable,
      luaW_getregistry, push, Table.get, lua_isnil, lua_isnoneornil, lua_newtableAs,
      luaW_setregistry, popValue, Table.set, Table.erase, LUAW_WRAPPER_KEY,
      lua_setfield, valueAt, assignValue, rawStore, lua_pop, popN, luaL_register, registerFuncs,
      luaL_newmetatable, lua_pushvalue, lua_newtable, extendLoop, lua_setmetatable,
      LUAW_COUNT_KEY, LUAW_STORAGE_KEY, LUAW_HOLDS_KEY, LUAW_EXTENDS_KEY, demo, demoHeap]
    refine ⟨?_, ?_, ?_⟩
    · funext id
      simp only [Function.update, demoHeap]
      split_ifs <;> simp_all
    · funext id
      simp only [Function.update]
      split_ifs <;> simp_all
    · funext T
      simp only [Function.update]
      split_ifs <;> simp_all
  · simp [luaW_register, setStatics, ensureWrapper, openTable, openMetatable,
      luaW_getregistry, push, Table.get, lua_isnil, lua_isnoneornil, lua_newtableAs,
      luaW_setregistry, popValue, Table.set, Table.erase, LUAW_WRAPPER_KEY,
      lua_setfield, valueAt, assignValue, rawStore, lua_pop, popN, luaL_register, registerFuncs,
      luaL_newmetatable, lua_pushvalue, lua_newtable, extendLoop, lua_setmetatable,
      LUAW_COUNT_KEY, LUAW_STORAGE_KEY, LUAW_HOLDS_KEY, LUAW_EXTENDS_KEY, demo, demoHeap,
      luaL_getmetatable, lua_getfield, indexValue, forPairs, forPairsLoop, getState, lua_pushnil,
      copyExtends, copyMethod, lua_rawset, lua_gettable, demoTwo]
    refine ⟨?_, ?_, ?_⟩
    · funext id
      simp only [Function.update, demoTwoHeap, demoHeap]
      split_ifs <;> simp_all
    · funext id
      simp only [Function.update]
      split_ifs <;> simp_all
    · funext T
      simp only [Function.update]
      split_ifs <;> simp_all

/-- The registration of `Widget`, `Base` and `Shape` on a fresh state yields
the state `demoTwo`. -/
theorem demoTwo_run :
    registerAll [demoDecl, baseDecl, shapeDecl] LuaState.init = Outcome.ok () demoTwo := by
  obtain ⟨s1, h1, h2⟩ := register_demoTwo
  simp only [registerAll, registerClass, demoDecl, baseDecl, shapeDecl, bind_apply, register_demo,
    h1, h2, pure_apply]

theorem demoTwo_wellOrdered : WellOrdered [] [demoDecl, baseDecl, shapeDecl] := by
  simp [WellOrdered, demoDecl, baseDecl, shapeDecl, LUAW_WRAPPER_KEY, LUAW_EXTENDS_KEY]

/-- Witness of C20: `Widget2D` registered on the example state with a static
entry `new` of its own and a metatable entry `__gc` of its own. -/
theorem C20_default_entries_witness :
    ((Ready demo ∨ demo.registry.get (Value.str LUAW_WRAPPER_KEY) = Value.nil) ∧
      "Widget2D" ≠ LUAW_WRAPPER_KEY ∧
      demo.registry.get (Value.str "Widget2D") = Value.nil ∧
      demo.heap (TableId.static "Widget2D") = [] ∧
      demo.tmeta (TableId.static "Widget2D") = Value.nil ∧
      (∀ x ∈ [("SetY", CFun.host "Widget2DL_SetY"), ("__gc", CFun.host "Widget2DL_gc")],
        x.1 ≠ LUAW_EXTENDS_KEY) ∧
      (∀ e ∈ ["Widget"], AncestorOK demo "Widget2D" demo.nextTable e)) ∧
    ∃ s', luaW_register 1 "Widget2D" [("new", CFun.host "Widget2DL_new")]
        [("SetY", CFun.host "Widget2DL_SetY"), ("__gc", CFun.host "Widget2DL_gc")] ["Widget"]
        false Allocator.default Deallocator.default demo = Outcome.ok () s' ∧
      (∀ n, (s'.heap (TableId.static "Widget2D")).get (Value.str n) =
        match regLookup [("new", CFun.host "Widget2DL_new")] n with
        | some f => Value.func f
        | none =>
          if false then Value.nil
          else if n = "build" then Value.func (CFun.build 1)
          else if n = "new" then Value.func (CFun.new 1)
          else Value.nil) ∧
      (∀ k, (∀ n, k ≠ Value.str n) → (s'.heap (TableId.static "Widget2D")).get k = Value.nil) ∧
      (∀ n f, regLookup [("SetY", CFun.host "Widget2DL_SetY"), ("__gc", CFun.host "Widget2DL_gc")]
          n = some f →
        (s'.heap (TableId.mt "Widget2D")).get (Value.str n) = Value.func f) ∧
      (regLookup [("SetY", CFun.host "Widget2DL_SetY"), ("__gc", CFun.host "Widget2DL_gc")]
          "__index" = none →
        (s'.heap (TableId.mt "Widget2D")).get (Value.str "__index") = Value.func (CFun.index 1)) ∧
      (regLookup [("SetY", CFun.host "Widget2DL_SetY"), ("__gc", CFun.host "Widget2DL_gc")]
          "__newindex" = none →
        (s'.heap (TableId.mt "Widget2D")).get (Value.str "__newindex") =
          Value.func (CFun.newindex 1)) ∧
      (regLookup [("SetY", CFun.host "Widget2DL_SetY"), ("__gc", CFun.host "Widget2DL_gc")]
          "__gc" = none →
        (s'.heap (TableId.mt "Widget2D")).get (Value.str "__gc") = Value.func (CFun.gc 1)) :=
  have h0 : ∀ x ∈ [("SetY", CFun.host "Widget2DL_SetY"), ("__gc", CFun.host "Widget2DL_gc")],
      x.1 ≠ LUAW_EXTENDS_KEY := by
    simp [LUAW_EXTENDS_KEY]
  have h1 : ∀ e ∈ ["Widget"], AncestorOK demo "Widget2D" demo.nextTable e := by
    intro e he
    simp only [List.mem_singleton] at he
    rw [he]
    exact demo_ancestor_widget
  ⟨⟨demo_fresh_name.1, demo_fresh_name.2.1, demo_fresh_name.2.2.1, demo_fresh_name.2.2.2.1,
      demo_fresh_name.2.2.2.2.1, h0, h1⟩,
    C20_default_entries 1 "Widget2D" [("new", CFun.host "Widget2DL_new")]
      [("SetY", CFun.host "Widget2DL_SetY"), ("__gc", CFun.host "Widget2DL_gc")] ["Widget"]
      false Allocator.default Deallocator.default demo
      demo_fresh_name.1 demo_fresh_name.2.1 demo_fresh_name.2.2.1 demo_fresh_name.2.2.2.1
      demo_fresh_name.2.2.2.2.1 h0 h1⟩

theorem demoHeld_eq :
    (do luaW_push 0 100; let _ ← luaW_hold 0 100 : LuaM Unit) demo = Outcome.ok () demoHeld := by
  have hp := luaW_push_eq 0 100 demo demo_ready "Widget" (by simp [demo])
  obtain ⟨s1, hs1⟩ : ∃ s1 : LuaState, s1 = { demo with
      stack := Value.userdata demo.nextUd :: demo.stack,
      udata := Function.update demo.udata demo.nextUd
        { ptr := 100, mt := demo.registry.get (Value.str "Widget") },
      nextUd := demo.nextUd + 1,
      heap := Function.update demo.heap TableId.counts
        ((demo.heap TableId.counts).set (Value.lightud 100) (Value.int (RefCount demo 100 + 1))) } :=
    ⟨_, rfl⟩
  rw [← hs1] at hp
  have hr1 : Ready s1 :=
    Ready_congr demo s1 (by simp [hs1]) (by simp [hs1]) (by simp [hs1]) demo_ready
  have hh := luaW_hold_fresh 0 100 s1 hr1
    (by simp [hs1, HoldFlag, demo, demoHeap, Table.get, Value.toBoolean])
    (by simp [hs1, RefCount, demo, demoHeap, Table.get, Table.set, Table.erase, Value.toInteger])
    (by simp [hs1, StorageTable, demo, demoHeap, Table.get])
  simp only [bind_apply, hp, hh, pure_apply]
  congr 1
  simp only [hs1, demoHeld]
  congr 1

theorem demoHeld_ready : Ready demoHeld := by
  simp [Ready, demoHeld, demo, demoHeap, Table.get, LUAW_WRAPPER_KEY, LUAW_COUNT_KEY,
    LUAW_HOLDS_KEY, LUAW_STORAGE_KEY, Function.update]

theorem demoHeld_registered : Registered demoHeld 0 "Widget" := by
  simp [Registered, demoHeld, demo, demoHeap, Table.get, Function.update]

/-- Witness of C14 on the example state with one held handle: the key
`"extra"` and the value 5. -/
theorem C14_storage_gating_witness :
    (Ready demoHeld ∧ Registered demoHeld 0 "Widget" ∧
      (demoHeld.heap (TableId.mt "Widget")).get (Value.str "__newindex") =
        Value.func (CFun.newindex 0) ∧
      (demoHeld.udata 0).mt = Value.table (TableId.mt "Widget") ∧
      Value.str "extra" ≠ Value.nil ∧ Value.int 5 ≠ Value.nil) ∧
    (∀ n, StorageTable demoHeld (demoHeld.udata 0).ptr = Value.table (TableId.anon n) →
      ∃ s', assignValue (Value.userdata 0) (Value.str "extra") (Value.int 5) demoHeld =
          Outcome.ok () s' ∧
        indexValue (Value.userdata 0) (Value.str "extra") s' = Outcome.ok (Value.int 5) s' ∧
        (∀ id, id ≠ TableId.anon n → s'.heap id = demoHeld.heap id) ∧
        (∀ k', k' ≠ Value.str "extra" →
          (s'.heap (TableId.anon n)).get k' = (demoHeld.heap (TableId.anon n)).get k') ∧
        s'.stack = demoHeld.stack ∧ s'.udata = demoHeld.udata ∧
        s'.registry = demoHeld.registry ∧ s'.log = demoHeld.log ∧
        (∀ q, RefCount s' q = RefCount demoHeld q) ∧ (∀ q, HoldFlag s' q = HoldFlag demoHeld q) ∧
        (∀ q, StorageTable s' q = StorageTable demoHeld q)) ∧
    (StorageTable demoHeld (demoHeld.udata 0).ptr = Value.nil →
      assignValue (Value.userdata 0) (Value.str "extra") (Value.int 5) demoHeld =
        Outcome.ok () demoHeld ∧
      indexValue (Value.userdata 0) (Value.str "extra") demoHeld =
        Outcome.ok ((demoHeld.heap (TableId.mt "Widget")).get (Value.str "extra")) demoHeld) :=
  have h1 : (demoHeld.heap (TableId.mt "Widget")).get (Value.str "__newindex") =
      Value.func (CFun.newindex 0) := by
    simp [demoHeld, demo, demoHeap, Table.get, Function.update]
  have h2 : (demoHeld.udata 0).mt = Value.table (TableId.mt "Widget") := by
    simp [demoHeld]
  have h3 : Value.str "extra" ≠ Value.nil := by simp
  have h4 : Value.int 5 ≠ Value.nil := by simp
  ⟨⟨demoHeld_ready, demoHeld_registered, h1, h2, h3, h4⟩,
    C14_storage_gating 0 demoHeld 0 (Value.str "extra") (Value.int 5) "Widget"
      demoHeld_ready demoHeld_registered h1 h2 h3 h4⟩

theorem foldFill_mem (es : List (Value × Value)) :
    ∀ (t : Table) (e : Value × Value), e ∈ foldFill t es → e ∈ t ∨ e ∈ es := by
  induction es with
  | nil => intro t e h; exact Or.inl h
  | cons x es ih =>
    intro t e h
    have hstep : foldFill t (x :: es) =
        foldFill (if t.get x.1 = Value.nil then t.set x.1 x.2 else t) es := rfl
    rw [hstep] at h
    rcases ih _ e h with h1 | h1
    · by_cases hx : t.get x.1 = Value.nil
      · simp only [hx, if_true] at h1
        rcases Table.mem_set t x.1 x.2 e h1 with h2 | h2
        · right
          rw [h2]
          exact List.mem_cons_self _ _
        · exact Or.inl h2
      · simp only [hx, if_false] at h1
        exact Or.inl h1
    · exact Or.inr (List.mem_cons_of_mem _ h1)

theorem regFold_mem (l : List (String × CFun)) :
    ∀ (t : Table) (x : Value × Value), x ∈ regFold l t →
      x ∈ t ∨ ∃ m ∈ l, x = (Value.str m.1, Value.func m.2) := by
  induction l with
  | nil => intro t x h; exact Or.inl h
  | cons m l ih =>
    intro t x h
    have hstep : regFold (m :: l) t = regFold l (t.set (Value.str m.1) (Value.func m.2)) := rfl
    rw [hstep] at h
    rcases ih _ x h with h1 | ⟨m', hm', h1⟩
    · rcases Table.mem_set _ _ _ _ h1 with h2 | h2
      · exact Or.inr ⟨m, List.mem_cons_self _ _, h2⟩
      · exact Or.inl h2
    · exact Or.inr ⟨m', List.mem_cons_of_mem _ hm', h1⟩

theorem extendHeap_mt_mem (cn : String) (nt : Nat) (reg : Table) (x : Value × Value)
    (es : List String) :
    ∀ h : TableId → Table,
      (∀ e ∈ es, e ≠ cn ∧ (reg.get (Value.str e) = Value.nil ∨
        reg.get (Value.str e) = Value.table (TableId.mt e))) →
      x ∈ extendHeap cn nt reg es h (TableId.mt cn) →
      x ∈ h (TableId.mt cn) ∨
        ∃ e ∈ es, reg.get (Value.str e) = Value.table (TableId.mt e) ∧ x ∈ h (TableId.mt e) := by
  induction es with
  | nil => intro h _ hx; exact Or.inl hx
  | cons e es ih =>
    intro h hes hx
    obtain ⟨hne, hcase⟩ := hes e (List.mem_cons_self _ _)
    have hes' : ∀ e' ∈ es, e' ≠ cn ∧ (reg.get (Value.str e') = Value.nil ∨
        reg.get (Value.str e') = Value.table (TableId.mt e')) :=
      fun e' he' => hes e' (List.mem_cons_of_mem _ he')
    rcases hcase with hmiss | hreg
    · simp only [extendHeap, hmiss] at hx
      rcases ih h hes' hx with h1 | ⟨e', he', h1, h2⟩
      · exact Or.inl h1
      · exact Or.inr ⟨e', List.mem_cons_of_mem _ he', h1, h2⟩
    · cases hext : (h (TableId.mt e)).get (Value.str LUAW_EXTENDS_KEY) with
      | table EX =>
        simp only [extendHeap, hreg, hext] at hx
        rcases ih _ hes' hx with h1 | ⟨e', he', h1, h2⟩
        · simp only [Function.update_same] at h1
          rcases foldFill_mem _ _ _ h1 with h3 | h3
          · exact Or.inl h3
          · exact Or.inr ⟨e, List.mem_cons_self _ _, hreg, h3⟩
        · have h1' : TableId.mt e' ≠ TableId.mt cn := by simpa using (hes' e' he').1
          have h2' : TableId.mt e' ≠ TableId.anon nt := by simp
          rw [Function.update_noteq h1', Function.update_noteq h2'] at h2
          exact Or.inr ⟨e', List.mem_cons_of_mem _ he', h1, h2⟩
      | _ =>
        simp only [extendHeap, hreg, hext] at hx
        exact Or.inl hx

theorem registerClass_keys (all pre : List ClassDecl) (d : ClassDecl) (s s1 : LuaState)
    (hinv : RegInv all pre s) (hkeys : KeyInv all pre s) (hd : d ∈ all)
    (hanc : ∀ e ∈ d.extends_, ∃ a ∈ pre, a.name = e)
    (hfresh : ∀ a ∈ pre, a.name ≠ d.name ∧ a.T ≠ d.T)
    (hkey : d.name ≠ LUAW_WRAPPER_KEY)
    (hmt : ∀ m ∈ d.metatable, m.1 ≠ LUAW_EXTENDS_KEY)
    (hpre : ∀ a ∈ pre, a ∈ all)
    (hrun : registerClass d s = Outcome.ok () s1) :
    KeyInv all (pre ++ [d]) s1 := by
  obtain ⟨i0, i6, i1a, i1b, i3, i4, i5⟩ := hinv
  have hfreshn : ∀ a ∈ pre, a.name ≠ d.name := fun a ha => (hfresh a ha).1
  obtain ⟨s3, f1, f2, f3, f4, f5, f6, f7, f8, f9, f10, f11, f12, f13, f14, f15, f16, f17, f18,
    f19, f20, f21, hex⟩ := luaW_register_exact d.T d.name d.table d.metatable d.disablenew
      d.allocator d.deallocator s i0 hkey (i1b d.name hkey hfreshn) (i5 d.name hfreshn)
  have hes : ∀ e ∈ d.extends_, AncestorOK s d.name s.nextTable e := by
    intro e he
    obtain ⟨a, ha, hae⟩ := hanc e he
    subst hae
    obtain ⟨h41, ke, h42, h43, _⟩ := i4 a ha
    exact ⟨hfreshn a ha, i6 a ha, Or.inr ⟨i1a a ha, h41, ke, Nat.ne_of_lt h42, h43⟩⟩
  have hrun' := hex d.extends_ hmt hes
  unfold registerClass at hrun
  rw [hrun'] at hrun
  injection hrun with _ hs1
  intro a ha x hx
  rw [← hs1] at hx
  simp only [] at hx
  rcases List.mem_append.mp ha with ha | ha
  · -- a class registered before: its metatable is left as it is
    have hne := hfreshn a ha
    rw [extendHeap_other _ _ _ _ _ _ (by simpa using hne) (by simp), f5 a.name hne] at hx
    exact hkeys a ha x hx
  · simp only [List.mem_singleton] at ha
    subst ha
    rcases extendHeap_mt_mem a.name s.nextTable s3.registry x a.extends_ s3.heap (by
        intro e he
        obtain ⟨b, hb, hbe⟩ := hanc e he
        subst hbe
        refine ⟨hfreshn b hb, Or.inr ?_⟩
        rw [f9 b.name (hfreshn b hb) (i6 b hb)]
        exact i1a b hb) hx with h1 | ⟨e, he, _, h2⟩
    · rw [f2, ownTable] at h1
      rcases regFold_mem _ _ _ h1 with h3 | ⟨m, hm, h3⟩
      · left
        simp only [List.mem_singleton] at h3
        rw [h3]
        simp [headerKeys]
      · simp only [List.cons_append, List.nil_append, List.mem_cons] at hm
        rcases hm with hm | hm | hm | hm
        · left; rw [h3, hm]; simp [headerKeys]
        · left; rw [h3, hm]; simp [headerKeys]
        · left; rw [h3, hm]; simp [headerKeys]
        · right
          exact ⟨a, hd, Or.inl rfl, m, hm, by rw [h3]⟩
    · obtain ⟨b, hb, hbe⟩ := hanc e he
      subst hbe
      rw [f5 b.name (hfreshn b hb)] at h2
      have hpar : Extends all a.name b.name := Relation.TransGen.single ⟨a, hd, rfl, he⟩
      rcases hkeys b hb x h2 with h3 | ⟨c, hc, hcb, m, hm, h3⟩
      · exact Or.inl h3
      · right
        refine ⟨c, hc, Or.inr ?_, m, hm, h3⟩
        rcases hcb with hcb | hcb
        · rw [hcb]; exact hpar
        · exact Relation.TransGen.trans hpar hcb

theorem registerAll_keys (all : List ClassDecl) (ds : List ClassDecl) :
    ∀ (pre : List ClassDecl) (s : LuaState), RegInv all pre s → KeyInv all pre s →
      WellOrdered pre ds → (∀ a ∈ pre, a ∈ all) →
      (∀ d ∈ ds, d ∈ all ∧ ∀ b, Parent all d.name b → b ∈ d.extends_) →
      ∃ s', registerAll ds s = Outcome.ok () s' ∧ RegInv all (pre ++ ds) s' ∧
        KeyInv all (pre ++ ds) s' := by
  induction ds with
  | nil =>
    intro pre s hinv hkeys _ _ _
    exact ⟨s, rfl, by simpa using hinv, by simpa using hkeys⟩
  | cons d ds ih =>
    intro pre s hinv hkeys hwo hpre hall
    obtain ⟨w1, w2, w3, w4, w5⟩ := hwo
    obtain ⟨hd, hpar⟩ := hall d (List.mem_cons_self _ _)
    obtain ⟨s1, h1, hinv1, _, _⟩ := registerClass_step all pre d s hinv hd hpar w1 w2 w3 w4
    have hkeys1 := registerClass_keys all pre d s s1 hinv hkeys hd w1 w2 w3 w4 hpre h1
    obtain ⟨s2, h2, hinv2, hkeys2⟩ := ih (pre ++ [d]) s1 hinv1 hkeys1 w5
      (by
        intro a ha
        rcases List.mem_append.mp ha with ha | ha
        · exact hpre a ha
        · simp only [List.mem_singleton] at ha
          rw [ha]; exact hd)
      (fun x hx => hall x (List.mem_cons_of_mem _ hx))
    refine ⟨s2, ?_, ?_, ?_⟩
    · simp [registerAll, h1, h2]
    · simpa using hinv2
    · simpa using hkeys2

/-- C15: let the classes of a well-ordered list `all` be registered on a fresh
state, let `D` be one of them, and let `s` be a later state in which the
binding tables are set up, `D` is registered with the default `__index` entry
and the metatable of `D` is as the registration left it.  Let `h` be a handle
(block `u`) of type `D` and `p` its object.  For every key `k` the read `h[k]`
returns the entry of the storage table of `p` for `k` when `p` has a storage
table and that entry is not nil, whatever the metatable holds under `k`;
otherwise it returns the entry of the metatable of `D` for `k`, and that entry
is nil when neither `D` nor any of its ancestors defines `k`.  The read leaves
the Lua state as it is. -/
theorem C15_read_resolution (all : List ClassDecl) (D : ClassDecl) (s0 s : LuaState) (u : Nat)
    (hwo : WellOrdered [] all) (hD : D ∈ all)
    (hrun : registerAll all LuaState.init = Outcome.ok () s0)
    (hr : Ready s) (hreg : Registered s D.T D.name)
    (hmt : s.heap (TableId.mt D.name) = s0.heap (TableId.mt D.name))
    (hm : (s.udata u).mt = Value.table (TableId.mt D.name)) :
    ∀ k,
      (∀ st, StorageTable s (s.udata u).ptr = Value.table st → (s.heap st).get k ≠ Value.nil →
        indexValue (Value.userdata u) k s = Outcome.ok ((s.heap st).get k) s) ∧
      (∀ st, StorageTable s (s.udata u).ptr = Value.table st → (s.heap st).get k = Value.nil →
        indexValue (Value.userdata u) k s =
          Outcome.ok ((s.heap (TableId.mt D.name)).get k) s) ∧
      (StorageTable s (s.udata u).ptr = Value.nil →
        indexValue (Value.userdata u) k s =
          Outcome.ok ((s.heap (TableId.mt D.name)).get k) s) ∧
      (¬ Defines all D k → (s.heap (TableId.mt D.name)).get k = Value.nil) := by
  intro k
  refine ⟨?_, ?_, ?_, ?_⟩
  · intro st hst hk
    have hi := indexValue_handle D.T s u k D.name hr hreg hm (Or.inr ⟨st, hst⟩)
    have hf : fieldOf s (s.udata u).ptr (TableId.mt D.name) k = (s.heap st).get k := by
      unfold fieldOf
      rw [hst]
      simp only []
    rw [hf] at hi
    exact hi
  · intro st hst hk
    have hi := indexValue_handle D.T s u k D.name hr hreg hm (Or.inr ⟨st, hst⟩)
    have hf : fieldOf s (s.udata u).ptr (TableId.mt D.name) k =
        (s.heap (TableId.mt D.name)).get k := by
      unfold fieldOf
      rw [hst]
      simp only [hk]
    rw [hf] at hi
    exact hi
  · intro hst
    have hi := indexValue_handle D.T s u k D.name hr hreg hm (Or.inl hst)
    have hf : fieldOf s (s.udata u).ptr (TableId.mt D.name) k =
        (s.heap (TableId.mt D.name)).get k := by
      unfold fieldOf
      rw [hst]
    rw [hf] at hi
    exact hi
  · intro hk
    have huniq := WellOrdered_unique all [] hwo
    obtain ⟨s0', hrun', _, hkeys⟩ := registerAll_keys all all [] LuaState.init (RegInv_init all)
      (by intro d hd; simp at hd) hwo (by intro a ha; simp at ha)
      (by
        intro d hd
        refine ⟨hd, ?_⟩
        intro b hb
        obtain ⟨d', hd', hn, hb'⟩ := hb
        rw [← huniq d' hd' d hd hn]
        exact hb')
    simp only [List.nil_append] at hkeys
    have hs0 : s0' = s0 := by
      rw [hrun] at hrun'
      simp only [Outcome.ok.injEq, true_and] at hrun'
      exact hrun'.symm
    rw [hs0] at hkeys
    rw [hmt]
    by_contra hne
    exact hk (hkeys D hD _ (Table.mem_of_get _ k _ rfl hne))

theorem demoTwoShadow_ready : Ready demoTwoShadow := by
  simp [Ready, demoTwoShadow, demoTwo, demoTwoHeap, demo, demoHeap, Table.get, LUAW_WRAPPER_KEY,
    LUAW_COUNT_KEY, LUAW_HOLDS_KEY, LUAW_STORAGE_KEY, Function.update]

theorem demoTwoShadow_registered : Registered demoTwoShadow 2 "Shape" := by
  simp [Registered, demoTwoShadow, demoTwo, demoTwoHeap, Table.get, Function.update]

/-- Witness of C15: `Widget`, `Base` and `Shape`, which extends `Base`, are
registered on a fresh state; then a `Shape` is pushed and held, and a script
assigns a field `Name`, the name of the method `Shape` inherits from `Base`.
The read of `Name` through the handle returns the field, the read of `Draw`
the method of `Shape`, and the read of `Fly`, which no class defines, nil. -/
theorem C15_read_resolution_witness :
    (WellOrdered [] [demoDecl, baseDecl, shapeDecl] ∧
      shapeDecl ∈ [demoDecl, baseDecl, shapeDecl] ∧
      registerAll [demoDecl, baseDecl, shapeDecl] LuaState.init = Outcome.ok () demoTwo ∧
      Ready demoTwoShadow ∧ Registered demoTwoShadow shapeDecl.T shapeDecl.name ∧
      demoTwoShadow.heap (TableId.mt shapeDecl.name) = demoTwo.heap (TableId.mt shapeDecl.name) ∧
      (demoTwoShadow.udata 0).mt = Value.table (TableId.mt shapeDecl.name)) ∧
    (∀ k,
      (∀ st, StorageTable demoTwoShadow (demoTwoShadow.udata 0).ptr = Value.table st →
        (demoTwoShadow.heap st).get k ≠ Value.nil →
        indexValue (Value.userdata 0) k demoTwoShadow =
          Outcome.ok ((demoTwoShadow.heap st).get k) demoTwoShadow) ∧
      (∀ st, StorageTable demoTwoShadow (demoTwoShadow.udata 0).ptr = Value.table st →
        (demoTwoShadow.heap st).get k = Value.nil →
        indexValue (Value.userdata 0) k demoTwoShadow =
          Outcome.ok ((demoTwoShadow.heap (TableId.mt shapeDecl.name)).get k) demoTwoShadow) ∧
      (StorageTable demoTwoShadow (demoTwoShadow.udata 0).ptr = Value.nil →
        indexValue (Value.userdata 0) k demoTwoShadow =
          Outcome.ok ((demoTwoShadow.heap (TableId.mt shapeDecl.name)).get k) demoTwoShadow) ∧
      (¬ Defines [demoDecl, baseDecl, shapeDecl] shapeDecl k →
        (demoTwoShadow.heap (TableId.mt shapeDecl.name)).get k = Value.nil)) ∧
    -- what the statement gives on this state
    (demoTwoShadow.heap (TableId.mt "Shape")).get (Value.str "Name") =
      Value.func (CFun.host "Base_Name") ∧
    indexValue (Value.userdata 0) (Value.str "Name") demoTwoShadow =
      Outcome.ok (Value.int 5) demoTwoShadow ∧
    indexValue (Value.userdata 0) (Value.str "Draw") demoTwoShadow =
      Outcome.ok (Value.func (CFun.host "Shape_Draw")) demoTwoShadow ∧
    ¬ Defines [demoDecl, baseDecl, shapeDecl] shapeDecl (Value.str "Fly") ∧
    indexValue (Value.userdata 0) (Value.str "Fly") demoTwoShadow =
      Outcome.ok Value.nil demoTwoShadow := by
  have h1 : shapeDecl ∈ [demoDecl, baseDecl, shapeDecl] := by simp
  have h2 : demoTwoShadow.heap (TableId.mt shapeDecl.name) =
      demoTwo.heap (TableId.mt shapeDecl.name) := by
    simp [demoTwoShadow, shapeDecl]
  have h3 : (demoTwoShadow.udata 0).mt = Value.table (TableId.mt shapeDecl.name) := by
    simp [demoTwoShadow, shapeDecl]
  have h4 : StorageTable demoTwoShadow (demoTwoShadow.udata 0).ptr =
      Value.table (TableId.anon 3) := by
    simp [StorageTable, demoTwoShadow, Table.get]
  have hmain := C15_read_resolution [demoDecl, baseDecl, shapeDecl] shapeDecl demoTwo
    demoTwoShadow 0 demoTwo_wellOrdered h1 demoTwo_run demoTwoShadow_ready
    demoTwoShadow_registered h2 h3
  have hmtS : demoTwoShadow.heap (TableId.mt "Shape") = demoTwoHeap (TableId.mt "Shape") := by
    simp [demoTwoShadow, demoTwo]
  have hfly : ¬ Defines [demoDecl, baseDecl, shapeDecl] shapeDecl (Value.str "Fly") := by
    intro h
    rcases h with h | ⟨a, ha, _, m, hm, hk⟩
    · simp [headerKeys, LUAW_EXTENDS_KEY] at h
    · simp only [List.mem_cons, List.mem_singleton, List.not_mem_nil, or_false] at ha
      rcases ha with ha | ha | ha <;> rw [ha] at hm <;>
        simp [demoDecl, baseDecl, shapeDecl] at hm
      · rcases hm with hm | hm <;> rw [hm] at hk <;> simp at hk
      · rw [hm] at hk
        simp at hk
      · rw [hm] at hk
        simp at hk
  refine ⟨⟨demoTwo_wellOrdered, h1, demoTwo_run, demoTwoShadow_ready, demoTwoShadow_registered,
    h2, h3⟩, hmain, ?_, ?_, ?_, hfly, ?_⟩
  · rw [hmtS]
    simp [demoTwoHeap, Table.get]
  · have := (hmain (Value.str "Name")).1 (TableId.anon 3) h4
      (by simp [demoTwoShadow, Table.get])
    rw [this]
    simp [demoTwoShadow, Table.get]
  · have := (hmain (Value.str "Draw")).2.1 (TableId.anon 3) h4
      (by simp [demoTwoShadow, Table.get])
    rw [this]
    simp [shapeDecl, hmtS, demoTwoHeap, Table.get]
  · have := (hmain (Value.str "Fly")).2.1 (TableId.anon 3) h4
      (by simp [demoTwoShadow, Table.get])
    rw [this, (hmain (Value.str "Fly")).2.2.2 hfly]

theorem popArgs_eq (l : List Value) :
    ∀ (s : LuaState) (rest : List Value), s.stack = l ++ rest →
      popArgs l.length s = Outcome.ok l.reverse { s with stack := rest } := by
  induction l with
  | nil =>
    intro s rest h
    simp only [List.nil_append] at h
    simp [popArgs, ← h]
  | cons v l ih =>
    intro s rest h
    have h1 := ih { s with stack := l ++ rest } rest rfl
    simp only [List.length_cons, popArgs, bind_apply, popValue, h, List.cons_append]
    simp only [] at h1
    rw [h1]
    simp

theorem lua_insert_1 (s : LuaState) (a : Value) (R : List Value) (h : s.stack = a :: R) :
    lua_insert 1 s = Outcome.ok () { s with stack := R ++ [a] } := by
  have e1 : (1 : Int) = Int.ofNat (0 + 1) := rfl
  rw [e1]
  simp [lua_insert, h]

theorem lua_insert_2 (s : LuaState) (a b : Value) (R : List Value)
    (h : s.stack = b :: (R ++ [a])) :
    lua_insert 2 s = Outcome.ok () { s with stack := R ++ [b, a] } := by
  have e2 : (2 : Int) = Int.ofNat (1 + 1) := rfl
  rw [e2]
  simp [lua_insert, h, List.take_append_eq_append_take, List.drop_append_eq_append_drop]

theorem lua_insert_3 (s : LuaState) (a b c : Value) (R : List Value)
    (h : s.stack = c :: (R ++ [b, a])) :
    lua_insert 3 s = Outcome.ok () { s with stack := R ++ [c, b, a] } := by
  have e3 : (3 : Int) = Int.ofNat (2 + 1) := rfl
  rw [e3]
  simp [lua_insert, h, List.take_append_eq_append_take, List.drop_append_eq_append_drop]

theorem luaW_constructor_eq (T : TypeId) (t : LuaState) (u : Nat) (A : List Value) (cn : String)
    (hr : Ready t) (hreg : Registered t T cn)
    (hstk : t.stack = Value.userdata u :: A)
    (hm : (t.udata u).mt = Value.table (TableId.mt cn))
    (hst : StorageTable t (t.udata u).ptr = Value.nil ∨
      ∃ st, StorageTable t (t.udata u).ptr = Value.table st)
    (hh : (fieldOf t (t.udata u).ptr (TableId.mt cn) (Value.str LUAW_CTOR_KEY)).isHook = true) :
    luaW_constructor T A.length t = Outcome.ok () { t with
      stack :=
        if (fieldOf t (t.udata u).ptr (TableId.mt cn) (Value.str LUAW_CTOR_KEY)).isFunction then
          [Value.userdata u]
        else Value.userdata u :: A,
      log := t.log ++
        (if (fieldOf t (t.udata u).ptr (TableId.mt cn) (Value.str LUAW_CTOR_KEY)).isFunction then
          [Event.call (fieldOf t (t.udata u).ptr (TableId.mt cn) (Value.str LUAW_CTOR_KEY))
            (Value.userdata u :: A.reverse)]
        else []) } := by
  have hidx := indexValue_handle T t u (Value.str LUAW_CTOR_KEY) cn hr hreg hm hst
  obtain ⟨hook, hhook⟩ : ∃ hook, hook =
      fieldOf t (t.udata u).ptr (TableId.mt cn) (Value.str LUAW_CTOR_KEY) := ⟨_, rfl⟩
  rw [← hhook] at hidx hh ⊢
  cases hook with
  | func f =>
    cases f with
    | host n =>
      have i1 := lua_insert_1
        { t with stack := Value.userdata u :: Value.func (CFun.host n) :: Value.userdata u :: A }
        (Value.userdata u) (Value.func (CFun.host n) :: Value.userdata u :: A) rfl
      have i2 := lua_insert_2
        { t with stack := Value.func (CFun.host n) :: Value.userdata u :: A ++ [Value.userdata u] }
        (Value.userdata u) (Value.func (CFun.host n)) (Value.userdata u :: A) rfl
      have i3 := lua_insert_3
        { t with
          stack := Value.userdata u :: A ++ [Value.func (CFun.host n), Value.userdata u] }
        (Value.userdata u) (Value.func (CFun.host n)) (Value.userdata u) A rfl
      have hp := popArgs_eq (A ++ [Value.userdata u])
        { t with stack := A ++ [Value.userdata u, Value.func (CFun.host n), Value.userdata u] }
        [Value.func (CFun.host n), Value.userdata u] (by simp)
      simp only [List.length_append, List.length_singleton] at hp
      simp only [List.cons_append, List.nil_append] at i1 i2 i3
      simp [luaW_constructor, lua_getfield, valueAt, hstk, hidx, push, lua_isfunction,
        lua_pushvalue, i1, i2, i3, lua_call, hp, popValue, callValue, emit, Value.isFunction]
    | _ => simp [Value.isHook] at hh
  | _ =>
    simp [luaW_constructor, lua_getfield, valueAt, hstk, hidx, push, lua_isfunction,
      lua_pop, popN, Value.isFunction]

theorem Ready_frame (s s' : LuaState) (h1 : s'.registry = s.registry)
    (h2 : s'.heap TableId.wrapper = s.heap TableId.wrapper)
    (h3 : ∀ id, id = TableId.wrapper ∨ id = TableId.counts ∨ id = TableId.holds ∨
      id = TableId.storage → s'.tmeta id = s.tmeta id)
    (h : Ready s) : Ready s' := by
  unfold Ready at *
  rw [h1, h2, h3 _ (Or.inl rfl), h3 _ (Or.inr (Or.inl rfl)), h3 _ (Or.inr (Or.inr (Or.inl rfl))),
    h3 _ (Or.inr (Or.inr (Or.inr rfl)))]
  exact h

/-- The state after `luaW_push` and a `luaW_hold` that takes hold of an object
without storage table. -/
theorem push_hold_eq (T : TypeId) (p : Ptr) (cn : String) (s : LuaState)
    (hr : Ready s) (hreg : Registered s T cn)
    (hc : 0 ≤ RefCount s p) (hh : HoldFlag s p = false) (hs : StorageTable s p = Value.nil) :
    (do luaW_push T p; let _ ← luaW_hold T p : LuaM Unit) s = Outcome.ok () { s with
      stack := Value.userdata s.nextUd :: s.stack,
      udata := Function.update s.udata s.nextUd { ptr := p, mt := Value.table (TableId.mt cn) },
      nextUd := s.nextUd + 1,
      heap := Function.update
        (Function.update
          (Function.update
            (Function.update s.heap TableId.counts
              ((s.heap TableId.counts).set (Value.lightud p) (Value.int (RefCount s p + 1))))
            TableId.holds ((s.heap TableId.holds).set (Value.lightud p) (Value.bool true)))
          (TableId.anon s.nextTable) [])
        TableId.storage
        ((s.heap TableId.storage).set (Value.lightud p) (Value.table (TableId.anon s.nextTable))),
      tmeta := Function.update s.tmeta (TableId.anon s.nextTable) Value.nil,
      nextTable := s.nextTable + 1 } := by
  obtain ⟨hcl, hg, hi, hgc⟩ := hreg
  have hp := luaW_push_eq T p s hr cn hcl
  rw [hg] at hp
  obtain ⟨s1, hs1⟩ : ∃ s1 : LuaState, s1 = { s with
      stack := Value.userdata s.nextUd :: s.stack,
      udata := Function.update s.udata s.nextUd { ptr := p, mt := Value.table (TableId.mt cn) },
      nextUd := s.nextUd + 1,
      heap := Function.update s.heap TableId.counts
        ((s.heap TableId.counts).set (Value.lightud p) (Value.int (RefCount s p + 1))) } :=
    ⟨_, rfl⟩
  rw [← hs1] at hp
  have hr1 : Ready s1 := Ready_congr s s1 (by simp [hs1]) (by simp [hs1]) (by simp [hs1]) hr
  have hh1 : HoldFlag s1 p = false := by simpa [hs1, HoldFlag] using hh
  have hs1' : StorageTable s1 p = Value.nil := by simpa [hs1, StorageTable] using hs
  have hc1 : 0 < RefCount s1 p := by
    have : RefCount s1 p = RefCount s p + 1 := by
      simp only [hs1, RefCount, Function.update_same, Table.get_set_self, Value.toInteger]
    rw [this]
    omega
  have hhold := luaW_hold_fresh T p s1 hr1 hh1 hc1 hs1'
  simp only [bind_apply, hp, hhold, pure_apply]
  simp [hs1]

theorem luaW_new_eq (T : TypeId) (p : Ptr) (cn : String) (s : LuaState) (args : List Value)
    (hr : Ready s) (hreg : Registered s T cn)
    (hc : 0 ≤ RefCount s p) (hh : HoldFlag s p = false) (hs : StorageTable s p = Value.nil)
    (hctor : ((s.heap (TableId.mt cn)).get (Value.str LUAW_CTOR_KEY)).isHook = true) :
    callFrame (luaW_new T p) args s = Outcome.ok [Value.userdata s.nextUd] { s with
      udata := Function.update s.udata s.nextUd { ptr := p, mt := Value.table (TableId.mt cn) },
      nextUd := s.nextUd + 1,
      heap := Function.update
        (Function.update
          (Function.update
            (Function.update s.heap TableId.counts
              ((s.heap TableId.counts).set (Value.lightud p) (Value.int (RefCount s p + 1))))
            TableId.holds ((s.heap TableId.holds).set (Value.lightud p) (Value.bool true)))
          (TableId.anon s.nextTable) [])
        TableId.storage
        ((s.heap TableId.storage).set (Value.lightud p) (Value.table (TableId.anon s.nextTable))),
      tmeta := Function.update s.tmeta (TableId.anon s.nextTable) Value.nil,
      nextTable := s.nextTable + 1,
      log := s.log ++ [Event.allocate (s.allocator T) p] ++
        (if ((s.heap (TableId.mt cn)).get (Value.str LUAW_CTOR_KEY)).isFunction then
          [Event.call ((s.heap (TableId.mt cn)).get (Value.str LUAW_CTOR_KEY))
            (Value.userdata s.nextUd :: args)]
        else []) } := by
  -- the frame of the call, after the allocator has run
  obtain ⟨sB, hsB⟩ : ∃ sB : LuaState, sB = { s with
      stack := args.reverse,
      log := s.log ++ [Event.allocate (s.allocator T) p] } := ⟨_, rfl⟩
  have hrB : Ready sB := Ready_congr s sB (by simp [hsB]) (by simp [hsB]) (by simp [hsB]) hr
  have hregB : Registered sB T cn :=
    Registered_congr s sB T cn (by simp [hsB]) (by simp [hsB]) (by simp [hsB]) hreg
  have hph := push_hold_eq T p cn sB hrB hregB (by simpa [hsB, RefCount] using hc)
    (by simpa [hsB, HoldFlag] using hh) (by simpa [hsB, StorageTable] using hs)
  obtain ⟨sD, hsD⟩ : ∃ sD : LuaState, sD = { sB with
      stack := Value.userdata sB.nextUd :: sB.stack,
      udata := Function.update sB.udata sB.nextUd { ptr := p, mt := Value.table (TableId.mt cn) },
      nextUd := sB.nextUd + 1,
      heap := Function.update
        (Function.update
          (Function.update
            (Function.update sB.heap TableId.counts
              ((sB.heap TableId.counts).set (Value.lightud p) (Value.int (RefCount sB p + 1))))
            TableId.holds ((sB.heap TableId.holds).set (Value.lightud p) (Value.bool true)))
          (TableId.anon sB.nextTable) [])
        TableId.storage
        ((sB.heap TableId.storage).set (Value.lightud p) (Value.table (TableId.anon sB.nextTable))),
      tmeta := Function.update sB.tmeta (TableId.anon sB.nextTable) Value.nil,
      nextTable := sB.nextTable + 1 } := ⟨_, rfl⟩
  rw [← hsD] at hph
  have hntB : sB.nextTable = s.nextTable := by simp [hsB]
  have hnuB : sB.nextUd = s.nextUd := by simp [hsB]
  have hrD : Ready sD :=
    Ready_frame sB sD (by simp [hsD]) (by simp [hsD])
      (by
        intro id hid
        have : id ≠ TableId.anon sB.nextTable := by rcases hid with h | h | h | h <;> simp [h]
        simp [hsD, Function.update_noteq this]) hrB
  have hregD : Registered sD T cn :=
    Registered_congr sB sD T cn (by simp [hsD]) (by simp [hsD]) (by simp [hsD]) hregB
  have hudD : sD.udata s.nextUd = { ptr := p, mt := Value.table (TableId.mt cn) } := by
    simp [hsD, hnuB]
  have hstD : StorageTable sD p = Value.table (TableId.anon s.nextTable) := by
    simp [hsD, StorageTable, Table.get_set_self, hntB]
  have hemptyD : sD.heap (TableId.anon s.nextTable) = [] := by
    simp [hsD, hntB]
  have hmtD : sD.heap (TableId.mt cn) = s.heap (TableId.mt cn) := by
    simp [hsD, hsB]
  have hfD : fieldOf sD (sD.udata s.nextUd).ptr (TableId.mt cn) (Value.str LUAW_CTOR_KEY) =
      (s.heap (TableId.mt cn)).get (Value.str LUAW_CTOR_KEY) := by
    rw [hudD]
    simp [fieldOf, hstD, hemptyD, Table.get, hmtD]
  have hcons := luaW_constructor_eq T sD s.nextUd args.reverse cn hrD hregD
    (by simp [hsD, hsB]) (by rw [hudD]) (Or.inr ⟨_, by rw [hudD]; exact hstD⟩)
    (by rw [hfD]; exact hctor)
  rw [hfD] at hcons
  simp only [List.length_reverse, List.reverse_reverse] at hcons
  have hbody : luaW_new T p { s with stack := args.reverse } = Outcome.ok 1 { sD with
      stack :=
        if ((s.heap (TableId.mt cn)).get (Value.str LUAW_CTOR_KEY)).isFunction then
          [Value.userdata s.nextUd]
        else Value.userdata s.nextUd :: args.reverse,
      log := sD.log ++
        (if ((s.heap (TableId.mt cn)).get (Value.str LUAW_CTOR_KEY)).isFunction then
          [Event.call ((s.heap (TableId.mt cn)).get (Value.str LUAW_CTOR_KEY))
            (Value.userdata s.nextUd :: args)]
        else []) } := by
    have hal : callAllocator T p { s with stack := args.reverse } = Outcome.ok p sB := by
      simp [callAllocator, hsB]
    simp only [bind_apply] at hph
    simp only [luaW_new, bind_apply, lua_gettop, hal, List.length_reverse]
    cases hpush : luaW_push T p sB with
    | raise e s' => simp [hpush] at hph
    | ok a sC =>
      simp only [hpush] at hph ⊢
      cases hhold : luaW_hold T p sC with
      | raise e s' => simp [hhold] at hph
      | ok b sD' =>
        simp only [hhold, pure_apply] at hph ⊢
        injection hph with _ hsDD
        rw [hsDD, hcons]
  rw [callFrame_ok (luaW_new T p) args s _ 1 hbody]
  congr 1
  · split <;> simp
  · simp [hsD, hsB, RefCount]

theorem builder_loop (T : TypeId) (u : Nat) (cn : String) (R : List Value)
    (es : List (Value × Value)) :
    ∀ (t : LuaState) (k0 : Value), Ready t → Registered t T cn →
      t.stack = k0 :: Value.userdata u :: R →
      (t.udata u).mt = Value.table (TableId.mt cn) →
      (StorageTable t (t.udata u).ptr = Value.nil ∨
        ∃ st, StorageTable t (t.udata u).ptr = Value.table st) →
      (∀ e ∈ es, ∃ n, fieldOf t (t.udata u).ptr (TableId.mt cn) e.1 = Value.func (CFun.host n)) →
      forPairsLoop luaW_builder_body es () t = Outcome.ok () { t with
        stack := Value.userdata u :: R,
        log := t.log ++ es.map (fun e =>
          Event.call (fieldOf t (t.udata u).ptr (TableId.mt cn) e.1) [Value.userdata u, e.2]) } := by
  induction es with
  | nil =>
    intro t k0 _ _ hstk _ _ _
    simp [forPairsLoop, lua_pop, popN, hstk]
  | cons e es ih =>
    intro t k0 hr hreg hstk hm hst hes
    obtain ⟨k, v⟩ := e
    obtain ⟨n, hn⟩ := hes (k, v) (List.mem_cons_self _ _)
    simp only [] at hn
    -- the read of the method through the handle
    obtain ⟨t1, ht1⟩ : ∃ t1 : LuaState, t1 = { t with
        stack := v :: k :: Value.userdata u :: R } := ⟨_, rfl⟩
    have hr1 : Ready t1 := Ready_congr t t1 (by simp [ht1]) (by simp [ht1]) (by simp [ht1]) hr
    have hreg1 : Registered t1 T cn :=
      Registered_congr t t1 T cn (by simp [ht1]) (by simp [ht1]) (by simp [ht1]) hreg
    have hidx := indexValue_handle T t1 u k cn hr1 hreg1 (by simpa [ht1] using hm)
      (by simpa [ht1, StorageTable] using hst)
    have hf1 : fieldOf t1 (t1.udata u).ptr (TableId.mt cn) k = Value.func (CFun.host n) := by
      rw [← hn, ht1]
      rfl
    rw [hf1, ht1] at hidx
    -- the rest of the loop
    obtain ⟨t2, ht2⟩ : ∃ t2 : LuaState, t2 = { t with
        stack := k :: Value.userdata u :: R,
        log := t.log ++ [Event.call (Value.func (CFun.host n)) [Value.userdata u, v]] } :=
      ⟨_, rfl⟩
    have hr2 : Ready t2 := Ready_congr t t2 (by simp [ht2]) (by simp [ht2]) (by simp [ht2]) hr
    have hreg2 : Registered t2 T cn :=
      Registered_congr t t2 T cn (by simp [ht2]) (by simp [ht2]) (by simp [ht2]) hreg
    have hrest := ih t2 k hr2 hreg2 (by simp [ht2]) (by simpa [ht2] using hm)
      (by simpa [ht2, StorageTable] using hst)
      (by
        intro e he
        obtain ⟨n', hn'⟩ := hes e (List.mem_cons_of_mem _ he)
        refine ⟨n', ?_⟩
        rw [← hn', ht2]
        rfl)
    have hf2 : ∀ k', fieldOf t2 (t2.udata u).ptr (TableId.mt cn) k' =
        fieldOf t (t.udata u).ptr (TableId.mt cn) k' := by
      intro k'
      rw [ht2]
      rfl
    simp only [hf2] at hrest
    rw [ht2] at hrest
    simp only [] at hrest
    simp [forPairsLoop, lua_pop, popN, hstk, push, luaW_builder_body, lua_pushvalue,
      lua_gettable, valueAt, popValue, hidx, lua_call, popArgs, callValue, emit, hrest, hn]

theorem luaW_build_eq (T : TypeId) (p : Ptr) (cn : String) (s : LuaState) (n : Nat)
    (hr : Ready s) (hreg : Registered s T cn)
    (hc : 0 ≤ RefCount s p) (hh : HoldFlag s p = false) (hs : StorageTable s p = Value.nil)
    (hn : n ≠ s.nextTable)
    (hmeth : ∀ e ∈ s.heap (TableId.anon n),
      ∃ m, (s.heap (TableId.mt cn)).get e.1 = Value.func (CFun.host m)) :
    callFrame (luaW_build T p) [Value.table (TableId.anon n)] s =
      Outcome.ok [Value.userdata s.nextUd] { s with
        udata := Function.update s.udata s.nextUd { ptr := p, mt := Value.table (TableId.mt cn) },
        nextUd := s.nextUd + 1,
        heap := Function.update
          (Function.update
            (Function.update
              (Function.update s.heap TableId.counts
                ((s.heap TableId.counts).set (Value.lightud p) (Value.int (RefCount s p + 1))))
              TableId.holds ((s.heap TableId.holds).set (Value.lightud p) (Value.bool true)))
            (TableId.anon s.nextTable) [])
          TableId.storage
          ((s.heap TableId.storage).set (Value.lightud p) (Value.table (TableId.anon s.nextTable))),
        tmeta := Function.update s.tmeta (TableId.anon s.nextTable) Value.nil,
        nextTable := s.nextTable + 1,
        log := s.log ++ [Event.allocate (s.allocator T) p] ++
          (s.heap (TableId.anon n)).map (fun e =>
            Event.call ((s.heap (TableId.mt cn)).get e.1) [Value.userdata s.nextUd, e.2]) } := by
  obtain ⟨sB, hsB⟩ : ∃ sB : LuaState, sB = { s with
      stack := [Value.table (TableId.anon n)],
      log := s.log ++ [Event.allocate (s.allocator T) p] } := ⟨_, rfl⟩
  have hrB : Ready sB := Ready_congr s sB (by simp [hsB]) (by simp [hsB]) (by simp [hsB]) hr
  have hregB : Registered sB T cn :=
    Registered_congr s sB T cn (by simp [hsB]) (by simp [hsB]) (by simp [hsB]) hreg
  have hph := push_hold_eq T p cn sB hrB hregB (by simpa [hsB, RefCount] using hc)
    (by simpa [hsB, HoldFlag] using hh) (by simpa [hsB, StorageTable] using hs)
  obtain ⟨sD, hsD⟩ : ∃ sD : LuaState, sD = { sB with
      stack := Value.userdata sB.nextUd :: sB.stack,
      udata := Function.update sB.udata sB.nextUd { ptr := p, mt := Value.table (TableId.mt cn) },
      nextUd := sB.nextUd + 1,
      heap := Function.update
        (Function.update
          (Function.update
            (Function.update sB.heap TableId.counts
              ((sB.heap TableId.counts).set (Value.lightud p) (Value.int (RefCount sB p + 1))))
            TableId.holds ((sB.heap TableId.holds).set (Value.lightud p) (Value.bool true)))
          (TableId.anon sB.nextTable) [])
        TableId.storage
        ((sB.heap TableId.storage).set (Value.lightud p) (Value.table (TableId.anon sB.nextTable))),
      tmeta := Function.update sB.tmeta (TableId.anon sB.nextTable) Value.nil,
      nextTable := sB.nextTable + 1 } := ⟨_, rfl⟩
  rw [← hsD] at hph
  have hntB : sB.nextTable = s.nextTable := by simp [hsB]
  have hnuB : sB.nextUd = s.nextUd := by simp [hsB]
  have hrD : Ready sD :=
    Ready_frame sB sD (by simp [hsD]) (by simp [hsD])
      (by
        intro id hid
        have : id ≠ TableId.anon sB.nextTable := by rcases hid with h | h | h | h <;> simp [h]
        simp [hsD, Function.update_noteq this]) hrB
  have hregD : Registered sD T cn :=
    Registered_congr sB sD T cn (by simp [hsD]) (by simp [hsD]) (by simp [hsD]) hregB
  have hudD : sD.udata s.nextUd = { ptr := p, mt := Value.table (TableId.mt cn) } := by
    simp [hsD, hnuB]
  have hstD : StorageTable sD p = Value.table (TableId.anon s.nextTable) := by
    simp [hsD, StorageTable, Table.get_set_self, hntB]
  have hemptyD : sD.heap (TableId.anon s.nextTable) = [] := by
    simp [hsD, hntB]
  have hmtD : sD.heap (TableId.mt cn) = s.heap (TableId.mt cn) := by
    simp [hsD, hsB]
  have htbD : sD.heap (TableId.anon n) = s.heap (TableId.anon n) := by
    have h1 : TableId.anon n ≠ TableId.anon s.nextTable := by simpa using hn
    simp [hsD, hsB, Function.update_noteq h1]
  have hfD : ∀ k, fieldOf sD (sD.udata s.nextUd).ptr (TableId.mt cn) k =
      (s.heap (TableId.mt cn)).get k := by
    intro k
    rw [hudD]
    simp [fieldOf, hstD, hemptyD, Table.get, hmtD]
  -- the loop over the table, the previous key being nil
  obtain ⟨sE, hsE⟩ : ∃ sE : LuaState, sE = { sD with
      stack := Value.nil :: Value.userdata s.nextUd :: [Value.table (TableId.anon n)] } :=
    ⟨_, rfl⟩
  have hrE : Ready sE := Ready_congr sD sE (by simp [hsE]) (by simp [hsE]) (by simp [hsE]) hrD
  have hregE : Registered sE T cn :=
    Registered_congr sD sE T cn (by simp [hsE]) (by simp [hsE]) (by simp [hsE]) hregD
  have hfE : ∀ k, fieldOf sE (sE.udata s.nextUd).ptr (TableId.mt cn) k =
      (s.heap (TableId.mt cn)).get k := by
    intro k
    rw [← hfD k, hsE]
    rfl
  have hloop := builder_loop T s.nextUd cn [Value.table (TableId.anon n)]
    (s.heap (TableId.anon n)) sE Value.nil hrE hregE (by simp [hsE])
    (by simp [hsE, hudD])
    (Or.inr ⟨TableId.anon s.nextTable, by simpa [hsE, StorageTable, hudD] using hstD⟩)
    (by
      intro e he
      obtain ⟨m, hm⟩ := hmeth e he
      exact ⟨m, by rw [hfE]; exact hm⟩)
  simp only [hfE] at hloop
  have hbody : luaW_build T p { s with stack := [Value.table (TableId.anon n)] } =
      Outcome.ok 1 { sE with
        stack := [Value.userdata s.nextUd, Value.table (TableId.anon n)],
        log := sE.log ++ (s.heap (TableId.anon n)).map (fun e =>
          Event.call ((s.heap (TableId.mt cn)).get e.1) [Value.userdata s.nextUd, e.2]) } := by
    have hal : callAllocator T p { s with stack := [Value.table (TableId.anon n)] } =
        Outcome.ok p sB := by
      simp [callAllocator, hsB]
    simp only [bind_apply] at hph
    simp only [luaW_build, bind_apply, hal]
    cases hpush : luaW_push T p sB with
    | raise e s' => simp [hpush] at hph
    | ok a sC =>
      simp only [hpush] at hph ⊢
      cases hhold : luaW_hold T p sC with
      | raise e s' => simp [hhold] at hph
      | ok b sD' =>
        simp only [hhold, pure_apply] at hph ⊢
        injection hph with _ hsDD
        rw [hsDD]
        have hstkD : sD.stack = [Value.userdata s.nextUd, Value.table (TableId.anon n)] := by
          simp [hsD, hsB]
        have hpn : lua_pushnil sD = Outcome.ok () sE := by
          simp [lua_pushnil, push, hsE, hstkD]
        simp only [luaW_builder, bind_apply, lua_istable, hstkD, stackAt_two_1, if_true,
          forPairs, hpn, valueAt, getState, pure_apply]
        have hstkE : sE.stack =
            [Value.nil, Value.userdata s.nextUd, Value.table (TableId.anon n)] := by
          simp [hsE]
        have hat : stackAt sE.stack 1 = Value.table (TableId.anon n) := by
          rw [hstkE]
          rfl
        have hEtb : sE.heap (TableId.anon n) = s.heap (TableId.anon n) := by
          rw [← htbD, hsE]
        simp only [hat]
        simp only [bind_apply, getState, hEtb, hloop]
  rw [callFrame_ok (luaW_build T p) [Value.table (TableId.anon n)] s _ 1 hbody]
  congr 1
  simp [hsE, hsD, hsB, RefCount]

/-- `T.new` for a new object: for a registered type `T`, an argument list and
the pointer `p` the allocator returns, `p` having no entry in the counts,
holds and storage tables: the call `T.new(a1, ..., an)` returns one value, a new handle that
stores `p` and that `luaW_to<T>` converts to `p`; the allocator is called once;
afterwards the reference count of `p` is one, `p` is held and has a (new,
empty) storage table; the `__ctor` entry of the metatable, when it is a
function, is called once with the handle followed by the arguments in their
order, and no function is called when there is no such entry.  The stack of
the caller is as before. -/
theorem luaW_new_fresh (T : TypeId) (p : Ptr) (cn : String) (s : LuaState)
    (args : List Value) (hr : Ready s) (hreg : Registered s T cn)
    (hc : (s.heap TableId.counts).get (Value.lightud p) = Value.nil)
    (hh : (s.heap TableId.holds).get (Value.lightud p) = Value.nil)
    (hs : (s.heap TableId.storage).get (Value.lightud p) = Value.nil)
    (hctor : ((s.heap (TableId.mt cn)).get (Value.str LUAW_CTOR_KEY)).isHook = true) :
    ∃ s', callFrame (luaW_new T p) args s = Outcome.ok [Value.userdata s.nextUd] s' ∧
      s'.stack = s.stack ∧
      s'.udata s.nextUd = { ptr := p, mt := Value.table (TableId.mt cn) } ∧
      (∀ stk, luaW_to T (-1) { s' with stack := Value.userdata s.nextUd :: stk } =
        Outcome.ok p { s' with stack := Value.userdata s.nextUd :: stk }) ∧
      RefCount s' p = 1 ∧ HoldFlag s' p = true ∧
      StorageTable s' p = Value.table (TableId.anon s.nextTable) ∧
      s'.heap (TableId.anon s.nextTable) = [] ∧
      s'.log = s.log ++ [Event.allocate (s.allocator T) p] ++
        (if ((s.heap (TableId.mt cn)).get (Value.str LUAW_CTOR_KEY)).isFunction then
          [Event.call ((s.heap (TableId.mt cn)).get (Value.str LUAW_CTOR_KEY))
            (Value.userdata s.nextUd :: args)]
        else []) := by
  have hrc0 : RefCount s p = 0 := by simp [RefCount, hc, Value.toInteger]
  have hh0 : HoldFlag s p = false := by simp [HoldFlag, hh, Value.toBoolean]
  have hrun := luaW_new_eq T p cn s args hr hreg (by rw [hrc0]) hh0 hs hctor
  refine ⟨_, hrun, rfl, ?_, ?_, ?_, ?_, ?_, ?_, rfl⟩
  · simp
  · intro stk
    have := luaW_to_self T (-1)
      { s with
        stack := Value.userdata s.nextUd :: stk,
        udata := Function.update s.udata s.nextUd
          { ptr := p, mt := Value.table (TableId.mt cn) },
        nextUd := s.nextUd + 1,
        heap := Function.update
          (Function.update
            (Function.update
              (Function.update s.heap TableId.counts
                ((s.heap TableId.counts).set (Value.lightud p) (Value.int (RefCount s p + 1))))
              TableId.holds ((s.heap TableId.holds).set (Value.lightud p) (Value.bool true)))
            (TableId.anon s.nextTable) [])
          TableId.storage
          ((s.heap TableId.storage).set (Value.lightud p)
            (Value.table (TableId.anon s.nextTable))),
        tmeta := Function.update s.tmeta (TableId.anon s.nextTable) Value.nil,
        nextTable := s.nextTable + 1,
        log := s.log ++ [Event.allocate (s.allocator T) p] ++
          (if ((s.heap (TableId.mt cn)).get (Value.str LUAW_CTOR_KEY)).isFunction then
            [Event.call ((s.heap (TableId.mt cn)).get (Value.str LUAW_CTOR_KEY))
              (Value.userdata s.nextUd :: args)]
          else []) }
      s.nextUd cn (by simp) hreg.1 (by simp [hreg.2.1]) (by simp [hreg.2.1])
    simpa using this
  · simp [RefCount, Table.get_set_self, Value.toInteger, hc]
  · simp [HoldFlag, Table.get_set_self, Value.toBoolean]
  · simp [StorageTable, Table.get_set_self]
  · simp

/-- The call `Widget.new(3)` on the example state, with the allocator
returning the pointer 100. -/
theorem luaW_new_fresh_example :
    (Ready demo ∧ Registered demo 0 "Widget" ∧
      (demo.heap TableId.counts).get (Value.lightud 100) = Value.nil ∧
      (demo.heap TableId.holds).get (Value.lightud 100) = Value.nil ∧
      (demo.heap TableId.storage).get (Value.lightud 100) = Value.nil ∧
      ((demo.heap (TableId.mt "Widget")).get (Value.str LUAW_CTOR_KEY)).isHook = true) ∧
    ∃ s', callFrame (luaW_new 0 100) [Value.int 3] demo =
        Outcome.ok [Value.userdata demo.nextUd] s' ∧
      s'.stack = demo.stack ∧
      s'.udata demo.nextUd = { ptr := 100, mt := Value.table (TableId.mt "Widget") } ∧
      (∀ stk, luaW_to 0 (-1) { s' with stack := Value.userdata demo.nextUd :: stk } =
        Outcome.ok 100 { s' with stack := Value.userdata demo.nextUd :: stk }) ∧
      RefCount s' 100 = 1 ∧ HoldFlag s' 100 = true ∧
      StorageTable s' 100 = Value.table (TableId.anon demo.nextTable) ∧
      s'.heap (TableId.anon demo.nextTable) = [] ∧
      s'.log = demo.log ++ [Event.allocate (demo.allocator 0) 100] ++
        (if ((demo.heap (TableId.mt "Widget")).get (Value.str LUAW_CTOR_KEY)).isFunction then
          [Event.call ((demo.heap (TableId.mt "Widget")).get (Value.str LUAW_CTOR_KEY))
            (Value.userdata demo.nextUd :: [Value.int 3])]
        else []) :=
  have h2 : (demo.heap TableId.counts).get (Value.lightud 100) = Value.nil := by
    simp [demo, demoHeap, Table.get]
  have h3 : (demo.heap TableId.holds).get (Value.lightud 100) = Value.nil := by
    simp [demo, demoHeap, Table.get]
  have h4 : (demo.heap TableId.storage).get (Value.lightud 100) = Value.nil := by
    simp [demo, demoHeap, Table.get]
  have h5 : ((demo.heap (TableId.mt "Widget")).get (Value.str LUAW_CTOR_KEY)).isHook = true := by
    simp [demo, demoHeap, Table.get, LUAW_CTOR_KEY, Value.isHook]
  ⟨⟨demo_ready, demo_registered, h2, h3, h4, h5⟩,
    luaW_new_fresh 0 100 "Widget" demo [Value.int 3] demo_ready demo_registered h2 h3 h4 h5⟩

/-- `T.build` for a new object: for a registered type `T`, the pointer `p` the
allocator returns (no entry in the counts, holds and storage tables) and a
table whose keys all name host functions in the metatable of `T`: the call `T.build(table)` returns one
value, a new handle that stores `p`; the allocator is called once, `p` is
counted once and held; and the functions called are, for each pair `(k, v)` of
the table in the order of the traversal, the metatable entry for `k` with the
handle and `v` as arguments, once, and no other function. -/
theorem luaW_build_fresh (T : TypeId) (p : Ptr) (cn : String) (s : LuaState) (n : Nat)
    (hr : Ready s) (hreg : Registered s T cn)
    (hc : (s.heap TableId.counts).get (Value.lightud p) = Value.nil)
    (hh : (s.heap TableId.holds).get (Value.lightud p) = Value.nil)
    (hs : (s.heap TableId.storage).get (Value.lightud p) = Value.nil)
    (hn : n < s.nextTable)
    (hmeth : ∀ e ∈ s.heap (TableId.anon n),
      ∃ m, (s.heap (TableId.mt cn)).get e.1 = Value.func (CFun.host m)) :
    ∃ s', callFrame (luaW_build T p) [Value.table (TableId.anon n)] s =
        Outcome.ok [Value.userdata s.nextUd] s' ∧
      s'.stack = s.stack ∧
      s'.udata s.nextUd = { ptr := p, mt := Value.table (TableId.mt cn) } ∧
      RefCount s' p = 1 ∧ HoldFlag s' p = true ∧
      StorageTable s' p = Value.table (TableId.anon s.nextTable) ∧
      s'.log = s.log ++ [Event.allocate (s.allocator T) p] ++
        (s.heap (TableId.anon n)).map (fun e =>
          Event.call ((s.heap (TableId.mt cn)).get e.1) [Value.userdata s.nextUd, e.2]) := by
  have hrc0 : RefCount s p = 0 := by simp [RefCount, hc, Value.toInteger]
  have hh0 : HoldFlag s p = false := by simp [HoldFlag, hh, Value.toBoolean]
  have hrun := luaW_build_eq T p cn s n hr hreg (by rw [hrc0]) hh0 hs (Nat.ne_of_lt hn) hmeth
  refine ⟨_, hrun, rfl, ?_, ?_, ?_, ?_, rfl⟩
  · simp
  · simp [RefCount, Table.get_set_self, Value.toInteger, hc]
  · simp [HoldFlag, Table.get_set_self, Value.toBoolean]
  · simp [StorageTable, Table.get_set_self]

theorem demoScript_ready : Ready demoScript := by
  simp [Ready, demoScript, demo, demoHeap, Table.get, LUAW_WRAPPER_KEY, LUAW_COUNT_KEY,
    LUAW_HOLDS_KEY, LUAW_STORAGE_KEY, Function.update]

theorem demoScript_registered : Registered demoScript 0 "Widget" := by
  simp [Registered, demoScript, demo, demoHeap, Table.get, Function.update]

/-- The call `Widget.build` of the table `{ SetX = 10 }` on the example state,
with the allocator returning the pointer 100. -/
theorem luaW_build_fresh_example :
    (Ready demoScript ∧ Registered demoScript 0 "Widget" ∧
      (demoScript.heap TableId.counts).get (Value.lightud 100) = Value.nil ∧
      (demoScript.heap TableId.holds).get (Value.lightud 100) = Value.nil ∧
      (demoScript.heap TableId.storage).get (Value.lightud 100) = Value.nil ∧
      1 < demoScript.nextTable ∧
      (∀ e ∈ demoScript.heap (TableId.anon 1),
        ∃ m, (demoScript.heap (TableId.mt "Widget")).get e.1 = Value.func (CFun.host m))) ∧
    ∃ s', callFrame (luaW_build 0 100) [Value.table (TableId.anon 1)] demoScript =
        Outcome.ok [Value.userdata demoScript.nextUd] s' ∧
      s'.stack = demoScript.stack ∧
      s'.udata demoScript.nextUd = { ptr := 100, mt := Value.table (TableId.mt "Widget") } ∧
      RefCount s' 100 = 1 ∧ HoldFlag s' 100 = true ∧
      StorageTable s' 100 = Value.table (TableId.anon demoScript.nextTable) ∧
      s'.log = demoScript.log ++ [Event.allocate (demoScript.allocator 0) 100] ++
        (demoScript.heap (TableId.anon 1)).map (fun e =>
          Event.call ((demoScript.heap (TableId.mt "Widget")).get e.1)
            [Value.userdata demoScript.nextUd, e.2]) :=
  have h2 : (demoScript.heap TableId.counts).get (Value.lightud 100) = Value.nil := by
    simp [demoScript, demo, demoHeap, Table.get, Function.update]
  have h3 : (demoScript.heap TableId.holds).get (Value.lightud 100) = Value.nil := by
    simp [demoScript, demo, demoHeap, Table.get, Function.update]
  have h4 : (demoScript.heap TableId.storage).get (Value.lightud 100) = Value.nil := by
    simp [demoScript, demo, demoHeap, Table.get, Function.update]
  have h5 : 1 < demoScript.nextTable := by simp [demoScript]
  have h6 : ∀ e ∈ demoScript.heap (TableId.anon 1),
      ∃ m, (demoScript.heap (TableId.mt "Widget")).get e.1 = Value.func (CFun.host m) := by
    simp [demoScript, demo, demoHeap, Table.get, Function.update]
  ⟨⟨demoScript_ready, demoScript_registered, h2, h3, h4, h5, h6⟩,
    luaW_build_fresh 0 100 "Widget" demoScript 1 demoScript_ready demoScript_registered
      h2 h3 h4 h5 h6⟩

theorem liveBelow_congr (s s' : LuaState) (F : List Nat) (p : Ptr) (n : Nat)
    (h : ∀ u, u < n → s'.udata u = s.udata u) : liveBelow s' F p n = liveBelow s F p n := by
  induction n with
  | zero => rfl
  | succ n ih =>
    simp only [liveBelow]
    rw [ih (fun u hu => h u (Nat.lt_succ_of_lt hu)), h n (Nat.lt_succ_self n)]

theorem liveBelow_above (s : LuaState) (F : List Nat) (p : Ptr) (u n : Nat) (h : n ≤ u) :
    liveBelow s (u :: F) p n = liveBelow s F p n := by
  induction n with
  | zero => rfl
  | succ n ih =>
    simp only [liveBelow]
    rw [ih (Nat.le_of_succ_le h)]
    have hne : n ≠ u := by omega
    simp [hne]

theorem liveBelow_finalize (s : LuaState) (F : List Nat) (p : Ptr) (u n : Nat)
    (hu : u < n) (hF : u ∉ F) :
    liveBelow s (u :: F) p n + (if (s.udata u).ptr = p then 1 else 0) = liveBelow s F p n := by
  induction n with
  | zero => omega
  | succ n ih =>
    simp only [liveBelow]
    by_cases hun : u = n
    · subst hun
      rw [liveBelow_above s F p u u (Nat.le_refl u)]
      simp [hF]
    · have hlt : u < n := by omega
      have := ih hlt
      have hne : n ≠ u := fun h => hun h.symm
      simp only [List.mem_cons, hne, false_or]
      omega

theorem liveCount_push (s s' : LuaState) (F : List Nat) (p q : Ptr) (m : Value)
    (hF : ∀ u ∈ F, u < s.nextUd)
    (hn : s'.nextUd = s.nextUd + 1)
    (hu : s'.udata = Function.update s.udata s.nextUd { ptr := p, mt := m }) :
    liveCount s' F q = liveCount s F q + (if p = q then 1 else 0) := by
  unfold liveCount
  rw [hn]
  simp only [liveBelow]
  have hnotin : s.nextUd ∉ F := fun h => Nat.lt_irrefl _ (hF _ h)
  rw [liveBelow_congr s s' F q s.nextUd (by
    intro u hlt
    rw [hu, Function.update_noteq (Nat.ne_of_lt hlt)])]
  simp [hu, hnotin]

theorem liveCount_same (s s' : LuaState) (F : List Nat) (q : Ptr)
    (hn : s'.nextUd = s.nextUd) (hu : s'.udata = s.udata) :
    liveCount s' F q = liveCount s F q := by
  unfold liveCount
  rw [hn]
  exact liveBelow_congr s s' F q s.nextUd (fun u _ => by rw [hu])

theorem TypesOK_frame (s s1 : LuaState) (hc : s1.classname = s.classname)
    (hreg : s1.registry = s.registry)
    (hmt : ∀ cn, s1.heap (TableId.mt cn) = s.heap (TableId.mt cn)) (h : TypesOK s) :
    TypesOK s1 := by
  intro T cn hT
  rw [hc] at hT
  obtain ⟨h1, h2, h3, h4⟩ := h T cn hT
  refine ⟨Registered_congr s s1 T cn hc hreg (hmt cn) h1, ?_, ?_, ?_⟩
  · rw [hmt cn]; exact h2
  · rw [hmt cn]; exact h3
  · rw [hmt cn]; exact h4

theorem Inv_stack_log (s : LuaState) (F : List Nat) (stk : List Value) (l : List Event)
    (h : Inv s F) : Inv { s with stack := stk, log := l } F := by
  obtain ⟨i1, i2, i3, i4, i5, i6⟩ := h
  refine ⟨Ready_congr s _ rfl rfl rfl i1, TypesOK_frame s _ rfl rfl (fun _ => rfl) i2, i3, i4, i5,
    ?_⟩
  intro p
  have e := liveCount_same s { s with stack := stk, log := l } F p rfl rfl
  rw [e]
  exact i6 p

theorem fieldOf_isHook (s : LuaState) (p : Ptr) (cn : String) (k : Value)
    (hst : StorageTable s p = Value.nil ∨
      ∃ n, StorageTable s p = Value.table (TableId.anon n) ∧
        ∀ x ∈ s.heap (TableId.anon n), x.2.isHook = true)
    (hmt : ((s.heap (TableId.mt cn)).get k).isHook = true) :
    (fieldOf s p (TableId.mt cn) k).isHook = true := by
  unfold fieldOf
  rcases hst with hst | ⟨n, hst, hvals⟩
  · rw [hst]
    exact hmt
  · rw [hst]
    simp only []
    by_cases hk : (s.heap (TableId.anon n)).get k = Value.nil
    · simp only [hk]
      exact hmt
    · have hmem := Table.mem_of_get _ k _ rfl hk
      have hv := hvals _ hmem
      simp only [] at hv
      split
      · exact hmt
      · exact hv

theorem Inv_push (s : LuaState) (F : List Nat) (T : TypeId) (p : Ptr) (cn : String)
    (h : Inv s F) (hT : s.classname T = some cn) :
    Inv { s with
      stack := Value.userdata s.nextUd :: s.stack,
      udata := Function.update s.udata s.nextUd { ptr := p, mt := Value.table (TableId.mt cn) },
      nextUd := s.nextUd + 1,
      heap := Function.update s.heap TableId.counts
        ((s.heap TableId.counts).set (Value.lightud p) (Value.int (RefCount s p + 1))) } F := by
  obtain ⟨i1, i2, i3, i4, i5, i6⟩ := h
  refine ⟨?_, ?_, ?_, ?_, ?_, ?_⟩
  · exact Ready_congr s _ rfl (by simp) rfl i1
  · exact TypesOK_frame s _ rfl rfl (by intro cn'; simp) i2
  · intro u hu hF
    by_cases hun : u = s.nextUd
    · subst hun
      exact ⟨T, cn, hT, by simp⟩
    · have hlt : u < s.nextUd := by
        simp only [] at hu
        omega
      obtain ⟨T', cn', h1, h2⟩ := i3 u hlt hF
      exact ⟨T', cn', h1, by simpa [Function.update_noteq hun] using h2⟩
  · intro q
    rcases i4 q with h0 | ⟨n, h1, h2, h3⟩
    · exact Or.inl (by simpa [StorageTable] using h0)
    · exact Or.inr ⟨n, h1, by simpa [StorageTable] using h2, by simpa using h3⟩
  · intro u hu
    have := i5 u hu
    simp only []
    omega
  · intro q
    rw [liveCount_push s { s with
        stack := Value.userdata s.nextUd :: s.stack,
        udata := Function.update s.udata s.nextUd { ptr := p, mt := Value.table (TableId.mt cn) },
        nextUd := s.nextUd + 1,
        heap := Function.update s.heap TableId.counts
          ((s.heap TableId.counts).set (Value.lightud p) (Value.int (RefCount s p + 1))) }
      F p q _ i5 rfl rfl]
    by_cases hpq : p = q
    · subst hpq
      have e : RefCount { s with
          stack := Value.userdata s.nextUd :: s.stack,
          udata := Function.update s.udata s.nextUd
            { ptr := p, mt := Value.table (TableId.mt cn) },
          nextUd := s.nextUd + 1,
          heap := Function.update s.heap TableId.counts
            ((s.heap TableId.counts).set (Value.lightud p) (Value.int (RefCount s p + 1))) } p =
          RefCount s p + 1 := by
        simp only [RefCount, Function.update_same, Table.get_set_self, Value.toInteger]
      rw [e, i6 p]
      simp
    · have hne : Value.lightud q ≠ Value.lightud p := by
        simpa using fun h => hpq h.symm
      have e : RefCount { s with
          stack := Value.userdata s.nextUd :: s.stack,
          udata := Function.update s.udata s.nextUd
            { ptr := p, mt := Value.table (TableId.mt cn) },
          nextUd := s.nextUd + 1,
          heap := Function.update s.heap TableId.counts
            ((s.heap TableId.counts).set (Value.lightud p) (Value.int (RefCount s p + 1))) } q =
          RefCount s q := by
        simp only [RefCount, Function.update_same, Table.get_set_ne _ _ _ _ hne]
      rw [e, i6 q]
      simp [hpq]

theorem Inv_frame (s s1 : LuaState) (F : List Nat) (h : Inv s F)
    (hreg : s1.registry = s.registry) (hcls : s1.classname = s.classname)
    (hw : s1.heap TableId.wrapper = s.heap TableId.wrapper)
    (hmt : ∀ cn, s1.heap (TableId.mt cn) = s.heap (TableId.mt cn))
    (htm : ∀ id, id = TableId.wrapper ∨ id = TableId.counts ∨ id = TableId.holds ∨
      id = TableId.storage → s1.tmeta id = s.tmeta id)
    (hud : s1.udata = s.udata) (hnu : s1.nextUd = s.nextUd)
    (hcnt : s1.heap TableId.counts = s.heap TableId.counts)
    (hst : ∀ p, StorageTable s1 p = Value.nil ∨
      ∃ n, n < s1.nextTable ∧ StorageTable s1 p = Value.table (TableId.anon n) ∧
        ∀ x ∈ s1.heap (TableId.anon n), x.2.isHook = true) :
    Inv s1 F := by
  obtain ⟨i1, i2, i3, i4, i5, i6⟩ := h
  refine ⟨Ready_frame s s1 hreg hw htm i1, TypesOK_frame s s1 hcls hreg hmt i2, ?_, hst, ?_, ?_⟩
  · intro u hu hF
    rw [hnu] at hu
    obtain ⟨T, cn, h1, h2⟩ := i3 u hu hF
    exact ⟨T, cn, by rw [hcls]; exact h1, by rw [hud]; exact h2⟩
  · intro u hu
    rw [hnu]
    exact i5 u hu
  · intro p
    rw [liveCount_same s s1 F p hnu hud]
    have : RefCount s1 p = RefCount s p := by
      simp only [RefCount, hcnt]
    rw [this]
    exact i6 p

theorem Inv_holds (s : LuaState) (F : List Nat) (stk : List Value) (tbl : Table)
    (h : Inv s F) :
    Inv { s with stack := stk, heap := Function.update s.heap TableId.holds tbl } F := by
  refine Inv_frame s _ F h ?_ ?_ ?_ ?_ ?_ ?_ ?_ ?_ ?_
  · rfl
  · rfl
  · simp
  · intro cn; simp
  · intro _ _; rfl
  · rfl
  · rfl
  · simp
  intro p
  rcases h.2.2.2.1 p with h0 | ⟨n, h1, h2, h3⟩
  · exact Or.inl (by simpa [StorageTable] using h0)
  · exact Or.inr ⟨n, h1, by simpa [StorageTable] using h2, by simpa using h3⟩

theorem Inv_hold_fresh (s : LuaState) (F : List Nat) (p : Ptr) (h : Inv s F) :
    Inv { s with
      heap := Function.update
        (Function.update
          (Function.update s.heap TableId.holds
            ((s.heap TableId.holds).set (Value.lightud p) (Value.bool true)))
          (TableId.anon s.nextTable) [])
        TableId.storage
        ((s.heap TableId.storage).set (Value.lightud p) (Value.table (TableId.anon s.nextTable))),
      tmeta := Function.update s.tmeta (TableId.anon s.nextTable) Value.nil,
      nextTable := s.nextTable + 1 } F := by
  refine Inv_frame s _ F h ?_ ?_ ?_ ?_ ?_ ?_ ?_ ?_ ?_
  · rfl
  · rfl
  · simp
  · intro cn; simp
  · intro id hid
    have : id ≠ TableId.anon s.nextTable := by rcases hid with h | h | h | h <;> simp [h]
    simp [Function.update_noteq this]
  · rfl
  · rfl
  · simp
  intro q
  by_cases hq : q = p
  · subst hq
    right
    exact ⟨s.nextTable, by simp, by simp [StorageTable, Table.get_set_self], by simp⟩
  · have hne : Value.lightud q ≠ Value.lightud p := by simpa using hq
    rcases h.2.2.2.1 q with h0 | ⟨n, h1, h2, h3⟩
    · left
      simpa [StorageTable, Table.get_set_ne _ _ _ _ hne] using h0
    · right
      have hn : TableId.anon n ≠ TableId.anon s.nextTable := by
        simpa using Nat.ne_of_lt h1
      refine ⟨n, by simp only []; omega, ?_, ?_⟩
      · simpa [StorageTable, Table.get_set_ne _ _ _ _ hne] using h2
      · simpa [Function.update_noteq hn] using h3

theorem Inv_write (s : LuaState) (F : List Nat) (n : Nat) (k v : Value) (h : Inv s F)
    (hv : v.isHook = true) :
    Inv { s with
      heap := Function.update s.heap (TableId.anon n) ((s.heap (TableId.anon n)).set k v) } F := by
  refine Inv_frame s _ F h ?_ ?_ ?_ ?_ ?_ ?_ ?_ ?_ ?_
  · rfl
  · rfl
  · simp
  · intro cn; simp
  · intro _ _; rfl
  · rfl
  · rfl
  · simp
  intro q
  rcases h.2.2.2.1 q with h0 | ⟨m, h1, h2, h3⟩
  · exact Or.inl (by simpa [StorageTable] using h0)
  · refine Or.inr ⟨m, h1, by simpa [StorageTable] using h2, ?_⟩
    by_cases hmn : m = n
    · subst hmn
      intro x hx
      simp only [Function.update_same] at hx
      rcases Table.mem_set _ _ _ _ hx with hx1 | hx1
      · rw [hx1]; exact hv
      · exact h3 x hx1
    · have hne : TableId.anon m ≠ TableId.anon n := by simpa using hmn
      simpa [Function.update_noteq hne] using h3

theorem Inv_finalize_keep (s : LuaState) (F : List Nat) (u : Nat) (p : Ptr) (h : Inv s F)
    (hu : u < s.nextUd) (hF : u ∉ F) (hp : (s.udata u).ptr = p) :
    Inv { s with
      heap := Function.update s.heap TableId.counts ((s.heap TableId.counts).set
        (Value.lightud p) (Value.int (RefCount s p - 1))) } (u :: F) := by
  obtain ⟨i1, i2, i3, i4, i5, i6⟩ := h
  refine ⟨?_, ?_, ?_, ?_, ?_, ?_⟩
  · exact Ready_congr s _ rfl (by simp) rfl i1
  · exact TypesOK_frame s _ rfl rfl (by intro cn'; simp) i2
  · intro u' hu' hF'
    exact i3 u' hu' (fun hmem => hF' (List.mem_cons_of_mem _ hmem))
  · intro q
    rcases i4 q with h0 | ⟨n, h1, h2, h3⟩
    · exact Or.inl (by simpa [StorageTable] using h0)
    · exact Or.inr ⟨n, h1, by simpa [StorageTable] using h2, by simpa using h3⟩
  · intro x hx
    rcases List.mem_cons.mp hx with hx | hx
    · rw [hx]; exact hu
    · exact i5 x hx
  · intro q
    have hlive : liveCount { s with
        heap := Function.update s.heap TableId.counts ((s.heap TableId.counts).set
          (Value.lightud p) (Value.int (RefCount s p - 1))) } (u :: F) q =
        liveCount s (u :: F) q := liveCount_same s _ (u :: F) q rfl rfl
    have hfin := liveBelow_finalize s F q u s.nextUd hu hF
    rw [hlive]
    by_cases hpq : p = q
    · subst hpq
      have e : RefCount { s with
          heap := Function.update s.heap TableId.counts ((s.heap TableId.counts).set
            (Value.lightud p) (Value.int (RefCount s p - 1))) } p = RefCount s p - 1 := by
        simp only [RefCount, Function.update_same, Table.get_set_self, Value.toInteger]
      rw [e, i6 p]
      simp only [hp, if_true] at hfin
      unfold liveCount
      omega
    · have hne : Value.lightud q ≠ Value.lightud p := by
        simpa using fun h => hpq h.symm
      have e : RefCount { s with
          heap := Function.update s.heap TableId.counts ((s.heap TableId.counts).set
            (Value.lightud p) (Value.int (RefCount s p - 1))) } q = RefCount s q := by
        simp only [RefCount, Function.update_same, Table.get_set_ne _ _ _ _ hne]
      rw [e, i6 q]
      have hpq' : ¬ (s.udata u).ptr = q := by rw [hp]; exact hpq
      simp only [hpq', if_false] at hfin
      unfold liveCount
      omega

theorem Inv_finalize_delete (s : LuaState) (F : List Nat) (u : Nat) (p : Ptr) (T : TypeId)
    (cn : String) (l : List Event) (h : Inv s F)
    (hu : u < s.nextUd) (hF : u ∉ F) (hp : (s.udata u).ptr = p)
    (hT : s.classname T = some cn) (hcount : RefCount s p = 1) :
    Inv { s with
      heap := Function.update (Function.update (Function.update s.heap
          TableId.counts (((s.heap TableId.counts).set (Value.lightud p) (Value.int 0)).set
            (Value.lightud p) (Value.int 1)))
          TableId.holds ((s.heap TableId.holds).set (Value.lightud p) Value.nil))
          TableId.storage ((s.heap TableId.storage).set (Value.lightud p) Value.nil),
      udata := Function.update s.udata s.nextUd { ptr := p, mt := Value.table (TableId.mt cn) },
      nextUd := s.nextUd + 1,
      log := l } (u :: F) := by
  obtain ⟨i1, i2, i3, i4, i5, i6⟩ := h
  have hF' : ∀ x ∈ u :: F, x < s.nextUd := by
    intro x hx
    rcases List.mem_cons.mp hx with hx | hx
    · rw [hx]; exact hu
    · exact i5 x hx
  refine ⟨?_, ?_, ?_, ?_, ?_, ?_⟩
  · exact Ready_congr s _ rfl (by simp) rfl i1
  · exact TypesOK_frame s _ rfl rfl (by intro cn'; simp) i2
  · intro u' hu' hFu
    by_cases hun : u' = s.nextUd
    · subst hun
      exact ⟨T, cn, hT, by simp⟩
    · have hlt : u' < s.nextUd := by
        simp only [] at hu'
        omega
      obtain ⟨T', cn', h1, h2⟩ := i3 u' hlt (fun hmem => hFu (List.mem_cons_of_mem _ hmem))
      exact ⟨T', cn', h1, by simpa [Function.update_noteq hun] using h2⟩
  · intro q
    by_cases hq : q = p
    · subst hq
      left
      simp [StorageTable, Table.get_set_self]
    · have hne : Value.lightud q ≠ Value.lightud p := by simpa using hq
      rcases i4 q with h0 | ⟨n, h1, h2, h3⟩
      · left
        simpa [StorageTable, Table.get_set_ne _ _ _ _ hne] using h0
      · right
        refine ⟨n, h1, ?_, by simpa using h3⟩
        simpa [StorageTable, Table.get_set_ne _ _ _ _ hne] using h2
  · intro x hx
    have := hF' x hx
    simp only []
    omega
  · intro q
    have hpush := liveCount_push s { s with
        heap := Function.update (Function.update (Function.update s.heap
            TableId.counts (((s.heap TableId.counts).set (Value.lightud p) (Value.int 0)).set
              (Value.lightud p) (Value.int 1)))
            TableId.holds ((s.heap TableId.holds).set (Value.lightud p) Value.nil))
            TableId.storage ((s.heap TableId.storage).set (Value.lightud p) Value.nil),
        udata := Function.update s.udata s.nextUd { ptr := p, mt := Value.table (TableId.mt cn) },
        nextUd := s.nextUd + 1,
        log := l } (u :: F) p q (Value.table (TableId.mt cn)) hF' rfl rfl
    rw [hpush]
    have hfin := liveBelow_finalize s F q u s.nextUd hu hF
    by_cases hpq : p = q
    · subst hpq
      have e : RefCount { s with
          heap := Function.update (Function.update (Function.update s.heap
              TableId.counts (((s.heap TableId.counts).set (Value.lightud p) (Value.int 0)).set
                (Value.lightud p) (Value.int 1)))
              TableId.holds ((s.heap TableId.holds).set (Value.lightud p) Value.nil))
              TableId.storage ((s.heap TableId.storage).set (Value.lightud p) Value.nil),
          udata := Function.update s.udata s.nextUd
            { ptr := p, mt := Value.table (TableId.mt cn) },
          nextUd := s.nextUd + 1,
          log := l } p = 1 := by
        simp [RefCount, Table.get_set_self, Value.toInteger]
      rw [e]
      have hc := i6 p
      rw [hcount] at hc
      simp only [hp, if_true] at hfin ⊢
      unfold liveCount at hc ⊢
      omega
    · have hne : Value.lightud q ≠ Value.lightud p := by
        simpa using fun h => hpq h.symm
      have e : RefCount { s with
          heap := Function.update (Function.update (Function.update s.heap
              TableId.counts (((s.heap TableId.counts).set (Value.lightud p) (Value.int 0)).set
                (Value.lightud p) (Value.int 1)))
              TableId.holds ((s.heap TableId.holds).set (Value.lightud p) Value.nil))
              TableId.storage ((s.heap TableId.storage).set (Value.lightud p) Value.nil),
          udata := Function.update s.udata s.nextUd
            { ptr := p, mt := Value.table (TableId.mt cn) },
          nextUd := s.nextUd + 1,
          log := l } q = RefCount s q := by
        simp [RefCount, Table.get_set_ne _ _ _ _ hne]
      rw [e, i6 q]
      have hpq' : ¬ (s.udata u).ptr = q := by rw [hp]; exact hpq
      simp only [hpq', hpq, if_false] at hfin ⊢
      unfold liveCount
      omega

theorem Inv_count_nonneg (s : LuaState) (F : List Nat) (h : Inv s F) (p : Ptr) :
    0 ≤ RefCount s p := by
  rw [h.2.2.2.2.2 p]
  exact Int.ofNat_nonneg _

theorem step_push (s : LuaState) (F : List Nat) (T : TypeId) (p : Ptr) (h : Inv s F)
    (hok : (Op.push T p).ok s F) :
    ∃ s1, (Op.push T p).run s = Outcome.ok () s1 ∧ Inv s1 F ∧
      (∀ q, StorageTable s1 q = StorageTable s q) := by
  obtain ⟨cn, hcn⟩ := hok
  have hreg := (h.2.1 T cn hcn).1
  have hp := luaW_push_eq T p s h.1 cn hcn
  rw [hreg.2.1] at hp
  exact ⟨_, hp, Inv_push s F T p cn h hcn, fun q => by simp [StorageTable]⟩

theorem step_release (s : LuaState) (F : List Nat) (T : TypeId) (p : Ptr) (h : Inv s F) :
    ∃ s1, (Op.release T p).run s = Outcome.ok () s1 ∧ Inv s1 F ∧
      (∀ q, StorageTable s1 q = StorageTable s q) := by
  exact ⟨_, luaW_release_eq T p s h.1, Inv_holds s F _ _ h, fun q => by simp [StorageTable]⟩

theorem hold_run (T : TypeId) (p : Ptr) (s s1 : LuaState) (b : Bool)
    (e : luaW_hold T p s = Outcome.ok b s1) : (Op.hold T p).run s = Outcome.ok () s1 := by
  simp only [Op.run, bind_apply, e, pure_apply]

theorem step_hold (s : LuaState) (F : List Nat) (T : TypeId) (p : Ptr) (h : Inv s F) :
    ∃ s1, (Op.hold T p).run s = Outcome.ok () s1 ∧ Inv s1 F ∧
      (∀ q, StorageTable s1 q ≠ Value.nil →
        StorageTable s q ≠ Value.nil ∨ (HoldFlag s q = false ∧ HoldFlag s1 q = true)) := by
  by_cases hh : HoldFlag s p = true
  · have e := luaW_hold_held T p s h.1 hh
    exact ⟨s, hold_run T p s _ _ e, h, fun q hq => Or.inl hq⟩
  · have hh' : HoldFlag s p = false := by simpa using hh
    by_cases hc : 0 < RefCount s p
    · by_cases hs : StorageTable s p = Value.nil
      · have e := luaW_hold_fresh T p s h.1 hh' hc hs
        refine ⟨_, hold_run T p s _ _ e, Inv_hold_fresh s F p h, ?_⟩
        · intro q hq
          by_cases hqp : q = p
          · subst hqp
            right
            exact ⟨hh', by simp [HoldFlag, Table.get_set_self, Value.toBoolean]⟩
          · left
            have hne : Value.lightud q ≠ Value.lightud p := by simpa using hqp
            simpa [StorageTable, Table.get_set_ne _ _ _ _ hne] using hq
      · have e := luaW_hold_stored T p s h.1 hh' hc hs
        refine ⟨_, hold_run T p s _ _ e, Inv_holds s F _ _ h, ?_⟩
        · intro q hq
          left
          simpa [StorageTable] using hq
    · have e := luaW_hold_nocount T p s h.1 hh' (by omega)
      refine ⟨_, hold_run T p s _ _ e, Inv_holds s F _ _ h, ?_⟩
      · intro q hq
        left
        simpa [StorageTable] using hq

theorem step_finalize (s : LuaState) (F : List Nat) (u : Nat) (h : Inv s F)
    (hok : (Op.finalize u).ok s F) :
    ∃ s1, (Op.finalize u).run s = Outcome.ok () s1 ∧ Inv s1 (u :: F) ∧
      (∀ q, StorageTable s1 q ≠ Value.nil → StorageTable s q ≠ Value.nil) := by
  obtain ⟨hu, hF⟩ := hok
  obtain ⟨T, cn, hcn, hmt⟩ := h.2.2.1 u hu hF
  obtain ⟨hreg, hni, hdt, hct⟩ := h.2.1 T cn hcn
  obtain ⟨p, hp⟩ : ∃ p, (s.udata u).ptr = p := ⟨_, rfl⟩
  have hud : s.udata u = { ptr := p, mt := Value.table (TableId.mt cn) } := by
    cases hx : s.udata u with
    | mk a b =>
      rw [hx] at hp hmt
      simp only [] at hp hmt
      rw [hp, hmt]
  by_cases hk : p = NULL ∨ RefCount s p ≠ 1
  · refine ⟨_, finalize_keep s T u cn p h.1 hreg hud hk, Inv_finalize_keep s F u p h hu hF hp, ?_⟩
    intro q hq
    simpa [StorageTable] using hq
  · have hpn : p ≠ NULL := fun e => hk (Or.inl e)
    have hc1 : RefCount s p = 1 := by
      by_contra e
      exact hk (Or.inr e)
    have hst : StorageTable s p = Value.nil ∨
        ∃ n, StorageTable s p = Value.table (TableId.anon n) ∧
          ∀ x ∈ s.heap (TableId.anon n), x.2.isHook = true := by
      rcases h.2.2.2.1 p with h0 | ⟨n, h1, h2, h3⟩
      · exact Or.inl h0
      · exact Or.inr ⟨n, h2, h3⟩
    have hst' : StorageTable s p = Value.nil ∨
        ∃ n, StorageTable s p = Value.table (TableId.anon n) := by
      rcases hst with h0 | ⟨n, h2, h3⟩
      · exact Or.inl h0
      · exact Or.inr ⟨n, h2⟩
    have hhook := fieldOf_isHook s p cn (Value.str LUAW_DTOR_KEY) hst hdt
    refine ⟨_, finalize_delete s T u cn p h.1 hreg hud hpn hc1 hst' hhook,
      Inv_finalize_delete s F u p T cn _ h hu hF hp hcn hc1, ?_⟩
    intro q hq
    by_cases hqp : q = p
    · subst hqp
      exact absurd (by simp [StorageTable, Table.get_set_self]) hq
    · have hne : Value.lightud q ≠ Value.lightud p := by simpa using hqp
      simpa [StorageTable, Table.get_set_ne _ _ _ _ hne] using hq

theorem step_read (s : LuaState) (F : List Nat) (u : Nat) (k : Value) (h : Inv s F)
    (hok : (Op.read u k).ok s F) :
    (Op.read u k).run s = Outcome.ok () s := by
  obtain ⟨hu, hF⟩ := hok
  obtain ⟨T, cn, hcn, hmt⟩ := h.2.2.1 u hu hF
  obtain ⟨hreg, hni, hdt, hct⟩ := h.2.1 T cn hcn
  have hst : StorageTable s (s.udata u).ptr = Value.nil ∨
      ∃ st, StorageTable s (s.udata u).ptr = Value.table st := by
    rcases h.2.2.2.1 (s.udata u).ptr with h0 | ⟨n, h1, h2, h3⟩
    · exact Or.inl h0
    · exact Or.inr ⟨_, h2⟩
  have e := indexValue_handle T s u k cn h.1 hreg hmt hst
  simp only [Op.run, bind_apply, e, pure_apply]

theorem step_write (s : LuaState) (F : List Nat) (u : Nat) (k v : Value) (h : Inv s F)
    (hok : (Op.write u k v).ok s F) :
    ∃ s1, (Op.write u k v).run s = Outcome.ok () s1 ∧ Inv s1 F ∧
      (∀ q, StorageTable s1 q = StorageTable s q) := by
  obtain ⟨hu, hF, hv⟩ := hok
  obtain ⟨T, cn, hcn, hmt⟩ := h.2.2.1 u hu hF
  obtain ⟨hreg, hni, hdt, hct⟩ := h.2.1 T cn hcn
  rcases h.2.2.2.1 (s.udata u).ptr with h0 | ⟨n, h1, h2, h3⟩
  · exact ⟨s, assignValue_handle_none T s u k v cn h.1 hreg hni hmt h0, h, fun q => rfl⟩
  · exact ⟨_, assignValue_handle_some T s u k v cn (TableId.anon n) h.1 hreg hni hmt h2,
      Inv_write s F n k v h hv, fun q => by simp [StorageTable]⟩

theorem Inv_push_hold (s : LuaState) (F : List Nat) (T : TypeId) (p : Ptr) (cn : String)
    (l : List Event) (h : Inv s F) (hT : s.classname T = some cn) :
    Inv { s with
      udata := Function.update s.udata s.nextUd { ptr := p, mt := Value.table (TableId.mt cn) },
      nextUd := s.nextUd + 1,
      heap := Function.update
        (Function.update
          (Function.update
            (Function.update s.heap TableId.counts
              ((s.heap TableId.counts).set (Value.lightud p) (Value.int (RefCount s p + 1))))
            TableId.holds ((s.heap TableId.holds).set (Value.lightud p) (Value.bool true)))
          (TableId.anon s.nextTable) [])
        TableId.storage
        ((s.heap TableId.storage).set (Value.lightud p) (Value.table (TableId.anon s.nextTable))),
      tmeta := Function.update s.tmeta (TableId.anon s.nextTable) Value.nil,
      nextTable := s.nextTable + 1,
      log := l } F := by
  have h1 := Inv_push s F T p cn h hT
  have h2 := Inv_hold_fresh _ F p h1
  have h3 := Inv_stack_log _ F s.stack l h2
  simp only [Function.update_same, Function.update_noteq, ne_eq, reduceCtorEq,
    not_false_eq_true] at h3
  exact h3

theorem storage_push_hold (s : LuaState) (p q : Ptr) (m : Value) (l : List Event)
    (hh : HoldFlag s p = false)
    (hq : StorageTable { s with
      udata := Function.update s.udata s.nextUd { ptr := p, mt := m },
      nextUd := s.nextUd + 1,
      heap := Function.update
        (Function.update
          (Function.update
            (Function.update s.heap TableId.counts
              ((s.heap TableId.counts).set (Value.lightud p) (Value.int (RefCount s p + 1))))
            TableId.holds ((s.heap TableId.holds).set (Value.lightud p) (Value.bool true)))
          (TableId.anon s.nextTable) [])
        TableId.storage
        ((s.heap TableId.storage).set (Value.lightud p) (Value.table (TableId.anon s.nextTable))),
      tmeta := Function.update s.tmeta (TableId.anon s.nextTable) Value.nil,
      nextTable := s.nextTable + 1,
      log := l } q ≠ Value.nil) :
    StorageTable s q ≠ Value.nil ∨ (HoldFlag s q = false ∧ HoldFlag { s with
      udata := Function.update s.udata s.nextUd { ptr := p, mt := m },
      nextUd := s.nextUd + 1,
      heap := Function.update
        (Function.update
          (Function.update
            (Function.update s.heap TableId.counts
              ((s.heap TableId.counts).set (Value.lightud p) (Value.int (RefCount s p + 1))))
            TableId.holds ((s.heap TableId.holds).set (Value.lightud p) (Value.bool true)))
          (TableId.anon s.nextTable) [])
        TableId.storage
        ((s.heap TableId.storage).set (Value.lightud p) (Value.table (TableId.anon s.nextTable))),
      tmeta := Function.update s.tmeta (TableId.anon s.nextTable) Value.nil,
      nextTable := s.nextTable + 1,
      log := l } q = true) := by
  by_cases hqp : q = p
  · subst hqp
    right
    exact ⟨hh, by simp [HoldFlag, Table.get_set_self, Value.toBoolean]⟩
  · left
    have hne : Value.lightud q ≠ Value.lightud p := by simpa using hqp
    simpa [StorageTable, Table.get_set_ne _ _ _ _ hne] using hq

theorem frame_run (body : LuaM Nat) (args res : List Value) (s s1 : LuaState)
    (e : callFrame body args s = Outcome.ok res s1) :
    (do let _ ← callFrame body args : LuaM Unit) s = Outcome.ok () s1 := by
  simp only [bind_apply, e, pure_apply]

theorem step_new (s : LuaState) (F : List Nat) (T : TypeId) (p : Ptr) (args : List Value)
    (h : Inv s F) (hok : (Op.new T p args).ok s F) :
    ∃ s1, (Op.new T p args).run s = Outcome.ok () s1 ∧ Inv s1 F ∧
      (∀ q, StorageTable s1 q ≠ Value.nil →
        StorageTable s q ≠ Value.nil ∨ (HoldFlag s q = false ∧ HoldFlag s1 q = true)) := by
  obtain ⟨⟨cn, hcn⟩, hh, hs⟩ := hok
  obtain ⟨hreg, hni, hdt, hct⟩ := h.2.1 T cn hcn
  have e := luaW_new_eq T p cn s args h.1 hreg (Inv_count_nonneg s F h p) hh hs hct
  exact ⟨_, frame_run _ _ _ s _ e, Inv_push_hold s F T p cn _ h hcn,
    fun q hq => storage_push_hold s p q _ _ hh hq⟩

theorem step_build (s : LuaState) (F : List Nat) (T : TypeId) (p : Ptr) (n : Nat)
    (h : Inv s F) (hok : (Op.build T p n).ok s F) :
    ∃ s1, (Op.build T p n).run s = Outcome.ok () s1 ∧ Inv s1 F ∧
      (∀ q, StorageTable s1 q ≠ Value.nil →
        StorageTable s q ≠ Value.nil ∨ (HoldFlag s q = false ∧ HoldFlag s1 q = true)) := by
  obtain ⟨⟨hh, hs⟩, hn, cn, hcn, hmeth⟩ := hok
  obtain ⟨hreg, hni, hdt, hct⟩ := h.2.1 T cn hcn
  have e := luaW_build_eq T p cn s n h.1 hreg (Inv_count_nonneg s F h p) hh hs (by omega) hmeth
  exact ⟨_, frame_run _ _ _ s _ e, Inv_push_hold s F T p cn _ h hcn,
    fun q hq => storage_push_hold s p q _ _ hh hq⟩

/-- One admissible operation returns, keeps the invariant, creates a storage
table only for an object whose hold flag it sets, and creates none at all
unless it calls `luaW_hold`. -/
theorem step_op (s : LuaState) (F : List Nat) (op : Op) (h : Inv s F) (hok : op.ok s F) :
    ∃ s1, op.run s = Outcome.ok () s1 ∧ Inv s1 (op.finalized F) ∧
      (∀ q, StorageTable s1 q ≠ Value.nil →
        StorageTable s q ≠ Value.nil ∨ (HoldFlag s q = false ∧ HoldFlag s1 q = true)) ∧
      (op.callsHold = false → ∀ q, StorageTable s1 q ≠ Value.nil →
        StorageTable s q ≠ Value.nil) := by
  cases op with
  | push T p =>
    obtain ⟨s1, h1, h2, h3⟩ := step_push s F T p h hok
    exact ⟨s1, h1, h2, fun q hq => Or.inl (by rw [← h3 q]; exact hq),
      fun _ q hq => by rw [← h3 q]; exact hq⟩
  | hold T p =>
    obtain ⟨s1, h1, h2, h3⟩ := step_hold s F T p h
    exact ⟨s1, h1, h2, h3, fun hc => by simp [Op.callsHold] at hc⟩
  | release T p =>
    obtain ⟨s1, h1, h2, h3⟩ := step_release s F T p h
    exact ⟨s1, h1, h2, fun q hq => Or.inl (by rw [← h3 q]; exact hq),
      fun _ q hq => by rw [← h3 q]; exact hq⟩
  | finalize u =>
    obtain ⟨s1, h1, h2, h3⟩ := step_finalize s F u h hok
    exact ⟨s1, h1, h2, fun q hq => Or.inl (h3 q hq), fun _ q hq => h3 q hq⟩
  | read u k =>
    exact ⟨s, step_read s F u k h hok, h, fun q hq => Or.inl hq, fun _ q hq => hq⟩
  | write u k v =>
    obtain ⟨s1, h1, h2, h3⟩ := step_write s F u k v h hok
    exact ⟨s1, h1, h2, fun q hq => Or.inl (by rw [← h3 q]; exact hq),
      fun _ q hq => by rw [← h3 q]; exact hq⟩
  | new T p args =>
    obtain ⟨s1, h1, h2, h3⟩ := step_new s F T p args h hok
    exact ⟨s1, h1, h2, h3, fun hc => by simp [Op.callsHold] at hc⟩
  | build T p n =>
    obtain ⟨s1, h1, h2, h3⟩ := step_build s F T p n h hok
    exact ⟨s1, h1, h2, h3, fun hc => by simp [Op.callsHold] at hc⟩

theorem Inv_empty (s : LuaState) (h : EmptyBinding s) : Inv s [] := by
  obtain ⟨h1, h2, h3, h4, h5, h6⟩ := h
  refine ⟨h1, h2, ?_, ?_, ?_, ?_⟩
  · intro u hu
    omega
  · intro p
    left
    simp [StorageTable, h6, Table.get]
  · intro u hu
    simp at hu
  · intro p
    simp [RefCount, h4, Table.get, Value.toInteger, liveCount, h3, liveBelow]

/-- A run of admissible operations returns and keeps the invariant; a storage
table at its end was there at the start or belongs to an object whose hold
flag some step has set. -/
theorem run_ops (ops : List Op) : ∀ (s : LuaState) (F : List Nat), Inv s F →
    Admissible s F ops →
    ∃ s1, runOps ops s = Outcome.ok () s1 ∧ Inv s1 (finalizedAfter F ops) ∧
      ∀ q, StorageTable s1 q ≠ Value.nil → StorageTable s q ≠ Value.nil ∨ heldAlong s ops q := by
  induction ops with
  | nil =>
    intro s F h _
    exact ⟨s, rfl, h, fun q hq => Or.inl hq⟩
  | cons op ops ih =>
    intro s F h ha
    obtain ⟨hok, hrest⟩ := ha
    obtain ⟨s1, h1, h2, h3, _⟩ := step_op s F op h hok
    have hst : (op.run s).state = s1 := by rw [h1]; rfl
    rw [hst] at hrest
    obtain ⟨s2, g1, g2, g3⟩ := ih s1 (op.finalized F) h2 hrest
    refine ⟨s2, ?_, g2, ?_⟩
    · simp only [runOps, bind_apply, h1, g1]
    · intro q hq
      rcases g3 q hq with g | g
      · rcases h3 q g with g' | g'
        · exact Or.inl g'
        · right
          left
          rw [hst]
          exact g'
      · right
        right
        rw [hst]
        exact g

/-- The run of a prefix of an admissible list returns in a state with the
invariant, in which the rest of the list is admissible. -/
theorem run_prefix (pre : List Op) : ∀ (s : LuaState) (F : List Nat) (rest : List Op), Inv s F →
    Admissible s F (pre ++ rest) →
    ∃ s1, runOps pre s = Outcome.ok () s1 ∧ Inv s1 (finalizedAfter F pre) ∧
      Admissible s1 (finalizedAfter F pre) rest := by
  induction pre with
  | nil =>
    intro s F rest h ha
    exact ⟨s, rfl, h, ha⟩
  | cons op pre ih =>
    intro s F rest h ha
    obtain ⟨hok, hrest⟩ := ha
    obtain ⟨s1, h1, h2, _, _⟩ := step_op s F op h hok
    have hst : (op.run s).state = s1 := by rw [h1]; rfl
    rw [hst] at hrest
    obtain ⟨s2, g1, g2, g3⟩ := ih s1 (op.finalized F) rest h2 hrest
    refine ⟨s2, ?_, g2, g3⟩
    simp only [runOps, bind_apply, h1, g1]

/-- C13: take a state in which the binding tables are set up and empty, no
handle has been made, and the registered types have the default `__index`,
`__newindex` and `__gc` entries.  Every run of push, hold, release, read,
write, `T.new`, `T.build` and finalize steps on it returns (reads, writes and
finalizations going through handles that exist and have not been finalized,
`T.new` and `T.build` receiving an object without hold flag and storage table
from the allocator); an object that has a storage table in the state reached
is one whose hold flag some step of the run has changed from false to true;
and a step that does not call `luaW_hold` (any step other than hold, `T.new`
and `T.build`, the last two calling `luaW_hold` themselves) leaves no object
with a storage table that had none before the step. -/
theorem C13_storage_only_after_hold (s0 : LuaState) (ops : List Op)
    (h0 : EmptyBinding s0) (ha : Admissible s0 [] ops) :
    ∃ s, runOps ops s0 = Outcome.ok () s ∧
      (∀ p, StorageTable s p ≠ Value.nil → heldAlong s0 ops p) ∧
      ∀ pre op post, ops = pre ++ op :: post → op.callsHold = false →
        ∃ s1 s2, runOps pre s0 = Outcome.ok () s1 ∧ op.run s1 = Outcome.ok () s2 ∧
          ∀ p, StorageTable s2 p ≠ Value.nil → StorageTable s1 p ≠ Value.nil := by
  obtain ⟨s, h1, h2, h3⟩ := run_ops ops s0 [] (Inv_empty s0 h0) ha
  refine ⟨s, h1, ?_, ?_⟩
  · intro p hp
    rcases h3 p hp with g | g
    · exact absurd (by simp [StorageTable, h0.2.2.2.2.2, Table.get]) g
    · exact g
  · intro pre op post hops hc
    rw [hops] at ha
    obtain ⟨s1, g1, g2, g3⟩ := run_prefix pre s0 [] (op :: post) (Inv_empty s0 h0) ha
    obtain ⟨s2, k1, _, _, k4⟩ := step_op s1 _ op g2 g3.1
    exact ⟨s1, s2, g1, k1, k4 hc⟩

theorem demo_typesOK : TypesOK demo := by
  intro T cn hT
  by_cases hT0 : T = 0
  · subst hT0
    have hcn : cn = "Widget" := by
      simp [demo] at hT
      exact hT.symm
    subst hcn
    refine ⟨demo_registered, ?_, ?_, ?_⟩
    · simp [demo, demoHeap, Table.get]
    · simp [demo, demoHeap, Table.get, LUAW_DTOR_KEY, Value.isHook]
    · simp [demo, demoHeap, Table.get, LUAW_CTOR_KEY, Value.isHook]
  · simp [demo, hT0] at hT

theorem demo_empty : EmptyBinding demo := by
  refine ⟨demo_ready, demo_typesOK, rfl, ?_, ?_, ?_⟩ <;> simp [demo, demoHeap]

theorem demo_push_hold_state :
    ((Op.hold 0 100).run ((Op.push 0 100).run demo).state).state = demoHeld := by
  have h := demoHeld_eq
  simp only [bind_apply] at h
  cases h1 : luaW_push 0 100 demo with
  | raise e s1 =>
    rw [h1] at h
    simp at h
  | ok a s1 =>
    rw [h1] at h
    simp only [] at h
    cases h2 : luaW_hold 0 100 s1 with
    | raise e s2 =>
      rw [h2] at h
      simp at h
    | ok b s2 =>
      rw [h2] at h
      simp only [pure_apply, Outcome.ok.injEq, true_and] at h
      simp only [Op.run, h1, Outcome.state, bind_apply, h2, pure_apply, h]

/-- Witness of C13 on the example state: a handle of the object 100 is pushed,
the object is held, and the script assigns `h.extra = 5`. -/
theorem C13_storage_only_after_hold_witness :
    EmptyBinding demo ∧
    Admissible demo []
      [Op.push 0 100, Op.hold 0 100, Op.write 0 (Value.str "extra") (Value.int 5)] ∧
    ∃ s, runOps [Op.push 0 100, Op.hold 0 100, Op.write 0 (Value.str "extra") (Value.int 5)]
        demo = Outcome.ok () s ∧
      (∀ p, StorageTable s p ≠ Value.nil →
        heldAlong demo
          [Op.push 0 100, Op.hold 0 100, Op.write 0 (Value.str "extra") (Value.int 5)] p) ∧
      ∀ pre op post,
        [Op.push 0 100, Op.hold 0 100, Op.write 0 (Value.str "extra") (Value.int 5)] =
          pre ++ op :: post → op.callsHold = false →
        ∃ s1 s2, runOps pre demo = Outcome.ok () s1 ∧ op.run s1 = Outcome.ok () s2 ∧
          ∀ p, StorageTable s2 p ≠ Value.nil → StorageTable s1 p ≠ Value.nil :=
  have ha : Admissible demo []
      [Op.push 0 100, Op.hold 0 100, Op.write 0 (Value.str "extra") (Value.int 5)] := by
    refine ⟨⟨"Widget", rfl⟩, trivial, ⟨?_, ?_, rfl⟩, trivial⟩
    · rw [demo_push_hold_state]
      simp [demoHeld]
    · simp [Op.finalized]
  ⟨demo_empty, ha,
    C13_storage_only_after_hold demo
      [Op.push 0 100, Op.hold 0 100, Op.write 0 (Value.str "extra") (Value.int 5)] demo_empty ha⟩

/-- C21: the three calls do not restore the Lua stack, and `luaW_clean`
depends on what it finds there.  On the example state, for every stack `stk`
at entry: `luaW_hold` of an object without handle returns with three more
values on the stack (the count, the counts table and the LuaWrapper table);
`luaW_release` returns with the LuaWrapper table on top of `stk`; on the state
with one held handle, `luaW_release` followed by `luaW_hold` leaves four
values; `luaW_clean` removes the storage entry when the LuaWrapper table is on
top of the stack, and pops that table; and with the number 7 on top it raises
an error and leaves the storage entry in place. -/
theorem C21_stack_not_restored :
    (∀ stk : List Value, ∃ s1,
      luaW_hold 0 100 { demo with stack := stk } = Outcome.ok true s1 ∧
      s1.stack = Value.nil :: Value.table TableId.counts :: Value.table TableId.wrapper :: stk) ∧
    (∀ stk : List Value, ∃ s1,
      luaW_release 0 100 { demo with stack := stk } = Outcome.ok () s1 ∧
      s1.stack = Value.table TableId.wrapper :: stk) ∧
    (∀ stk : List Value, ∃ s1 s2,
      luaW_release 0 100 { demoHeld with stack := stk } = Outcome.ok () s1 ∧
      luaW_hold 0 100 s1 = Outcome.ok true s2 ∧
      s2.stack = Value.table (TableId.anon 1) :: Value.table TableId.storage ::
        Value.table TableId.wrapper :: Value.table TableId.wrapper :: stk) ∧
    (∀ stk : List Value, ∃ s1,
      luaW_clean 0 100 { demoHeld with stack := Value.table TableId.wrapper :: stk } =
        Outcome.ok () s1 ∧
      s1.stack = stk ∧ StorageTable s1 100 = Value.nil) ∧
    (∀ stk : List Value, ∃ s1,
      luaW_clean 0 100 { demoHeld with stack := Value.int 7 :: stk } =
        Outcome.raise (LuaError.indexError (Value.int 7)) s1 ∧
      StorageTable s1 100 = Value.table (TableId.anon 1)) := by
  refine ⟨?_, ?_, ?_, ?_, ?_⟩
  · intro stk
    have hr : Ready { demo with stack := stk } := Ready_congr demo _ rfl rfl rfl demo_ready
    have e := luaW_hold_nocount 0 100 { demo with stack := stk } hr
      (by simp [HoldFlag, demo, demoHeap, Table.get, Value.toBoolean])
      (by simp [RefCount, demo, demoHeap, Table.get, Value.toInteger])
    refine ⟨_, e, ?_⟩
    simp [demo, demoHeap, Table.get]
  · intro stk
    have hr : Ready { demo with stack := stk } := Ready_congr demo _ rfl rfl rfl demo_ready
    exact ⟨_, luaW_release_eq 0 100 { demo with stack := stk } hr, rfl⟩
  · intro stk
    have hr : Ready { demoHeld with stack := stk } :=
      Ready_congr demoHeld _ rfl rfl rfl demoHeld_ready
    have e1 := luaW_release_eq 0 100 { demoHeld with stack := stk } hr
    obtain ⟨s1, hs1⟩ : ∃ s1 : LuaState, s1 = { demoHeld with
        stack := Value.table TableId.wrapper :: stk,
        heap := Function.update demoHeld.heap TableId.holds
          ((demoHeld.heap TableId.holds).set (Value.lightud 100) Value.nil) } := ⟨_, rfl⟩
    have e1' : luaW_release 0 100 { demoHeld with stack := stk } = Outcome.ok () s1 := by
      rw [e1, hs1]
    have hr1 : Ready s1 := by
      rw [hs1]
      exact Ready_congr demoHeld _ rfl (by simp) rfl demoHeld_ready
    have e2 := luaW_hold_stored 0 100 s1 hr1
      (by simp [hs1, HoldFlag, Table.get_set_self, Value.toBoolean])
      (by simp [hs1, RefCount, demoHeld, Table.get, Value.toInteger])
      (by simp [hs1, StorageTable, demoHeld, Table.get])
    refine ⟨s1, _, e1', e2, ?_⟩
    simp [hs1, StorageTable, demoHeld, Table.get]
  · intro stk
    have hr : Ready { demoHeld with stack := Value.table TableId.wrapper :: stk } :=
      Ready_congr demoHeld _ rfl rfl rfl demoHeld_ready
    refine ⟨_, luaW_clean_eq 0 100 _ stk hr rfl, rfl, ?_⟩
    simp [StorageTable, Table.get_set_self]
  · intro stk
    refine ⟨{ demoHeld with stack := Value.int 7 :: stk }, ?_, ?_⟩
    · simp [luaW_clean, lua_getfield, valueAt, indexValue]
    · simp [StorageTable, demoHeld, Table.get]

theorem write_then_read (T : TypeId) (s : LuaState) (u : Nat) (k v : Value) (cn : String)
    (n : Nat) (hr : Ready s) (hreg : Registered s T cn)
    (hni : (s.heap (TableId.mt cn)).get (Value.str "__newindex") = Value.func (CFun.newindex T))
    (hm : (s.udata u).mt = Value.table (TableId.mt cn)) (hv : v ≠ Value.nil)
    (hst : StorageTable s (s.udata u).ptr = Value.table (TableId.anon n)) :
    ∃ s', assignValue (Value.userdata u) k v s = Outcome.ok () s' ∧
      indexValue (Value.userdata u) k s' = Outcome.ok v s' := by
  have ha := assignValue_handle_some T s u k v cn (TableId.anon n) hr hreg hni hm hst
  obtain ⟨s', hs'⟩ : ∃ s' : LuaState, s' = { s with
      heap := Function.update s.heap (TableId.anon n) ((s.heap (TableId.anon n)).set k v) } :=
    ⟨_, rfl⟩
  rw [← hs'] at ha
  have hr' : Ready s' := Ready_congr s s' (by simp [hs']) (by simp [hs']) (by simp [hs']) hr
  have hreg' : Registered s' T cn :=
    Registered_congr s s' T cn (by simp [hs']) (by simp [hs']) (by simp [hs']) hreg
  have hst' : StorageTable s' (s'.udata u).ptr = Value.table (TableId.anon n) := by
    simpa [hs', StorageTable] using hst
  have hm' : (s'.udata u).mt = Value.table (TableId.mt cn) := by simpa [hs'] using hm
  have hi := indexValue_handle T s' u k cn hr' hreg' hm' (Or.inr ⟨_, hst'⟩)
  have hf : fieldOf s' (s'.udata u).ptr (TableId.mt cn) k = v := by
    have hget : (s'.heap (TableId.anon n)).get k = v := by
      simp [hs', Table.get_set_self]
    unfold fieldOf
    rw [hst']
    simp only [hget]
  rw [hf] at hi
  exact ⟨s', ha, hi⟩

/-- A step of the reference-count protocol whose hold, if it is one, finds the
object held or with a handle: an object held after the step has a storage
table, or was held before with the same storage entry. -/
theorem step_flags (s : LuaState) (F : List Nat) (op : Op) (h : Inv s F) (hok : op.ok s F)
    (hb : op.isBasic = true) (hc : op.counted s) :
    ∃ s1, op.run s = Outcome.ok () s1 ∧
      ∀ q, HoldFlag s1 q = true →
        StorageTable s1 q ≠ Value.nil ∨
          (HoldFlag s q = true ∧ StorageTable s1 q = StorageTable s q) := by
  cases op with
  | push T p =>
    obtain ⟨cn, hcn⟩ := hok
    refine ⟨_, luaW_push_eq T p s h.1 cn hcn, ?_⟩
    intro q hq
    right
    exact ⟨by simpa [HoldFlag] using hq, by simp [StorageTable]⟩
  | hold T p =>
    by_cases hh : HoldFlag s p = true
    · exact ⟨s, hold_run T p s _ _ (luaW_hold_held T p s h.1 hh), fun q hq => Or.inr ⟨hq, rfl⟩⟩
    · have hh' : HoldFlag s p = false := by simpa using hh
      have hcnt : 0 < RefCount s p := by
        rcases hc with hc | hc
        · exact absurd hc hh
        · exact hc
      by_cases hs : StorageTable s p = Value.nil
      · refine ⟨_, hold_run T p s _ _ (luaW_hold_fresh T p s h.1 hh' hcnt hs), ?_⟩
        intro q hq
        by_cases hqp : q = p
        · subst hqp
          left
          simp [StorageTable, Table.get_set_self]
        · right
          have hne : Value.lightud q ≠ Value.lightud p := by simpa using hqp
          constructor
          · simpa [HoldFlag, Table.get_set_ne _ _ _ _ hne] using hq
          · simp [StorageTable, Table.get_set_ne _ _ _ _ hne]
      · refine ⟨_, hold_run T p s _ _ (luaW_hold_stored T p s h.1 hh' hcnt hs), ?_⟩
        intro q hq
        by_cases hqp : q = p
        · subst hqp
          left
          simpa [StorageTable] using hs
        · right
          have hne : Value.lightud q ≠ Value.lightud p := by simpa using hqp
          constructor
          · simpa [HoldFlag, Table.get_set_ne _ _ _ _ hne] using hq
          · simp [StorageTable]
  | release T p =>
    refine ⟨_, luaW_release_eq T p s h.1, ?_⟩
    intro q hq
    right
    by_cases hqp : q = p
    · subst hqp
      simp [HoldFlag, Table.get_set_self, Value.toBoolean] at hq
    · have hne : Value.lightud q ≠ Value.lightud p := by simpa using hqp
      constructor
      · simpa [HoldFlag, Table.get_set_ne _ _ _ _ hne] using hq
      · simp [StorageTable]
  | finalize u =>
    obtain ⟨hu, hF⟩ := hok
    obtain ⟨T, cn, hcn, hmt⟩ := h.2.2.1 u hu hF
    obtain ⟨hreg, hni, hdt, hct⟩ := h.2.1 T cn hcn
    obtain ⟨p, hp⟩ : ∃ p, (s.udata u).ptr = p := ⟨_, rfl⟩
    have hud : s.udata u = { ptr := p, mt := Value.table (TableId.mt cn) } := by
      cases hx : s.udata u with
      | mk a b =>
        rw [hx] at hp hmt
        simp only [] at hp hmt
        rw [hp, hmt]
    by_cases hk : p = NULL ∨ RefCount s p ≠ 1
    · refine ⟨_, finalize_keep s T u cn p h.1 hreg hud hk, ?_⟩
      intro q hq
      right
      exact ⟨by simpa [HoldFlag] using hq, by simp [StorageTable]⟩
    · have hpn : p ≠ NULL := fun e => hk (Or.inl e)
      have hc1 : RefCount s p = 1 := by
        by_contra e
        exact hk (Or.inr e)
      have hst : StorageTable s p = Value.nil ∨
          ∃ n, StorageTable s p = Value.table (TableId.anon n) ∧
            ∀ x ∈ s.heap (TableId.anon n), x.2.isHook = true := by
        rcases h.2.2.2.1 p with h0 | ⟨n, h1, h2, h3⟩
        · exact Or.inl h0
        · exact Or.inr ⟨n, h2, h3⟩
      have hst' : StorageTable s p = Value.nil ∨
          ∃ n, StorageTable s p = Value.table (TableId.anon n) := by
        rcases hst with h0 | ⟨n, h2, h3⟩
        · exact Or.inl h0
        · exact Or.inr ⟨n, h2⟩
      have hhook := fieldOf_isHook s p cn (Value.str LUAW_DTOR_KEY) hst hdt
      refine ⟨_, finalize_delete s T u cn p h.1 hreg hud hpn hc1 hst' hhook, ?_⟩
      intro q hq
      right
      by_cases hqp : q = p
      · subst hqp
        simp [HoldFlag, Table.get_set_self, Value.toBoolean] at hq
      · have hne : Value.lightud q ≠ Value.lightud p := by simpa using hqp
        constructor
        · simpa [HoldFlag, Table.get_set_ne _ _ _ _ hne] using hq
        · simp [StorageTable, Table.get_set_ne _ _ _ _ hne]
  | read u k => simp [Op.isBasic] at hb
  | write u k v => simp [Op.isBasic] at hb
  | new T p args => simp [Op.isBasic] at hb
  | build T p n => simp [Op.isBasic] at hb

/-- Runs of the reference-count protocol in which every hold finds the object
held or with a handle keep a storage table for every held object. -/
theorem run_held (ops : List Op) : ∀ (s : LuaState) (F : List Nat), Inv s F → HeldStored s →
    (∀ op ∈ ops, op.isBasic = true) → Admissible s F ops → HoldsCounted s ops →
    ∃ s1, runOps ops s = Outcome.ok () s1 ∧ Inv s1 (finalizedAfter F ops) ∧ HeldStored s1 := by
  induction ops with
  | nil =>
    intro s F h hj _ _ _
    exact ⟨s, rfl, h, hj⟩
  | cons op ops ih =>
    intro s F h hj hb ha hc
    obtain ⟨hok, hrest⟩ := ha
    obtain ⟨hc1, hcrest⟩ := hc
    obtain ⟨s1, h1, h2, _, _⟩ := step_op s F op h hok
    obtain ⟨s1', k1, k2⟩ := step_flags s F op h hok (hb op (List.mem_cons_self _ _)) hc1
    have hs : s1' = s1 := by
      rw [h1] at k1
      simp only [Outcome.ok.injEq, true_and] at k1
      exact k1.symm
    rw [hs] at k2
    have hst : (op.run s).state = s1 := by rw [h1]; rfl
    rw [hst] at hrest hcrest
    have hj1 : HeldStored s1 := by
      intro q hq
      rcases k2 q hq with g | ⟨g1, g2⟩
      · exact g
      · rw [g2]
        exact hj q g1
    obtain ⟨s2, g1, g2, g3⟩ := ih s1 (op.finalized F) h2 hj1
      (fun o ho => hb o (List.mem_cons_of_mem _ ho)) hrest hcrest
    refine ⟨s2, ?_, g2, g3⟩
    simp only [runOps, bind_apply, h1, g1]

theorem HeldStored_empty (s : LuaState) (h : EmptyBinding s) : HeldStored s := by
  intro p hp
  simp [HoldFlag, h.2.2.2.2.1, Table.get, Value.toBoolean] at hp

theorem demo_run_push_hold :
    runOps [Op.push 0 100, Op.hold 0 100] demo = Outcome.ok () demoHeld := by
  have h := demoHeld_eq
  simp only [bind_apply] at h
  cases h1 : luaW_push 0 100 demo with
  | raise e s1 =>
    rw [h1] at h
    simp at h
  | ok a s1 =>
    rw [h1] at h
    simp only [] at h
    cases h2 : luaW_hold 0 100 s1 with
    | raise e s2 =>
      rw [h2] at h
      simp at h
    | ok b s2 =>
      rw [h2] at h
      simp only [pure_apply, Outcome.ok.injEq, true_and] at h
      simp only [runOps, Op.run, bind_apply, h1, h2, pure_apply, h]

/-- C22: the order of `luaW_hold` and `luaW_push` decides whether a held
object gets a storage table.  On the example state the program takes hold of
the object 100, which has no handle yet, and then pushes it.  Both calls
return; the object is then held and has one handle, but it has no storage
table, and the assignment `h.extra = 5` through the handle leaves the state as
it is, the read `h.extra` after it returning nil.  The same two calls in the
other order, push and then hold, leave the object held with one handle and a
storage table, and the assignment is stored: the read returns 5. -/
theorem C22_hold_before_push :
    EmptyBinding demo ∧ Admissible demo [] [Op.hold 0 100, Op.push 0 100] ∧
    (∃ s, runOps [Op.hold 0 100, Op.push 0 100] demo = Outcome.ok () s ∧
      HoldFlag s 100 = true ∧ RefCount s 100 = 1 ∧ StorageTable s 100 = Value.nil ∧
      (s.udata 0).ptr = 100 ∧
      assignValue (Value.userdata 0) (Value.str "extra") (Value.int 5) s = Outcome.ok () s ∧
      indexValue (Value.userdata 0) (Value.str "extra") s = Outcome.ok Value.nil s) ∧
    ∃ t, runOps [Op.push 0 100, Op.hold 0 100] demo = Outcome.ok () t ∧
      HoldFlag t 100 = true ∧ RefCount t 100 = 1 ∧
      StorageTable t 100 = Value.table (TableId.anon 1) ∧ (t.udata 0).ptr = 100 ∧
      ∃ t', assignValue (Value.userdata 0) (Value.str "extra") (Value.int 5) t =
          Outcome.ok () t' ∧
        indexValue (Value.userdata 0) (Value.str "extra") t' = Outcome.ok (Value.int 5) t' := by
  have hsib : ∃ t, runOps [Op.push 0 100, Op.hold 0 100] demo = Outcome.ok () t ∧
      HoldFlag t 100 = true ∧ RefCount t 100 = 1 ∧
      StorageTable t 100 = Value.table (TableId.anon 1) ∧ (t.udata 0).ptr = 100 ∧
      ∃ t', assignValue (Value.userdata 0) (Value.str "extra") (Value.int 5) t =
          Outcome.ok () t' ∧
        indexValue (Value.userdata 0) (Value.str "extra") t' = Outcome.ok (Value.int 5) t' := by
    refine ⟨demoHeld, demo_run_push_hold, ?_, ?_, ?_, ?_, ?_⟩
    · simp [HoldFlag, demoHeld, Table.get, Value.toBoolean]
    · simp [RefCount, demoHeld, Table.get, Value.toInteger]
    · simp [StorageTable, demoHeld, Table.get]
    · simp [demoHeld]
    · exact write_then_read 0 demoHeld 0 (Value.str "extra") (Value.int 5) "Widget" 1
        demoHeld_ready demoHeld_registered
        (by simp [demoHeld, demo, demoHeap, Table.get])
        (by simp [demoHeld]) (by simp)
        (by simp [StorageTable, demoHeld, Table.get])
  have e1 := luaW_hold_nocount 0 100 demo demo_ready
    (by simp [HoldFlag, demo, demoHeap, Table.get, Value.toBoolean])
    (by simp [RefCount, demo, demoHeap, Table.get, Value.toInteger])
  obtain ⟨s1, hs1⟩ : ∃ s1 : LuaState, s1 = { demo with
      stack := (demo.heap TableId.counts).get (Value.lightud 100) :: Value.table TableId.counts ::
        Value.table TableId.wrapper :: demo.stack,
      heap := Function.update demo.heap TableId.holds
        ((demo.heap TableId.holds).set (Value.lightud 100) (Value.bool true)) } := ⟨_, rfl⟩
  rw [← hs1] at e1
  have hr1 : Ready s1 := by
    rw [hs1]
    exact Ready_congr demo _ rfl (by simp) rfl demo_ready
  have hcl : s1.classname 0 = some "Widget" := by rw [hs1]; rfl
  have e2 := luaW_push_eq 0 100 s1 hr1 "Widget" hcl
  obtain ⟨s2, hs2⟩ : ∃ s2 : LuaState, s2 = { s1 with
      stack := Value.userdata s1.nextUd :: s1.stack,
      udata := Function.update s1.udata s1.nextUd
        { ptr := 100, mt := s1.registry.get (Value.str "Widget") },
      nextUd := s1.nextUd + 1,
      heap := Function.update s1.heap TableId.counts ((s1.heap TableId.counts).set
        (Value.lightud 100) (Value.int (RefCount s1 100 + 1))) } := ⟨_, rfl⟩
  rw [← hs2] at e2
  have hrun1 : (Op.hold 0 100).run demo = Outcome.ok () s1 := hold_run 0 100 demo s1 true e1
  have hrun2 : (Op.push 0 100).run s1 = Outcome.ok () s2 := e2
  have hr2 : Ready s2 := by
    rw [hs2]
    exact Ready_congr s1 _ rfl (by simp) rfl hr1
  have hreg2 : Registered s2 0 "Widget" := by
    rw [hs2, hs1]
    exact Registered_congr demo _ 0 "Widget" rfl rfl (by simp) demo_registered
  have hu : s2.udata 0 = { ptr := 100, mt := Value.table (TableId.mt "Widget") } := by
    simp [hs2, hs1, demo, Table.get]
  have hst : StorageTable s2 100 = Value.nil := by
    simp [hs2, hs1, StorageTable, demo, demoHeap, Table.get]
  have hni : (s2.heap (TableId.mt "Widget")).get (Value.str "__newindex") =
      Value.func (CFun.newindex 0) := by
    simp [hs2, hs1, demo, demoHeap, Table.get]
  have hm : (s2.udata 0).mt = Value.table (TableId.mt "Widget") := by rw [hu]
  have hp : (s2.udata 0).ptr = 100 := by rw [hu]
  have hst' : StorageTable s2 (s2.udata 0).ptr = Value.nil := by rw [hp]; exact hst
  have hw := assignValue_handle_none 0 s2 0 (Value.str "extra") (Value.int 5) "Widget" hr2 hreg2
    hni hm hst'
  have hi := indexValue_handle 0 s2 0 (Value.str "extra") "Widget" hr2 hreg2 hm (Or.inl hst')
  have hf : fieldOf s2 (s2.udata 0).ptr (TableId.mt "Widget") (Value.str "extra") =
      Value.nil := by
    unfold fieldOf
    rw [hst']
    simp [hs2, hs1, demo, demoHeap, Table.get]
  rw [hf] at hi
  refine ⟨demo_empty, ⟨trivial, ?_, trivial⟩, ⟨s2, ?_, ?_, ?_, hst, hp, hw, hi⟩, hsib⟩
  · rw [hrun1]
    exact ⟨"Widget", hcl⟩
  · simp only [runOps, bind_apply, hrun1, hrun2, pure_apply]
  · simp [hs2, hs1, HoldFlag, Table.get_set_self, Value.toBoolean]
  · simp [hs2, hs1, RefCount, Table.get_set_self, Value.toInteger, demo, demoHeap, Table.get]

/-- Runs in which an object is pushed before it is held.  Take a state in
which the binding tables are set up and empty, no handle has been made, and
the registered types have the default `__index`, `__newindex` and `__gc`
entries.  Every run of `luaW_push`, `luaW_hold`, `luaW_release` and
finalizations of handles that exist and have not been finalized before, in
which every `luaW_hold` is issued for an object that is already held or has a
handle (a positive reference count), returns, and in the state it reaches
every held object has a storage table; so an assignment `h[k] = v` of a value
other than nil through a live handle of a held object is stored: the read
`h[k]` after it returns `v`. -/
theorem held_after_push (s0 : LuaState) (ops : List Op)
    (h0 : EmptyBinding s0) (hb : ∀ op ∈ ops, op.isBasic = true)
    (ha : Admissible s0 [] ops) (hc : HoldsCounted s0 ops) :
    ∃ s, runOps ops s0 = Outcome.ok () s ∧
      (∀ p, HoldFlag s p = true → ∃ n, StorageTable s p = Value.table (TableId.anon n)) ∧
      ∀ u k v, u < s.nextUd → u ∉ finalizedAfter [] ops →
        HoldFlag s (s.udata u).ptr = true → k ≠ Value.nil → v ≠ Value.nil →
        ∃ s', assignValue (Value.userdata u) k v s = Outcome.ok () s' ∧
          indexValue (Value.userdata u) k s' = Outcome.ok v s' := by
  obtain ⟨s, h1, h2, h3⟩ := run_held ops s0 [] (Inv_empty s0 h0) (HeldStored_empty s0 h0) hb ha hc
  have hst : ∀ p, HoldFlag s p = true → ∃ n, StorageTable s p = Value.table (TableId.anon n) := by
    intro p hp
    rcases h2.2.2.2.1 p with g | ⟨n, _, g, _⟩
    · exact absurd g (h3 p hp)
    · exact ⟨n, g⟩
  refine ⟨s, h1, hst, ?_⟩
  intro u k v hu hF hheld hk hv
  obtain ⟨T, cn, hcn, hmt⟩ := h2.2.2.1 u hu hF
  obtain ⟨hreg, hni, _, _⟩ := h2.2.1 T cn hcn
  obtain ⟨n, hn⟩ := hst _ hheld
  exact write_then_read T s u k v cn n h2.1 hreg hni hmt hv hn

/-- The run push, hold of the object 100 on the example state is such a run. -/
theorem held_after_push_example :
    EmptyBinding demo ∧
    (∀ op ∈ [Op.push 0 100, Op.hold 0 100], op.isBasic = true) ∧
    Admissible demo [] [Op.push 0 100, Op.hold 0 100] ∧
    HoldsCounted demo [Op.push 0 100, Op.hold 0 100] ∧
    ∃ s, runOps [Op.push 0 100, Op.hold 0 100] demo = Outcome.ok () s ∧
      (∀ p, HoldFlag s p = true → ∃ n, StorageTable s p = Value.table (TableId.anon n)) ∧
      ∀ u k v, u < s.nextUd → u ∉ finalizedAfter [] [Op.push 0 100, Op.hold 0 100] →
        HoldFlag s (s.udata u).ptr = true → k ≠ Value.nil → v ≠ Value.nil →
        ∃ s', assignValue (Value.userdata u) k v s = Outcome.ok () s' ∧
          indexValue (Value.userdata u) k s' = Outcome.ok v s' :=
  have hb : ∀ op ∈ [Op.push 0 100, Op.hold 0 100], op.isBasic = true := by
    intro op hop
    simp only [List.mem_cons, List.mem_singleton, List.not_mem_nil, or_false] at hop
    rcases hop with h | h <;> rw [h] <;> rfl
  have ha : Admissible demo [] [Op.push 0 100, Op.hold 0 100] :=
    ⟨⟨"Widget", rfl⟩, trivial, trivial⟩
  have hc : HoldsCounted demo [Op.push 0 100, Op.hold 0 100] := by
    refine ⟨trivial, ?_, trivial⟩
    right
    have hp : (Op.push 0 100).run demo = _ := luaW_push_eq 0 100 demo demo_ready "Widget" rfl
    rw [hp]
    simp [Outcome.state, RefCount, Table.get_set_self, Value.toInteger, demo, demoHeap, Table.get]
  ⟨demo_empty, hb, ha, hc,
    held_after_push demo [Op.push 0 100, Op.hold 0 100] demo_empty hb ha hc⟩

/-- `T.new` for an object that is not held, has a handle and a storage table
(`anon n`, without an entry `__ctor`): `luaW_hold` returns on its path without
pops, so `luaW_constructor` finds the storage table on top of the stack where
it expects the handle; no hook is called and the call returns the storage
table. -/
theorem luaW_new_stored (T : TypeId) (p : Ptr) (cn : String) (s : LuaState) (args : List Value)
    (n : Nat) (hr : Ready s) (hreg : Registered s T cn)
    (hc : 0 ≤ RefCount s p) (hh : HoldFlag s p = false)
    (hs : StorageTable s p = Value.table (TableId.anon n))
    (htm : s.tmeta (TableId.anon n) = Value.nil)
    (hct : (s.heap (TableId.anon n)).get (Value.str LUAW_CTOR_KEY) = Value.nil) :
    callFrame (luaW_new T p) args s = Outcome.ok [Value.table (TableId.anon n)] { s with
      udata := Function.update s.udata s.nextUd { ptr := p, mt := Value.table (TableId.mt cn) },
      nextUd := s.nextUd + 1,
      heap := Function.update
        (Function.update s.heap TableId.counts
          ((s.heap TableId.counts).set (Value.lightud p) (Value.int (RefCount s p + 1))))
        TableId.holds ((s.heap TableId.holds).set (Value.lightud p) (Value.bool true)),
      log := s.log ++ [Event.allocate (s.allocator T) p] } := by
  obtain ⟨sB, hsB⟩ : ∃ sB : LuaState, sB = { s with
      stack := args.reverse,
      log := s.log ++ [Event.allocate (s.allocator T) p] } := ⟨_, rfl⟩
  have hrB : Ready sB := Ready_congr s sB (by simp [hsB]) (by simp [hsB]) (by simp [hsB]) hr
  have hpush := luaW_push_eq T p sB hrB cn (by simp [hsB, hreg.1])
  obtain ⟨sC, hsC⟩ : ∃ sC : LuaState, sC = { sB with
      stack := Value.userdata sB.nextUd :: sB.stack,
      udata := Function.update sB.udata sB.nextUd
        { ptr := p, mt := sB.registry.get (Value.str cn) },
      nextUd := sB.nextUd + 1,
      heap := Function.update sB.heap TableId.counts ((sB.heap TableId.counts).set
        (Value.lightud p) (Value.int (RefCount sB p + 1))) } := ⟨_, rfl⟩
  rw [← hsC] at hpush
  have hrC : Ready sC := Ready_congr sB sC (by simp [hsC]) (by simp [hsC]) (by simp [hsC]) hrB
  have hcC : RefCount sC p = RefCount s p + 1 := by
    simp only [hsC, hsB, RefCount, Function.update_same, Table.get_set_self, Value.toInteger]
  have hstC : StorageTable sC p = Value.table (TableId.anon n) := by
    simpa [hsC, hsB, StorageTable] using hs
  have hhold := luaW_hold_stored T p sC hrC (by simpa [hsC, hsB, HoldFlag] using hh)
    (by rw [hcC]; omega) (by rw [hstC]; simp)
  rw [hstC] at hhold
  have hal : callAllocator T p { s with stack := args.reverse } = Outcome.ok p sB := by
    simp [callAllocator, hsB]
  have htmD : sC.tmeta (TableId.anon n) = Value.nil := by simpa [hsC, hsB] using htm
  have hctD : (sC.heap (TableId.anon n)).get (Value.str LUAW_CTOR_KEY) = Value.nil := by
    simpa [hsC, hsB] using hct
  have hbody : luaW_new T p { s with stack := args.reverse } = Outcome.ok 1 { sC with
      stack := Value.table (TableId.anon n) :: Value.table TableId.storage ::
        Value.table TableId.wrapper :: sC.stack,
      heap := Function.update sC.heap TableId.holds
        ((sC.heap TableId.holds).set (Value.lightud p) (Value.bool true)) } := by
    simp [luaW_new, lua_gettop, hal, hpush, hhold, luaW_constructor, lua_getfield, valueAt,
      indexValue_table, htmD, hctD, push, lua_isfunction, lua_pop, popN]
  rw [callFrame_ok (luaW_new T p) args s _ 1 hbody]
  simp [hsC, hsB, hreg.2.1, RefCount]

theorem stackAt_five_1 (a b c d e : Value) : stackAt [a, b, c, d, e] 1 = e := rfl

theorem stackAt_six_1 (a b c d e f : Value) : stackAt [a, b, c, d, e, f] 1 = f := rfl

/-- `T.build` for an object that is not held, has a handle and a storage table
(`anon n`), with a table (`anon m`) whose first pair has a key the storage
table has no entry for: `luaW_hold` returns on its path without pops, so
`luaW_builder` looks the key up in the storage table where it expects the
handle, and the call of the nil it finds raises an error; no method has been
called. -/
theorem luaW_build_stored (T : TypeId) (p : Ptr) (cn : String) (s : LuaState)
    (n m : Nat) (k v : Value) (rest : Table) (hr : Ready s) (hreg : Registered s T cn)
    (hc : 0 ≤ RefCount s p) (hh : HoldFlag s p = false)
    (hs : StorageTable s p = Value.table (TableId.anon n))
    (htm : s.tmeta (TableId.anon n) = Value.nil)
    (hm : s.heap (TableId.anon m) = (k, v) :: rest)
    (hk : (s.heap (TableId.anon n)).get k = Value.nil) :
    ∃ s', callFrame (luaW_build T p) [Value.table (TableId.anon m)] s =
        Outcome.raise (LuaError.callError Value.nil) s' ∧
      s'.log = s.log ++ [Event.allocate (s.allocator T) p] ∧ s'.stack = s.stack := by
  obtain ⟨sB, hsB⟩ : ∃ sB : LuaState, sB = { s with
      stack := [Value.table (TableId.anon m)],
      log := s.log ++ [Event.allocate (s.allocator T) p] } := ⟨_, rfl⟩
  have hrB : Ready sB := Ready_congr s sB (by simp [hsB]) (by simp [hsB]) (by simp [hsB]) hr
  have hpush := luaW_push_eq T p sB hrB cn (by simp [hsB, hreg.1])
  obtain ⟨sC, hsC⟩ : ∃ sC : LuaState, sC = { sB with
      stack := Value.userdata sB.nextUd :: sB.stack,
      udata := Function.update sB.udata sB.nextUd
        { ptr := p, mt := sB.registry.get (Value.str cn) },
      nextUd := sB.nextUd + 1,
      heap := Function.update sB.heap TableId.counts ((sB.heap TableId.counts).set
        (Value.lightud p) (Value.int (RefCount sB p + 1))) } := ⟨_, rfl⟩
  rw [← hsC] at hpush
  have hrC : Ready sC := Ready_congr sB sC (by simp [hsC]) (by simp [hsC]) (by simp [hsC]) hrB
  have hcC : RefCount sC p = RefCount s p + 1 := by
    simp only [hsC, hsB, RefCount, Function.update_same, Table.get_set_self, Value.toInteger]
  have hstC : StorageTable sC p = Value.table (TableId.anon n) := by
    simpa [hsC, hsB, StorageTable] using hs
  have hhold := luaW_hold_stored T p sC hrC (by simpa [hsC, hsB, HoldFlag] using hh)
    (by rw [hcC]; omega) (by rw [hstC]; simp)
  rw [hstC] at hhold
  obtain ⟨sD, hsD⟩ : ∃ sD : LuaState, sD = { sC with
      stack := Value.table (TableId.anon n) :: Value.table TableId.storage ::
        Value.table TableId.wrapper :: sC.stack,
      heap := Function.update sC.heap TableId.holds
        ((sC.heap TableId.holds).set (Value.lightud p) (Value.bool true)) } := ⟨_, rfl⟩
  rw [← hsD] at hhold
  have hal : callAllocator T p { s with stack := [Value.table (TableId.anon m)] } =
      Outcome.ok p sB := by
    simp [callAllocator, hsB]
  have hstk : sD.stack = [Value.table (TableId.anon n), Value.table TableId.storage,
      Value.table TableId.wrapper, Value.userdata s.nextUd, Value.table (TableId.anon m)] := by
    simp [hsD, hsC, hsB]
  have htmD : sD.tmeta (TableId.anon n) = Value.nil := by simpa [hsD, hsC, hsB] using htm
  have hmD : sD.heap (TableId.anon m) = (k, v) :: rest := by simpa [hsD, hsC, hsB] using hm
  have hkD : (sD.heap (TableId.anon n)).get k = Value.nil := by simpa [hsD, hsC, hsB] using hk
  have hlog : sD.log = s.log ++ [Event.allocate (s.allocator T) p] := by simp [hsD, hsC, hsB]
  have hbuilder : ∃ s1, luaW_builder T sD = Outcome.raise (LuaError.callError Value.nil) s1 ∧
      s1.log = sD.log := by
    simp [luaW_builder, lua_istable, hstk, stackAt_five_1, stackAt_six_1, forPairs, lua_pushnil, push, valueAt,
      getState, hmD, forPairsLoop, lua_pop, popN, luaW_builder_body, lua_pushvalue,
      lua_gettable, popValue, indexValue_table, htmD, hkD, lua_call, popArgs, callValue, raise]
  obtain ⟨s1, hb1, hb2⟩ := hbuilder
  have hbody : luaW_build T p { s with stack := [Value.table (TableId.anon m)] } =
      Outcome.raise (LuaError.callError Value.nil) s1 := by
    simp [luaW_build, hal, hpush, hhold, hb1]
  refine ⟨{ s1 with stack := s.stack }, ?_, ?_, rfl⟩
  · simp [callFrame, hbody]
  · simp [hb2, hlog]

set_option maxHeartbeats 1000000 in
theorem register_demoCtor :
    luaW_register 0 "Widget" []
      [("SetX", CFun.host "Widget_SetX"), ("__dtor", CFun.host "Widget_dtor"),
        ("__ctor", CFun.host "Widget_ctor")] [] false
      Allocator.default (Deallocator.custom "Widget_free") LuaState.init =
        Outcome.ok () demoCtor := by
  simp [luaW_register, setStatics, ensureWrapper, openTable, openMetatable, LuaState.init,
    luaW_getregistry, push, Table.get, lua_isnil, lua_isnoneornil, lua_newtableAs, luaW_setregistry, popValue, Table.set, Table.erase, LUAW_WRAPPER_KEY,
    lua_setfield, valueAt, assignValue, rawStore, lua_pop, popN, luaL_register, registerFuncs,
    luaL_newmetatable, lua_pushvalue, lua_newtable, extendLoop, lua_setmetatable,
    LUAW_COUNT_KEY, LUAW_STORAGE_KEY, LUAW_HOLDS_KEY, LUAW_EXTENDS_KEY, demoCtor, demo]
  refine ⟨?_, ?_, ?_, ?_⟩
  · funext id
    simp only [Function.update, demoHeap]
    split_ifs <;> simp_all
  · funext id
    simp [Function.update]
  · funext T
    simp [Function.update]
  · funext T
    simp [Function.update]

theorem demoCtor_ready : Ready demoCtor := by
  simp [Ready, demoCtor, demo, demoHeap, Table.get, LUAW_WRAPPER_KEY, LUAW_COUNT_KEY,
    LUAW_HOLDS_KEY, LUAW_STORAGE_KEY, Function.update]

/-- The example state `demoReleased` is what the calls `luaW_push`,
`luaW_hold` and `luaW_release` for the pointer 100, followed by the
construction of the table `{ SetX = 10 }`, make of the registered state. -/
theorem demoReleased_eq :
    (do luaW_push 0 100
        let _ ← luaW_hold 0 100
        luaW_release 0 100
        lua_newtable
        lua_pushinteger 10
        lua_setfield (-2) "SetX"
        lua_pop 1 : LuaM Unit) demoCtor = Outcome.ok () demoReleased := by
  have hp := luaW_push_eq 0 100 demoCtor demoCtor_ready "Widget" (by simp [demoCtor, demo])
  obtain ⟨s1, hs1⟩ : ∃ s1 : LuaState, s1 = { demoCtor with
      stack := Value.userdata demoCtor.nextUd :: demoCtor.stack,
      udata := Function.update demoCtor.udata demoCtor.nextUd
        { ptr := 100, mt := demoCtor.registry.get (Value.str "Widget") },
      nextUd := demoCtor.nextUd + 1,
      heap := Function.update demoCtor.heap TableId.counts
        ((demoCtor.heap TableId.counts).set (Value.lightud 100)
          (Value.int (RefCount demoCtor 100 + 1))) } :=
    ⟨_, rfl⟩
  rw [← hs1] at hp
  have hr1 : Ready s1 :=
    Ready_congr demoCtor s1 (by simp [hs1]) (by simp [hs1]) (by simp [hs1]) demoCtor_ready
  have hh := luaW_hold_fresh 0 100 s1 hr1
    (by simp [hs1, HoldFlag, demoCtor, demo, demoHeap, Table.get, Value.toBoolean,
      Function.update])
    (by simp [hs1, RefCount, demoCtor, demo, demoHeap, Table.get, Table.set, Table.erase,
      Value.toInteger, Function.update])
    (by simp [hs1, StorageTable, demoCtor, demo, demoHeap, Table.get, Function.update])
  obtain ⟨s2, hs2⟩ : ∃ s2 : LuaState, s2 = { s1 with
      heap := Function.update
        (Function.update
          (Function.update s1.heap TableId.holds
            ((s1.heap TableId.holds).set (Value.lightud 100) (Value.bool true)))
          (TableId.anon s1.nextTable) [])
        TableId.storage
        ((s1.heap TableId.storage).set (Value.lightud 100)
          (Value.table (TableId.anon s1.nextTable))),
      tmeta := Function.update s1.tmeta (TableId.anon s1.nextTable) Value.nil,
      nextTable := s1.nextTable + 1 } := ⟨_, rfl⟩
  rw [← hs2] at hh
  have hr2 : Ready s2 := by
    simp [Ready, hs2, hs1, demoCtor, demo, demoHeap, Table.get, LUAW_WRAPPER_KEY,
      LUAW_COUNT_KEY, LUAW_HOLDS_KEY, LUAW_STORAGE_KEY, Function.update]
  have hrel := luaW_release_eq 0 100 s2 hr2
  simp only [bind_apply, hp, hh, hrel]
  have e1 : demoHeap TableId.counts = [] := by simp [demoHeap]
  have e2 : demoHeap TableId.holds = [] := by simp [demoHeap]
  have e3 : demoHeap TableId.storage = [] := by simp [demoHeap]
  have e4 : RefCount demoCtor 100 = 0 := by
    simp [RefCount, demoCtor, demo, demoHeap, Table.get, Value.toInteger, Function.update]
  rw [e4] at hs1
  simp [lua_newtable, lua_pushinteger, push, lua_setfield, valueAt, stackAt_m2, popValue,
    assignValue_table, lua_pop, popN, hs2, hs1, demoCtor, demo, demoReleased, Function.update, e1,
    e2, e3, Table.set, Table.erase, Table.get]
  funext id
  by_cases h1 : id = TableId.anon 2
  · simp [Function.update, h1]
  by_cases h2 : id = TableId.holds
  · simp [Function.update, h2]
  by_cases h3 : id = TableId.storage
  · simp [Function.update, h3]
  by_cases h4 : id = TableId.anon 1
  · simp [Function.update, h4]
  by_cases h5 : id = TableId.counts
  · simp [Function.update, h5]
  simp [Function.update, h1, h2, h3, h4, h5]

theorem demoReleased_ready : Ready demoReleased := by
  simp [Ready, demoReleased, demo, demoHeap, Table.get, LUAW_WRAPPER_KEY, LUAW_COUNT_KEY,
    LUAW_HOLDS_KEY, LUAW_STORAGE_KEY, Function.update]

theorem demoReleased_registered : Registered demoReleased 0 "Widget" := by
  simp [Registered, demoReleased, demo, demoHeap, Table.get, Function.update]

/-- C16: `T.new` for an object the binding layer already knows.  In the example
state `Widget` has a `__ctor` hook, and the object 100 has a handle, a storage
table (`anon 1`) and no hold flag, as `luaW_push`, `luaW_hold`, `luaW_release`
leave it.  The call `Widget.new(7)` with the allocator returning the pointer
100 makes a handle (block 1), counts it and takes hold of the object, but it
returns the storage table of the object instead of the handle, and the
`__ctor` hook is not called: the log holds the call of the allocator only. -/
theorem C16_new_returns_storage_table :
    Ready demoReleased ∧ Registered demoReleased 0 "Widget" ∧
    (demoReleased.heap (TableId.mt "Widget")).get (Value.str LUAW_CTOR_KEY) =
      Value.func (CFun.host "Widget_ctor") ∧
    HoldFlag demoReleased 100 = false ∧ RefCount demoReleased 100 = 1 ∧
    StorageTable demoReleased 100 = Value.table (TableId.anon 1) ∧
    demoReleased.nextUd = 1 ∧
    ∃ s', callFrame (luaW_new 0 100) [Value.int 7] demoReleased =
        Outcome.ok [Value.table (TableId.anon 1)] s' ∧
      s'.udata 1 = { ptr := 100, mt := Value.table (TableId.mt "Widget") } ∧
      RefCount s' 100 = 2 ∧ HoldFlag s' 100 = true ∧
      s'.log = demoReleased.log ++ [Event.allocate (demoReleased.allocator 0) 100] := by
  have hh : HoldFlag demoReleased 100 = false := by
    simp [HoldFlag, demoReleased, Table.get, Value.toBoolean]
  have hc : RefCount demoReleased 100 = 1 := by
    simp [RefCount, demoReleased, Table.get, Value.toInteger]
  have hs : StorageTable demoReleased 100 = Value.table (TableId.anon 1) := by
    simp [StorageTable, demoReleased, Table.get]
  have e := luaW_new_stored 0 100 "Widget" demoReleased [Value.int 7] 1 demoReleased_ready
    demoReleased_registered (by rw [hc]; decide) hh hs (by simp [demoReleased])
    (by simp [demoReleased, Table.get])
  refine ⟨demoReleased_ready, demoReleased_registered, ?_, hh, hc, hs, rfl, _, e, ?_, ?_, ?_, rfl⟩
  · simp [demoReleased, Table.get, LUAW_CTOR_KEY]
  · simp [demoReleased]
  · simp [RefCount, Table.get_set_self, Value.toInteger, demoReleased, Table.get]
  · simp [HoldFlag, Table.get_set_self, Value.toBoolean]

/-- C17: `T.build` for an object the binding layer already knows.  In the
example state the object 100 has a handle, a storage table (`anon 1`) and no
hold flag, and `SetX` names a method of `Widget`.  The call
`Widget.build{ SetX = 10 }` with the allocator returning the pointer 100
raises the error of a call of nil: `luaW_builder` reads `SetX` from the
storage table of the object instead of the handle.  No method has been called:
the log holds the call of the allocator only. -/
theorem C17_build_raises :
    Ready demoReleased ∧ Registered demoReleased 0 "Widget" ∧
    HoldFlag demoReleased 100 = false ∧ RefCount demoReleased 100 = 1 ∧
    StorageTable demoReleased 100 = Value.table (TableId.anon 1) ∧
    demoReleased.heap (TableId.anon 2) = [(Value.str "SetX", Value.int 10)] ∧
    (demoReleased.heap (TableId.mt "Widget")).get (Value.str "SetX") =
      Value.func (CFun.host "Widget_SetX") ∧
    ∃ s', callFrame (luaW_build 0 100) [Value.table (TableId.anon 2)] demoReleased =
        Outcome.raise (LuaError.callError Value.nil) s' ∧
      s'.log = demoReleased.log ++ [Event.allocate (demoReleased.allocator 0) 100] := by
  have hh : HoldFlag demoReleased 100 = false := by
    simp [HoldFlag, demoReleased, Table.get, Value.toBoolean]
  have hc : RefCount demoReleased 100 = 1 := by
    simp [RefCount, demoReleased, Table.get, Value.toInteger]
  have hs : StorageTable demoReleased 100 = Value.table (TableId.anon 1) := by
    simp [StorageTable, demoReleased, Table.get]
  have htb : demoReleased.heap (TableId.anon 2) = [(Value.str "SetX", Value.int 10)] := by
    simp [demoReleased]
  obtain ⟨s', e1, e2, _⟩ := luaW_build_stored 0 100 "Widget" demoReleased 1 2 (Value.str "SetX")
    (Value.int 10) [] demoReleased_ready demoReleased_registered (by rw [hc]; decide) hh hs
    (by simp [demoReleased]) htb (by simp [demoReleased, Table.get])
  refine ⟨demoReleased_ready, demoReleased_registered, hh, hc, hs, htb, ?_, s', e1, e2⟩
  simp [demoReleased, demo, demoHeap, Table.get]

end LuaWrapper
